import Mathlib

/-! # FluxRegister: a shallow embedding of `Src/C_AMRLib/FluxRegister.cpp`

The development follows the C++ translation unit function by function.

* `BL_SPACEDIM` is the parameter `D`.
* `Real` is a type parameter `R`; every definition asks only for the
  operations the code uses on it, theorems add the algebraic laws they need.
* Assertions are modelled as active (debug build).  A function that can hit an
  assertion returns `Except σ σ`: `.error s` carries the state at the moment of
  the abort, `.ok s` the state on normal return.
* The message-passing build (`BL_USE_MPI` defined) is the one modelled.
* Box algebra, `FArrayBox`, `FabSet`, `MultiFab`, `BndryRegister`, `Geometry`
  and the Fortran kernels are collaborators whose code is not part of this
  translation unit; each is modelled from the specification and says so.
-/

set_option autoImplicit false

namespace FluxReg

/-! ## Box algebra (external collaborator) -/

/-- Modelled from the spec: the index vector of the Box Algebra collaborator
(`IntVect`, absent from src), one integer per axis. -/
abbrev IntVect (D : Nat) := Fin D → Int

/-- Modelled from the spec: the side of an Orientation (`Orientation::low`,
`Orientation::high`). -/
inductive Side where
  | low
  | high
deriving DecidableEq, Repr

/-- Modelled from the spec: "Orientation: a pair (axis ∈ [0, D), side ∈ {low, high})". -/
structure Orientation (D : Nat) where
  coordDir : Fin D
  side : Side
deriving DecidableEq

/-- Modelled from the spec: `Orientation::isLow`. -/
def Orientation.isLow {D : Nat} (face : Orientation D) : Bool :=
  match face.side with
  | Side.low => true
  | Side.high => false

/-- Modelled from the spec: `OrientationIter`, every orientation in the total
order used for indexing (all low faces by axis, then all high faces). -/
def OrientationIter (D : Nat) : List (Orientation D) :=
  (List.finRange D).map (fun d => ⟨d, Side.low⟩) ++
    (List.finRange D).map (fun d => ⟨d, Side.high⟩)

/-- Modelled from the spec: "rectangular integer index-space region" (`Box`,
absent from src).  `btype d = true` means node-centred along axis `d`,
`false` cell-centred. -/
structure Box (D : Nat) where
  smallend : IntVect D
  bigend : IntVect D
  btype : Fin D → Bool

instance {D : Nat} : Inhabited (Box D) :=
  ⟨⟨fun _ => 0, fun _ => -1, fun _ => false⟩⟩

namespace Box

variable {D : Nat}

/-- Modelled from the spec: `Box::ok`, the region is non-empty along every axis. -/
def ok (b : Box D) : Prop := ∀ d, b.smallend d ≤ b.bigend d

instance (b : Box D) : Decidable b.ok := by unfold ok; infer_instance

/-- Modelled from the spec: the index `p` lies in the region. -/
def containsPt (b : Box D) (p : IntVect D) : Prop :=
  ∀ d, b.smallend d ≤ p d ∧ p d ≤ b.bigend d

instance (b : Box D) (p : IntVect D) : Decidable (b.containsPt p) := by
  unfold containsPt; infer_instance

/-- Modelled from the spec: `Box::contains(const Box&)`. -/
def contains (b c : Box D) : Prop :=
  ∀ d, b.smallend d ≤ c.smallend d ∧ c.bigend d ≤ b.bigend d

instance (b c : Box D) : Decidable (b.contains c) := by
  unfold contains; infer_instance

/-- Modelled from the spec: box intersection (`operator&`). -/
def inter (a b : Box D) : Box D :=
  ⟨fun d => max (a.smallend d) (b.smallend d),
   fun d => min (a.bigend d) (b.bigend d), a.btype⟩

/-- Modelled from the spec: `Box::intersects`, the intersection is non-empty. -/
def intersects (a b : Box D) : Prop := (a.inter b).ok

instance (a b : Box D) : Decidable (a.intersects b) := by
  unfold intersects; infer_instance

/-- Modelled from the spec: `grow(box, n)`, growth by `n` cells on every side. -/
def grow (b : Box D) (n : Int) : Box D :=
  ⟨fun d => b.smallend d - n, fun d => b.bigend d + n, b.btype⟩

/-- Modelled from the spec: `Box::grow(dir, n)`, growth along one axis. -/
def growDir (b : Box D) (dir : Fin D) (n : Int) : Box D :=
  ⟨fun d => if d = dir then b.smallend d - n else b.smallend d,
   fun d => if d = dir then b.bigend d + n else b.bigend d, b.btype⟩

/-- Modelled from the spec: `Box::grow(face, n)`, growth on one face only. -/
def growFace (b : Box D) (face : Orientation D) (n : Int) : Box D :=
  match face.side with
  | Side.low =>
    ⟨fun d => if d = face.coordDir then b.smallend d - n else b.smallend d, b.bigend, b.btype⟩
  | Side.high =>
    ⟨b.smallend, fun d => if d = face.coordDir then b.bigend d + n else b.bigend d, b.btype⟩

/-- Modelled from the spec: `Box::shift(iv)`, translation by an index vector. -/
def shift (b : Box D) (iv : IntVect D) : Box D :=
  ⟨fun d => b.smallend d + iv d, fun d => b.bigend d + iv d, b.btype⟩

/-- Modelled from the spec: `Box::surroundingNodes(dir)`, the node-centred box
along `dir` around a box that is cell-centred along `dir`. -/
def surroundingNodes (b : Box D) (dir : Fin D) : Box D :=
  if b.btype dir then b
  else ⟨b.smallend, fun d => if d = dir then b.bigend d + 1 else b.bigend d,
        fun d => if d = dir then true else b.btype d⟩

/-- Modelled from the spec: coarsening of one index by a refinement ratio
(rounding towards minus infinity). -/
def coarsenIdx (i r : Int) : Int := Int.fdiv i r

/-- Modelled from the spec: `Box::coarsen(ratio)`.  Both ends are coarsened;
along a node-centred axis the upper end is rounded up instead of down. -/
def coarsen (b : Box D) (ratio : IntVect D) : Box D :=
  ⟨fun d => coarsenIdx (b.smallend d) (ratio d),
   fun d => coarsenIdx (b.bigend d) (ratio d) +
     (if b.btype d = true ∧ b.bigend d % ratio d ≠ 0 then 1 else 0),
   b.btype⟩

/-- Modelled from the spec: `adjCell(box, face, len)`, "the single layer of
cells adjacent to that face", cell-centred along the face axis, lying just
outside `b`. -/
def adjCell (b : Box D) (face : Orientation D) (len : Int) : Box D :=
  match face.side with
  | Side.low =>
    ⟨fun d => if d = face.coordDir then b.smallend d - len else b.smallend d,
     fun d => if d = face.coordDir then b.smallend d - 1 else b.bigend d,
     fun d => if d = face.coordDir then false else b.btype d⟩
  | Side.high =>
    ⟨fun d => if d = face.coordDir then b.bigend d + 1 else b.smallend d,
     fun d => if d = face.coordDir then b.bigend d + len else b.bigend d,
     fun d => if d = face.coordDir then false else b.btype d⟩

/-- Modelled from the spec: `bdryNode(box, face, len)`, the layer of `len`
faces (node-centred along the face axis) on the given face of a cell-centred
box; the face shared by `b` and `adjCell b face` is the first one. -/
def bdryNode (b : Box D) (face : Orientation D) (len : Int) : Box D :=
  match face.side with
  | Side.low =>
    ⟨b.smallend,
     fun d => if d = face.coordDir then b.smallend d + len - 1 else b.bigend d,
     fun d => if d = face.coordDir then true else b.btype d⟩
  | Side.high =>
    ⟨fun d => if d = face.coordDir then b.bigend d + 1 else b.smallend d,
     fun d => if d = face.coordDir then b.bigend d + len else b.bigend d,
     fun d => if d = face.coordDir then true else b.btype d⟩

/-- Modelled from the spec: the indices of a one-dimensional range `lo..hi`, ascending. -/
def idxRange (lo hi : Int) : List Int :=
  (List.range (hi - lo + 1).toNat).map (fun (i : Nat) => lo + (i : Int))

/-- Modelled from the spec: every index of the region `lo..hi`, in the storage
order of an `FArrayBox` (first axis fastest). -/
def ptsAux : (D : Nat) → IntVect D → IntVect D → List (IntVect D)
  | 0, _, _ => [fun i => i.elim0]
  | D + 1, lo, hi =>
    (idxRange (lo (Fin.last D)) (hi (Fin.last D))).flatMap
      (fun x => (ptsAux D (Fin.init lo) (Fin.init hi)).map (fun q => Fin.snoc q x))

/-- Modelled from the spec: every index of the box, in storage order. -/
def pts (b : Box D) : List (IntVect D) := ptsAux D b.smallend b.bigend

/-- Modelled from the spec: `Box::numPts`, the product of the side lengths. -/
def numPts (b : Box D) : Int :=
  ((List.finRange D).map (fun d => b.bigend d - b.smallend d + 1)).prod

end Box

/-- Modelled from the spec: `IndexType::TheCellType`, cell-centred along every axis. -/
def IndexType.TheCellType {D : Nat} : Fin D → Bool := fun _ => false

/-- Modelled from the spec: `IndexType::setType(dir, t)`; `t = true` is `IndexType::NODE`. -/
def IndexType.setType {D : Nat} (typ : Fin D → Bool) (dir : Fin D) (t : Bool) : Fin D → Bool :=
  fun d => if d = dir then t else typ d

/-- Modelled from the spec: `BoxArray`, "an ordered, globally-known set of boxes". -/
abbrev BoxArray (D : Nat) := List (Box D)

namespace BoxArray

variable {D : Nat}

/-- Modelled from the spec: `BoxArray::isDisjoint`, the "disjointness query":
no two boxes of the array intersect. -/
def isDisjoint (ba : BoxArray D) : Prop :=
  ba.Pairwise (fun a b => ¬ a.intersects b)

instance (ba : BoxArray D) : Decidable (isDisjoint ba) := by
  unfold isDisjoint; infer_instance

/-- Modelled from the spec: `BoxArray::ready`, the array has been defined
(it holds at least one box). -/
def ready (ba : BoxArray D) : Prop := ba.length ≠ 0

instance (ba : BoxArray D) : Decidable (ready ba) := by
  unfold ready; infer_instance

/-- Modelled from the spec: `BoxArray::coarsen`, every box coarsened in place. -/
def coarsen (ba : BoxArray D) (ratio : IntVect D) : BoxArray D :=
  ba.map (fun b => b.coarsen ratio)

/-- Modelled from the spec: `BoxArray::operator[]`. -/
def getBox (ba : BoxArray D) (k : Nat) : Box D := ba.getD k default

end BoxArray

/-! ## Numeric arrays (external collaborator) -/

/-- Modelled from the spec: `FArrayBox`, a numeric array over a box with
`nvar` components, seen as the map from (index, component) to value.  Values
at indices outside `domain` or components outside `[0, nvar)` carry no
meaning. -/
structure FArrayBox (D : Nat) (R : Type) where
  domain : Box D
  nvar : Int
  data : IntVect D → Int → R

namespace FArrayBox

variable {D : Nat} {R : Type}

/-- Modelled from the spec: `FArrayBox::box`. -/
def box (f : FArrayBox D R) : Box D := f.domain

/-- Modelled from the spec: `FArrayBox::nComp`. -/
def nComp (f : FArrayBox D R) : Int := f.nvar

/-- Modelled from the spec: `FArrayBox(box, n)`, a fresh array whose values are
not yet meaningful. -/
def alloc [Inhabited R] (b : Box D) (n : Int) : FArrayBox D R :=
  ⟨b, n, fun _ _ => default⟩

/-- Modelled from the spec: `FArrayBox::resize(box, n)`; the old values carry over
as meaningless content. -/
def resize (f : FArrayBox D R) (b : Box D) (n : Int) : FArrayBox D R :=
  ⟨b, n, f.data⟩

/-- Modelled from the spec: `copy(src, srcbox, srccomp, destbox, destcomp, numcomp)`:
component `srccomp + n` of `src` over `srcbox` goes to component `destcomp + n` over
`destbox` (same shape), for `0 ≤ n < numcomp`; everything else is kept. -/
def copy (dst src : FArrayBox D R) (srcbox : Box D) (srccomp : Int)
    (destbox : Box D) (destcomp numcomp : Int) : FArrayBox D R :=
  { dst with
    data := fun p c =>
      if destbox.containsPt p ∧ destcomp ≤ c ∧ c < destcomp + numcomp then
        src.data (fun d => p d - destbox.smallend d + srcbox.smallend d)
          (c - destcomp + srccomp)
      else dst.data p c }

/-- Modelled from the spec: `mult(r, box, comp, numcomp)`: every value over `box` in
components `[comp, comp + numcomp)` is multiplied by `r`. -/
def mult [Mul R] (f : FArrayBox D R) (r : R) (bx : Box D) (comp numcomp : Int) :
    FArrayBox D R :=
  { f with
    data := fun p c =>
      if bx.containsPt p ∧ comp ≤ c ∧ c < comp + numcomp then f.data p c * r
      else f.data p c }

/-- Modelled from the spec: `FArrayBox::shift(iv)`, the array is re-indexed so that
the value formerly at `p` is found at `p + iv`. -/
def shift (f : FArrayBox D R) (iv : IntVect D) : FArrayBox D R :=
  ⟨f.domain.shift iv, f.nvar, fun p c => f.data (fun d => p d - iv d) c⟩

/-- Modelled from the spec: `FArrayBox::sum(comp)`, the values of one component
added up over the array's box in storage order. -/
def sum [Add R] [Zero R] (f : FArrayBox D R) (comp : Int) : R :=
  f.domain.pts.foldl (fun s p => s + f.data p comp) 0

end FArrayBox

/-- Modelled from the spec: the distributed array abstraction (`FabSet`,
`MultiFab`): "an ordered, globally-known set of boxes, each owned by exactly
one process".  `fabs k` is the data block of box `k`, held by process
`distributionMap k`. -/
structure FabArray (D : Nat) (R : Type) where
  boxarray : BoxArray D
  distributionMap : Nat → Nat
  fabs : Nat → FArrayBox D R

/-- Modelled from the spec: one Face Storage buffer. -/
abbrev FabSet (D : Nat) (R : Type) := FabArray D R

/-- Modelled from the spec: the Solution State array. -/
abbrev MultiFab (D : Nat) (R : Type) := FabArray D R

namespace FabArray

variable {D : Nat} {R : Type}

/-- Modelled from the spec: `FabArray::box(k)`, the box of entry `k`. -/
def box (fa : FabArray D R) (k : Nat) : Box D := BoxArray.getBox fa.boxarray k

/-- Modelled from the spec: `FabArray::length`. -/
def length (fa : FabArray D R) : Nat := fa.boxarray.length

/-- Modelled from the spec: the entry `k` replaced by `f`. -/
def setFab (fa : FabArray D R) (k : Nat) (f : FArrayBox D R) : FabArray D R :=
  { fa with fabs := fun j => if j = k then f else fa.fabs j }

/-- Modelled from the spec: the indices an iterator (`FabSetIterator`,
`MultiFabIterator`) visits on process `MyProc`: the locally owned boxes, ascending. -/
def localIndices (fa : FabArray D R) (MyProc : Nat) : List Nat :=
  (List.range fa.length).filter (fun k => fa.distributionMap k = MyProc)

end FabArray

/-! ## The register -/

/-- The data members of `FluxRegister` (with those of its base `BndryRegister`):
`grids`, the Face Storage `bndry`, and `fine_level`, `ncomp`, `ratio`. -/
structure FluxRegister (D : Nat) (R : Type) where
  grids : BoxArray D
  bndry : Orientation D → FabSet D R
  fine_level : Int
  ncomp : Int
  ratio : IntVect D

variable {D : Nat} {R : Type}

/-- Modelled from the spec: a `FabSet` that has not been defined. -/
def FabArray.undefined [Inhabited R] : FabArray D R :=
  ⟨[], fun _ => 0, fun _ => FArrayBox.alloc default 0⟩

/-- The default constructor `FluxRegister::FluxRegister ()`. -/
def FluxRegister.empty [Inhabited R] : FluxRegister D R :=
  { grids := []
    bndry := fun _ => FabArray.undefined
    fine_level := -1
    ncomp := -1
    ratio := fun _ => 1 * -1 }

/-- Modelled from the spec: the box `BndryRegister::define(face, typ, in_rad, out_rad,
extent_rad, ncomp)` builds for the register box `g`: the `out_rad` layers on the given
face just outside `g` (layers of faces when `typ` is node-centred along the face axis),
grown inwards by `in_rad`, and along every other axis converted to `typ` and grown by
`extent_rad`. -/
def BndryRegister.faceBox (face : Orientation D) (typ : Fin D → Bool)
    (in_rad out_rad extent_rad : Int) (g : Box D) : Box D :=
  let b0 := if typ face.coordDir then g.bdryNode face out_rad else g.adjCell face out_rad
  let b1 := if 0 < in_rad then
      b0.growFace ⟨face.coordDir, match face.side with
        | Side.low => Side.high
        | Side.high => Side.low⟩ in_rad
    else b0
  (List.finRange D).foldl (fun b d =>
    if d = face.coordDir then b
    else
      let b2 := if typ d then b.surroundingNodes d else b
      if 0 < extent_rad then b2.growDir d extent_rad else b2) b1

/-- Modelled from the spec: `BndryRegister::define(face, typ, in_rad, out_rad,
extent_rad, ncomp)`: builds the Face Storage buffer of one orientation, one box
per box of `grids`, "sized to one layer of cells outside `grids` on that face",
"zero-initialized with `numComp` components".  `dmapOf` is the ownership map
the distributed array abstraction assigns to a box list. -/
def BndryRegister.define [Zero R] (dmapOf : BoxArray D → Nat → Nat)
    (r : FluxRegister D R) (face : Orientation D) (typ : Fin D → Bool)
    (in_rad out_rad extent_rad : Int) (ncomp : Int) : FluxRegister D R :=
  let fsBA : BoxArray D :=
    r.grids.map (BndryRegister.faceBox face typ in_rad out_rad extent_rad)
  let fs : FabSet D R :=
    { boxarray := fsBA
      distributionMap := dmapOf fsBA
      fabs := fun k => ⟨BoxArray.getBox fsBA k, ncomp, fun _ _ => 0⟩ }
  { r with bndry := fun f => if f = face then fs else r.bndry f }

/-- The body of the `for (dir ...)` loop of `FluxRegister::define`. -/
def FluxRegister.defineDir [Zero R] (dmapOf : BoxArray D → Nat → Nat) (nvar : Int)
    (r : FluxRegister D R) (dir : Fin D) : FluxRegister D R :=
  let lo_face : Orientation D := ⟨dir, Side.low⟩
  let hi_face : Orientation D := ⟨dir, Side.high⟩
  let typ : Fin D → Bool := IndexType.setType IndexType.TheCellType dir true
  let r1 := BndryRegister.define dmapOf r lo_face typ 0 1 0 nvar
  BndryRegister.define dmapOf r1 hi_face typ 0 1 0 nvar

/-- The function `FluxRegister::define` (lines 42-67). -/
def FluxRegister.define [Zero R] (dmapOf : BoxArray D → Nat → Nat)
    (r : FluxRegister D R) (fine_boxes : BoxArray D) (ref_ratio : IntVect D)
    (fine_lev nvar : Int) : Except (FluxRegister D R) (FluxRegister D R) :=
  if ¬ BoxArray.isDisjoint fine_boxes then Except.error r
  else if BoxArray.ready r.grids then Except.error r
  else
    let r1 : FluxRegister D R :=
      { r with ratio := ref_ratio, fine_level := fine_lev, ncomp := nvar }
    let r2 : FluxRegister D R :=
      { r1 with grids := BoxArray.coarsen fine_boxes r1.ratio }
    Except.ok ((List.finRange D).foldl (FluxRegister.defineDir dmapOf nvar) r2)

/-- Modelled from the spec: `ParallelDescriptor::ReduceRealSum`, the values held
by the processes `0 .. NProcs-1` added up; every process receives the total. -/
def ReduceRealSum [Add R] [Zero R] (NProcs : Nat) (v : Nat → R) : R :=
  (List.range NProcs).foldl (fun s i => s + v i) 0

/-- The part of `FluxRegister::SumReg` (lines 71-93) before the reduction, as run by process
`MyProc`: the loop over axes and over the locally owned register boxes. -/
def FluxRegister.SumRegLocal [Add R] [Sub R] [Zero R] (r : FluxRegister D R)
    (MyProc : Nat) (comp : Int) : R :=
  (List.finRange D).foldl (fun sum dir =>
    let lofabs := r.bndry ⟨dir, Side.low⟩
    let hifabs := r.bndry ⟨dir, Side.high⟩
    (lofabs.localIndices MyProc).foldl (fun sum k =>
      (sum + (lofabs.fabs k).sum comp) - (hifabs.fabs k).sum comp) sum) 0

/-- The function `FluxRegister::SumReg`: the local sums reduced over all processes. -/
def FluxRegister.SumReg [Add R] [Sub R] [Zero R] (NProcs : Nat) (r : FluxRegister D R)
    (comp : Int) : R :=
  ReduceRealSum NProcs (fun MyProc => r.SumRegLocal MyProc comp)

/-! ## `CrseInit` (single patch) and its pending remote contributions -/

instance {D : Nat} : DecidableEq (Box D) := fun a b =>
  decidable_of_iff (a.smallend = b.smallend ∧ a.bigend = b.bigend ∧ a.btype = b.btype)
    ⟨fun h => by
      cases a; cases b
      obtain ⟨h1, h2, h3⟩ := h
      simp only at h1 h2 h3
      subst h1 h2 h3; rfl,
     fun h => by subst h; exact ⟨rfl, rfl, rfl⟩⟩

/-- Modelled from the spec: the contents of `FArrayBox::dataPtr()` as one contiguous run:
component after component, each component over the box in storage order. -/
def FArrayBox.toList (f : FArrayBox D R) : List R :=
  (List.range f.nvar.toNat).flatMap
    (fun (c : Nat) => f.domain.pts.map (fun p => f.data p (c : Int)))

/-- Modelled from the spec: the array over `b` with `n` components whose `dataPtr()` contents
are the run `l` (the result of `resize(b, n)` followed by a `memcpy` into `dataPtr()`). -/
def FArrayBox.ofList [Inhabited R] (b : Box D) (n : Int) (l : List R) : FArrayBox D R :=
  ⟨b, n, fun p c => l.getD (c.toNat * b.pts.length + b.pts.indexOf p) default⟩

/-- Modelled from the spec: `FabComTag`, the tag of one pending remote contribution
"(destination process, owning box index, target box region, orientation, component range)". -/
structure FabComTag (D : Nat) where
  toProc : Nat
  fabIndex : Nat
  box : Box D
  face : Orientation D
  destComp : Int
  nComp : Int

/-- The three file-level statics `CIMsgs`, `CITags`, `CIFabs` (lines 689-691) of one process. -/
structure CIState (D : Nat) (R : Type) where
  CIMsgs : List Nat
  CITags : List (FabComTag D)
  CIFabs : List (FArrayBox D R)

/-- The statics at program start: all three empty. -/
def CIState.init : CIState D R := ⟨[], [], []⟩

/-- What one process works on in `CrseInit`: the register (each Face Storage entry is the
one held by its owner) and the process's own statics. -/
structure ProcState (D : Nat) (R : Type) where
  reg : FluxRegister D R
  ci : CIState D R

/-- The entry `bndry[face][k]` replaced by `fab`. -/
def FluxRegister.setFab (r : FluxRegister D R) (face : Orientation D) (k : Nat)
    (fab : FArrayBox D R) : FluxRegister D R :=
  { r with bndry := fun f => if f = face then (r.bndry face).setFab k fab else r.bndry f }

/-- The helper `DoIt` (lines 693-740), run by process `MyProc` of `NProcs`. -/
def DoIt [Mul R] [Inhabited R] (MyProc NProcs : Nat) (face : Orientation D) (k : Nat)
    (st : ProcState D R) (bx : Box D) (flux : FArrayBox D R)
    (srccomp destcomp numcomp : Int) (mult : R) :
    Except (ProcState D R) (ProcState D R) :=
  let dMap := (st.reg.bndry face).distributionMap
  if MyProc = dMap k then
    let fab0 := ((st.reg.bndry face).fabs k).copy flux bx srccomp bx destcomp numcomp
    let fab1 := fab0.mult mult bx destcomp numcomp
    Except.ok { st with reg := st.reg.setFab face k fab1 }
  else
    if st.ci.CIMsgs.length ≠ NProcs then Except.error st
    else
      let tag : FabComTag D :=
        { toProc := dMap k, fabIndex := k, box := bx, face := face,
          destComp := destcomp, nComp := numcomp }
      let fab0 : FArrayBox D R := FArrayBox.alloc bx numcomp
      let fab1 := fab0.copy flux bx srccomp bx 0 numcomp
      let fab2 := fab1.mult mult bx 0 numcomp
      Except.ok { st with ci :=
        { CITags := st.ci.CITags ++ [tag]
          CIFabs := st.ci.CIFabs ++ [fab2]
          CIMsgs := st.ci.CIMsgs.set (dMap k) (st.ci.CIMsgs.getD (dMap k) 0 + 1) } }

/-- The body of the `for (k ...)` loop of `CrseInit(const FArrayBox&, ...)` (lines 758-776). -/
def CrseInitStep [Mul R] [Inhabited R] (MyProc NProcs : Nat) (flux : FArrayBox D R)
    (subbox : Box D) (dir : Fin D) (srccomp destcomp numcomp : Int) (mult : R)
    (st : ProcState D R) (k : Nat) : Except (ProcState D R) (ProcState D R) := do
  let lo : Orientation D := ⟨dir, Side.low⟩
  let st1 ←
    if subbox.intersects ((st.reg.bndry lo).box k) then
      DoIt MyProc NProcs lo k st (((st.reg.bndry lo).box k).inter subbox) flux
        srccomp destcomp numcomp mult
    else pure st
  let hi : Orientation D := ⟨dir, Side.high⟩
  if subbox.intersects ((st1.reg.bndry hi).box k) then
    DoIt MyProc NProcs hi k st1 (((st1.reg.bndry hi).box k).inter subbox) flux
      srccomp destcomp numcomp mult
  else pure st1

/-- The function `FluxRegister::CrseInit(const FArrayBox&, const Box&, ...)` (lines 742-777),
overload B, run by process `MyProc` of `NProcs`. -/
def CrseInit [Mul R] [Inhabited R] (MyProc NProcs : Nat) (st : ProcState D R)
    (flux : FArrayBox D R) (subbox : Box D) (dir : Fin D)
    (srccomp destcomp numcomp : Int) (mult : R) :
    Except (ProcState D R) (ProcState D R) :=
  if ¬ flux.box.contains subbox then Except.error st
  else if ¬ (0 ≤ srccomp ∧ srccomp + numcomp ≤ flux.nComp) then Except.error st
  else if ¬ (0 ≤ destcomp ∧ destcomp + numcomp ≤ st.reg.ncomp) then Except.error st
  else
    let st0 : ProcState D R :=
      if st.ci.CIMsgs.length = 0 then
        { st with ci := { st.ci with CIMsgs := List.replicate NProcs 0 } }
      else st
    (List.range st0.reg.grids.length).foldlM
      (CrseInitStep MyProc NProcs flux subbox dir srccomp destcomp numcomp mult) st0

/-- The value the local branch of `DoIt` (lines 712-713) leaves in a Face Storage entry. -/
def crseFab [Mul R] (fab flux : FArrayBox D R) (bx : Box D)
    (srccomp destcomp numcomp : Int) (mult : R) : FArrayBox D R :=
  (fab.copy flux bx srccomp bx destcomp numcomp).mult mult bx destcomp numcomp

/-- The tag and buffer the remote branch of `DoIt` (lines 720-735) appends for register box
`k` and orientation `face`. -/
def crsePending [Mul R] [Inhabited R] (r : FluxRegister D R) (face : Orientation D) (k : Nat)
    (bx : Box D) (flux : FArrayBox D R) (srccomp destcomp numcomp : Int) (mult : R) :
    FabComTag D × FArrayBox D R :=
  ({ toProc := (r.bndry face).distributionMap k, fabIndex := k, box := bx, face := face,
     destComp := destcomp, nComp := numcomp },
   crseFab (FArrayBox.alloc bx numcomp) flux bx srccomp 0 numcomp mult)

/-- The pending contribution one call of `CrseInit` overload B creates for register box `k`
on the side `s` of axis `dir`: one entry when the face box meets `subbox` and is owned by
another process, none otherwise. -/
def crsePendingFace [Mul R] [Inhabited R] (MyProc : Nat) (r : FluxRegister D R)
    (flux : FArrayBox D R) (subbox : Box D) (dir : Fin D)
    (srccomp destcomp numcomp : Int) (mult : R) (s : Side) (k : Nat) :
    List (FabComTag D × FArrayBox D R) :=
  if subbox.intersects ((r.bndry ⟨dir, s⟩).box k) ∧
      MyProc ≠ (r.bndry ⟨dir, s⟩).distributionMap k then
    [crsePending r ⟨dir, s⟩ k (((r.bndry ⟨dir, s⟩).box k).inter subbox) flux
      srccomp destcomp numcomp mult]
  else []

/-- The pending contributions one call of `CrseInit` overload B creates for register box
`k`: the low face first, then the high face. -/
def crsePendingAt [Mul R] [Inhabited R] (MyProc : Nat) (r : FluxRegister D R)
    (flux : FArrayBox D R) (subbox : Box D) (dir : Fin D)
    (srccomp destcomp numcomp : Int) (mult : R) (k : Nat) :
    List (FabComTag D × FArrayBox D R) :=
  crsePendingFace MyProc r flux subbox dir srccomp destcomp numcomp mult Side.low k ++
    crsePendingFace MyProc r flux subbox dir srccomp destcomp numcomp mult Side.high k

/-- The counters after the pending contributions `l` have been counted. -/
def bumpMsgs (msgs : List Nat) (l : List (FabComTag D × FArrayBox D R)) : List Nat :=
  l.foldl (fun m e => m.set e.1.toProc (m.getD e.1.toProc 0 + 1)) msgs

/-- What relates the register before and after `CrseInit`: nothing but the data blocks of
Face Storage may differ. -/
def FluxRegister.sameShape (r r' : FluxRegister D R) : Prop :=
  r'.grids = r.grids ∧ r'.ncomp = r.ncomp ∧ r'.ratio = r.ratio ∧
  r'.fine_level = r.fine_level ∧
  ∀ f, (r'.bndry f).boxarray = (r.bndry f).boxarray ∧
    (r'.bndry f).distributionMap = (r.bndry f).distributionMap

/-- The state one `if (subbox.intersects(...)) DoIt(...)` statement of the loop body of
`CrseInit` overload B leaves when `DoIt` returns normally. -/
def crseFaceResult [Mul R] [Inhabited R] (MyProc : Nat) (flux : FArrayBox D R)
    (subbox : Box D) (dir : Fin D) (srccomp destcomp numcomp : Int) (mult : R)
    (s : Side) (st : ProcState D R) (k : Nat) : ProcState D R :=
  if subbox.intersects ((st.reg.bndry ⟨dir, s⟩).box k) then
    if MyProc = (st.reg.bndry ⟨dir, s⟩).distributionMap k then
      { st with reg := (st.reg.setFab ⟨dir, s⟩ k
          (crseFab ((st.reg.bndry ⟨dir, s⟩).fabs k) flux
            (((st.reg.bndry ⟨dir, s⟩).box k).inter subbox) srccomp destcomp numcomp mult)) }
    else
      { st with ci :=
        { CITags := st.ci.CITags ++
            (crsePendingFace MyProc st.reg flux subbox dir srccomp destcomp numcomp mult
              s k).map Prod.fst
          CIFabs := st.ci.CIFabs ++
            (crsePendingFace MyProc st.reg flux subbox dir srccomp destcomp numcomp mult
              s k).map Prod.snd
          CIMsgs := bumpMsgs st.ci.CIMsgs
            (crsePendingFace MyProc st.reg flux subbox dir srccomp destcomp numcomp mult
              s k) } }
  else st

/-- The state one iteration of the loop of `CrseInit` overload B leaves when both `DoIt`
calls return normally. -/
def crseStepResult [Mul R] [Inhabited R] (MyProc : Nat) (flux : FArrayBox D R)
    (subbox : Box D) (dir : Fin D) (srccomp destcomp numcomp : Int) (mult : R)
    (st : ProcState D R) (k : Nat) : ProcState D R :=
  crseFaceResult MyProc flux subbox dir srccomp destcomp numcomp mult Side.high
    (crseFaceResult MyProc flux subbox dir srccomp destcomp numcomp mult Side.low st k) k

/-! ## `CrseInitFinish` -/

/-- The descriptor `CommData` sent ahead of the numeric payload. -/
structure CommData (D : Nat) where
  face : Orientation D
  fabindex : Nat
  fromproc : Nat
  id : Int
  nComp : Int
  srcComp : Int
  destComp : Int
  box : Box D

/-- The constant `INT_MAX`. -/
def INT_MAX : Int := 2147483647

/-- The value of a `size_t` accumulator that received the (signed) total `n`. -/
def sizeT (n : Int) : Int := n % 2 ^ 64

/-- The register and the statics of every process: the whole parallel machine. -/
structure World (D : Nat) (R : Type) where
  reg : FluxRegister D R
  ci : Nat → CIState D R

/-- The descriptor built from one tag (lines 879-886); the destination component travels in
the `srcComp` field. -/
def cdOf (MyProc : Nat) (t : FabComTag D) : CommData D :=
  { face := t.face, fabindex := t.fabIndex, fromproc := MyProc, id := 0,
    nComp := t.nComp, srcComp := t.destComp, destComp := 0, box := t.box }

/-- The descriptors process `MyProc` builds for destination `i` (lines 875-890): one per
tag with `toProc == i`, in list order. -/
def sendCommData (MyProc : Nat) (tags : List (FabComTag D)) (i : Nat) : List (CommData D) :=
  (tags.filter (fun t => t.toProc = i)).map (cdOf MyProc)

/-- The number of reals announced for destination `i` (lines 961-965). -/
def sendCount (tags : List (FabComTag D)) (i : Nat) : Int :=
  ((tags.filter (fun t => t.toProc = i)).map (fun t => t.box.numPts * t.nComp)).sum

/-- The packing loop (lines 973-990) over the tags and their buffers: the packed run and
the distance `dptr - data`, or `none` when an assertion of lines 977-978 fails. -/
def packFabs (i : Nat) : List (FabComTag D) → List (FArrayBox D R) → Option (List R × Int)
  | [], _ => some ([], 0)
  | _ :: _, [] => none
  | t :: ts, f :: fs =>
    if t.toProc = i then
      if t.box = f.box ∧ t.nComp = f.nComp then
        let count : Int := t.box.numPts * t.nComp
        match packFabs i ts fs with
        | none => none
        | some (rest, off) => some (f.toList.take count.toNat ++ rest, count + off)
      else none
    else packFabs i ts fs

/-- Everything process `MyProc` sends to process `i` (the two send loops, lines 867-906 and
957-1010): the descriptors and the packed payload; `none` when one of its assertions
fails. -/
def sendTo (MyProc : Nat) (ci : CIState D R) (i : Nat) :
    Option (List (CommData D) × List R) :=
  if 0 < ci.CIMsgs.getD i 0 then
    let senddata := sendCommData MyProc ci.CITags i
    if senddata.length ≠ ci.CIMsgs.getD i 0 then none
    else
      let N := sizeT (sendCount ci.CITags i)
      if ¬ N < INT_MAX then none
      else
        match packFabs i ci.CITags ci.CIFabs with
        | none => none
        | some (data, off) => if N ≠ sizeT off then none else some (senddata, data)
  else some ([], [])

/-- The unpack loop (lines 1033-1054) of process `MyProc` over the descriptors received from
one sender and the received run `dptr`.  Writing to an entry another process owns is a
fatal ownership mismatch. -/
def unpack [Inhabited R] (MyProc : Nat) :
    FluxRegister D R → List (CommData D) → List R → Option (FluxRegister D R)
  | r, [], _ => some r
  | r, cd :: cds, dptr =>
    let fab : FArrayBox D R :=
      FArrayBox.ofList cd.box cd.nComp (dptr.take (cd.box.numPts * cd.nComp).toNat)
    let N : Int := fab.box.numPts * fab.nComp
    if ¬ N < INT_MAX then none
    else if (r.bndry cd.face).distributionMap cd.fabindex ≠ MyProc then none
    else
      let dst := ((r.bndry cd.face).fabs cd.fabindex).copy fab fab.box 0 fab.box
        cd.srcComp cd.nComp
      unpack MyProc (r.setFab cd.face cd.fabindex dst) cds (dptr.drop N.toNat)

/-- What process `MyProc` does with the message of one sender (lines 917-951 and 1018-1065):
nothing when the sender announced no block, otherwise the size check and the unpack loop. -/
def recvFrom [Inhabited R] (MyProc : Nat) (r : FluxRegister D R) (Rcv : Nat)
    (msg : List (CommData D) × List R) : Option (FluxRegister D R) :=
  if 0 < Rcv then
    let N := sizeT ((msg.1.map (fun cd => cd.box.numPts * cd.nComp)).sum)
    if ¬ N < INT_MAX then none else unpack MyProc r msg.1 msg.2
  else some r

/-- The loop of lines 1076-1077: `CIMsgs[i] = 0` for `i < NProcs`. -/
def zeroFirst : Nat → List Nat → List Nat
  | 0, l => l
  | _ + 1, [] => []
  | n + 1, _ :: t => 0 :: zeroFirst n t

/-- The statics of a process after the resize of lines 799-800. -/
def CIState.resized (NProcs : Nat) (ci : CIState D R) : CIState D R :=
  if ci.CIMsgs.length = 0 then { ci with CIMsgs := List.replicate NProcs 0 } else ci

/-- The traffic from process `i` to process `p` in `CrseInitFinish`: what `i` sends in its two
send loops, then what `p` does with it; `ci` are the statics of all processes. -/
def deliver [Inhabited R] (ci : Nat → CIState D R) (p : Nat) (reg : FluxRegister D R)
    (i : Nat) : Option (FluxRegister D R) :=
  match sendTo i (ci i) p with
  | none => none
  | some msg => recvFrom p reg ((ci i).CIMsgs.getD p 0) msg

/-- The loops `for (i = 0; i < NProcs; i++)` of the receiving process `p` (lines 917-951 and
1018-1065): the senders are served in rank order. -/
def receiveAll [Inhabited R] (NProcs : Nat) (ci : Nat → CIState D R)
    (reg : FluxRegister D R) (p : Nat) : Option (FluxRegister D R) :=
  (List.range NProcs).foldlM (deliver ci p) reg

/-- The function `FluxRegister::CrseInitFinish` (lines 779-1081) as the collective step of
all `NProcs` processes: `Rcvs[i]` on process `p` is `CIMsgs[p]` of process `i`
(`MPI_Gather`), each message posted by `MPI_Ssend` arrives at the matching `MPI_Irecv`,
and the result is `none` when some process hits an assertion. -/
def CrseInitFinish [Inhabited R] (NProcs : Nat) (w : World D R) : Option (World D R) :=
  if NProcs = 1 then some w
  else
    let ci := fun p => (w.ci p).resized NProcs
    if ¬ (∀ p, p < NProcs →
        (ci p).CITags.length = (ci p).CIFabs.length ∧ (ci p).CIMsgs.getD p 0 = 0) then none
    else
      match (List.range NProcs).foldlM (receiveAll NProcs ci) w.reg with
      | none => none
      | some reg =>
        some { reg := reg
               ci := fun p =>
                 if p < NProcs then
                   { CIMsgs := zeroFirst NProcs (ci p).CIMsgs, CITags := [], CIFabs := [] }
                 else w.ci p }

/-- One call of `CrseInit` overload B by process `MyProc`, seen on the whole machine. -/
def World.CrseInit [Mul R] [Inhabited R] (NProcs : Nat) (w : World D R) (MyProc : Nat)
    (flux : FArrayBox D R) (subbox : Box D) (dir : Fin D)
    (srccomp destcomp numcomp : Int) (mult : R) : Option (World D R) :=
  match FluxReg.CrseInit MyProc NProcs ⟨w.reg, w.ci MyProc⟩ flux subbox dir
      srccomp destcomp numcomp mult with
  | Except.error _ => none
  | Except.ok st =>
    some { reg := st.reg, ci := fun p => if p = MyProc then st.ci else w.ci p }

/-- The statics of a process outside an accumulation cycle (at program start, or right
after a consolidation): no pending contribution, and the counters either not yet allocated
or all zero. -/
def CIState.idle (NProcs : Nat) (ci : CIState D R) : Prop :=
  ci.CITags = [] ∧ ci.CIFabs = [] ∧ (ci.CIMsgs = [] ∨ ci.CIMsgs = List.replicate NProcs 0)

/-- The arguments of one call of `CrseInit` overload B, with the process that makes it. -/
structure CrseInitCall (D : Nat) (R : Type) where
  MyProc : Nat
  flux : FArrayBox D R
  subbox : Box D
  dir : Fin D
  srccomp : Int
  destcomp : Int
  numcomp : Int
  mult : R

/-- A sequence of `CrseInit` overload-B calls, made one after the other by the processes
named in the calls; `none` when a call hits an assertion. -/
def World.runCalls [Mul R] [Inhabited R] (NProcs : Nat) :
    World D R → List (CrseInitCall D R) → Option (World D R)
  | w, [] => some w
  | w, c :: cs =>
    match w.CrseInit NProcs c.MyProc c.flux c.subbox c.dir c.srccomp c.destcomp c.numcomp
        c.mult with
    | none => none
    | some w' => World.runCalls NProcs w' cs

/-! ## `Reflux` -/

/-- Modelled from the spec: "Geometry (external): domain box, per-axis periodicity flags,
cell size vector". -/
structure Geometry (D : Nat) (R : Type) where
  domain : Box D
  is_periodic : Fin D → Bool
  dx : Fin D → R

/-- Modelled from the spec: `Geometry::isAnyPeriodic`, "the domain is periodic along any
axis". -/
def Geometry.isAnyPeriodic (geom : Geometry D R) : Prop := ∃ d, geom.is_periodic d = true

instance (geom : Geometry D R) : Decidable geom.isAnyPeriodic := by
  unfold Geometry.isAnyPeriodic; infer_instance

/-- Modelled from the spec: `Box::length(dir)`, the number of cells along one axis. -/
def Box.length (b : Box D) (d : Fin D) : Int := b.bigend d - b.smallend d + 1

/-- Modelled from the spec: the image numbers `(ri, rj, rk)` in `{-1, 0, 1}` tried by the
periodic-image enumeration, first axis outermost. -/
def shiftCoeffs : (D : Nat) → List (IntVect D)
  | 0 => [fun i => i.elim0]
  | D + 1 =>
    [(-1 : Int), 0, 1].flatMap
      (fun r0 => (shiftCoeffs D).map (fun rest => (Fin.cons r0 rest : IntVect (D + 1))))

/-- Modelled from the spec: `Geometry::periodicShift(target, src, out)`: "enumerate all
periodic image shifts that bring the solution box back into contact with the register
box", i.e. every shift by `-1`, `0` or `1` domain lengths along each periodic axis, not
all zero, whose image of `src` intersects `target`. -/
def Geometry.periodicShift (geom : Geometry D R) (target src : Box D) : List (IntVect D) :=
  (((shiftCoeffs D).filter (fun rv =>
      (∀ d, rv d ≠ 0 → geom.is_periodic d = true) ∧ ¬ (∀ d, rv d = 0))).map
    (fun rv => fun d => rv d * geom.domain.length d)).filter
      (fun iv => target.intersects (src.shift iv))

/-- Modelled from the spec: the fetch handle `FillBoxId` returned by the *register
interest* call of the remote-fetch facility: the region, the source box index and the
component ranges (and the Face Storage buffer it refers to). -/
structure FillBoxId (D : Nat) where
  face : Orientation D
  box : Box D
  fabIndex : Nat
  srcComp : Int
  destComp : Int
  numComp : Int

/-- Modelled from the spec: `FabSetCopyDescriptor::AddBox(fsid, box, 0, k, srccomp,
destcomp, numcomp)`, *register interest*. -/
def AddBox (face : Orientation D) (box : Box D) (k : Nat) (srccomp destcomp numcomp : Int) :
    FillBoxId D :=
  ⟨face, box, k, srccomp, destcomp, numcomp⟩

/-- Modelled from the spec: `FabSetCopyDescriptor::FillFab(fsid, fbid, reg)`, *materialize*:
the fetched region and components of the Face Storage entry are copied into `reg`. -/
def FillFab (r : FluxRegister D R) (fbid : FillBoxId D) (reg : FArrayBox D R) :
    FArrayBox D R :=
  reg.copy ((r.bndry fbid.face).fabs fbid.fabIndex) fbid.box fbid.srcComp fbid.box
    fbid.destComp fbid.numComp

/-- The record `RF` (lines 117-150). -/
structure RF (D : Nat) where
  m_iv : IntVect D
  m_fabidx : Nat
  m_fridx : Nat
  m_face : Orientation D
  m_shifted : Bool

/-- The constructor `RF(fabidx, fridx, face)`. -/
def RF.direct (fabidx fridx : Nat) (face : Orientation D) : RF D :=
  ⟨fun _ => 0, fabidx, fridx, face, false⟩

/-- The constructor `RF(iv, fabidx, fridx, face)`. -/
def RF.shifted (iv : IntVect D) (fabidx fridx : Nat) (face : Orientation D) : RF D :=
  ⟨iv, fabidx, fridx, face, true⟩

/-- What both `Reflux` functions work on: the parallel vectors `fillBoxId` and `RFs`, the
solution array `S` and, in the volume form, the array `volume`. -/
structure RefluxState (D : Nat) (R : Type) where
  recs : List (FillBoxId D × RF D)
  S : MultiFab D R
  volume : Option (MultiFab D R)

/-- The data block `idx` of `volume` shifted by `iv` (`cheatvol->shift(iv)`); nothing in the
cell-size form. -/
def shiftVolume (volume : Option (MultiFab D R)) (idx : Nat) (iv : IntVect D) :
    Option (MultiFab D R) :=
  volume.map (fun v => v.setFab idx ((v.fabs idx).shift iv))

/-- The loops `for (OrientationIter fi; fi; ++fi)` of the registration (lines 197-219 and
250-272, 407-425 and 444-466): one fetch handle and one record per orientation whose
exterior cell layer `adjCell(grids[k], fi)` meets `vb` (the valid box, or its shifted
image). -/
def faceRecords (r : FluxRegister D R) (src_comp num_comp : Int) (vb : Box D)
    (mk : Orientation D → RF D) (k : Nat) : List (FillBoxId D × RF D) :=
  (OrientationIter D).filterMap (fun fi =>
    if (vb.inter ((BoxArray.getBox r.grids k).adjCell fi 1)).ok then
      some (AddBox fi ((r.bndry fi).box k) k src_comp 0 num_comp, mk fi)
    else none)

/-- The body of the loop over the periodic shifts (lines 228-275, 434-468). -/
def registerShift (r : FluxRegister D R) (src_comp num_comp : Int) (idx k : Nat)
    (st : RefluxState D R) (iv : IntVect D) : Option (RefluxState D R) :=
  let S1 := st.S.setFab idx ((st.S.fabs idx).shift iv)
  let V1 := shiftVolume st.volume idx iv
  let sftbox := (st.S.box idx).shift iv
  let bx := (BoxArray.getBox r.grids k).grow 1
  if ¬ bx.intersects sftbox then none
  else
    let recs := st.recs ++ faceRecords r src_comp num_comp sftbox (RF.shifted iv idx k) k
    some { recs := recs
           S := S1.setFab idx ((S1.fabs idx).shift (fun d => - iv d))
           volume := shiftVolume V1 idx (fun d => - iv d) }

/-- The body of the loop `for (k ...)` of the registration (lines 191-277, 401-470), for the
locally owned solution box `idx`. -/
def registerPair (geom : Geometry D R) (r : FluxRegister D R) (src_comp num_comp : Int)
    (idx : Nat) (st : RefluxState D R) (k : Nat) : Option (RefluxState D R) :=
  let bx := (BoxArray.getBox r.grids k).grow 1
  let st1 : RefluxState D R :=
    if bx.intersects (st.S.box idx) then
      { st with recs := st.recs ++
          faceRecords r src_comp num_comp (st.S.box idx) (RF.direct idx k) k }
    else st
  if geom.isAnyPeriodic ∧ ¬ geom.domain.contains bx then
    (geom.periodicShift bx (st1.S.box idx)).foldlM
      (registerShift r src_comp num_comp idx k) st1
  else some st1

/-- The registration loop `for (MultiFabIterator mfi(S); ...)` (lines 178-278, 396-471) run
by process `MyProc`. -/
def registerAll (geom : Geometry D R) (r : FluxRegister D R) (src_comp num_comp : Int)
    (MyProc : Nat) (st : RefluxState D R) : Option (RefluxState D R) :=
  (st.S.localIndices MyProc).foldlM (fun st idx =>
    (List.range r.grids.length).foldlM (registerPair geom r src_comp num_comp idx) st) st

/-- Modelled from the spec: the numeric kernel `reflux(dst, volumeOrCellSize, src, region,
numComp, mult)`: over `region` and `numComp` components starting at `dest_comp` it adds
`mult × (register value) ÷ divisor`.  The register data is read as the Fortran array
declared over `rbox` (`ARLIM(rlo)`, `ARLIM(rhi)`) on the memory of `reg`. -/
def refluxKernel [Add R] [Mul R] [Div R] [Inhabited R] (s : FArrayBox D R) (dest_comp : Int)
    (divisor : IntVect D → R) (reg : FArrayBox D R) (rbox region : Box D)
    (num_comp : Int) (mult : R) : FArrayBox D R :=
  { s with
    data := fun p c =>
      if region.containsPt p ∧ dest_comp ≤ c ∧ c < dest_comp + num_comp then
        s.data p c +
          mult * (FArrayBox.ofList rbox num_comp reg.toList).data p (c - dest_comp) / divisor p
      else s.data p c }

/-- Modelled from the spec: the kernel `FORT_FRREFLUX`, the divisor is the cell volume held
in component 0 of the volume block. -/
def FORT_FRREFLUX [Add R] [Mul R] [Div R] [Inhabited R] (s : FArrayBox D R) (dest_comp : Int)
    (vol : FArrayBox D R) (reg : FArrayBox D R) (rbox region : Box D)
    (num_comp : Int) (mult : R) : FArrayBox D R :=
  refluxKernel s dest_comp (fun p => vol.data p 0) reg rbox region num_comp mult

/-- Modelled from the spec: the size of a cell with the edge lengths `dx`. -/
def cellVolume [Mul R] [One R] (dx : Fin D → R) : R := ((List.finRange D).map dx).prod

/-- Modelled from the spec: the kernel `FORT_FRCVREFLUX`, the divisor is the size of the
(uniform) cell given by the cell-size vector. -/
def FORT_FRCVREFLUX [Add R] [Mul R] [Div R] [One R] [Inhabited R] (s : FArrayBox D R)
    (dest_comp : Int) (dx : Fin D → R) (reg : FArrayBox D R) (rbox region : Box D)
    (num_comp : Int) (mult : R) : FArrayBox D R :=
  refluxKernel s dest_comp (fun _ => cellVolume dx) reg rbox region num_comp mult

/-- The body of the apply loop (lines 288-364 with a volume array, 481-538 without), for
one fetch handle and its record. -/
def applyRF [Add R] [Mul R] [Div R] [Neg R] [One R] [Inhabited R] (geom : Geometry D R)
    (r : FluxRegister D R) (scale : R) (dest_comp num_comp : Int) (MyProc : Nat)
    (st : MultiFab D R × Option (MultiFab D R)) (rec : FillBoxId D × RF D) :
    Option (MultiFab D R × Option (MultiFab D R)) :=
  let fbid := rec.1
  let rf := rec.2
  let S := st.1
  if ¬ ((r.bndry rf.m_face).box rf.m_fridx = fbid.box) then none
  else if ¬ (S.distributionMap rf.m_fabidx = MyProc) then none
  else if ¬ (∀ v ∈ st.2, v.distributionMap rf.m_fabidx = MyProc) then none
  else
    let fab_S := S.fabs rf.m_fabidx
    let fine_face := (BoxArray.getBox r.grids rf.m_fridx).adjCell rf.m_face 1
    let mult := if rf.m_face.isLow then - scale else scale
    if ¬ rf.m_shifted then
      let ovlp := (S.box rf.m_fabidx).inter fine_face
      if ¬ ovlp.ok then none
      else
        let reg := FillFab r fbid (FArrayBox.alloc fbid.box num_comp)
        let fab_S1 :=
          match st.2 with
          | some volume =>
            FORT_FRREFLUX fab_S dest_comp (volume.fabs rf.m_fabidx) reg fine_face ovlp
              num_comp mult
          | none => FORT_FRCVREFLUX fab_S dest_comp geom.dx reg fine_face ovlp num_comp mult
        some (S.setFab rf.m_fabidx fab_S1, st.2)
    else
      let iv := rf.m_iv
      let fab_S0 := fab_S.shift iv
      let vol0 := shiftVolume st.2 rf.m_fabidx iv
      let sftbox := (S.box rf.m_fabidx).shift iv
      let ovlp := sftbox.inter fine_face
      if ¬ ovlp.ok then none
      else
        let reg := FillFab r fbid (FArrayBox.alloc fbid.box num_comp)
        let fab_S1 :=
          match vol0 with
          | some volume =>
            FORT_FRREFLUX fab_S0 dest_comp (volume.fabs rf.m_fabidx) reg fine_face ovlp
              num_comp mult
          | none => FORT_FRCVREFLUX fab_S0 dest_comp geom.dx reg fine_face ovlp num_comp mult
        some (S.setFab rf.m_fabidx (fab_S1.shift (fun d => - iv d)),
              shiftVolume vol0 rf.m_fabidx (fun d => - iv d))

/-- The common body of the two `Reflux` functions, run by process `MyProc`: registration,
then (the fetches being resolved by `CollectData`) the apply loop. -/
def RefluxCore [Add R] [Mul R] [Div R] [Neg R] [One R] [Inhabited R] (MyProc : Nat)
    (r : FluxRegister D R) (S : MultiFab D R) (volume : Option (MultiFab D R)) (scale : R)
    (src_comp dest_comp num_comp : Int) (geom : Geometry D R) :
    Option (MultiFab D R × Option (MultiFab D R)) :=
  match registerAll geom r src_comp num_comp MyProc ⟨[], S, volume⟩ with
  | none => none
  | some st =>
    st.recs.foldlM (applyRF geom r scale dest_comp num_comp MyProc) (st.S, st.volume)

/-- The function `FluxRegister::Reflux(S, volume, scale, src_comp, dest_comp, num_comp, geom)`
(lines 152-367), the volume form; returns `S` and `volume`. -/
def Reflux [Add R] [Mul R] [Div R] [Neg R] [One R] [Inhabited R] (MyProc : Nat)
    (r : FluxRegister D R) (S volume : MultiFab D R) (scale : R)
    (src_comp dest_comp num_comp : Int) (geom : Geometry D R) :
    Option (MultiFab D R × Option (MultiFab D R)) :=
  RefluxCore MyProc r S (some volume) scale src_comp dest_comp num_comp geom

/-- The function `FluxRegister::Reflux(S, scale, src_comp, dest_comp, num_comp, geom)`
(lines 369-541), the cell-size form. -/
def RefluxCV [Add R] [Mul R] [Div R] [Neg R] [One R] [Inhabited R] (MyProc : Nat)
    (r : FluxRegister D R) (S : MultiFab D R) (scale : R)
    (src_comp dest_comp num_comp : Int) (geom : Geometry D R) :
    Option (MultiFab D R × Option (MultiFab D R)) :=
  RefluxCore MyProc r S none scale src_comp dest_comp num_comp geom

/-- The translation under which a record is applied: `m_iv` for a shifted record, none for
a direct one. -/
def RF.shiftOf (rf : RF D) : IntVect D := if rf.m_shifted then rf.m_iv else fun _ => 0

/-- The multiplier of a record (lines 304 and 491): `rf.m_face.isLow() ? -scale : scale`. -/
def RF.mult [Neg R] (rf : RF D) (scale : R) : R := if rf.m_face.isLow then - scale else scale

/-- The overlap region `ovlp` of a record in the apply loop: the valid box of the solution
block (translated for a shifted record) intersected with the exterior cell layer of the
register face. -/
def RF.ovlp (r : FluxRegister D R) (S : MultiFab D R) (rf : RF D) : Box D :=
  ((S.box rf.m_fabidx).shift rf.shiftOf).inter
    ((BoxArray.getBox r.grids rf.m_fridx).adjCell rf.m_face 1)

/-- The register value the kernel reads for cell `p` and component `n` of a record: the
fetched Face Storage data seen as the Fortran array declared over the exterior cell layer. -/
def regValue [Inhabited R] (r : FluxRegister D R) (num_comp : Int)
    (rec : FillBoxId D × RF D) (p : IntVect D) (n : Int) : R :=
  (FArrayBox.ofList ((BoxArray.getBox r.grids rec.2.m_fridx).adjCell rec.2.m_face 1) num_comp
    (FillFab r rec.1 (FArrayBox.alloc rec.1.box num_comp)).toList).data p n

/-- The divisor the kernel uses at cell `q` of solution block `idx`: the cell volume stored
in `volume`, or the cell size of the geometry. -/
def refluxDivisor [Mul R] [One R] (geom : Geometry D R) (volume : Option (MultiFab D R))
    (idx : Nat) (q : IntVect D) : R :=
  match volume with
  | some v => (v.fabs idx).data q 0
  | none => cellVolume geom.dx

/-- The records the registration creates for one solution box `idx` (valid box `vb`) and
one register box `k`: those of the direct test, then those of every periodic shift. -/
def pairRecords (geom : Geometry D R) (r : FluxRegister D R) (src_comp num_comp : Int)
    (vb : Box D) (idx k : Nat) : List (FillBoxId D × RF D) :=
  (if ((BoxArray.getBox r.grids k).grow 1).intersects vb then
      faceRecords r src_comp num_comp vb (RF.direct idx k) k
    else []) ++
  (if geom.isAnyPeriodic ∧ ¬ geom.domain.contains ((BoxArray.getBox r.grids k).grow 1) then
      (geom.periodicShift ((BoxArray.getBox r.grids k).grow 1) vb).flatMap (fun iv =>
        faceRecords r src_comp num_comp (vb.shift iv) (RF.shifted iv idx k) k)
    else [])

/-- All records the registration of process `MyProc` creates, in order. -/
def allRecords (geom : Geometry D R) (r : FluxRegister D R) (src_comp num_comp : Int)
    (MyProc : Nat) (S : MultiFab D R) : List (FillBoxId D × RF D) :=
  (S.localIndices MyProc).flatMap (fun idx =>
    (List.range r.grids.length).flatMap
      (pairRecords geom r src_comp num_comp (S.box idx) idx))

/-- A record touches the value of solution block `idx` at cell `q` and component `c`. -/
def RF.covers (r : FluxRegister D R) (S : MultiFab D R) (dest_comp num_comp : Int)
    (rf : RF D) (idx : Nat) (q : IntVect D) (c : Int) : Prop :=
  rf.m_fabidx = idx ∧ (rf.ovlp r S).containsPt (fun d => q d + rf.shiftOf d) ∧
    dest_comp ≤ c ∧ c < dest_comp + num_comp

/-- What one record adds to the value `acc` of solution block `idx` at cell `q` and
component `c`: `mult × (register value) ÷ divisor` when the record covers the value, nothing
otherwise. -/
def refluxTerm [Add R] [Mul R] [Div R] [Neg R] [One R] [Inhabited R] (geom : Geometry D R)
    (r : FluxRegister D R) (scale : R) (dest_comp num_comp : Int) (S : MultiFab D R)
    (volume : Option (MultiFab D R)) (idx : Nat) (q : IntVect D) (c : Int) (acc : R)
    (rec : FillBoxId D × RF D) : R :=
  if rec.2.m_fabidx = idx ∧ (rec.2.ovlp r S).containsPt (fun d => q d + rec.2.shiftOf d) ∧
      dest_comp ≤ c ∧ c < dest_comp + num_comp then
    acc + rec.2.mult scale *
      regValue r num_comp rec (fun d => q d + rec.2.shiftOf d) (c - dest_comp) /
      refluxDivisor geom volume idx q
  else acc

/-- The value of solution block `idx` at cell `q` and component `c` after the records
`recs` have been applied in order to the value `v0`. -/
def refluxTotal [Add R] [Mul R] [Div R] [Neg R] [One R] [Inhabited R] (geom : Geometry D R)
    (r : FluxRegister D R) (scale : R) (dest_comp num_comp : Int) (S : MultiFab D R)
    (volume : Option (MultiFab D R)) (recs : List (FillBoxId D × RF D))
    (idx : Nat) (q : IntVect D) (c : Int) (v0 : R) : R :=
  recs.foldl (refluxTerm geom r scale dest_comp num_comp S volume idx q c) v0

/-- The sign convention of `Reflux` for a run that turned `S` into `S'`: every value of `S'`
is the value of `S` plus, for each record of the registration that covers it, in order,
`mult × (register value) ÷ divisor` with `mult = -scale` when the face of the record is low
and `mult = +scale` when it is high.  In particular a value covered by one record `rec`
(and by no other) has received that one term; with a unit register value and a unit
divisor it has decreased by `scale` for a low face and increased by `scale` for a high
face. -/
def SignLaw [Add R] [Sub R] [Mul R] [Div R] [Neg R] [One R] [Inhabited R]
    (geom : Geometry D R) (r : FluxRegister D R) (scale : R)
    (src_comp dest_comp num_comp : Int) (MyProc : Nat) (S : MultiFab D R)
    (volume : Option (MultiFab D R)) (S' : MultiFab D R) : Prop :=
  (∀ (idx : Nat) (q : IntVect D) (c : Int),
    (S'.fabs idx).data q c =
      refluxTotal geom r scale dest_comp num_comp S volume
        (allRecords geom r src_comp num_comp MyProc S) idx q c ((S.fabs idx).data q c)) ∧
  ∀ (l1 l2 : List (FillBoxId D × RF D)) (rec : FillBoxId D × RF D),
    allRecords geom r src_comp num_comp MyProc S = l1 ++ rec :: l2 →
    ∀ (idx : Nat) (q : IntVect D) (n : Int), 0 ≤ n → n < num_comp →
      rec.2.covers r S dest_comp num_comp idx q (dest_comp + n) →
      (∀ x ∈ l1 ++ l2, ¬ x.2.covers r S dest_comp num_comp idx q (dest_comp + n)) →
      (S'.fabs idx).data q (dest_comp + n) =
        (S.fabs idx).data q (dest_comp + n) +
          (if rec.2.m_face.isLow then - scale else scale) *
            regValue r num_comp rec (fun d => q d + rec.2.shiftOf d) n /
            refluxDivisor geom volume idx q ∧
      (regValue r num_comp rec (fun d => q d + rec.2.shiftOf d) n = 1 →
        refluxDivisor geom volume idx q = 1 →
        (S'.fabs idx).data q (dest_comp + n) =
          if rec.2.m_face.isLow then (S.fabs idx).data q (dest_comp + n) - scale
          else (S.fabs idx).data q (dest_comp + n) + scale)

/-- The frame of `Reflux` for a run of process `MyProc` that turned `S` into `S'`: boxes,
owners, and the index box and component count of every data block are unchanged, and so is
every value except, in the locally owned blocks, the components
`[dest_comp, dest_comp + num_comp)` at cells that lie, directly or after one of the
enumerated periodic shifts, in the valid box intersected with `adjCell(grids[k], face)`
for some register box `k` and orientation `face`. -/
def FrameLaw (geom : Geometry D R) (r : FluxRegister D R) (dest_comp num_comp : Int)
    (MyProc : Nat) (S S' : MultiFab D R) : Prop :=
  S'.boxarray = S.boxarray ∧ S'.distributionMap = S.distributionMap ∧
  (∀ idx, (S'.fabs idx).box = (S.fabs idx).box ∧ (S'.fabs idx).nComp = (S.fabs idx).nComp) ∧
  ∀ (idx : Nat) (q : IntVect D) (c : Int),
    ¬ (dest_comp ≤ c ∧ c < dest_comp + num_comp ∧ S.distributionMap idx = MyProc ∧
        ∃ k, k < r.grids.length ∧ ∃ face : Orientation D,
          ((S.box idx).inter ((BoxArray.getBox r.grids k).adjCell face 1)).containsPt q ∨
          ∃ iv ∈ geom.periodicShift ((BoxArray.getBox r.grids k).grow 1) (S.box idx),
            (((S.box idx).shift iv).inter
              ((BoxArray.getBox r.grids k).adjCell face 1)).containsPt
                (fun d => q d + iv d)) →
    (S'.fabs idx).data q c = (S.fabs idx).data q c

/-- The step from an exterior cell of the face `fi` to the register face that bounds it:
one along the face axis for a low face (the cell `lo - 1` is bounded by the face `lo`), none
for a high face (the cell `hi + 1` is bounded by the face `hi + 1`). -/
def faceOffset (fi : Orientation D) : IntVect D :=
  fun d => if fi.side = Side.low ∧ d = fi.coordDir then 1 else 0

/-- The register has the face boxes `define` builds: the box of entry `k` of the buffer of
an orientation is the layer of faces `bdryNode(grids[k], face, 1)`. -/
def FluxRegister.defined (r : FluxRegister D R) : Prop :=
  ∀ (f : Orientation D) (k : Nat), k < r.grids.length →
    (r.bndry f).box k = (BoxArray.getBox r.grids k).bdryNode f 1

/-! ## `FineAdd` -/

/-- Modelled from the spec: the fine faces that cover the coarse face `p` for the axis `dir`
and the refinement ratio `ratio` ("geometric ratio-dependent weighting"): the index
`ratio × p` along `dir` and the `ratio` indices `ratio × p .. ratio × p + ratio - 1` along
every other axis, in storage order. -/
def fineFaces (ratio : IntVect D) (dir : Fin D) (p : IntVect D) : List (IntVect D) :=
  Box.ptsAux D (fun d => ratio d * p d)
    (fun d => if d = dir then ratio d * p d else ratio d * p d + ratio d - 1)

/-- Modelled from the spec: the kernel `fineAdd(dst, src, numComp, axis, ratio, mult)`
(`FORT_FRFINEADD`): to every face of the register array `reg`, in the components
`[destcomp, destcomp + numcomp)`, it adds `mult ×` the sum of the fine flux over the fine
faces covering that face.  The arrays are declared over their own boxes, starting at
`dataPtr(destcomp)` and `dataPtr(srccomp)`. -/
def FORT_FRFINEADD [Add R] [Mul R] [Zero R] (reg : FArrayBox D R) (destcomp : Int)
    (flux : FArrayBox D R) (srccomp numcomp : Int) (dir : Fin D) (ratio : IntVect D)
    (mult : R) : FArrayBox D R :=
  { reg with
    data := fun p c =>
      if reg.box.containsPt p ∧ destcomp ≤ c ∧ c < destcomp + numcomp then
        reg.data p c +
          mult * ((fineFaces ratio dir p).map
            (fun q => flux.data q (c - destcomp + srccomp))).sum
      else reg.data p c }

/-- Modelled from the spec: the kernel `fineAreaAdd(dst, src, area, numComp, axis, ratio,
mult)` (`FORT_FRFAADD`): as `FORT_FRFINEADD`, each fine flux value weighted by the area of
its face (component 0 of `area`). -/
def FORT_FRFAADD [Add R] [Mul R] [Zero R] (reg : FArrayBox D R) (destcomp : Int)
    (flux : FArrayBox D R) (srccomp : Int) (area : FArrayBox D R) (numcomp : Int)
    (dir : Fin D) (ratio : IntVect D) (mult : R) : FArrayBox D R :=
  { reg with
    data := fun p c =>
      if reg.box.containsPt p ∧ destcomp ≤ c ∧ c < destcomp + numcomp then
        reg.data p c +
          mult * ((fineFaces ratio dir p).map
            (fun q => area.data q 0 * flux.data q (c - destcomp + srccomp))).sum
      else reg.data p c }

/-- The function `FluxRegister::FineAdd(const FArrayBox& flux, int dir, int boxno, ...)`
(lines 1121-1159), single patch, no area array. -/
def FineAdd [Add R] [Mul R] [Zero R] (r : FluxRegister D R) (flux : FArrayBox D R)
    (dir : Fin D) (boxno : Nat) (srccomp destcomp numcomp : Int) (mult : R) :
    Except (FluxRegister D R) (FluxRegister D R) :=
  if ¬ (0 ≤ srccomp ∧ srccomp + numcomp ≤ flux.nComp) then Except.error r
  else if ¬ (0 ≤ destcomp ∧ destcomp + numcomp ≤ r.ncomp) then Except.error r
  else
    let cbox := flux.box.coarsen r.ratio
    let lo : Orientation D := ⟨dir, Side.low⟩
    let loreg := (r.bndry lo).fabs boxno
    if ¬ cbox.contains loreg.box then Except.error r
    else
      let r1 := r.setFab lo boxno
        (FORT_FRFINEADD loreg destcomp flux srccomp numcomp dir r.ratio mult)
      let hi : Orientation D := ⟨dir, Side.high⟩
      let hireg := (r1.bndry hi).fabs boxno
      if ¬ cbox.contains hireg.box then Except.error r1
      else
        Except.ok (r1.setFab hi boxno
          (FORT_FRFINEADD hireg destcomp flux srccomp numcomp dir r1.ratio mult))

/-- The function `FluxRegister::FineAdd(const FArrayBox& flux, const FArrayBox& area, int dir,
int boxno, ...)` (lines 1161-1205), single patch with an area array. -/
def FineAddArea [Add R] [Mul R] [Zero R] (r : FluxRegister D R) (flux area : FArrayBox D R)
    (dir : Fin D) (boxno : Nat) (srccomp destcomp numcomp : Int) (mult : R) :
    Except (FluxRegister D R) (FluxRegister D R) :=
  if ¬ (0 ≤ srccomp ∧ srccomp + numcomp ≤ flux.nComp) then Except.error r
  else if ¬ (0 ≤ destcomp ∧ destcomp + numcomp ≤ r.ncomp) then Except.error r
  else
    let cbox := flux.box.coarsen r.ratio
    let lo : Orientation D := ⟨dir, Side.low⟩
    let loreg := (r.bndry lo).fabs boxno
    if ¬ cbox.contains loreg.box then Except.error r
    else
      let r1 := r.setFab lo boxno
        (FORT_FRFAADD loreg destcomp flux srccomp area numcomp dir r.ratio mult)
      let hi : Orientation D := ⟨dir, Side.high⟩
      let hireg := (r1.bndry hi).fabs boxno
      if ¬ cbox.contains hireg.box then Except.error r1
      else
        Except.ok (r1.setFab hi boxno
          (FORT_FRFAADD hireg destcomp flux srccomp area numcomp dir r1.ratio mult))

/-- The function `FluxRegister::FineAdd(const MultiFab& mflx, int dir, ...)` (lines
1083-1096), run by process `MyProc`: the single-patch function for every locally owned box
of `mflx`, in iterator order. -/
def FineAddMF [Add R] [Mul R] [Zero R] (MyProc : Nat) (r : FluxRegister D R)
    (mflx : MultiFab D R) (dir : Fin D) (srccomp destcomp numcomp : Int) (mult : R) :
    Except (FluxRegister D R) (FluxRegister D R) :=
  (mflx.localIndices MyProc).foldlM
    (fun r k => FineAdd r (mflx.fabs k) dir k srccomp destcomp numcomp mult) r

/-- The function `FluxRegister::FineAdd(const MultiFab& mflx, const MultiFab& area, int dir,
...)` (lines 1098-1119), run by process `MyProc`; the dependent iterator reads the block of
`area` with the index of the block of `mflx`. -/
def FineAddAreaMF [Add R] [Mul R] [Zero R] (MyProc : Nat) (r : FluxRegister D R)
    (mflx area : MultiFab D R) (dir : Fin D) (srccomp destcomp numcomp : Int) (mult : R) :
    Except (FluxRegister D R) (FluxRegister D R) :=
  (mflx.localIndices MyProc).foldlM
    (fun r k => FineAddArea r (mflx.fabs k) (area.fabs k) dir k srccomp destcomp numcomp mult)
    r

/-- The Face Storage entry a single-patch `FineAdd` leaves for the side `s` of box `boxno`:
the kernel of the overload (with the area array when `area` is given) applied to the
entry. -/
def fineAddEntry [Add R] [Mul R] [Zero R] (r : FluxRegister D R) (flux : FArrayBox D R)
    (area : Option (FArrayBox D R)) (dir : Fin D) (boxno : Nat)
    (srccomp destcomp numcomp : Int) (mult : R) (s : Side) : FArrayBox D R :=
  match area with
  | none =>
    FORT_FRFINEADD ((r.bndry ⟨dir, s⟩).fabs boxno) destcomp flux srccomp numcomp dir r.ratio
      mult
  | some a =>
    FORT_FRFAADD ((r.bndry ⟨dir, s⟩).fabs boxno) destcomp flux srccomp a numcomp dir r.ratio
      mult

/-- The common description of the two single-patch `FineAdd` functions (`area` is the area
array of the second one): which assertion fails first and what Face Storage holds then, or
the register on normal return; both entries are computed from the register before the call. -/
def fineAddSpec [Add R] [Mul R] [Zero R] (r : FluxRegister D R) (flux : FArrayBox D R)
    (area : Option (FArrayBox D R)) (dir : Fin D) (boxno : Nat)
    (srccomp destcomp numcomp : Int) (mult : R) :
    Except (FluxRegister D R) (FluxRegister D R) :=
  if ¬ (0 ≤ srccomp ∧ srccomp + numcomp ≤ flux.nComp) then Except.error r
  else if ¬ (0 ≤ destcomp ∧ destcomp + numcomp ≤ r.ncomp) then Except.error r
  else if ¬ (flux.box.coarsen r.ratio).contains ((r.bndry ⟨dir, Side.low⟩).fabs boxno).box then
    Except.error r
  else if ¬ (flux.box.coarsen r.ratio).contains ((r.bndry ⟨dir, Side.high⟩).fabs boxno).box
  then
    Except.error (r.setFab ⟨dir, Side.low⟩ boxno
      (fineAddEntry r flux area dir boxno srccomp destcomp numcomp mult Side.low))
  else
    Except.ok ((r.setFab ⟨dir, Side.low⟩ boxno
        (fineAddEntry r flux area dir boxno srccomp destcomp numcomp mult Side.low)).setFab
      ⟨dir, Side.high⟩ boxno
        (fineAddEntry r flux area dir boxno srccomp destcomp numcomp mult Side.high))

/-! ## `CrseInit` (distributed flux and area arrays) -/

/-- Modelled from the spec: `FabArray::nComp`, the number of components of a distributed
array; every block has it, it is read off block 0. -/
def FabArray.nComp (fa : FabArray D R) : Int := (fa.fabs 0).nComp

/-- Modelled from the spec: the fetch handle `FillBoxId` of the remote-fetch facility for a
`MultiFab` source: the region, the source block the interest was registered for, the
component ranges, and the field `FabIndex`, which the caller may overwrite. -/
structure MFFillBoxId (D : Nat) where
  box : Box D
  srcIndex : Nat
  FabIndex : Nat
  srcComp : Int
  destComp : Int
  numComp : Int

/-- Modelled from the spec: `MultiFabCopyDescriptor::AddBox(mfid, box, 0, k, srccomp,
destcomp, numcomp)`, *register interest* in block `k` of the source. -/
def MFAddBox (box : Box D) (k : Nat) (srccomp destcomp numcomp : Int) : MFFillBoxId D :=
  ⟨box, k, k, srccomp, destcomp, numcomp⟩

/-- Modelled from the spec: `MultiFabCopyDescriptor::FillFab(mfid, fbid, dest)`,
*materialize*: the region and components of the source block are copied into `dest`. -/
def MFFillFab (mf : MultiFab D R) (fbid : MFFillBoxId D) (dest : FArrayBox D R) :
    FArrayBox D R :=
  dest.copy (mf.fabs fbid.srcIndex) fbid.box fbid.srcComp fbid.box fbid.destComp fbid.numComp

/-- Modelled from the spec: the integer of a side (`Orientation::low = 0`,
`Orientation::high = 1`). -/
def Side.index : Side → Nat
  | Side.low => 0
  | Side.high => 1

/-- Modelled from the spec: the cast `Orientation::Side(int)`. -/
def Side.ofIndex (n : Nat) : Side := if n = 0 then Side.low else Side.high

/-- Modelled from the spec: the kernel `crseAreaInit(dst, flux, area, region, numComp, axis,
mult)` (`FORT_FRCAINIT`): over `region`, in the components `[destcomp, destcomp + numcomp)`,
the register array is set to `mult × area × flux`. -/
def FORT_FRCAINIT [Mul R] (reg : FArrayBox D R) (destcomp : Int) (flux area : FArrayBox D R)
    (region : Box D) (numcomp : Int) (_dir : Fin D) (mult : R) : FArrayBox D R :=
  { reg with
    data := fun p c =>
      if region.containsPt p ∧ destcomp ≤ c ∧ c < destcomp + numcomp then
        mult * area.data p 0 * flux.data p (c - destcomp)
      else reg.data p c }

/-- The registration loops of `CrseInit(const MultiFab&, const MultiFab&, ...)` (lines
564-636), run by process `MyProc`: the parallel vectors `fillBoxId_mflx` and
`fillBoxId_area`, one pair per intersection of a locally owned low or high face box with a
box of `mflx`; the first handle carries the register index, the second the side. -/
def crseMFRegister (MyProc : Nat) (r : FluxRegister D R) (mflx : MultiFab D R) (dir : Fin D)
    (srccomp numcomp : Int) : List (MFFillBoxId D × MFFillBoxId D) :=
  ((r.bndry ⟨dir, Side.low⟩).localIndices MyProc).flatMap (fun idx =>
    (List.range mflx.boxarray.length).flatMap (fun k =>
      (if ((r.bndry ⟨dir, Side.low⟩).box idx).intersects (mflx.box k) then
        [({ MFAddBox (((r.bndry ⟨dir, Side.low⟩).box idx).inter (mflx.box k)) k srccomp 0
              numcomp with FabIndex := idx },
          { MFAddBox (((r.bndry ⟨dir, Side.low⟩).box idx).inter (mflx.box k)) k 0 0 1 with
              FabIndex := Side.low.index })]
      else []) ++
      (if ((r.bndry ⟨dir, Side.high⟩).box idx).intersects (mflx.box k) then
        [({ MFAddBox (((r.bndry ⟨dir, Side.high⟩).box idx).inter (mflx.box k)) k srccomp 0
              numcomp with FabIndex := idx },
          { MFAddBox (((r.bndry ⟨dir, Side.high⟩).box idx).inter (mflx.box k)) k 0 0 1 with
              FabIndex := Side.high.index })]
      else [])))

/-- The body of the apply loop of `CrseInit(const MultiFab&, const MultiFab&, ...)` (lines
646-682); the state is the register with the two scratch arrays `mflx_fab` and `area_fab`,
the error the register at the abort. -/
def crseMFApply [Mul R] (MyProc : Nat) (mflx area : MultiFab D R) (dir : Fin D)
    (destcomp numcomp : Int) (mult : R)
    (st : FluxRegister D R × FArrayBox D R × FArrayBox D R)
    (ids : MFFillBoxId D × MFFillBoxId D) :
    Except (FluxRegister D R) (FluxRegister D R × FArrayBox D R × FArrayBox D R) :=
  let fbid_mflx := ids.1
  let fbid_area := ids.2
  if ¬ (fbid_mflx.box = fbid_area.box) then Except.error st.1
  else
    let the_face : Orientation D := ⟨dir, Side.ofIndex fbid_area.FabIndex⟩
    let mflx_fab := MFFillFab mflx fbid_mflx (st.2.1.resize fbid_mflx.box numcomp)
    let area_fab := MFFillFab area fbid_area (st.2.2.resize fbid_mflx.box 1)
    let fabindex := fbid_mflx.FabIndex
    if ¬ ((st.1.bndry the_face).distributionMap fabindex = MyProc) then Except.error st.1
    else
      let fab := (st.1.bndry the_face).fabs fabindex
      Except.ok (st.1.setFab the_face fabindex
        (FORT_FRCAINIT fab destcomp mflx_fab area_fab fbid_mflx.box numcomp dir mult),
        mflx_fab, area_fab)

/-- The function `FluxRegister::CrseInit(const MultiFab& mflx, const MultiFab& area, ...)`
(lines 543-683), overload A, run by process `MyProc` (the fetches being resolved by
`CollectData`). -/
def CrseInitMF [Mul R] [Inhabited R] (MyProc : Nat) (r : FluxRegister D R)
    (mflx area : MultiFab D R) (dir : Fin D) (srccomp destcomp numcomp : Int) (mult : R) :
    Except (FluxRegister D R) (FluxRegister D R) :=
  if ¬ (0 ≤ srccomp ∧ srccomp + numcomp ≤ mflx.nComp) then Except.error r
  else if ¬ (0 ≤ destcomp ∧ destcomp + numcomp ≤ r.ncomp) then Except.error r
  else
    match (crseMFRegister MyProc r mflx dir srccomp numcomp).foldlM
        (crseMFApply MyProc mflx area dir destcomp numcomp mult)
        (r, FArrayBox.alloc default 0, FArrayBox.alloc default 0) with
    | Except.error e => Except.error e
    | Except.ok st => Except.ok st.1

/-- A component range of a call is out of bounds: `srccomp < 0`, or `srccomp + numcomp`
exceeds the component count `srcN` of the source flux, or `destcomp < 0`, or
`destcomp + numcomp > ncomp`. -/
def badComps (srccomp destcomp numcomp srcN ncomp : Int) : Prop :=
  srccomp < 0 ∨ srcN < srccomp + numcomp ∨ destcomp < 0 ∨ ncomp < destcomp + numcomp

/-- Spec wording of the batch `FineAdd`: "calling the corresponding single-patch overload
once for every locally owned box", the boxes given as the list of their indices. -/
def callForEach (call : FluxRegister D R → Nat → Except (FluxRegister D R) (FluxRegister D R)) :
    List Nat → FluxRegister D R → Except (FluxRegister D R) (FluxRegister D R)
  | [], r => Except.ok r
  | k :: ks, r =>
    match call r k with
    | Except.error e => Except.error e
    | Except.ok r1 => callForEach call ks r1

/-- The frame of a single-patch `FineAdd` that turned the register `r` into `r'`: boxes,
owners, `grids`, `ncomp` and `ratio` are kept; every entry for another box index or another
axis is unchanged; and the two entries of box `boxno` on axis `dir` keep their box, their
component count and every value outside the components `[destcomp, destcomp + numcomp)`. -/
def FineAddFrame (r r' : FluxRegister D R) (dir : Fin D) (boxno : Nat)
    (destcomp numcomp : Int) : Prop :=
  r.sameShape r' ∧
  (∀ (f : Orientation D) (j : Nat), ¬ (f.coordDir = dir ∧ j = boxno) →
    (r'.bndry f).fabs j = (r.bndry f).fabs j) ∧
  ∀ s : Side,
    ((r'.bndry ⟨dir, s⟩).fabs boxno).box = ((r.bndry ⟨dir, s⟩).fabs boxno).box ∧
    ((r'.bndry ⟨dir, s⟩).fabs boxno).nComp = ((r.bndry ⟨dir, s⟩).fabs boxno).nComp ∧
    ∀ (p : IntVect D) (c : Int), ¬ (destcomp ≤ c ∧ c < destcomp + numcomp) →
      ((r'.bndry ⟨dir, s⟩).fabs boxno).data p c = ((r.bndry ⟨dir, s⟩).fabs boxno).data p c

/-- Two register states hold the same values on the region a call of `CrseInit` overload B
by process `MyProc` touches in the register `r`: the locally owned face boxes of axis `dir`
intersected with `subbox`, components `[destcomp, destcomp + numcomp)`. -/
def crseTouchedAgree (MyProc : Nat) (r : FluxRegister D R) (subbox : Box D) (dir : Fin D)
    (destcomp numcomp : Int) (r1 r2 : FluxRegister D R) : Prop :=
  ∀ (s : Side) (k : Nat), k < r.grids.length →
    (r.bndry ⟨dir, s⟩).distributionMap k = MyProc →
    ∀ (p : IntVect D) (c : Int), subbox.containsPt p →
      ((r.bndry ⟨dir, s⟩).box k).containsPt p → destcomp ≤ c → c < destcomp + numcomp →
      ((r1.bndry ⟨dir, s⟩).fabs k).data p c = ((r2.bndry ⟨dir, s⟩).fabs k).data p c

/-- The arrays the unpack loop (lines 1033-1054) rebuilds from the descriptors of one sender
and the received run `dptr`, each paired with its descriptor: the run is split by the
descriptors' sizes (`fab.resize`, `memcpy`, `dptr += N`). -/
def unpackFabs [Inhabited R] : List (CommData D) → List R → List (CommData D × FArrayBox D R)
  | [], _ => []
  | cd :: cds, dptr =>
    let fab : FArrayBox D R :=
      FArrayBox.ofList cd.box cd.nComp (dptr.take (cd.box.numPts * cd.nComp).toNat)
    (cd, fab) :: unpackFabs cds (dptr.drop (fab.box.numPts * fab.nComp).toNat)

/-- What the unpack loop does with one rebuilt array: the size assertion, the ownership
check, and the copy into the Face Storage entry named by the descriptor. -/
def unpackStore [Inhabited R] (MyProc : Nat) (r : FluxRegister D R)
    (e : CommData D × FArrayBox D R) : Option (FluxRegister D R) :=
  if ¬ e.2.box.numPts * e.2.nComp < INT_MAX then none
  else if (r.bndry e.1.face).distributionMap e.1.fabindex ≠ MyProc then none
  else
    some (r.setFab e.1.face e.1.fabindex
      (((r.bndry e.1.face).fabs e.1.fabindex).copy e.2 e.2.box 0 e.2.box e.1.srcComp
        e.1.nComp))

/-- The list invariant of the pending contributions of process `MyProc`: `CITags` and
`CIFabs` have the same length; the buffer and the tag of one index (paired by `zip`) agree
in box and component count; for every process `i`, `CIMsgs[i]` is the number of tags with
`toProc = i`; and `CIMsgs[MyProc] = 0`. -/
def CIInv (MyProc NProcs : Nat) (ci : CIState D R) : Prop :=
  ci.CITags.length = ci.CIFabs.length ∧
  (∀ x ∈ ci.CITags.zip ci.CIFabs, x.2.box = x.1.box ∧ x.2.nComp = x.1.nComp) ∧
  (∀ i, i < NProcs →
    ci.CIMsgs.getD i 0 = (ci.CITags.filter (fun t => t.toProc = i)).length) ∧
  ci.CIMsgs.getD MyProc 0 = 0

/-- The assertions of `CrseInitFinish` at lines 797, 802, 892, 977, 978 and 992 hold for
the statics `ci` of process `MyProc` (after the resize of lines 799-800): the entry
assertions hold, and the two send loops towards any process `i` complete unless the
payload size check `N < INT_MAX` is what fails. -/
def FinishAssertsHold (MyProc NProcs : Nat) (ci : CIState D R) : Prop :=
  ((ci.resized NProcs).CITags.length = (ci.resized NProcs).CIFabs.length ∧
    (ci.resized NProcs).CIMsgs.getD MyProc 0 = 0) ∧
  ∀ i, i < NProcs → sizeT (sendCount (ci.resized NProcs).CITags i) < INT_MAX →
    ∃ msg, sendTo MyProc (ci.resized NProcs) i = some msg

/-! ## Concrete inputs used by the examples -/

/-- Two overlapping one-dimensional fine boxes, `[0,3]` and `[2,5]`. -/
def exOverlapBoxes : BoxArray 1 :=
  [⟨![0], ![3], ![false]⟩, ⟨![2], ![5], ![false]⟩]

/-- The fine box `[(4,4)-(11,11)]` of the two-dimensional scenario. -/
def exFineBoxes2 : BoxArray 2 := [⟨![4, 4], ![11, 11], ![false, false]⟩]

/-- A one-dimensional register over the box `[2,5]`, one process: the low-face buffer
holds 7, the high-face buffer holds its own index (6). -/
def exReg1 : FluxRegister 1 Int :=
  { grids := [⟨![2], ![5], ![false]⟩]
    bndry := fun f => match f.side with
      | Side.low =>
        ⟨[⟨![2], ![2], ![true]⟩], fun _ => 0, fun _ => ⟨⟨![2], ![2], ![true]⟩, 1, fun _ _ => 7⟩⟩
      | Side.high =>
        ⟨[⟨![6], ![6], ![true]⟩], fun _ => 0, fun _ => ⟨⟨![6], ![6], ![true]⟩, 1, fun p _ => p 0⟩⟩
    fine_level := 1
    ncomp := 1
    ratio := ![2] }

/-- A one-dimensional register over the boxes `[2,5]` (owned by process 0) and `[10,13]`
(owned by process 1), one component, all values zero. -/
def exReg2 : FluxRegister 1 Int :=
  { grids := [⟨![2], ![5], ![false]⟩, ⟨![10], ![13], ![false]⟩]
    bndry := fun f => match f.side with
      | Side.low =>
        ⟨[⟨![2], ![2], ![true]⟩, ⟨![10], ![10], ![true]⟩], fun k => k,
         fun k => ⟨if k = 0 then ⟨![2], ![2], ![true]⟩ else ⟨![10], ![10], ![true]⟩, 1,
           fun _ _ => 0⟩⟩
      | Side.high =>
        ⟨[⟨![6], ![6], ![true]⟩, ⟨![14], ![14], ![true]⟩], fun k => k,
         fun k => ⟨if k = 0 then ⟨![6], ![6], ![true]⟩ else ⟨![14], ![14], ![true]⟩, 1,
           fun _ _ => 0⟩⟩
    fine_level := 1
    ncomp := 1
    ratio := ![2] }

/-- A one-component flux patch over the faces `0..16` whose value at face `i` is `i`. -/
def exFlux : FArrayBox 1 Int := ⟨⟨![0], ![16], ![true]⟩, 1, fun p _ => p 0⟩

/-- The region `0..16` of faces. -/
def exSub : Box 1 := ⟨![0], ![16], ![true]⟩

/-- Two processes at program start, with the register `exReg2`. -/
def exWorld0 : World 1 Int := ⟨exReg2, fun _ => CIState.init⟩

/-- The call `CrseInit(exFlux, exSub, 0, 0, 0, 1, 3)` made by process 0. -/
def exCall : CrseInitCall 1 Int :=
  { MyProc := 0, flux := exFlux, subbox := exSub, dir := 0, srccomp := 0, destcomp := 0,
    numcomp := 1, mult := 3 }

/-- A one-dimensional register over the box `[4,7]`: a unit flux stored on the low face
(face index 4), nothing on the high face (face index 8). -/
def exRegLow : FluxRegister 1 ℚ :=
  { grids := [⟨![4], ![7], ![false]⟩]
    bndry := fun f => match f.side with
      | Side.low =>
        ⟨[⟨![4], ![4], ![true]⟩], fun _ => 0, fun _ => ⟨⟨![4], ![4], ![true]⟩, 1, fun _ _ => 1⟩⟩
      | Side.high =>
        ⟨[⟨![8], ![8], ![true]⟩], fun _ => 0, fun _ => ⟨⟨![8], ![8], ![true]⟩, 1, fun _ _ => 0⟩⟩
    fine_level := 1
    ncomp := 1
    ratio := ![2] }

/-- The same register with the unit flux on the high face instead. -/
def exRegHigh : FluxRegister 1 ℚ :=
  { grids := [⟨![4], ![7], ![false]⟩]
    bndry := fun f => match f.side with
      | Side.low =>
        ⟨[⟨![4], ![4], ![true]⟩], fun _ => 0, fun _ => ⟨⟨![4], ![4], ![true]⟩, 1, fun _ _ => 0⟩⟩
      | Side.high =>
        ⟨[⟨![8], ![8], ![true]⟩], fun _ => 0, fun _ => ⟨⟨![8], ![8], ![true]⟩, 1, fun _ _ => 1⟩⟩
    fine_level := 1
    ncomp := 1
    ratio := ![2] }

/-- A one-component coarse solution over the single box `[0,15]`, every value 10. -/
def exS : MultiFab 1 ℚ :=
  ⟨[⟨![0], ![15], ![false]⟩], fun _ => 0, fun _ => ⟨⟨![0], ![15], ![false]⟩, 1, fun _ _ => 10⟩⟩

/-- Unit cell volumes over `[0,15]`. -/
def exVol : MultiFab 1 ℚ :=
  ⟨[⟨![0], ![15], ![false]⟩], fun _ => 0, fun _ => ⟨⟨![0], ![15], ![false]⟩, 1, fun _ _ => 1⟩⟩

/-- The domain `[0,15]`, not periodic, unit cell size. -/
def exGeom : Geometry 1 ℚ := ⟨⟨![0], ![15], ![false]⟩, ![false], ![1]⟩

/-- The domain `[0,15]`, periodic, unit cell size. -/
def exGeomPer : Geometry 1 ℚ := ⟨⟨![0], ![15], ![false]⟩, ![true], ![1]⟩

/-- A one-dimensional register over the box `[0,3]`, which touches the low end of the
domain `[0,15]`; a unit flux on each of its two faces (face indices 0 and 4). -/
def exRegEdge : FluxRegister 1 ℚ :=
  { grids := [⟨![0], ![3], ![false]⟩]
    bndry := fun f => match f.side with
      | Side.low =>
        ⟨[⟨![0], ![0], ![true]⟩], fun _ => 0, fun _ => ⟨⟨![0], ![0], ![true]⟩, 1, fun _ _ => 1⟩⟩
      | Side.high =>
        ⟨[⟨![4], ![4], ![true]⟩], fun _ => 0, fun _ => ⟨⟨![4], ![4], ![true]⟩, 1, fun _ _ => 1⟩⟩
    fine_level := 1
    ncomp := 1
    ratio := ![2] }

/-- A fine flux patch over the faces `4..6` (they coarsen to `2..3`), every value 1: it
covers the low face of `exReg1` but not its high face. -/
def exFineLow : FArrayBox 1 Int := ⟨⟨![4], ![6], ![true]⟩, 1, fun _ _ => 1⟩

/-- A fine flux patch over the faces `4..12` (they coarsen to `2..6`), every value 1: it
covers both faces of `exReg1`. -/
def exFineFull : FArrayBox 1 Int := ⟨⟨![4], ![12], ![true]⟩, 1, fun _ _ => 1⟩

/-- A fine flux patch over the faces `8..12` (they coarsen to `4..6`), every value 1: it
covers the high face of `exReg1` but not its low face. -/
def exFineHigh : FArrayBox 1 Int := ⟨⟨![8], ![12], ![true]⟩, 1, fun _ _ => 1⟩

/-- A one-box distributed fine flux over the faces `4..12`, owned by process 0. -/
def exFineMF : MultiFab 1 Int := ⟨[⟨![4], ![12], ![true]⟩], fun _ => 0, fun _ => exFineFull⟩

/-- The statics of process 0 of 2 after the call `exCall`: two contributions for process 1,
the low face (index 10) and the high face (index 14) of register box 1, holding three times
the face index. -/
def exPending : CIState 1 Int :=
  { CIMsgs := [0, 2]
    CITags := [⟨1, 1, ⟨![10], ![10], ![true]⟩, ⟨0, Side.low⟩, 0, 1⟩,
      ⟨1, 1, ⟨![14], ![14], ![true]⟩, ⟨0, Side.high⟩, 0, 1⟩]
    CIFabs := [⟨⟨![10], ![10], ![true]⟩, 1, fun _ _ => 30⟩,
      ⟨⟨![14], ![14], ![true]⟩, 1, fun _ _ => 42⟩] }

/-- The two-dimensional coarse solution of the scenario: one box `[(0,0)-(15,15)]` owned by
process 0, one component, every value 10. -/
def exS2 : MultiFab 2 ℚ :=
  ⟨[⟨![0, 0], ![15, 15], ![false, false]⟩], fun _ => 0,
    fun _ => ⟨⟨![0, 0], ![15, 15], ![false, false]⟩, 1, fun _ _ => 10⟩⟩

/-- The domain `[(0,0)-(15,15)]` of the scenario, not periodic, unit cell size. -/
def exGeom2 : Geometry 2 ℚ :=
  ⟨⟨![0, 0], ![15, 15], ![false, false]⟩, ![false, false], ![1, 1]⟩

/-- The coarse flux of the scenario: the x-faces of the domain `[(0,0)-(15,15)]`, one
component, every value 7. -/
def exCrse2 : FArrayBox 2 ℚ := ⟨⟨![0, 0], ![16, 15], ![true, false]⟩, 1, fun _ _ => 7⟩

/-- The x-low face of the coarsened fine box `[(2,2)-(5,5)]`: the faces `(2, y)` with `y` in
`2..5`. -/
def exSub2 : Box 2 := ⟨![2, 2], ![2, 5], ![true, false]⟩

/-- The fine flux of the scenario: the x-faces of the fine box `[(4,4)-(11,11)]`, one
component, every value 4. -/
def exFine2 : FArrayBox 2 ℚ := ⟨⟨![4, 4], ![12, 11], ![true, false]⟩, 1, fun _ _ => 4⟩

/-- The register of the scenario: what `define` leaves for the fine box `[(4,4)-(11,11)]`,
ratio `(2,2)` and one component, every box owned by process 0. -/
def exRegDef2 : FluxRegister 2 ℚ :=
  match FluxRegister.define (fun _ _ => 0) FluxRegister.empty exFineBoxes2 ![2, 2] 1 1 with
  | Except.ok r => r
  | Except.error r => r

/-- The machine of the scenario before the accumulation cycle: the register `exRegDef2` and
the statics of every process as at program start. -/
def exWorld2 : World 2 ℚ := ⟨exRegDef2, fun _ => CIState.init⟩

end FluxReg


/-! # Theorems -/

namespace FluxReg

variable {D : Nat} {R : Type}

/-! ## `define` -/

/-- The Face Storage buffer `BndryRegister::define` builds for one orientation from `grids`
in the call `define(face, typ, 0, 1, 0, nvar)` with `typ` node-centred along the face axis only. -/
theorem BndryRegister.define_bndry [Zero R] (dmapOf : BoxArray D → Nat → Nat)
    (r : FluxRegister D R) (face : Orientation D) (typ : Fin D → Bool)
    (a b c n : Int) (f : Orientation D) (hf : f ≠ face) :
    (BndryRegister.define dmapOf r face typ a b c n).bndry f = r.bndry f := by
  simp [BndryRegister.define, hf]

theorem foldl_skip_all {α : Type} (l : List (Fin D)) (g : α → Fin D → α) (b : α)
    (h : ∀ x d, d ∈ l → g x d = x) : l.foldl g b = b := by
  induction l generalizing b with
  | nil => rfl
  | cons d l ih =>
    rw [List.foldl_cons, h b d (List.mem_cons_self _ _)]
    exact ih b (fun x e he => h x e (List.mem_cons_of_mem _ he))

/-- With `in_rad = 0`, `extent_rad = 0` and an index type that is node-centred along the
face axis only, the box built for a register box `g` is `bdryNode g face out_rad`. -/
theorem faceBox_eq (g : Box D) (dir : Fin D) (s : Side) (out_rad : Int) :
    BndryRegister.faceBox ⟨dir, s⟩ (IndexType.setType IndexType.TheCellType dir true)
        0 out_rad 0 g
      = g.bdryNode ⟨dir, s⟩ out_rad := by
  unfold BndryRegister.faceBox
  simp only [IndexType.setType, IndexType.TheCellType, if_true, lt_irrefl, if_false]
  apply foldl_skip_all
  intro x d _
  by_cases h : d = dir <;> simp [h]

/-- The register after the two `BndryRegister::define` calls of one loop iteration. -/
theorem defineDir_spec [Zero R] (dmapOf : BoxArray D → Nat → Nat) (nvar : Int)
    (r : FluxRegister D R) (dir : Fin D) :
    let r' := FluxRegister.defineDir dmapOf nvar r dir
    r'.grids = r.grids ∧ r'.ratio = r.ratio ∧ r'.fine_level = r.fine_level ∧
    r'.ncomp = r.ncomp ∧
    (∀ f : Orientation D, f.coordDir ≠ dir → r'.bndry f = r.bndry f) ∧
    (∀ s : Side,
      (r'.bndry ⟨dir, s⟩).boxarray = r.grids.map (fun g => g.bdryNode ⟨dir, s⟩ 1) ∧
      (r'.bndry ⟨dir, s⟩).distributionMap =
        dmapOf (r.grids.map (fun g => g.bdryNode ⟨dir, s⟩ 1)) ∧
      (∀ k, (r'.bndry ⟨dir, s⟩).fabs k =
        ⟨BoxArray.getBox (r.grids.map (fun g => g.bdryNode ⟨dir, s⟩ 1)) k, nvar,
          fun _ _ => 0⟩)) := by
  have hb : ∀ (s : Side),
      BndryRegister.faceBox ⟨dir, s⟩ (IndexType.setType IndexType.TheCellType dir true) 0 1 0
        = fun g => g.bdryNode ⟨dir, s⟩ 1 := fun s => funext (fun g => faceBox_eq g dir s 1)
  refine ⟨rfl, rfl, rfl, rfl, ?_, ?_⟩
  · intro f hf
    have h1 : f ≠ ⟨dir, Side.low⟩ := fun h => hf (by rw [h])
    have h2 : f ≠ ⟨dir, Side.high⟩ := fun h => hf (by rw [h])
    simp [FluxRegister.defineDir, BndryRegister.define, h1, h2]
  · intro s
    cases s
    · simp only [FluxRegister.defineDir, BndryRegister.define, hb]
      simp
    · simp only [FluxRegister.defineDir, BndryRegister.define, hb]
      simp

/-- The loop of `define` over a list of distinct axes: the buffers of the listed axes are
built from `grids`, everything else is kept. -/
theorem defineLoop_spec [Zero R] (dmapOf : BoxArray D → Nat → Nat) (nvar : Int)
    (l : List (Fin D)) (r : FluxRegister D R) :
    let r' := l.foldl (FluxRegister.defineDir dmapOf nvar) r
    r'.grids = r.grids ∧ r'.ratio = r.ratio ∧ r'.fine_level = r.fine_level ∧
    r'.ncomp = r.ncomp ∧
    (∀ f : Orientation D, f.coordDir ∉ l → r'.bndry f = r.bndry f) ∧
    (∀ dir ∈ l, ∀ s : Side,
      (r'.bndry ⟨dir, s⟩).boxarray = r.grids.map (fun g => g.bdryNode ⟨dir, s⟩ 1) ∧
      (r'.bndry ⟨dir, s⟩).distributionMap =
        dmapOf (r.grids.map (fun g => g.bdryNode ⟨dir, s⟩ 1)) ∧
      (∀ k, (r'.bndry ⟨dir, s⟩).fabs k =
        ⟨BoxArray.getBox (r.grids.map (fun g => g.bdryNode ⟨dir, s⟩ 1)) k, nvar,
          fun _ _ => 0⟩)) := by
  induction l using List.reverseRecOn generalizing r with
  | nil => simp
  | append_singleton l d ih =>
    intro r'
    have hr' : r' = FluxRegister.defineDir dmapOf nvar
        (l.foldl (FluxRegister.defineDir dmapOf nvar) r) d := by
      simp [r', List.foldl_append]
    obtain ⟨g1, g2, g3, g4, g5, g6⟩ := ih r
    obtain ⟨e1, e2, e3, e4, e5, e6⟩ :=
      defineDir_spec dmapOf nvar (l.foldl (FluxRegister.defineDir dmapOf nvar) r) d
    rw [hr']
    refine ⟨e1.trans g1, e2.trans g2, e3.trans g3, e4.trans g4, ?_, ?_⟩
    · intro f hf
      have hfd : f.coordDir ≠ d := fun h => hf (by simp [h])
      have hfl : f.coordDir ∉ l := fun h => hf (by simp [h])
      rw [e5 f hfd, g5 f hfl]
    · intro dir hdir s
      by_cases hd : dir = d
      · subst hd
        have := e6 s
        rw [g1] at this
        exact this
      · have hl : dir ∈ l := by
          rcases List.mem_append.1 hdir with h | h
          · exact h
          · exact absurd (List.mem_singleton.1 h) hd
        have hne : (⟨dir, s⟩ : Orientation D).coordDir ≠ d := hd
        rw [e5 ⟨dir, s⟩ hne]
        exact g6 dir hl s

/-- C1: `FluxRegister::define` fails without having modified any field of the register
(the aborting state is the register it was called on: `ratio`, `fine_level`, `ncomp`,
`grids` and every Face Storage buffer are the old ones) whenever `fine_boxes` is not
pairwise disjoint or the register's `grids` are already defined. -/
theorem define_fails_unmodified [Zero R] (dmapOf : BoxArray D → Nat → Nat)
    (r : FluxRegister D R) (fine_boxes : BoxArray D) (ref_ratio : IntVect D)
    (fine_lev nvar : Int)
    (h : ¬ BoxArray.isDisjoint fine_boxes ∨ BoxArray.ready r.grids) :
    FluxRegister.define dmapOf r fine_boxes ref_ratio fine_lev nvar = Except.error r := by
  unfold FluxRegister.define
  by_cases hd : BoxArray.isDisjoint fine_boxes
  · rcases h with h | h
    · exact absurd hd h
    · simp [hd, h]
  · simp [hd]

/-- C1, at a concrete input: `define` on the two overlapping boxes `[0,3]`, `[2,5]` aborts
with the register untouched. -/
theorem define_fails_unmodified_witness :
    (¬ BoxArray.isDisjoint exOverlapBoxes ∨
        BoxArray.ready (FluxRegister.empty : FluxRegister 1 Int).grids) ∧
      FluxRegister.define (fun _ _ => 0) (FluxRegister.empty : FluxRegister 1 Int)
        exOverlapBoxes ![2] 1 1 = Except.error FluxRegister.empty :=
  ⟨Or.inl (by decide),
   define_fails_unmodified (fun _ _ => 0) FluxRegister.empty exOverlapBoxes ![2] 1 1
     (Or.inl (by decide))⟩

end FluxReg


namespace FluxReg

variable {D : Nat} {R : Type}

theorem getBox_map (ba : BoxArray D) (f : Box D → Box D) (k : Nat) (hk : k < ba.length) :
    BoxArray.getBox (ba.map f) k = f (BoxArray.getBox ba k) := by
  unfold BoxArray.getBox
  rw [List.getD_eq_getElem _ _ (by simpa using hk), List.getD_eq_getElem _ _ hk]
  simp

/-- C2: a `define` on an undefined register with pairwise-disjoint `fine_boxes` succeeds and
leaves `grids` equal to `fine_boxes` coarsened box by box by `ratio` (same length and
order), stores `ratio`, `fine_level = fine_lev`, `ncomp = nvar`, and defines for every axis
`dir` the two face buffers (`dir`, low) and (`dir`, high): one box per register box, with
`nvar` components, node-centred along `dir`, of the index type of the fine boxes along the
other axes (cell-centred when the fine boxes are), a single layer along `dir` on the
boundary of the register box (the faces it shares with the exterior cell layer
`adjCell`), and with the extent of the register box along the other axes. -/
theorem define_ok_spec [Zero R] (dmapOf : BoxArray D → Nat → Nat)
    (r : FluxRegister D R) (fine_boxes : BoxArray D) (ref_ratio : IntVect D)
    (fine_lev nvar : Int)
    (hd : BoxArray.isDisjoint fine_boxes) (hr : ¬ BoxArray.ready r.grids) :
    ∃ r', FluxRegister.define dmapOf r fine_boxes ref_ratio fine_lev nvar = Except.ok r' ∧
      r'.grids = fine_boxes.map (fun b => b.coarsen ref_ratio) ∧
      r'.grids.length = fine_boxes.length ∧
      r'.ratio = ref_ratio ∧ r'.fine_level = fine_lev ∧ r'.ncomp = nvar ∧
      ∀ (dir : Fin D) (s : Side),
        (r'.bndry ⟨dir, s⟩).length = fine_boxes.length ∧
        ∀ k, k < fine_boxes.length →
          ((r'.bndry ⟨dir, s⟩).fabs k).box = (r'.bndry ⟨dir, s⟩).box k ∧
          ((r'.bndry ⟨dir, s⟩).fabs k).nComp = nvar ∧
          ((r'.bndry ⟨dir, s⟩).box k).btype dir = true ∧
          (∀ d, d ≠ dir → ((r'.bndry ⟨dir, s⟩).box k).btype d =
            (BoxArray.getBox fine_boxes k).btype d) ∧
          ((∀ d, (BoxArray.getBox fine_boxes k).btype d = false) →
            ∀ d, d ≠ dir → ((r'.bndry ⟨dir, s⟩).box k).btype d = false) ∧
          ((r'.bndry ⟨dir, s⟩).box k).smallend dir = ((r'.bndry ⟨dir, s⟩).box k).bigend dir ∧
          ((r'.bndry ⟨dir, s⟩).box k).smallend dir =
            (match s with
              | Side.low => ((BoxArray.getBox r'.grids k).adjCell ⟨dir, s⟩ 1).bigend dir + 1
              | Side.high => ((BoxArray.getBox r'.grids k).adjCell ⟨dir, s⟩ 1).smallend dir) ∧
          ((r'.bndry ⟨dir, s⟩).box k).smallend dir =
            (match s with
              | Side.low => (BoxArray.getBox r'.grids k).smallend dir
              | Side.high => (BoxArray.getBox r'.grids k).bigend dir + 1) ∧
          (∀ d, d ≠ dir →
            ((r'.bndry ⟨dir, s⟩).box k).smallend d = (BoxArray.getBox r'.grids k).smallend d ∧
            ((r'.bndry ⟨dir, s⟩).box k).bigend d = (BoxArray.getBox r'.grids k).bigend d) := by
  obtain ⟨r2, hr2⟩ : ∃ r2 : FluxRegister D R, r2 =
      { grids := BoxArray.coarsen fine_boxes ref_ratio, bndry := r.bndry,
        fine_level := fine_lev, ncomp := nvar, ratio := ref_ratio } := ⟨_, rfl⟩
  have hgr : r2.grids = fine_boxes.map (fun b => b.coarsen ref_ratio) := by rw [hr2]; rfl
  obtain ⟨rr, hrr⟩ : ∃ rr, rr = (List.finRange D).foldl (FluxRegister.defineDir dmapOf nvar) r2 :=
    ⟨_, rfl⟩
  obtain ⟨g1, g2, g3, g4, -, g6⟩ := defineLoop_spec dmapOf nvar (List.finRange D) r2
  simp only [← hrr] at g1 g2 g3 g4 g6
  have hdef : FluxRegister.define dmapOf r fine_boxes ref_ratio fine_lev nvar = Except.ok rr := by
    unfold FluxRegister.define
    rw [if_neg (not_not.2 hd), if_neg hr, hrr, hr2]
  have hlen : r2.grids.length = fine_boxes.length := by rw [hgr]; simp
  refine ⟨rr, hdef, g1.trans hgr, by rw [g1, hlen], g2.trans (by rw [hr2]),
    g3.trans (by rw [hr2]), g4.trans (by rw [hr2]), ?_⟩
  intro dir s
  obtain ⟨h1, -, h3⟩ := g6 dir (List.mem_finRange dir) s
  refine ⟨?_, ?_⟩
  · simp [FabArray.length, h1, hlen]
  · intro k hk
    have hk2 : k < r2.grids.length := by rw [hlen]; exact hk
    have hbox : FabArray.box (rr.bndry ⟨dir, s⟩) k
        = (BoxArray.getBox r2.grids k).bdryNode ⟨dir, s⟩ 1 := by
      unfold FabArray.box
      rw [h1, getBox_map _ _ _ hk2]
    have hco : BoxArray.getBox r2.grids k
        = (BoxArray.getBox fine_boxes k).coarsen ref_ratio := by
      rw [hgr]; exact getBox_map _ _ _ hk
    rw [hbox, h3 k, g1, getBox_map _ _ _ hk2]
    refine ⟨rfl, rfl, ?_, ?_, ?_, ?_, ?_, ?_, ?_⟩
    · cases s <;> simp [Box.bdryNode]
    · intro d hdd
      rw [hco]
      cases s <;> simp [Box.bdryNode, Box.coarsen, hdd]
    · intro hc d hdd
      rw [hco]
      cases s <;> simp [Box.bdryNode, Box.coarsen, hdd, hc]
    · cases s <;> simp [Box.bdryNode]
    · cases s <;> simp [Box.bdryNode, Box.adjCell]
    · cases s <;> simp [Box.bdryNode]
    · intro d hdd
      cases s <;> simp [Box.bdryNode, hdd]

/-- C2, at a concrete input: `define` of an empty two-dimensional register from the fine box
`[(4,4)-(11,11)]` with ratio `(2,2)` and one component succeeds. -/
theorem define_ok_spec_witness :
    BoxArray.isDisjoint exFineBoxes2 ∧
      ¬ BoxArray.ready (FluxRegister.empty : FluxRegister 2 Int).grids ∧
      ∃ r', FluxRegister.define (fun _ _ => 0) (FluxRegister.empty : FluxRegister 2 Int)
          exFineBoxes2 ![2, 2] 1 1 = Except.ok r' ∧
        r'.grids = exFineBoxes2.map (fun b => b.coarsen ![2, 2]) ∧ r'.ncomp = 1 :=
  ⟨by decide, by decide,
   (define_ok_spec (fun _ _ => 0) (FluxRegister.empty : FluxRegister 2 Int) exFineBoxes2
      ![2, 2] 1 1 (by decide) (by decide)).imp
     (fun _ h => ⟨h.1, h.2.1, h.2.2.2.2.2.1⟩)⟩

/-! ## `SumReg` -/

theorem foldl_add_eq_sum [AddCommMonoid R] {α : Type} (l : List α) (f : α → R) (a : R) :
    l.foldl (fun s x => s + f x) a = a + (l.map f).sum := by
  induction l generalizing a with
  | nil => simp
  | cons x l ih => simp [ih, add_assoc]

theorem foldl_add_sub_eq_sum [AddCommGroup R] {α : Type} (l : List α) (f g : α → R) (a : R) :
    l.foldl (fun s x => (s + f x) - g x) a = a + (l.map (fun x => f x - g x)).sum := by
  induction l generalizing a with
  | nil => simp
  | cons x l ih => simp [ih]; abel

/-- The local sum of one process, as a sum over axes and over the locally owned boxes. -/
theorem SumRegLocal_eq [AddCommGroup R] (r : FluxRegister D R) (MyProc : Nat) (comp : Int) :
    r.SumRegLocal MyProc comp =
      ∑ dir : Fin D, ∑ k in (Finset.range (r.bndry ⟨dir, Side.low⟩).length).filter
          (fun k => (r.bndry ⟨dir, Side.low⟩).distributionMap k = MyProc),
        (((r.bndry ⟨dir, Side.low⟩).fabs k).sum comp -
          ((r.bndry ⟨dir, Side.high⟩).fabs k).sum comp) := by
  unfold FluxRegister.SumRegLocal
  have h : ∀ (l : List (Fin D)) (a : R),
      l.foldl (fun sum dir =>
        ((r.bndry ⟨dir, Side.low⟩).localIndices MyProc).foldl (fun sum k =>
          (sum + ((r.bndry ⟨dir, Side.low⟩).fabs k).sum comp) -
            ((r.bndry ⟨dir, Side.high⟩).fabs k).sum comp) sum) a
      = a + (l.map (fun dir =>
          (((r.bndry ⟨dir, Side.low⟩).localIndices MyProc).map (fun k =>
            ((r.bndry ⟨dir, Side.low⟩).fabs k).sum comp -
              ((r.bndry ⟨dir, Side.high⟩).fabs k).sum comp)).sum)).sum := by
    intro l
    induction l with
    | nil => intro a; simp
    | cons d l ih =>
      intro a
      rw [List.foldl_cons, ih, foldl_add_sub_eq_sum]
      simp [add_assoc]
  simp only []
  rw [h, zero_add]
  rw [← List.sum_toFinset _ (List.nodup_finRange D)]
  simp only [List.toFinset_finRange]
  refine Finset.sum_congr rfl (fun dir _ => ?_)
  unfold FabArray.localIndices
  rw [← List.sum_toFinset _ ((List.nodup_range _).filter _)]
  congr 1
  ext k
  simp

/-- C3: `SumReg(comp)` returns the sum, over every axis and every register box, of (the sum
of the low-face buffer's values in component `comp`) minus (the sum of the high-face
buffer's values in component `comp`), each buffer being summed over the indices of its
box.  (`SumReg` is a `const` member: the embedding takes the register and returns the
number only, no Face Storage buffer is written.) -/
theorem SumReg_eq [AddCommGroup R] (NProcs : Nat) (r : FluxRegister D R) (comp : Int)
    (hown : ∀ (dir : Fin D) (k : Nat), k < (r.bndry ⟨dir, Side.low⟩).length →
      (r.bndry ⟨dir, Side.low⟩).distributionMap k < NProcs) :
    r.SumReg NProcs comp =
      ∑ dir : Fin D, ∑ k in Finset.range (r.bndry ⟨dir, Side.low⟩).length,
        ((((r.bndry ⟨dir, Side.low⟩).fabs k).box.pts.map
            (fun p => ((r.bndry ⟨dir, Side.low⟩).fabs k).data p comp)).sum -
         (((r.bndry ⟨dir, Side.high⟩).fabs k).box.pts.map
            (fun p => ((r.bndry ⟨dir, Side.high⟩).fabs k).data p comp)).sum) := by
  have hsum : ∀ f : FArrayBox D R, f.sum comp = (f.box.pts.map (fun p => f.data p comp)).sum := by
    intro f
    unfold FArrayBox.sum FArrayBox.box
    rw [foldl_add_eq_sum, zero_add]
  unfold FluxRegister.SumReg ReduceRealSum
  rw [foldl_add_eq_sum, zero_add]
  rw [← List.sum_toFinset _ (List.nodup_range _)]
  have hr : (List.range NProcs).toFinset = Finset.range NProcs := by
    ext x; simp
  rw [hr]
  simp only [SumRegLocal_eq]
  rw [Finset.sum_comm]
  refine Finset.sum_congr rfl (fun dir _ => ?_)
  have hswap : ∀ (p k : Nat),
      (p ∈ Finset.range NProcs ∧
        k ∈ (Finset.range (r.bndry ⟨dir, Side.low⟩).length).filter
          (fun k => (r.bndry ⟨dir, Side.low⟩).distributionMap k = p)) ↔
      (p ∈ (Finset.range NProcs).filter
          (fun p => (r.bndry ⟨dir, Side.low⟩).distributionMap k = p) ∧
        k ∈ Finset.range (r.bndry ⟨dir, Side.low⟩).length) := by
    intro p k
    simp only [Finset.mem_filter, Finset.mem_range]
    tauto
  rw [Finset.sum_comm' hswap]
  refine Finset.sum_congr rfl (fun k hk => ?_)
  rw [Finset.sum_const, hsum, hsum]
  have hcard : ((Finset.range NProcs).filter
      (fun p => (r.bndry ⟨dir, Side.low⟩).distributionMap k = p)).card = 1 := by
    rw [Finset.card_eq_one]
    refine ⟨(r.bndry ⟨dir, Side.low⟩).distributionMap k, ?_⟩
    ext p
    simp only [Finset.mem_filter, Finset.mem_range, Finset.mem_singleton]
    constructor
    · rintro ⟨_, h⟩; exact h.symm
    · intro h; subst h; exact ⟨hown dir k (Finset.mem_range.1 hk), rfl⟩
  rw [hcard, one_smul]

/-- C3, at a concrete input: the register `exReg1` (7 on the low face, 6 on the high face)
on one process sums to `7 - 6`. -/
theorem SumReg_eq_witness :
    (∀ (dir : Fin 1) (k : Nat), k < (exReg1.bndry ⟨dir, Side.low⟩).length →
        (exReg1.bndry ⟨dir, Side.low⟩).distributionMap k < 1) ∧
      exReg1.SumReg 1 0 = 7 - 6 :=
  ⟨fun _ _ _ => Nat.zero_lt_one,
   (SumReg_eq 1 exReg1 0 (fun _ _ _ => Nat.zero_lt_one)).trans (by decide)⟩

end FluxReg


namespace FluxReg

variable {D : Nat} {R : Type}

/-! ## The indices of a box and the memory image of an `FArrayBox` -/

theorem mem_idxRange (lo hi x : Int) : x ∈ Box.idxRange lo hi ↔ lo ≤ x ∧ x ≤ hi := by
  unfold Box.idxRange
  simp only [List.mem_map, List.mem_range]
  constructor
  · rintro ⟨i, hi', rfl⟩
    omega
  · rintro ⟨h1, h2⟩
    exact ⟨(x - lo).toNat, by omega, by omega⟩

theorem length_idxRange (lo hi : Int) : (Box.idxRange lo hi).length = (hi - lo + 1).toNat := by
  simp [Box.idxRange]

theorem mem_ptsAux : ∀ (D : Nat) (lo hi p : IntVect D),
    p ∈ Box.ptsAux D lo hi ↔ ∀ d, lo d ≤ p d ∧ p d ≤ hi d
  | 0, lo, hi, p => by
    simp only [Box.ptsAux, List.mem_singleton]
    constructor
    · intro _ d; exact d.elim0
    · intro _; funext d; exact d.elim0
  | D + 1, lo, hi, p => by
    simp only [Box.ptsAux, List.mem_flatMap, List.mem_map, mem_idxRange]
    rw [Fin.forall_fin_succ']
    constructor
    · rintro ⟨x, hx, q, hq, rfl⟩
      have := (mem_ptsAux D _ _ q).1 hq
      refine ⟨fun i => ?_, ?_⟩
      · simpa [Fin.init] using this i
      · simpa using hx
    · rintro ⟨h1, h2⟩
      refine ⟨p (Fin.last D), h2, Fin.init p, ?_, Fin.snoc_init_self p⟩
      exact (mem_ptsAux D _ _ _).2 (fun d => by simpa [Fin.init] using h1 d)

/-- The enumeration `pts` lists exactly the indices inside the box. -/
theorem mem_pts (b : Box D) (p : IntVect D) : p ∈ b.pts ↔ b.containsPt p :=
  mem_ptsAux D b.smallend b.bigend p

theorem length_ptsAux : ∀ (D : Nat) (lo hi : IntVect D),
    ((Box.ptsAux D lo hi).length : Int) = ∏ d : Fin D, (((hi d - lo d + 1).toNat : Nat) : Int)
  | 0, lo, hi => by simp [Box.ptsAux]
  | D + 1, lo, hi => by
    have ih := length_ptsAux D (Fin.init lo) (Fin.init hi)
    rw [Fin.prod_univ_castSucc]
    simp only [Box.ptsAux, List.length_flatMap, List.length_map, Function.comp_def]
    rw [List.map_const', List.sum_replicate, length_idxRange, smul_eq_mul]
    push_cast
    rw [ih, mul_comm]
    rfl

/-- The number of indices of a non-empty box is `numPts`. -/
theorem length_pts (b : Box D) (hb : b.ok) : (b.pts.length : Int) = b.numPts := by
  unfold Box.pts Box.numPts
  rw [length_ptsAux, ← Fin.prod_univ_def]
  refine Finset.prod_congr rfl (fun d _ => ?_)
  have := hb d
  omega

theorem inter_ok_comm (a b : Box D) : (a.inter b).ok ↔ (b.inter a).ok := by
  unfold Box.ok Box.inter
  simp only [max_le_iff, le_min_iff]
  constructor <;> intro h d <;> have := h d <;> tauto

end FluxReg


namespace FluxReg

variable {D : Nat} {R : Type}

theorem getD_blocks {α β : Type} (l : List α) (g : Nat → α → β) (d : β) :
    ∀ (n c i : Nat), c < n → ∀ (hi : i < l.length),
      ((List.range n).flatMap (fun c => l.map (g c))).getD (c * l.length + i) d
        = g c (l.get ⟨i, hi⟩)
  | 0, c, i, hc, _ => absurd hc (Nat.not_lt_zero c)
  | n + 1, c, i, hc, hi => by
    have hlen : ((List.range n).flatMap (fun c => l.map (g c))).length = n * l.length := by
      rw [List.length_flatMap]
      simp only [Function.comp_def, List.length_map, List.map_const', List.sum_replicate,
        List.length_range, smul_eq_mul]
    rw [List.range_succ, List.flatMap_append]
    by_cases hcn : c < n
    · rw [List.getD_append _ _ _ _ (by
        rw [hlen]
        calc c * l.length + i < c * l.length + l.length := by omega
          _ = (c + 1) * l.length := by ring
          _ ≤ n * l.length := Nat.mul_le_mul_right _ hcn)]
      exact getD_blocks l g d n c i hcn hi
    · have hcn' : c = n := by omega
      subst hcn'
      rw [List.getD_append_right _ _ _ _ (by rw [hlen]; omega), hlen]
      simp only [List.flatMap_cons, List.flatMap_nil, List.append_nil,
        Nat.add_sub_cancel_left]
      rw [List.getD_eq_getElem _ _ (by simpa using hi)]
      simp

theorem length_toList (f : FArrayBox D R) :
    f.toList.length = f.nvar.toNat * f.domain.pts.length := by
  unfold FArrayBox.toList
  rw [List.length_flatMap]
  simp only [Function.comp_def, List.length_map, List.map_const', List.sum_replicate,
    List.length_range, smul_eq_mul]

/-- Reading back the memory image: the array rebuilt from `dataPtr()` of `f` over the box
and component count of `f` has the values of `f` at every index of the box and every
component. -/
theorem ofList_toList [Inhabited R] (f : FArrayBox D R) (p : IntVect D) (c : Int)
    (hp : f.domain.containsPt p) (hc0 : 0 ≤ c) (hc1 : c < f.nvar) :
    (FArrayBox.ofList f.domain f.nvar f.toList).data p c = f.data p c := by
  have hmem : p ∈ f.domain.pts := (mem_pts _ _).2 hp
  have hidx : f.domain.pts.indexOf p < f.domain.pts.length := List.indexOf_lt_length.2 hmem
  have hget : f.domain.pts.get ⟨f.domain.pts.indexOf p, hidx⟩ = p := List.indexOf_get hidx
  unfold FArrayBox.ofList FArrayBox.toList
  simp only
  rw [getD_blocks f.domain.pts (fun (c : Nat) p => f.data p (c : Int)) default
    f.nvar.toNat c.toNat _ (by omega) hidx, hget]
  congr 1
  omega

/-- For a non-empty box the element count `numPts × nComp` used by `memcpy` is the length of
the memory image. -/
theorem count_eq_length (f : FArrayBox D R) (hb : f.domain.ok) :
    (f.domain.numPts * f.nvar).toNat = f.toList.length := by
  rw [length_toList, ← length_pts _ hb]
  rcases le_or_lt 0 f.nvar with h | h
  · have : ((f.domain.pts.length : Int) * f.nvar) =
        ((f.nvar.toNat * f.domain.pts.length : Nat) : Int) := by
      push_cast
      rw [Int.toNat_of_nonneg h, mul_comm]
    rw [this, Int.toNat_ofNat]
  · have h0 : f.nvar.toNat = 0 := Int.toNat_eq_zero.2 (le_of_lt h)
    rw [h0, zero_mul, Int.toNat_eq_zero]
    exact mul_nonpos_of_nonneg_of_nonpos (Int.ofNat_nonneg _) (le_of_lt h)

end FluxReg


namespace FluxReg

variable {D : Nat} {R : Type}

/-! ## `CrseInit` overload B -/

theorem sameShape_refl (r : FluxRegister D R) : r.sameShape r :=
  ⟨rfl, rfl, rfl, rfl, fun _ => ⟨rfl, rfl⟩⟩

theorem sameShape_trans {r1 r2 r3 : FluxRegister D R} (h1 : r1.sameShape r2)
    (h2 : r2.sameShape r3) : r1.sameShape r3 := by
  obtain ⟨a1, a2, a3, a4, a5⟩ := h1
  obtain ⟨b1, b2, b3, b4, b5⟩ := h2
  exact ⟨b1.trans a1, b2.trans a2, b3.trans a3, b4.trans a4,
    fun f => ⟨(b5 f).1.trans (a5 f).1, (b5 f).2.trans (a5 f).2⟩⟩

theorem sameShape_setFab (r : FluxRegister D R) (face : Orientation D) (k : Nat)
    (fab : FArrayBox D R) : r.sameShape (r.setFab face k fab) := by
  refine ⟨rfl, rfl, rfl, rfl, fun f => ?_⟩
  by_cases h : f = face
  · subst h; simp [FluxRegister.setFab, FabArray.setFab]
  · simp [FluxRegister.setFab, h]

theorem sameShape_box {r r' : FluxRegister D R} (h : r.sameShape r') (f : Orientation D)
    (k : Nat) : (r'.bndry f).box k = (r.bndry f).box k := by
  unfold FabArray.box; rw [(h.2.2.2.2 f).1]

theorem sameShape_crsePendingAt [Mul R] [Inhabited R] {r r' : FluxRegister D R}
    (h : r.sameShape r') (MyProc : Nat) (flux : FArrayBox D R) (subbox : Box D) (dir : Fin D)
    (srccomp destcomp numcomp : Int) (mult : R) (k : Nat) :
    crsePendingAt MyProc r' flux subbox dir srccomp destcomp numcomp mult k =
      crsePendingAt MyProc r flux subbox dir srccomp destcomp numcomp mult k := by
  unfold crsePendingAt crsePendingFace crsePending
  simp only [sameShape_box h, (h.2.2.2.2 _).2]

theorem setFab_fabs (r : FluxRegister D R) (face : Orientation D) (k : Nat)
    (fab : FArrayBox D R) (f : Orientation D) (j : Nat) :
    ((r.setFab face k fab).bndry f).fabs j =
      if f = face ∧ j = k then fab else (r.bndry f).fabs j := by
  by_cases h : f = face
  · subst h
    by_cases hj : j = k <;> simp [FluxRegister.setFab, FabArray.setFab, hj]
  · simp [FluxRegister.setFab, h]

/-- One call of `DoIt`: it returns normally as soon as `CIMsgs` has one counter per process;
a locally owned entry is overwritten by `crseFab`, an entry owned elsewhere is left alone
and one pending contribution is appended. -/
theorem DoIt_spec [Mul R] [Inhabited R] (MyProc NProcs : Nat) (face : Orientation D)
    (k : Nat) (st : ProcState D R) (bx : Box D) (flux : FArrayBox D R)
    (srccomp destcomp numcomp : Int) (mult : R) (hlen : st.ci.CIMsgs.length = NProcs) :
    DoIt MyProc NProcs face k st bx flux srccomp destcomp numcomp mult =
      Except.ok
        (if MyProc = (st.reg.bndry face).distributionMap k then
          { st with reg := (st.reg.setFab face k
              (crseFab ((st.reg.bndry face).fabs k) flux bx srccomp destcomp numcomp mult)) }
        else
          { st with ci :=
            { CITags := st.ci.CITags ++
                [(crsePending st.reg face k bx flux srccomp destcomp numcomp mult).1]
              CIFabs := st.ci.CIFabs ++
                [(crsePending st.reg face k bx flux srccomp destcomp numcomp mult).2]
              CIMsgs := bumpMsgs st.ci.CIMsgs
                [crsePending st.reg face k bx flux srccomp destcomp numcomp mult] } }) := by
  unfold DoIt
  by_cases h : MyProc = (st.reg.bndry face).distributionMap k
  · simp only [h, if_true]; rfl
  · simp only [h, if_false, hlen, ne_eq, not_true_eq_false]; rfl

theorem bumpMsgs_length (msgs : List Nat) (l : List (FabComTag D × FArrayBox D R)) :
    (bumpMsgs msgs l).length = msgs.length := by
  unfold bumpMsgs
  induction l generalizing msgs with
  | nil => rfl
  | cons e l ih => rw [List.foldl_cons, ih, List.length_set]

theorem bumpMsgs_append (msgs : List Nat) (l1 l2 : List (FabComTag D × FArrayBox D R)) :
    bumpMsgs msgs (l1 ++ l2) = bumpMsgs (bumpMsgs msgs l1) l2 := by
  unfold bumpMsgs; rw [List.foldl_append]

/-- One guarded `DoIt` statement returns normally with the state `crseFaceResult`. -/
theorem crseFace_ok [Mul R] [Inhabited R] (MyProc NProcs : Nat) (flux : FArrayBox D R)
    (subbox : Box D) (dir : Fin D) (srccomp destcomp numcomp : Int) (mult : R)
    (s : Side) (st : ProcState D R) (k : Nat) (hlen : st.ci.CIMsgs.length = NProcs) :
    (if subbox.intersects ((st.reg.bndry ⟨dir, s⟩).box k) then
      DoIt MyProc NProcs ⟨dir, s⟩ k st (((st.reg.bndry ⟨dir, s⟩).box k).inter subbox) flux
        srccomp destcomp numcomp mult
    else pure st) =
      Except.ok (crseFaceResult MyProc flux subbox dir srccomp destcomp numcomp mult s st k) := by
  unfold crseFaceResult
  by_cases hi : subbox.intersects ((st.reg.bndry ⟨dir, s⟩).box k)
  · rw [if_pos hi, if_pos hi, DoIt_spec _ _ _ _ _ _ _ _ _ _ _ hlen]
    by_cases hl : MyProc = (st.reg.bndry ⟨dir, s⟩).distributionMap k
    · rw [if_pos hl, if_pos hl]
    · rw [if_neg hl, if_neg hl]
      simp [crsePendingFace, hi, hl]
  · rw [if_neg hi, if_neg hi]; rfl

/-- What `crseFaceResult` changes. -/
theorem crseFaceResult_spec [Mul R] [Inhabited R] (MyProc : Nat) (flux : FArrayBox D R)
    (subbox : Box D) (dir : Fin D) (srccomp destcomp numcomp : Int) (mult : R)
    (s : Side) (st : ProcState D R) (k : Nat) :
    let st' := crseFaceResult MyProc flux subbox dir srccomp destcomp numcomp mult s st k
    st.reg.sameShape st'.reg ∧
    (∀ f j, (st'.reg.bndry f).fabs j =
      if f = ⟨dir, s⟩ ∧ j = k ∧ subbox.intersects ((st.reg.bndry f).box j) ∧
          MyProc = (st.reg.bndry f).distributionMap j then
        crseFab ((st.reg.bndry f).fabs j) flux (((st.reg.bndry f).box j).inter subbox)
          srccomp destcomp numcomp mult
      else (st.reg.bndry f).fabs j) ∧
    st'.ci.CITags = st.ci.CITags ++
      (crsePendingFace MyProc st.reg flux subbox dir srccomp destcomp numcomp mult
        s k).map Prod.fst ∧
    st'.ci.CIFabs = st.ci.CIFabs ++
      (crsePendingFace MyProc st.reg flux subbox dir srccomp destcomp numcomp mult
        s k).map Prod.snd ∧
    st'.ci.CIMsgs = bumpMsgs st.ci.CIMsgs
      (crsePendingFace MyProc st.reg flux subbox dir srccomp destcomp numcomp mult s k) := by
  intro st'
  by_cases hi : subbox.intersects ((st.reg.bndry ⟨dir, s⟩).box k)
  · by_cases hl : MyProc = (st.reg.bndry ⟨dir, s⟩).distributionMap k
    · have e : st' = { st with reg := (st.reg.setFab ⟨dir, s⟩ k
          (crseFab ((st.reg.bndry ⟨dir, s⟩).fabs k) flux
            (((st.reg.bndry ⟨dir, s⟩).box k).inter subbox) srccomp destcomp numcomp mult)) } := by
        simp only [st', crseFaceResult, if_pos hi, if_pos hl]
      have hp : crsePendingFace MyProc st.reg flux subbox dir srccomp destcomp numcomp mult
          s k = [] := by
        unfold crsePendingFace
        rw [if_neg (fun h => h.2 hl)]
      rw [e, hp]
      refine ⟨sameShape_setFab _ _ _ _, ?_, by simp, by simp, by simp [bumpMsgs]⟩
      intro f j
      simp only [setFab_fabs]
      by_cases hf : f = ⟨dir, s⟩ ∧ j = k
      · obtain ⟨hf1, hf2⟩ := hf
        subst hf1 hf2
        simp [hi, hl]
      · rw [if_neg hf, if_neg (fun h => hf ⟨h.1, h.2.1⟩)]
    · have e : st' = { st with ci :=
          { CITags := st.ci.CITags ++
              (crsePendingFace MyProc st.reg flux subbox dir srccomp destcomp numcomp mult
                s k).map Prod.fst
            CIFabs := st.ci.CIFabs ++
              (crsePendingFace MyProc st.reg flux subbox dir srccomp destcomp numcomp mult
                s k).map Prod.snd
            CIMsgs := bumpMsgs st.ci.CIMsgs
              (crsePendingFace MyProc st.reg flux subbox dir srccomp destcomp numcomp mult
                s k) } } := by
        simp only [st', crseFaceResult, if_pos hi, if_neg hl]
      rw [e]
      refine ⟨sameShape_refl _, ?_, rfl, rfl, rfl⟩
      intro f j
      rw [if_neg]
      rintro ⟨hf1, hf2, -, hf4⟩
      subst hf1 hf2
      exact hl hf4
  · have e : st' = st := by simp only [st', crseFaceResult, if_neg hi]
    have hp : crsePendingFace MyProc st.reg flux subbox dir srccomp destcomp numcomp mult
        s k = [] := by
      unfold crsePendingFace
      rw [if_neg (fun h => hi h.1)]
    rw [e, hp]
    refine ⟨sameShape_refl _, ?_, by simp, by simp, by simp [bumpMsgs]⟩
    intro f j
    rw [if_neg]
    rintro ⟨hf1, hf2, hf3, -⟩
    subst hf1 hf2
    exact hi hf3

end FluxReg


namespace FluxReg

variable {D : Nat} {R : Type}

theorem crseFaceResult_length [Mul R] [Inhabited R] (MyProc : Nat) (flux : FArrayBox D R)
    (subbox : Box D) (dir : Fin D) (srccomp destcomp numcomp : Int) (mult : R)
    (s : Side) (st : ProcState D R) (k : Nat) :
    (crseFaceResult MyProc flux subbox dir srccomp destcomp numcomp mult s st k).ci.CIMsgs.length
      = st.ci.CIMsgs.length := by
  have h := (crseFaceResult_spec MyProc flux subbox dir srccomp destcomp numcomp mult s st k)
  simp only at h
  rw [h.2.2.2.2, bumpMsgs_length]

/-- One iteration of the loop of `CrseInit` overload B returns normally with the state
`crseStepResult`. -/
theorem crseStep_ok [Mul R] [Inhabited R] (MyProc NProcs : Nat) (flux : FArrayBox D R)
    (subbox : Box D) (dir : Fin D) (srccomp destcomp numcomp : Int) (mult : R)
    (st : ProcState D R) (k : Nat) (hlen : st.ci.CIMsgs.length = NProcs) :
    CrseInitStep MyProc NProcs flux subbox dir srccomp destcomp numcomp mult st k =
      Except.ok (crseStepResult MyProc flux subbox dir srccomp destcomp numcomp mult st k) := by
  have hlo := crseFace_ok MyProc NProcs flux subbox dir srccomp destcomp numcomp mult
    Side.low st k hlen
  have hlen' := (crseFaceResult_length MyProc flux subbox dir srccomp destcomp numcomp mult
    Side.low st k).trans hlen
  have hhi := crseFace_ok MyProc NProcs flux subbox dir srccomp destcomp numcomp mult
    Side.high _ k hlen'
  unfold CrseInitStep crseStepResult
  by_cases hi : subbox.intersects ((st.reg.bndry ⟨dir, Side.low⟩).box k)
  · rw [if_pos hi] at hlo
    simp only [if_pos hi, hlo]
    exact hhi
  · rw [if_neg hi] at hlo
    have e : crseFaceResult MyProc flux subbox dir srccomp destcomp numcomp mult Side.low st k
        = st := by
      injection hlo with h; exact h.symm
    rw [e] at hhi ⊢
    simp only [if_neg hi]
    exact hhi

/-- What one iteration changes. -/
theorem crseStepResult_spec [Mul R] [Inhabited R] (MyProc : Nat) (flux : FArrayBox D R)
    (subbox : Box D) (dir : Fin D) (srccomp destcomp numcomp : Int) (mult : R)
    (st : ProcState D R) (k : Nat) :
    let st' := crseStepResult MyProc flux subbox dir srccomp destcomp numcomp mult st k
    st.reg.sameShape st'.reg ∧
    (∀ f j, (st'.reg.bndry f).fabs j =
      if f.coordDir = dir ∧ j = k ∧ subbox.intersects ((st.reg.bndry f).box j) ∧
          MyProc = (st.reg.bndry f).distributionMap j then
        crseFab ((st.reg.bndry f).fabs j) flux (((st.reg.bndry f).box j).inter subbox)
          srccomp destcomp numcomp mult
      else (st.reg.bndry f).fabs j) ∧
    st'.ci.CITags = st.ci.CITags ++
      (crsePendingAt MyProc st.reg flux subbox dir srccomp destcomp numcomp mult k).map
        Prod.fst ∧
    st'.ci.CIFabs = st.ci.CIFabs ++
      (crsePendingAt MyProc st.reg flux subbox dir srccomp destcomp numcomp mult k).map
        Prod.snd ∧
    st'.ci.CIMsgs = bumpMsgs st.ci.CIMsgs
      (crsePendingAt MyProc st.reg flux subbox dir srccomp destcomp numcomp mult k) := by
  intro st'
  obtain ⟨a1, a2, a3, a4, a5⟩ :=
    crseFaceResult_spec MyProc flux subbox dir srccomp destcomp numcomp mult Side.low st k
  obtain ⟨b1, b2, b3, b4, b5⟩ :=
    crseFaceResult_spec MyProc flux subbox dir srccomp destcomp numcomp mult Side.high
      (crseFaceResult MyProc flux subbox dir srccomp destcomp numcomp mult Side.low st k) k
  have hpf : ∀ s, crsePendingFace MyProc
      (crseFaceResult MyProc flux subbox dir srccomp destcomp numcomp mult Side.low st k).reg
      flux subbox dir srccomp destcomp numcomp mult s k =
      crsePendingFace MyProc st.reg flux subbox dir srccomp destcomp numcomp mult s k := by
    intro s
    unfold crsePendingFace crsePending
    simp only [sameShape_box a1, (a1.2.2.2.2 _).2]
  have est : st' = crseFaceResult MyProc flux subbox dir srccomp destcomp numcomp mult Side.high
      (crseFaceResult MyProc flux subbox dir srccomp destcomp numcomp mult Side.low st k) k := rfl
  rw [est]
  refine ⟨sameShape_trans a1 b1, ?_, ?_, ?_, ?_⟩
  · intro f j
    rw [b2 f j, a2 f j, sameShape_box a1, (a1.2.2.2.2 _).2]
    obtain ⟨fd, fs⟩ := f
    cases fs
    · by_cases h : fd = dir
      · subst h; simp
      · have : ¬ dir = fd := fun e => h e.symm
        simp [h, this]
    · by_cases h : fd = dir
      · subst h; simp
      · have : ¬ dir = fd := fun e => h e.symm
        simp [h, this]
  · rw [b3, a3, hpf]; simp [crsePendingAt]
  · rw [b4, a4, hpf]; simp [crsePendingAt]
  · rw [b5, a5, hpf, crsePendingAt, bumpMsgs_append]

/-- The whole loop over a list of box indices returns normally. -/
theorem crseLoop_ok [Mul R] [Inhabited R] (MyProc NProcs : Nat) (flux : FArrayBox D R)
    (subbox : Box D) (dir : Fin D) (srccomp destcomp numcomp : Int) (mult : R)
    (l : List Nat) (st : ProcState D R) (hlen : st.ci.CIMsgs.length = NProcs) :
    l.foldlM (CrseInitStep MyProc NProcs flux subbox dir srccomp destcomp numcomp mult) st =
      Except.ok (l.foldl
        (crseStepResult MyProc flux subbox dir srccomp destcomp numcomp mult) st) := by
  induction l generalizing st with
  | nil => rfl
  | cons k l ih =>
    rw [List.foldlM_cons, crseStep_ok _ _ _ _ _ _ _ _ _ _ _ hlen, List.foldl_cons]
    have h := crseStepResult_spec MyProc flux subbox dir srccomp destcomp numcomp mult st k
    simp only at h
    have hlen' : (crseStepResult MyProc flux subbox dir srccomp destcomp numcomp mult
        st k).ci.CIMsgs.length = NProcs := by
      rw [h.2.2.2.2, bumpMsgs_length, hlen]
    exact ih _ hlen'

/-- What the whole loop over a duplicate-free list of box indices changes. -/
theorem crseLoop_spec [Mul R] [Inhabited R] (MyProc : Nat) (flux : FArrayBox D R)
    (subbox : Box D) (dir : Fin D) (srccomp destcomp numcomp : Int) (mult : R)
    (l : List Nat) (hl : l.Nodup) (st : ProcState D R) :
    let st' := l.foldl (crseStepResult MyProc flux subbox dir srccomp destcomp numcomp mult) st
    st.reg.sameShape st'.reg ∧
    (∀ f j, (st'.reg.bndry f).fabs j =
      if f.coordDir = dir ∧ j ∈ l ∧ subbox.intersects ((st.reg.bndry f).box j) ∧
          MyProc = (st.reg.bndry f).distributionMap j then
        crseFab ((st.reg.bndry f).fabs j) flux (((st.reg.bndry f).box j).inter subbox)
          srccomp destcomp numcomp mult
      else (st.reg.bndry f).fabs j) ∧
    st'.ci.CITags = st.ci.CITags ++
      (l.flatMap (crsePendingAt MyProc st.reg flux subbox dir srccomp destcomp numcomp
        mult)).map Prod.fst ∧
    st'.ci.CIFabs = st.ci.CIFabs ++
      (l.flatMap (crsePendingAt MyProc st.reg flux subbox dir srccomp destcomp numcomp
        mult)).map Prod.snd ∧
    st'.ci.CIMsgs = bumpMsgs st.ci.CIMsgs
      (l.flatMap (crsePendingAt MyProc st.reg flux subbox dir srccomp destcomp numcomp mult)) := by
  induction l generalizing st with
  | nil =>
    refine ⟨sameShape_refl _, ?_, by simp, by simp, by simp [bumpMsgs]⟩
    intro f j; simp
  | cons k l ih =>
    intro st'
    obtain ⟨a1, a2, a3, a4, a5⟩ :=
      crseStepResult_spec MyProc flux subbox dir srccomp destcomp numcomp mult st k
    have hk : k ∉ l := (List.nodup_cons.1 hl).1
    obtain ⟨b1, b2, b3, b4, b5⟩ := ih (List.nodup_cons.1 hl).2
      (crseStepResult MyProc flux subbox dir srccomp destcomp numcomp mult st k)
    have hpa : crsePendingAt MyProc
        (crseStepResult MyProc flux subbox dir srccomp destcomp numcomp mult st k).reg
        flux subbox dir srccomp destcomp numcomp mult =
        crsePendingAt MyProc st.reg flux subbox dir srccomp destcomp numcomp mult :=
      funext (fun j => sameShape_crsePendingAt a1 MyProc flux subbox dir srccomp destcomp
        numcomp mult j)
    have est : st' = l.foldl (crseStepResult MyProc flux subbox dir srccomp destcomp numcomp mult)
        (crseStepResult MyProc flux subbox dir srccomp destcomp numcomp mult st k) := rfl
    rw [est]
    refine ⟨sameShape_trans a1 b1, ?_, ?_, ?_, ?_⟩
    · intro f j
      rw [b2 f j, a2 f j, sameShape_box a1, (a1.2.2.2.2 _).2]
      by_cases hj : j = k
      · subst hj
        simp [hk]
      · simp [hj]
    · rw [b3, a3, hpa]; simp
    · rw [b4, a4, hpa]; simp
    · rw [b5, a5, hpa, List.flatMap_cons, bumpMsgs_append]

end FluxReg


namespace FluxReg

variable {D : Nat} {R : Type}

/-- A call of `DoIt` that returns normally leaves the state described by `DoIt_spec`. -/
theorem DoIt_of_ok [Mul R] [Inhabited R] (MyProc NProcs : Nat) (face : Orientation D)
    (k : Nat) (st st' : ProcState D R) (bx : Box D) (flux : FArrayBox D R)
    (srccomp destcomp numcomp : Int) (mult : R)
    (h : DoIt MyProc NProcs face k st bx flux srccomp destcomp numcomp mult = Except.ok st') :
    st.ci.CIMsgs.length = NProcs ∨ MyProc = (st.reg.bndry face).distributionMap k := by
  by_cases hlen : st.ci.CIMsgs.length = NProcs
  · exact Or.inl hlen
  · by_cases hloc : MyProc = (st.reg.bndry face).distributionMap k
    · exact Or.inr hloc
    · exfalso
      unfold DoIt at h
      simp only [hloc, if_false, ne_eq, hlen, not_false_eq_true, if_true] at h
      cases h

/-- A guarded `DoIt` statement that returns normally leaves `crseFaceResult`. -/
theorem crseFace_of_ok [Mul R] [Inhabited R] (MyProc NProcs : Nat) (flux : FArrayBox D R)
    (subbox : Box D) (dir : Fin D) (srccomp destcomp numcomp : Int) (mult : R)
    (s : Side) (st st' : ProcState D R) (k : Nat)
    (h : (if subbox.intersects ((st.reg.bndry ⟨dir, s⟩).box k) then
        DoIt MyProc NProcs ⟨dir, s⟩ k st (((st.reg.bndry ⟨dir, s⟩).box k).inter subbox) flux
          srccomp destcomp numcomp mult
      else pure st) = Except.ok st') :
    st' = crseFaceResult MyProc flux subbox dir srccomp destcomp numcomp mult s st k := by
  by_cases hi : subbox.intersects ((st.reg.bndry ⟨dir, s⟩).box k)
  · rw [if_pos hi] at h
    rcases DoIt_of_ok _ _ _ _ _ _ _ _ _ _ _ _ h with hlen | hloc
    · have := crseFace_ok MyProc NProcs flux subbox dir srccomp destcomp numcomp mult s st k hlen
      rw [if_pos hi, h] at this
      injection this
    · unfold DoIt at h
      simp only [hloc, if_true] at h
      injection h with h
      rw [← h]
      unfold crseFaceResult
      rw [if_pos hi, if_pos hloc]
      rfl
  · rw [if_neg hi] at h
    injection h with h
    rw [← h]
    unfold crseFaceResult
    rw [if_neg hi]

/-- A loop iteration that returns normally leaves `crseStepResult`. -/
theorem crseStep_of_ok [Mul R] [Inhabited R] (MyProc NProcs : Nat) (flux : FArrayBox D R)
    (subbox : Box D) (dir : Fin D) (srccomp destcomp numcomp : Int) (mult : R)
    (st st' : ProcState D R) (k : Nat)
    (h : CrseInitStep MyProc NProcs flux subbox dir srccomp destcomp numcomp mult st k =
      Except.ok st') :
    st' = crseStepResult MyProc flux subbox dir srccomp destcomp numcomp mult st k := by
  have key : ∀ st1, (if subbox.intersects ((st.reg.bndry ⟨dir, Side.low⟩).box k) then
        DoIt MyProc NProcs ⟨dir, Side.low⟩ k st
          (((st.reg.bndry ⟨dir, Side.low⟩).box k).inter subbox) flux
          srccomp destcomp numcomp mult
      else pure st) = Except.ok st1 →
      (if subbox.intersects ((st1.reg.bndry ⟨dir, Side.high⟩).box k) then
        DoIt MyProc NProcs ⟨dir, Side.high⟩ k st1
          (((st1.reg.bndry ⟨dir, Side.high⟩).box k).inter subbox) flux
          srccomp destcomp numcomp mult
      else pure st1) = Except.ok st' →
      st' = crseStepResult MyProc flux subbox dir srccomp destcomp numcomp mult st k := by
    intro st1 h1 h2
    have e1 := crseFace_of_ok _ _ _ _ _ _ _ _ _ _ _ _ _ h1
    have e2 := crseFace_of_ok _ _ _ _ _ _ _ _ _ _ _ _ _ h2
    rw [e2, e1]; rfl
  unfold CrseInitStep at h
  by_cases hi : subbox.intersects ((st.reg.bndry ⟨dir, Side.low⟩).box k)
  · simp only [if_pos hi] at h
    cases hd : DoIt MyProc NProcs ⟨dir, Side.low⟩ k st
        (((st.reg.bndry ⟨dir, Side.low⟩).box k).inter subbox) flux
        srccomp destcomp numcomp mult with
    | error e => rw [hd] at h; cases h
    | ok st1 =>
      rw [hd] at h
      exact key st1 (by rw [if_pos hi, hd]) h
  · simp only [if_neg hi] at h
    exact key st (by rw [if_neg hi]; rfl) h

/-- A loop that returns normally leaves the fold of `crseStepResult`. -/
theorem crseLoop_of_ok [Mul R] [Inhabited R] (MyProc NProcs : Nat) (flux : FArrayBox D R)
    (subbox : Box D) (dir : Fin D) (srccomp destcomp numcomp : Int) (mult : R)
    (l : List Nat) (st st' : ProcState D R)
    (h : l.foldlM (CrseInitStep MyProc NProcs flux subbox dir srccomp destcomp numcomp mult) st
      = Except.ok st') :
    st' = l.foldl (crseStepResult MyProc flux subbox dir srccomp destcomp numcomp mult) st := by
  induction l generalizing st with
  | nil =>
    rw [List.foldlM_nil] at h
    injection h with h
    exact h.symm
  | cons k l ih =>
    rw [List.foldlM_cons] at h
    cases hd : CrseInitStep MyProc NProcs flux subbox dir srccomp destcomp numcomp mult st k with
    | error e => rw [hd] at h; cases h
    | ok st1 =>
      rw [hd] at h
      rw [List.foldl_cons, ← crseStep_of_ok _ _ _ _ _ _ _ _ _ _ _ _ hd]
      exact ih st1 h

/-- The state `CrseInit` overload B starts its loop from: the statics after the resize of
lines 755-756. -/
theorem CrseInit_of_ok [Mul R] [Inhabited R] (MyProc NProcs : Nat) (st st' : ProcState D R)
    (flux : FArrayBox D R) (subbox : Box D) (dir : Fin D)
    (srccomp destcomp numcomp : Int) (mult : R)
    (h : CrseInit MyProc NProcs st flux subbox dir srccomp destcomp numcomp mult =
      Except.ok st') :
    (flux.box.contains subbox ∧ (0 ≤ srccomp ∧ srccomp + numcomp ≤ flux.nComp) ∧
      (0 ≤ destcomp ∧ destcomp + numcomp ≤ st.reg.ncomp)) ∧
    st' = (List.range st.reg.grids.length).foldl
      (crseStepResult MyProc flux subbox dir srccomp destcomp numcomp mult)
      { st with ci := (st.ci.resized NProcs) } := by
  unfold CrseInit at h
  by_cases h1 : flux.box.contains subbox
  · by_cases h2 : (0 ≤ srccomp ∧ srccomp + numcomp ≤ flux.nComp)
    · by_cases h3 : (0 ≤ destcomp ∧ destcomp + numcomp ≤ st.reg.ncomp)
      · refine ⟨⟨h1, h2, h3⟩, ?_⟩
        simp only [h1, h2, h3, not_true_eq_false, if_false] at h
        have e : (if st.ci.CIMsgs.length = 0 then
              ({ st with ci := { st.ci with CIMsgs := List.replicate NProcs 0 } } : ProcState D R)
            else st) = { st with ci := (st.ci.resized NProcs) } := by
          unfold CIState.resized
          by_cases hz : st.ci.CIMsgs.length = 0 <;> simp [hz]
        rw [e] at h
        exact crseLoop_of_ok _ _ _ _ _ _ _ _ _ _ _ _ h
      · simp only [h1, h2, h3, not_true_eq_false, not_false_eq_true, if_false, if_true] at h
        cases h
    · simp only [h1, h2, not_true_eq_false, not_false_eq_true, if_false, if_true] at h
      cases h
  · simp only [h1, not_false_eq_true, if_true] at h
    cases h

/-- Under its three assertions, and with `CIMsgs` either still empty or holding one counter per
process, `CrseInit` overload B returns normally. -/
theorem CrseInit_ok [Mul R] [Inhabited R] (MyProc NProcs : Nat) (st : ProcState D R)
    (flux : FArrayBox D R) (subbox : Box D) (dir : Fin D)
    (srccomp destcomp numcomp : Int) (mult : R)
    (h1 : flux.box.contains subbox) (h2 : 0 ≤ srccomp ∧ srccomp + numcomp ≤ flux.nComp)
    (h3 : 0 ≤ destcomp ∧ destcomp + numcomp ≤ st.reg.ncomp)
    (h4 : st.ci.CIMsgs.length = 0 ∨ st.ci.CIMsgs.length = NProcs) :
    CrseInit MyProc NProcs st flux subbox dir srccomp destcomp numcomp mult =
      Except.ok ((List.range st.reg.grids.length).foldl
        (crseStepResult MyProc flux subbox dir srccomp destcomp numcomp mult)
        { st with ci := (st.ci.resized NProcs) }) := by
  unfold CrseInit
  simp only [h1, h2, h3, not_true_eq_false, if_false]
  have e : (if st.ci.CIMsgs.length = 0 then
        ({ st with ci := { st.ci with CIMsgs := List.replicate NProcs 0 } } : ProcState D R)
      else st) = { st with ci := (st.ci.resized NProcs) } := by
    unfold CIState.resized
    by_cases hz : st.ci.CIMsgs.length = 0 <;> simp [hz]
  rw [e]
  apply crseLoop_ok
  unfold CIState.resized
  by_cases hz : st.ci.CIMsgs.length = 0
  · simp [hz]
  · rcases h4 with h4 | h4
    · exact absurd h4 hz
    · simp only [hz, if_false]; exact h4

end FluxReg


namespace FluxReg

variable {D : Nat} {R : Type}

theorem containsPt_inter (a b : Box D) (p : IntVect D) :
    (a.inter b).containsPt p ↔ a.containsPt p ∧ b.containsPt p := by
  unfold Box.containsPt Box.inter
  simp only [max_le_iff, le_min_iff]
  constructor
  · intro h
    exact ⟨fun d => ⟨(h d).1.1, (h d).2.1⟩, fun d => ⟨(h d).1.2, (h d).2.2⟩⟩
  · intro h d
    exact ⟨⟨(h.1 d).1, (h.2 d).1⟩, ⟨(h.1 d).2, (h.2 d).2⟩⟩

/-- The values `crseFab` leaves: `flux × mult` on the region and component range, the old
value elsewhere. -/
theorem crseFab_data [Mul R] (fab flux : FArrayBox D R) (bx : Box D)
    (srccomp destcomp numcomp : Int) (mult : R) (p : IntVect D) (c : Int) :
    (crseFab fab flux bx srccomp destcomp numcomp mult).data p c =
      if bx.containsPt p ∧ destcomp ≤ c ∧ c < destcomp + numcomp then
        flux.data p (c - destcomp + srccomp) * mult
      else fab.data p c := by
  have hp : (fun d => p d - bx.smallend d + bx.smallend d) = p := by
    funext d; simp
  unfold crseFab FArrayBox.mult FArrayBox.copy
  simp only [hp]
  by_cases h : bx.containsPt p ∧ destcomp ≤ c ∧ c < destcomp + numcomp
  · simp only [if_pos h]
  · simp only [if_neg h]

theorem crseFab_shape [Mul R] (fab flux : FArrayBox D R) (bx : Box D)
    (srccomp destcomp numcomp : Int) (mult : R) :
    (crseFab fab flux bx srccomp destcomp numcomp mult).box = fab.box ∧
    (crseFab fab flux bx srccomp destcomp numcomp mult).nComp = fab.nComp :=
  ⟨rfl, rfl⟩

theorem FabArray.eq_of_parts (a b : FabArray D R) (h1 : a.boxarray = b.boxarray)
    (h2 : a.distributionMap = b.distributionMap) (h3 : ∀ k, a.fabs k = b.fabs k) : a = b := by
  cases a; cases b
  simp only at h1 h2 h3
  have h3' := funext h3
  subst h1 h2 h3'
  rfl

/-- C4: a call `CrseInit(flux, subbox, dir, srccomp, destcomp, numcomp, mult)` of overload B
whose three assertions hold (and whose counter array is either still empty or has one
counter per process) returns normally; and whenever it returns normally, for every register
box `k` owned by the calling process and each side `s`, every cell `p` of
`subbox ∩ bndry[(dir,s)].box(k)` and every `c` in `[0, numcomp)` ends with
`bndry[(dir,s)][k](p, destcomp+c) = mult × flux(p, srccomp+c)`, every other cell and
component of the buffers of axis `dir` keeps its value (and every block its box and
component count), and the buffers of every other axis are unchanged. -/
theorem CrseInit_local_effect [CommMagma R] [Inhabited R] (MyProc NProcs : Nat)
    (st : ProcState D R) (flux : FArrayBox D R) (subbox : Box D) (dir : Fin D)
    (srccomp destcomp numcomp : Int) (mult : R) :
    ((flux.box.contains subbox ∧ (0 ≤ srccomp ∧ srccomp + numcomp ≤ flux.nComp) ∧
        (0 ≤ destcomp ∧ destcomp + numcomp ≤ st.reg.ncomp) ∧
        (st.ci.CIMsgs.length = 0 ∨ st.ci.CIMsgs.length = NProcs)) →
      ∃ st', CrseInit MyProc NProcs st flux subbox dir srccomp destcomp numcomp mult =
        Except.ok st') ∧
    ∀ st', CrseInit MyProc NProcs st flux subbox dir srccomp destcomp numcomp mult =
        Except.ok st' →
      (∀ (s : Side) (k : Nat), k < st.reg.grids.length →
        (st.reg.bndry ⟨dir, s⟩).distributionMap k = MyProc →
        ∀ (p : IntVect D) (c : Int),
          subbox.containsPt p → ((st.reg.bndry ⟨dir, s⟩).box k).containsPt p →
          0 ≤ c → c < numcomp →
          ((st'.reg.bndry ⟨dir, s⟩).fabs k).data p (destcomp + c) =
            mult * flux.data p (srccomp + c)) ∧
      (∀ (s : Side) (k : Nat) (p : IntVect D) (c : Int),
        ¬ (k < st.reg.grids.length ∧ (st.reg.bndry ⟨dir, s⟩).distributionMap k = MyProc ∧
            subbox.containsPt p ∧ ((st.reg.bndry ⟨dir, s⟩).box k).containsPt p ∧
            destcomp ≤ c ∧ c < destcomp + numcomp) →
        ((st'.reg.bndry ⟨dir, s⟩).fabs k).data p c =
          ((st.reg.bndry ⟨dir, s⟩).fabs k).data p c) ∧
      (∀ (s : Side) (k : Nat),
        ((st'.reg.bndry ⟨dir, s⟩).fabs k).box = ((st.reg.bndry ⟨dir, s⟩).fabs k).box ∧
        ((st'.reg.bndry ⟨dir, s⟩).fabs k).nComp = ((st.reg.bndry ⟨dir, s⟩).fabs k).nComp) ∧
      (∀ f : Orientation D, f.coordDir ≠ dir → st'.reg.bndry f = st.reg.bndry f) := by
  refine ⟨fun ⟨h1, h2, h3, h4⟩ =>
    ⟨_, CrseInit_ok MyProc NProcs st flux subbox dir srccomp destcomp numcomp mult h1 h2 h3 h4⟩,
    ?_⟩
  intro st' hok
  obtain ⟨-, hst'⟩ := CrseInit_of_ok _ _ _ _ _ _ _ _ _ _ _ hok
  obtain ⟨a1, a2, -, -, -⟩ := crseLoop_spec MyProc flux subbox dir srccomp destcomp numcomp mult
    (List.range st.reg.grids.length) (List.nodup_range _)
    { st with ci := (st.ci.resized NProcs) }
  simp only [← hst'] at a1 a2
  refine ⟨?_, ?_, ?_, ?_⟩
  · intro s k hk hown p c hp1 hp2 hc0 hc1
    have hint : subbox.intersects ((st.reg.bndry ⟨dir, s⟩).box k) :=
      fun d => ((containsPt_inter _ _ p).2 ⟨hp1, hp2⟩ d).1.trans
        ((containsPt_inter _ _ p).2 ⟨hp1, hp2⟩ d).2
    rw [a2, if_pos ⟨rfl, List.mem_range.2 hk, hint, hown.symm⟩, crseFab_data,
      if_pos ⟨(containsPt_inter _ _ p).2 ⟨hp2, hp1⟩, by omega, by omega⟩]
    have : destcomp + c - destcomp + srccomp = srccomp + c := by ring
    rw [this, mul_comm]
  · intro s k p c hn
    rw [a2]
    by_cases hc : (⟨dir, s⟩ : Orientation D).coordDir = dir ∧
        k ∈ List.range st.reg.grids.length ∧
        subbox.intersects ((st.reg.bndry ⟨dir, s⟩).box k) ∧
        MyProc = (st.reg.bndry ⟨dir, s⟩).distributionMap k
    · rw [if_pos hc, crseFab_data, if_neg]
      rintro ⟨hp, hc1, hc2⟩
      exact hn ⟨List.mem_range.1 hc.2.1, hc.2.2.2.symm,
        ((containsPt_inter _ _ p).1 hp).2, ((containsPt_inter _ _ p).1 hp).1, hc1, hc2⟩
    · rw [if_neg hc]
  · intro s k
    rw [a2]
    by_cases hc : (⟨dir, s⟩ : Orientation D).coordDir = dir ∧
        k ∈ List.range st.reg.grids.length ∧
        subbox.intersects ((st.reg.bndry ⟨dir, s⟩).box k) ∧
        MyProc = (st.reg.bndry ⟨dir, s⟩).distributionMap k
    · rw [if_pos hc]; exact crseFab_shape _ _ _ _ _ _ _
    · rw [if_neg hc]; exact ⟨rfl, rfl⟩
  · intro f hf
    apply FabArray.eq_of_parts _ _ (a1.2.2.2.2 f).1 (a1.2.2.2.2 f).2
    intro k
    rw [a2, if_neg (fun h => hf h.1)]

theorem flatMap_single {α β : Type} (l : List α) (hl : l.Nodup) (g : α → List β) (k : α)
    (hk : k ∈ l) (h : ∀ j ∈ l, j ≠ k → g j = []) : l.flatMap g = g k := by
  induction l with
  | nil => cases hk
  | cons a l ih =>
    rw [List.flatMap_cons]
    obtain ⟨ha, hl'⟩ := List.nodup_cons.1 hl
    by_cases hak : a = k
    · subst hak
      have : l.flatMap g = [] := by
        rw [List.flatMap_eq_nil_iff]
        intro j hj
        exact h j (List.mem_cons_of_mem _ hj) (fun e => ha (e ▸ hj))
      rw [this, List.append_nil]
    · rw [h a (List.mem_cons_self _ _) hak, List.nil_append]
      rcases List.mem_cons.1 hk with e | e
      · exact absurd e.symm hak
      · exact ih hl' e (fun j hj => h j (List.mem_cons_of_mem _ hj))

theorem filter_flatMap {α β : Type} (l : List α) (g : α → List β) (q : β → Bool) :
    (l.flatMap g).filter q = l.flatMap (fun a => (g a).filter q) := by
  induction l with
  | nil => rfl
  | cons a l ih => simp [List.flatMap_cons, List.filter_append, ih]

/-- Every pending contribution created for register box `k` names box `k`, an orientation
of axis `dir`, the owner of the entry it is meant for, and carries a buffer over the tag's
(non-empty) box with the tag's component count. -/
theorem crsePendingAt_mem [Mul R] [Inhabited R] (MyProc : Nat) (r : FluxRegister D R)
    (flux : FArrayBox D R) (subbox : Box D) (dir : Fin D)
    (srccomp destcomp numcomp : Int) (mult : R) (k : Nat) (x : FabComTag D × FArrayBox D R)
    (hx : x ∈ crsePendingAt MyProc r flux subbox dir srccomp destcomp numcomp mult k) :
    x.1.fabIndex = k ∧ x.1.face.coordDir = dir ∧
    x.1.toProc = (r.bndry x.1.face).distributionMap x.1.fabIndex ∧
    x.1.toProc ≠ MyProc ∧
    x.1.box = x.2.domain ∧ x.1.nComp = x.2.nvar ∧ x.1.box.ok := by
  unfold crsePendingAt crsePendingFace at hx
  rcases List.mem_append.1 hx with h | h
  · split at h
    · next hc =>
      rw [List.mem_singleton.1 h]
      exact ⟨rfl, rfl, rfl, fun e => hc.2 e.symm, rfl, rfl, (inter_ok_comm _ _).1 hc.1⟩
    · cases h
  · split at h
    · next hc =>
      rw [List.mem_singleton.1 h]
      exact ⟨rfl, rfl, rfl, fun e => hc.2 e.symm, rfl, rfl, (inter_ok_comm _ _).1 hc.1⟩
    · cases h

/-- Among the pending contributions one call creates, exactly one is for a given register
box owned by another process and a given side whose face box meets `subbox`. -/
theorem pendingAt_filter [Mul R] [Inhabited R] (MyProc : Nat) (r : FluxRegister D R)
    (flux : FArrayBox D R) (subbox : Box D) (dir : Fin D)
    (srccomp destcomp numcomp : Int) (mult : R) (n : Nat) (s : Side) (k : Nat) (hk : k < n)
    (hown : (r.bndry ⟨dir, s⟩).distributionMap k ≠ MyProc)
    (hint : subbox.intersects ((r.bndry ⟨dir, s⟩).box k)) :
    ((List.range n).flatMap
      (crsePendingAt MyProc r flux subbox dir srccomp destcomp numcomp mult)).filter
        (fun e => e.1.fabIndex = k ∧ e.1.face = ⟨dir, s⟩) =
      [crsePending r ⟨dir, s⟩ k (((r.bndry ⟨dir, s⟩).box k).inter subbox) flux
        srccomp destcomp numcomp mult] := by
  rw [filter_flatMap, flatMap_single _ (List.nodup_range _) _ k (List.mem_range.2 hk)]
  · have hown' : MyProc ≠ (r.bndry ⟨dir, s⟩).distributionMap k := fun h => hown h.symm
    cases s
    · by_cases hh : subbox.intersects ((r.bndry ⟨dir, Side.high⟩).box k) ∧
          MyProc ≠ (r.bndry ⟨dir, Side.high⟩).distributionMap k
      · simp [crsePendingAt, crsePendingFace, hint, hown', hh, crsePending]
      · simp [crsePendingAt, crsePendingFace, hint, hown', hh, crsePending]
    · by_cases hh : subbox.intersects ((r.bndry ⟨dir, Side.low⟩).box k) ∧
          MyProc ≠ (r.bndry ⟨dir, Side.low⟩).distributionMap k
      · simp [crsePendingAt, crsePendingFace, hint, hown', hh, crsePending]
      · simp [crsePendingAt, crsePendingFace, hint, hown', hh, crsePending]
  · intro j _ hjk
    rw [List.filter_eq_nil_iff]
    intro e he
    have := (crsePendingAt_mem MyProc r flux subbox dir srccomp destcomp numcomp mult j e he).1
    simp [this, hjk]

/-- C5: when a call of `CrseInit` overload B returns normally, the pending list has grown at
its end by a run `new` of (tag, buffer) pairs, and for every register box `k` whose owner is
another process and whose (`dir`, side) face box intersects `subbox`, the Face Storage
entry `bndry[(dir,side)][k]` is unchanged and `new` holds exactly one entry for that box
and face; its tag has `toProc` = owner of `k`, `fabIndex = k`,
`box = bndry[(dir,side)].box(k) ∩ subbox`, `face = (dir, side)`, `destComp = destcomp`,
`nComp = numcomp`, and its buffer, over that box with `numcomp` components, holds
`mult × flux(p, srccomp+c)` at component `c` for every cell `p` of the box. -/
theorem CrseInit_remote_effect [CommMagma R] [Inhabited R] (MyProc NProcs : Nat)
    (st st' : ProcState D R) (flux : FArrayBox D R) (subbox : Box D) (dir : Fin D)
    (srccomp destcomp numcomp : Int) (mult : R)
    (hok : CrseInit MyProc NProcs st flux subbox dir srccomp destcomp numcomp mult =
      Except.ok st') :
    ∃ new : List (FabComTag D × FArrayBox D R),
      st'.ci.CITags = st.ci.CITags ++ new.map Prod.fst ∧
      st'.ci.CIFabs = st.ci.CIFabs ++ new.map Prod.snd ∧
      ∀ (s : Side) (k : Nat), k < st.reg.grids.length →
        (st.reg.bndry ⟨dir, s⟩).distributionMap k ≠ MyProc →
        subbox.intersects ((st.reg.bndry ⟨dir, s⟩).box k) →
        (st'.reg.bndry ⟨dir, s⟩).fabs k = (st.reg.bndry ⟨dir, s⟩).fabs k ∧
        ∃ e : FabComTag D × FArrayBox D R,
          new.filter (fun e => e.1.fabIndex = k ∧ e.1.face = ⟨dir, s⟩) = [e] ∧
          e.1.toProc = (st.reg.bndry ⟨dir, s⟩).distributionMap k ∧
          e.1.fabIndex = k ∧
          e.1.box = ((st.reg.bndry ⟨dir, s⟩).box k).inter subbox ∧
          e.1.face = ⟨dir, s⟩ ∧ e.1.destComp = destcomp ∧ e.1.nComp = numcomp ∧
          e.2.box = e.1.box ∧ e.2.nComp = numcomp ∧
          ∀ (p : IntVect D) (c : Int), e.1.box.containsPt p → 0 ≤ c → c < numcomp →
            e.2.data p c = mult * flux.data p (srccomp + c) := by
  obtain ⟨-, hst'⟩ := CrseInit_of_ok _ _ _ _ _ _ _ _ _ _ _ hok
  obtain ⟨-, a2, a3, a4, -⟩ := crseLoop_spec MyProc flux subbox dir srccomp destcomp numcomp mult
    (List.range st.reg.grids.length) (List.nodup_range _)
    { st with ci := (st.ci.resized NProcs) }
  simp only [← hst'] at a2 a3 a4
  have hT : ({ st with ci := (st.ci.resized NProcs) } : ProcState D R).ci.CITags
      = st.ci.CITags := by
    unfold CIState.resized; by_cases hz : st.ci.CIMsgs.length = 0 <;> simp [hz]
  have hF : ({ st with ci := (st.ci.resized NProcs) } : ProcState D R).ci.CIFabs
      = st.ci.CIFabs := by
    unfold CIState.resized; by_cases hz : st.ci.CIMsgs.length = 0 <;> simp [hz]
  rw [hT] at a3
  rw [hF] at a4
  refine ⟨_, a3, a4, ?_⟩
  intro s k hk hown hint
  refine ⟨?_, ?_⟩
  · rw [a2, if_neg (fun h => hown h.2.2.2.symm)]
  · refine ⟨crsePending st.reg ⟨dir, s⟩ k (((st.reg.bndry ⟨dir, s⟩).box k).inter subbox) flux
      srccomp destcomp numcomp mult, ?_, rfl, rfl, rfl, rfl, rfl, rfl, rfl, rfl, ?_⟩
    · have hsh : ({ st with ci := (st.ci.resized NProcs) } : ProcState D R).reg = st.reg := rfl
      rw [hsh]
      exact pendingAt_filter MyProc st.reg flux subbox dir srccomp destcomp numcomp mult _ s k
        hk hown hint
    · intro p c hp hc0 hc1
      show (crseFab (FArrayBox.alloc _ numcomp) flux _ srccomp 0 numcomp mult).data p c = _
      rw [crseFab_data, if_pos ⟨hp, hc0, by omega⟩]
      have : c - 0 + srccomp = srccomp + c := by ring
      rw [this, mul_comm]

end FluxReg


namespace FluxReg

variable {D : Nat} {R : Type}

/-! ## `CrseInitFinish`: packing and unpacking -/

/-- The packing loop, when it returns, has concatenated the memory images of the buffers
whose tag names the destination, in list order, each cut to `numPts × nComp` elements, and
every such buffer has the box and component count of its tag. -/
theorem packFabs_pairs (i : Nat) : ∀ (l : List (FabComTag D × FArrayBox D R))
    (data : List R) (off : Int),
    packFabs i (l.map Prod.fst) (l.map Prod.snd) = some (data, off) →
    data = (l.filter (fun e => e.1.toProc = i)).flatMap
      (fun e => e.2.toList.take (e.1.box.numPts * e.1.nComp).toNat) ∧
    off = ((l.filter (fun e => e.1.toProc = i)).map
      (fun e => e.1.box.numPts * e.1.nComp)).sum ∧
    ∀ e ∈ l.filter (fun e => e.1.toProc = i), e.1.box = e.2.box ∧ e.1.nComp = e.2.nComp
  | [], data, off, h => by
    simp only [List.map_nil, packFabs, Option.some.injEq, Prod.mk.injEq] at h
    obtain ⟨h1, h2⟩ := h
    subst h1 h2
    simp
  | e :: l, data, off, h => by
    simp only [List.map_cons, packFabs] at h
    by_cases hi : e.1.toProc = i
    · rw [if_pos hi] at h
      by_cases hm : e.1.box = e.2.box ∧ e.1.nComp = e.2.nComp
      · rw [if_pos hm] at h
        cases hr : packFabs i (l.map Prod.fst) (l.map Prod.snd) with
        | none => rw [hr] at h; cases h
        | some v =>
          obtain ⟨rest, off'⟩ := v
          rw [hr] at h
          simp only [Option.some.injEq, Prod.mk.injEq] at h
          obtain ⟨h1, h2⟩ := h
          obtain ⟨g1, g2, g3⟩ := packFabs_pairs i l rest off' hr
          subst h1 h2
          refine ⟨?_, ?_, ?_⟩
          · simp [List.filter_cons, hi, g1]
          · simp [List.filter_cons, hi, g2]
          · intro e' he'
            simp only [List.filter_cons, hi, decide_True, if_true, List.mem_cons] at he'
            rcases he' with rfl | he'
            · exact hm
            · exact g3 e' he'
      · rw [if_neg hm] at h; cases h
    · rw [if_neg hi] at h
      obtain ⟨g1, g2, g3⟩ := packFabs_pairs i l data off h
      refine ⟨?_, ?_, ?_⟩
      · simp [List.filter_cons, hi, g1]
      · simp [List.filter_cons, hi, g2]
      · intro e' he'
        simp only [List.filter_cons, hi, decide_False] at he'
        exact g3 e' he'

/-- The unpack loop writes only to the entries named by the descriptors it is given. -/
theorem unpack_frame [Inhabited R] (MyProc : Nat) : ∀ (cds : List (CommData D))
    (r r' : FluxRegister D R) (dptr : List R),
    unpack MyProc r cds dptr = some r' →
    r.sameShape r' ∧
    ∀ f j, (∀ cd ∈ cds, ¬ (cd.face = f ∧ cd.fabindex = j)) →
      (r'.bndry f).fabs j = (r.bndry f).fabs j
  | [], r, r', dptr, h => by
    simp only [unpack, Option.some.injEq] at h
    subst h
    exact ⟨sameShape_refl _, fun _ _ _ => rfl⟩
  | cd :: cds, r, r', dptr, h => by
    simp only [unpack] at h
    split at h
    · cases h
    · split at h
      · cases h
      · obtain ⟨g1, g2⟩ := unpack_frame MyProc cds _ r' _ h
        refine ⟨sameShape_trans (sameShape_setFab _ _ _ _) g1, ?_⟩
        intro f j hfj
        rw [g2 f j (fun cd' hcd' => hfj cd' (List.mem_cons_of_mem _ hcd')), setFab_fabs,
          if_neg]
        rintro ⟨rfl, rfl⟩
        exact hfj cd (List.mem_cons_self _ _) ⟨rfl, rfl⟩

/-- The unpack loop, run on the descriptors and the concatenated memory images of a run of
pending contributions, leaves in the entry of a contribution `e` that is the only one for its
box and face the buffer of `e` on the region and component range of `e`, and the old values
elsewhere. -/
theorem unpack_target [Inhabited R] (MyProc A : Nat) (f : Orientation D) (j : Nat)
    (e : FabComTag D × FArrayBox D R) :
    ∀ (l : List (FabComTag D × FArrayBox D R)) (r r' : FluxRegister D R) (tail : List R),
    (∀ x ∈ l, x.1.box = x.2.domain ∧ x.1.nComp = x.2.nvar ∧ x.1.box.ok) →
    unpack MyProc r (l.map (fun x => cdOf A x.1))
      (l.flatMap (fun x => x.2.toList) ++ tail) = some r' →
    l.filter (fun x => x.1.fabIndex = j ∧ x.1.face = f) = [e] →
    ∀ (p : IntVect D) (c : Int),
      ((r'.bndry f).fabs j).data p c =
        if e.1.box.containsPt p ∧ e.1.destComp ≤ c ∧ c < e.1.destComp + e.1.nComp then
          e.2.data p (c - e.1.destComp)
        else ((r.bndry f).fabs j).data p c
  | [], r, r', tail, _, _, hf => by simp at hf
  | x :: l, r, r', tail, hwf, h, hf => by
    intro p c
    obtain ⟨w1, w2, w3⟩ := hwf x (List.mem_cons_self _ _)
    have hwf' : ∀ y ∈ l, y.1.box = y.2.domain ∧ y.1.nComp = y.2.nvar ∧ y.1.box.ok :=
      fun y hy => hwf y (List.mem_cons_of_mem _ hy)
    have hcount : ((cdOf A x.1).box.numPts * (cdOf A x.1).nComp).toNat = x.2.toList.length := by
      show (x.1.box.numPts * x.1.nComp).toNat = _
      rw [w1, w2]
      exact count_eq_length x.2 (w1 ▸ w3)
    simp only [List.map_cons, List.flatMap_cons, List.append_assoc, unpack] at h
    split at h
    · cases h
    · split at h
      · cases h
      · simp only [FArrayBox.ofList, FArrayBox.box, FArrayBox.nComp] at h
        rw [hcount, List.take_left', List.drop_left'] at h
        by_cases hx : x.1.fabIndex = j ∧ x.1.face = f
        · have hf' : x :: l.filter (fun x => x.1.fabIndex = j ∧ x.1.face = f) = [e] := by
            rw [List.filter_cons] at hf
            simpa [hx] using hf
          obtain ⟨hxe, hnil⟩ := List.cons_eq_cons.1 hf'
          subst hxe
          obtain ⟨-, g2⟩ := unpack_frame MyProc _ _ r' _ h
          rw [g2 f j (by
            intro cd hcd ⟨hc1, hc2⟩
            obtain ⟨y, hy, rfl⟩ := List.mem_map.1 hcd
            have : y ∈ l.filter (fun x => x.1.fabIndex = j ∧ x.1.face = f) := by
              rw [List.mem_filter]
              exact ⟨hy, by simpa [cdOf] using ⟨hc2, hc1⟩⟩
            rw [hnil] at this
            cases this)]
          rw [setFab_fabs]
          have hkey : (f = (cdOf A x.1).face ∧ j = (cdOf A x.1).fabindex) :=
            ⟨hx.2.symm, hx.1.symm⟩
          rw [if_pos hkey]
          simp only [FArrayBox.copy, cdOf]
          have hp : (fun d => p d - x.1.box.smallend d + x.1.box.smallend d) = p := by
            funext d; simp
          rw [hp]
          by_cases hin : x.1.box.containsPt p ∧ x.1.destComp ≤ c ∧ c < x.1.destComp + x.1.nComp
          · rw [if_pos hin, if_pos hin]
            have := ofList_toList x.2 p (c - x.1.destComp) (w1 ▸ hin.1) (by omega)
              (by rw [← w2]; omega)
            simp only [FArrayBox.ofList] at this
            rw [w1, w2] at *
            rw [add_zero]
            exact this
          · rw [if_neg hin, if_neg hin, hx.1, hx.2]
        · have hf' : l.filter (fun x => x.1.fabIndex = j ∧ x.1.face = f) = [e] := by
            rw [List.filter_cons] at hf
            simpa [hx] using hf
          have hne : ¬ (f = (cdOf A x.1).face ∧ j = (cdOf A x.1).fabindex) :=
            fun hh => hx ⟨hh.2.symm, hh.1.symm⟩
          rw [unpack_target MyProc A f j e l _ r' tail hwf' h hf' p c, setFab_fabs,
            if_neg hne]
        · exact hcount ▸ rfl
        · rfl

end FluxReg


namespace FluxReg

variable {D : Nat} {R : Type}

/-! ## `CrseInitFinish` -/

theorem getD_set_nat (m : List Nat) (j i v : Nat) :
    (m.set j v).getD i 0 = if j = i ∧ j < m.length then v else m.getD i 0 := by
  simp only [List.getD_eq_getElem?_getD, List.getElem?_set]
  by_cases h : j = i
  · subst h
    by_cases hl : j < m.length
    · simp [hl]
    · simp [hl, List.getElem?_eq_none (not_lt.1 hl)]
  · simp [h]

/-- The counter of destination `i` grows by the number of counted contributions for `i`. -/
theorem bumpMsgs_getD (i : Nat) : ∀ (l : List (FabComTag D × FArrayBox D R)) (msgs : List Nat),
    i < msgs.length →
    (bumpMsgs msgs l).getD i 0 = msgs.getD i 0 + (l.filter (fun e => e.1.toProc = i)).length
  | [], msgs, _ => by simp [bumpMsgs]
  | e :: l, msgs, hi => by
    have ih := bumpMsgs_getD i l (msgs.set e.1.toProc (msgs.getD e.1.toProc 0 + 1))
      (by rw [List.length_set]; exact hi)
    have hb : bumpMsgs msgs (e :: l) =
        bumpMsgs (msgs.set e.1.toProc (msgs.getD e.1.toProc 0 + 1)) l := rfl
    rw [hb, ih, getD_set_nat]
    by_cases h : e.1.toProc = i
    · subst h
      simp [List.filter_cons, hi]
      omega
    · simp [List.filter_cons, h]

theorem foldlM_single {β : Type} (T : β → Nat → Option β) (A : Nat) :
    ∀ (l : List Nat), l.Nodup → ∀ (r : β), (∀ i ∈ l, i ≠ A → ∀ r, T r i = some r) →
      l.foldlM T r = if A ∈ l then T r A else some r
  | [], _, r, _ => by simp
  | a :: l, hl, r, h => by
    obtain ⟨ha, hl'⟩ := List.nodup_cons.1 hl
    rw [List.foldlM_cons]
    by_cases haA : a = A
    · subst haA
      have : ∀ r', l.foldlM T r' = some r' := by
        intro r'
        rw [foldlM_single T a l hl' r' (fun i hi => h i (List.mem_cons_of_mem _ hi)), if_neg ha]
      cases hT : T r a with
      | none => simp
      | some r1 =>
        simp only [List.mem_cons, true_or, if_true]
        exact this r1
    · rw [h a (List.mem_cons_self _ _) haA r]
      simp only [List.mem_cons]
      change l.foldlM T r = _
      rw [foldlM_single T A l hl' r (fun i hi => h i (List.mem_cons_of_mem _ hi))]
      have : (A = a ∨ A ∈ l) ↔ A ∈ l := by
        constructor
        · rintro (e | e)
          · exact absurd e.symm haA
          · exact e
        · exact Or.inr
      simp only [this]

theorem foldlM_track {β γ : Type} (S : β → Nat → Option β) (proj : β → γ) (G : γ → γ)
    (B : Nat)
    (hother : ∀ p, p ≠ B → ∀ r r', S r p = some r' → proj r' = proj r)
    (hB : ∀ r r', S r B = some r' → proj r' = G (proj r)) :
    ∀ (l : List Nat), l.Nodup → ∀ (r r' : β), l.foldlM S r = some r' →
      proj r' = if B ∈ l then G (proj r) else proj r
  | [], _, r, r', h => by
    simp only [List.foldlM_nil] at h
    cases h
    simp
  | a :: l, hl, r, r', h => by
    obtain ⟨ha, hl'⟩ := List.nodup_cons.1 hl
    rw [List.foldlM_cons] at h
    cases hS : S r a with
    | none => rw [hS] at h; cases h
    | some r1 =>
      rw [hS] at h
      change l.foldlM S r1 = some r' at h
      have ih := foldlM_track S proj G B hother hB l hl' r1 r' h
      by_cases haB : a = B
      · subst haB
        rw [ih, if_neg ha, hB r r1 hS]
        simp
      · rw [ih, hother a haB r r1 hS]
        have : (B ∈ a :: l) ↔ B ∈ l := by
          simp only [List.mem_cons]
          constructor
          · rintro (e | e)
            · exact absurd e.symm haB
            · exact e
          · exact Or.inr
        simp only [this]

/-- A completed `CrseInitFinish` on more than one process: the register is the result of the
receive loops of all processes, and the statics of every process are reset. -/
theorem CrseInitFinish_some [Inhabited R] (NProcs : Nat) (w w2 : World D R)
    (hN : NProcs ≠ 1) (h : CrseInitFinish NProcs w = some w2) :
    (∀ p, p < NProcs →
      ((w.ci p).resized NProcs).CITags.length = ((w.ci p).resized NProcs).CIFabs.length ∧
      ((w.ci p).resized NProcs).CIMsgs.getD p 0 = 0) ∧
    (List.range NProcs).foldlM (receiveAll NProcs (fun p => (w.ci p).resized NProcs)) w.reg
      = some w2.reg ∧
    ∀ p, p < NProcs → w2.ci p =
      { CIMsgs := zeroFirst NProcs ((w.ci p).resized NProcs).CIMsgs, CITags := [], CIFabs := [] } := by
  unfold CrseInitFinish at h
  rw [if_neg hN] at h
  simp only at h
  split at h
  · cases h
  · next hass =>
    split at h
    · cases h
    · next reg hreg =>
      simp only [Option.some.injEq] at h
      subst h
      refine ⟨not_not.1 hass, hreg, ?_⟩
      intro p hp
      simp [hp]

end FluxReg


namespace FluxReg

variable {D : Nat} {R : Type}

/-- A sender that announced no block for `p` changes nothing on `p`. -/
theorem deliver_zero [Inhabited R] (ci : Nat → CIState D R) (p i : Nat)
    (reg : FluxRegister D R) (h : (ci i).CIMsgs.getD p 0 = 0) :
    deliver ci p reg i = some reg := by
  unfold deliver sendTo recvFrom
  simp only [h, lt_self_iff_false, if_false]

/-- A sender that announced blocks for `p`: when the exchange completes, the packing loop of
the sender has returned a run and the receiver has unpacked that run against the
descriptors of the sender. -/
theorem deliver_unpack [Inhabited R] (ci : Nat → CIState D R) (p i : Nat)
    (reg r' : FluxRegister D R) (hpos : 0 < (ci i).CIMsgs.getD p 0)
    (h : deliver ci p reg i = some r') :
    ∃ data off, packFabs p (ci i).CITags (ci i).CIFabs = some (data, off) ∧
      unpack p reg (sendCommData i (ci i).CITags p) data = some r' := by
  unfold deliver sendTo at h
  rw [if_pos hpos] at h
  simp only at h
  split at h
  · cases h
  · next msg hmsg =>
    split at hmsg
    · cases hmsg
    · split at hmsg
      · cases hmsg
      · split at hmsg
        · cases hmsg
        · next data off hpk =>
          split at hmsg
          · cases hmsg
          · simp only [Option.some.injEq] at hmsg
            subst hmsg
            unfold recvFrom at h
            rw [if_pos hpos] at h
            simp only at h
            split at h
            · cases h
            · exact ⟨data, off, hpk, h⟩

/-- The world after one call of `CrseInit` overload B by process `A` whose statics were
idle: the pending list of `A` is exactly the run of contributions the call creates, the
statics of the other processes are untouched. -/
theorem call_from_idle [Mul R] [Inhabited R] (NProcs A : Nat) (w0 w1 : World D R)
    (flux : FArrayBox D R) (subbox : Box D) (dir : Fin D)
    (srccomp destcomp numcomp : Int) (mult : R)
    (hidle : (w0.ci A).idle NProcs)
    (hcall : w0.CrseInit NProcs A flux subbox dir srccomp destcomp numcomp mult = some w1) :
    w1.ci A =
      { CIMsgs := bumpMsgs (List.replicate NProcs 0) ((List.range w0.reg.grids.length).flatMap
          (crsePendingAt A w0.reg flux subbox dir srccomp destcomp numcomp mult))
        CITags := ((List.range w0.reg.grids.length).flatMap
          (crsePendingAt A w0.reg flux subbox dir srccomp destcomp numcomp mult)).map Prod.fst
        CIFabs := ((List.range w0.reg.grids.length).flatMap
          (crsePendingAt A w0.reg flux subbox dir srccomp destcomp numcomp mult)).map Prod.snd } ∧
    (∀ p, p ≠ A → w1.ci p = w0.ci p) ∧
    w0.reg.sameShape w1.reg ∧
    (∀ f j, (w1.reg.bndry f).fabs j =
      if f.coordDir = dir ∧ j ∈ List.range w0.reg.grids.length ∧
          subbox.intersects ((w0.reg.bndry f).box j) ∧
          A = (w0.reg.bndry f).distributionMap j then
        crseFab ((w0.reg.bndry f).fabs j) flux (((w0.reg.bndry f).box j).inter subbox)
          srccomp destcomp numcomp mult
      else (w0.reg.bndry f).fabs j) := by
  unfold World.CrseInit at hcall
  split at hcall
  · cases hcall
  · next st' hst =>
    simp only [Option.some.injEq] at hcall
    subst hcall
    obtain ⟨-, hst'⟩ := CrseInit_of_ok _ _ _ _ _ _ _ _ _ _ _ hst
    obtain ⟨a1, a2, a3, a4, a5⟩ := crseLoop_spec A flux subbox dir srccomp destcomp numcomp mult
      (List.range w0.reg.grids.length) (List.nodup_range _)
      ({ reg := w0.reg, ci := (w0.ci A).resized NProcs } : ProcState D R)
    simp only [← hst'] at a1 a2 a3 a4 a5
    obtain ⟨i1, i2, i3⟩ := hidle
    have hres : (w0.ci A).resized NProcs =
        { CIMsgs := List.replicate NProcs 0, CITags := [], CIFabs := [] } := by
      unfold CIState.resized
      rcases i3 with i3 | i3
      · simp [i3, i1, i2]
      · by_cases hz : (w0.ci A).CIMsgs.length = 0
        · simp [hz, i1, i2]
        · rw [if_neg hz]
          cases hc : w0.ci A
          rw [hc] at i1 i2 i3
          simp only at i1 i2 i3
          rw [i1, i2, i3]
    rw [hres] at a3 a4 a5
    refine ⟨?_, ?_, a1, a2⟩
    · simp only [if_true]
      cases hc : st'.ci
      rw [hc] at a3 a4 a5
      simp only [List.nil_append] at a3 a4 a5
      rw [a3, a4, a5]
    · intro p hp
      simp [hp]

end FluxReg


namespace FluxReg

variable {D : Nat} {R : Type}

theorem flatMap_congr_mem {α β : Type} (l : List α) (f g : α → List β)
    (h : ∀ x ∈ l, f x = g x) : l.flatMap f = l.flatMap g := by
  induction l with
  | nil => rfl
  | cons a l ih =>
    rw [List.flatMap_cons, List.flatMap_cons, h a (List.mem_cons_self _ _),
      ih (fun x hx => h x (List.mem_cons_of_mem _ hx))]

/-- C6: in a run of `NProcs` processes (two in particular) whose pending lists are empty,
let process `A` call `CrseInit` overload B and let all processes then complete
`CrseInitFinish`.  For every register box `k` owned by another process `B`, each side `s`,
every cell `p` of the contributed region `subbox ∩ bndry[(dir,s)].box(k)` and every `c` in
`[0, numcomp)`, the Face Storage entry of box `k` held by `B` ends with
`flux(p, srccomp+c) × mult` in component `destcomp+c`. -/
theorem ownership_round_trip [Mul R] [Inhabited R] (NProcs A B : Nat) (w0 w1 w2 : World D R)
    (flux : FArrayBox D R) (subbox : Box D) (dir : Fin D)
    (srccomp destcomp numcomp : Int) (mult : R)
    (hA : A < NProcs) (hB : B < NProcs) (hAB : A ≠ B)
    (hidle : ∀ p, p < NProcs → (w0.ci p).idle NProcs)
    (hcall : w0.CrseInit NProcs A flux subbox dir srccomp destcomp numcomp mult = some w1)
    (hfin : CrseInitFinish NProcs w1 = some w2) :
    ∀ (s : Side) (k : Nat), k < w0.reg.grids.length →
      (w0.reg.bndry ⟨dir, s⟩).distributionMap k = B →
      ∀ (p : IntVect D) (c : Int), subbox.containsPt p →
        ((w0.reg.bndry ⟨dir, s⟩).box k).containsPt p → 0 ≤ c → c < numcomp →
        ((w2.reg.bndry ⟨dir, s⟩).fabs k).data p (destcomp + c) =
          flux.data p (srccomp + c) * mult := by
  intro s k hk hown p c hp1 hp2 hc0 hc1
  obtain ⟨new, hnew⟩ : ∃ new, new = (List.range w0.reg.grids.length).flatMap
      (crsePendingAt A w0.reg flux subbox dir srccomp destcomp numcomp mult) := ⟨_, rfl⟩
  obtain ⟨c1, c2, -, -⟩ := call_from_idle NProcs A w0 w1 flux subbox dir srccomp destcomp
    numcomp mult (hidle A hA) hcall
  rw [← hnew] at c1
  have hN : NProcs ≠ 1 := by omega
  obtain ⟨-, hfold, -⟩ := CrseInitFinish_some NProcs w1 w2 hN hfin
  obtain ⟨ci, hci⟩ : ∃ ci : Nat → CIState D R, ci = fun p => (w1.ci p).resized NProcs :=
    ⟨_, rfl⟩
  rw [← hci] at hfold
  -- the statics after the resize
  have hciA : ci A = ⟨bumpMsgs (List.replicate NProcs 0) new, new.map Prod.fst,
      new.map Prod.snd⟩ := by
    rw [hci]
    simp only [CIState.resized, c1, bumpMsgs_length, List.length_replicate]
    rw [if_neg (by omega)]
  have hciO : ∀ i, i ∈ List.range NProcs → i ≠ A → ∀ q, (ci i).CIMsgs.getD q 0 = 0 := by
    intro i hi hiA q
    obtain ⟨-, -, i3⟩ := hidle i (List.mem_range.1 hi)
    rw [hci]
    simp only [CIState.resized, c2 i hiA]
    rcases i3 with i3 | i3
    · simp [i3, List.getElem?_getD_replicate_default_eq]
    · by_cases hz : (w0.ci i).CIMsgs.length = 0
      · simp [hz, List.getElem?_getD_replicate_default_eq]
      · rw [if_neg hz, i3]
        simp [List.getElem?_getD_replicate_default_eq]
  have hrecv : ∀ q reg, receiveAll NProcs ci reg q = deliver ci q reg A := by
    intro q reg
    unfold receiveAll
    rw [foldlM_single (fun r i => deliver ci q r i) A (List.range NProcs) (List.nodup_range _)
      reg (fun i hi hiA r => deliver_zero ci q i r (hciO i hi hiA q)),
      if_pos (List.mem_range.2 hA)]
  -- the contribution for (s, k)
  have hint : subbox.intersects ((w0.reg.bndry ⟨dir, s⟩).box k) :=
    fun d => ((containsPt_inter _ _ p).2 ⟨hp1, hp2⟩ d).1.trans
      ((containsPt_inter _ _ p).2 ⟨hp1, hp2⟩ d).2
  have hfilt := pendingAt_filter A w0.reg flux subbox dir srccomp destcomp numcomp mult
    w0.reg.grids.length s k hk (by rw [hown]; exact fun h => hAB h.symm) hint
  rw [← hnew] at hfilt
  obtain ⟨e, he⟩ : ∃ e, e = crsePending w0.reg ⟨dir, s⟩ k
      (((w0.reg.bndry ⟨dir, s⟩).box k).inter subbox) flux srccomp destcomp numcomp mult :=
    ⟨_, rfl⟩
  rw [← he] at hfilt
  have hmem : ∀ x ∈ new,
      x.1.toProc = (w0.reg.bndry x.1.face).distributionMap x.1.fabIndex ∧
      x.1.box = x.2.domain ∧ x.1.nComp = x.2.nvar ∧ x.1.box.ok := by
    intro x hx
    rw [hnew] at hx
    obtain ⟨j, -, hj⟩ := List.mem_flatMap.1 hx
    obtain ⟨-, -, m3, -, m5, m6, m7⟩ :=
      crsePendingAt_mem A w0.reg flux subbox dir srccomp destcomp numcomp mult j x hj
    exact ⟨m3, m5, m6, m7⟩
  have hein : e ∈ new := by
    have : e ∈ new.filter (fun e => e.1.fabIndex = k ∧ e.1.face = ⟨dir, s⟩) := by
      rw [hfilt]; exact List.mem_singleton_self e
    exact (List.mem_filter.1 this).1
  have heB : e.1.toProc = B := by rw [he]; exact hown
  have hsend : ∀ q, sendCommData A (ci A).CITags q =
      (new.filter (fun x => x.1.toProc = q)).map (fun x => cdOf A x.1) := by
    intro q
    rw [hciA]
    simp only [sendCommData, List.filter_map, List.map_map]
    rfl
  -- the receive loops
  have htrack := foldlM_track (receiveAll NProcs ci)
    (fun r => ((r.bndry ⟨dir, s⟩).fabs k).data)
    (fun data p c =>
      if e.1.box.containsPt p ∧ e.1.destComp ≤ c ∧ c < e.1.destComp + e.1.nComp then
        e.2.data p (c - e.1.destComp)
      else data p c) B
    (by
      intro q hqB r r' hr
      rw [hrecv] at hr
      by_cases hpos : 0 < (ci A).CIMsgs.getD q 0
      · obtain ⟨data, off, -, hun⟩ := deliver_unpack ci q A r r' hpos hr
        obtain ⟨-, g2⟩ := unpack_frame q _ r r' data hun
        simp only
        rw [g2 ⟨dir, s⟩ k]
        intro cd hcd ⟨hc1, hc2⟩
        rw [hsend] at hcd
        obtain ⟨x, hx, rfl⟩ := List.mem_map.1 hcd
        obtain ⟨hx1, hx2⟩ := List.mem_filter.1 hx
        have hx2' : x.1.toProc = q := by simpa using hx2
        have hx3 := (hmem x hx1).1
        simp only [cdOf] at hc1 hc2
        rw [hc1, hc2, hown] at hx3
        exact hqB (hx2'.symm.trans hx3)
      · rw [deliver_zero ci q A r (by omega)] at hr
        cases hr
        rfl)
    (by
      intro r r' hr
      rw [hrecv] at hr
      have hpos : 0 < (ci A).CIMsgs.getD B 0 := by
        rw [hciA]
        simp only
        rw [bumpMsgs_getD B new _ (by simpa using hB)]
        have : e ∈ new.filter (fun x => x.1.toProc = B) :=
          List.mem_filter.2 ⟨hein, by simpa using heB⟩
        have := List.length_pos_of_mem this
        omega
      obtain ⟨data, off, hpk, hun⟩ := deliver_unpack ci B A r r' hpos hr
      rw [hciA] at hpk
      obtain ⟨hd, -, -⟩ := packFabs_pairs B new data off hpk
      have hd' : data = (new.filter (fun x => x.1.toProc = B)).flatMap
          (fun x => x.2.toList) ++ [] := by
        rw [hd, List.append_nil]
        apply flatMap_congr_mem
        intro x hx
        obtain ⟨m1, m2, m3⟩ := (hmem x (List.mem_filter.1 hx).1).2
        rw [m1, m2, count_eq_length x.2 (m1 ▸ m3), List.take_length]
      rw [hsend, hd'] at hun
      have hfilt2 : (new.filter (fun x => x.1.toProc = B)).filter
          (fun x => x.1.fabIndex = k ∧ x.1.face = ⟨dir, s⟩) = [e] := by
        rw [List.filter_filter]
        have : (new.filter (fun x => x.1.fabIndex = k ∧ x.1.face = ⟨dir, s⟩)).filter
            (fun x => x.1.toProc = B) = [e] := by
          rw [hfilt]; simp [heB]
        rw [List.filter_filter] at this
        rw [← this]
        congr 1
        funext a
        exact Bool.and_comm _ _
      funext p' c'
      exact unpack_target B A ⟨dir, s⟩ k e _ r r' []
        (fun x hx => (hmem x (List.mem_filter.1 hx).1).2) hun hfilt2 p' c')
    (List.range NProcs) (List.nodup_range _) w1.reg w2.reg hfold
  rw [if_pos (List.mem_range.2 hB)] at htrack
  have hval := congrFun (congrFun htrack p) (destcomp + c)
  simp only at hval
  rw [hval]
  have hbox : e.1.box = ((w0.reg.bndry ⟨dir, s⟩).box k).inter subbox := by rw [he]; rfl
  have hdc : e.1.destComp = destcomp := by rw [he]; rfl
  have hnc : e.1.nComp = numcomp := by rw [he]; rfl
  rw [if_pos ⟨by rw [hbox]; exact (containsPt_inter _ _ p).2 ⟨hp2, hp1⟩,
    by rw [hdc]; omega, by rw [hdc, hnc]; omega⟩, hdc]
  rw [he]
  show (crseFab (FArrayBox.alloc _ numcomp) flux _ srccomp 0 numcomp mult).data p _ = _
  rw [crseFab_data, if_pos ⟨(containsPt_inter _ _ p).2 ⟨hp2, hp1⟩, by omega, by omega⟩]
  congr 2
  ring

end FluxReg


namespace FluxReg

variable {D : Nat} {R : Type}

theorem zeroFirst_eq : ∀ (n : Nat) (l : List Nat), l.length ≤ n →
    zeroFirst n l = List.replicate l.length 0
  | 0, l, h => by
    have : l = [] := List.length_eq_zero.1 (Nat.le_zero.1 h)
    subst this; rfl
  | n + 1, [], _ => rfl
  | n + 1, a :: t, h => by
    simp only [zeroFirst, List.length_cons, List.replicate_succ]
    rw [zeroFirst_eq n t (by simpa using h)]

/-- One call of `CrseInit` overload B seen on the whole machine: only the statics of the
caller change, by the resize and by the run of contributions the call creates. -/
theorem World.CrseInit_spec [Mul R] [Inhabited R] (NProcs A : Nat) (w0 w1 : World D R)
    (flux : FArrayBox D R) (subbox : Box D) (dir : Fin D)
    (srccomp destcomp numcomp : Int) (mult : R)
    (hcall : w0.CrseInit NProcs A flux subbox dir srccomp destcomp numcomp mult = some w1) :
    (w1.ci A).CIMsgs = bumpMsgs ((w0.ci A).resized NProcs).CIMsgs
      ((List.range w0.reg.grids.length).flatMap
        (crsePendingAt A w0.reg flux subbox dir srccomp destcomp numcomp mult)) ∧
    (w1.ci A).CITags = (w0.ci A).CITags ++ ((List.range w0.reg.grids.length).flatMap
        (crsePendingAt A w0.reg flux subbox dir srccomp destcomp numcomp mult)).map Prod.fst ∧
    (w1.ci A).CIFabs = (w0.ci A).CIFabs ++ ((List.range w0.reg.grids.length).flatMap
        (crsePendingAt A w0.reg flux subbox dir srccomp destcomp numcomp mult)).map Prod.snd ∧
    (∀ p, p ≠ A → w1.ci p = w0.ci p) ∧
    w0.reg.sameShape w1.reg := by
  unfold World.CrseInit at hcall
  split at hcall
  · cases hcall
  · next st' hst =>
    simp only [Option.some.injEq] at hcall
    subst hcall
    obtain ⟨-, hst'⟩ := CrseInit_of_ok _ _ _ _ _ _ _ _ _ _ _ hst
    obtain ⟨a1, -, a3, a4, a5⟩ := crseLoop_spec A flux subbox dir srccomp destcomp numcomp mult
      (List.range w0.reg.grids.length) (List.nodup_range _)
      ({ reg := w0.reg, ci := (w0.ci A).resized NProcs } : ProcState D R)
    simp only [← hst'] at a1 a3 a4 a5
    have hT : ((w0.ci A).resized NProcs).CITags = (w0.ci A).CITags := by
      unfold CIState.resized; by_cases hz : (w0.ci A).CIMsgs.length = 0 <;> simp [hz]
    have hF : ((w0.ci A).resized NProcs).CIFabs = (w0.ci A).CIFabs := by
      unfold CIState.resized; by_cases hz : (w0.ci A).CIMsgs.length = 0 <;> simp [hz]
    rw [hT] at a3
    rw [hF] at a4
    refine ⟨?_, ?_, ?_, ?_, a1⟩
    · simpa using a5
    · simpa using a3
    · simpa using a4
    · intro p hp
      simp [hp]

theorem runCalls_induction [Mul R] [Inhabited R] (NProcs : Nat) (P : World D R → Prop) :
    ∀ (calls : List (CrseInitCall D R)) (w0 w1 : World D R),
    P w0 →
    (∀ c ∈ calls, ∀ w w', P w →
      w.CrseInit NProcs c.MyProc c.flux c.subbox c.dir c.srccomp c.destcomp c.numcomp c.mult
        = some w' → P w') →
    World.runCalls NProcs w0 calls = some w1 → P w1
  | [], w0, w1, h0, _, hrun => by
    simp only [World.runCalls, Option.some.injEq] at hrun
    subst hrun; exact h0
  | c :: cs, w0, w1, h0, hstep, hrun => by
    simp only [World.runCalls] at hrun
    split at hrun
    · cases hrun
    · next w' hw' =>
      exact runCalls_induction NProcs P cs w' w1
        (hstep c (List.mem_cons_self _ _) w0 w' h0 hw')
        (fun c' hc' => hstep c' (List.mem_cons_of_mem _ hc')) hrun

theorem resized_length (NProcs : Nat) (ci : CIState D R)
    (h : ci.CIMsgs.length = 0 ∨ ci.CIMsgs.length = NProcs) :
    (ci.resized NProcs).CIMsgs.length = NProcs := by
  unfold CIState.resized
  by_cases hz : ci.CIMsgs.length = 0
  · simp [hz]
  · rcases h with h | h
    · exact absurd h hz
    · simp only [hz, if_false]; exact h

/-- C7: for every process count, from statics that are idle (at program start or after the
previous consolidation) and after every sequence of `CrseInit` overload-B calls, a
`CrseInitFinish` that returns leaves on every process an empty pending list (`CITags` and
`CIFabs` of length 0) and every counter `CIMsgs[i]` equal to zero. -/
theorem CrseInitFinish_resets [Mul R] [Inhabited R] (NProcs : Nat) (w0 w1 w2 : World D R)
    (calls : List (CrseInitCall D R))
    (hidle : ∀ p, p < NProcs → (w0.ci p).idle NProcs)
    (hprocs : ∀ c ∈ calls, c.MyProc < NProcs)
    (howner : ∀ (f : Orientation D) (k : Nat), k < w0.reg.grids.length →
      (w0.reg.bndry f).distributionMap k < NProcs)
    (hrun : World.runCalls NProcs w0 calls = some w1)
    (hfin : CrseInitFinish NProcs w1 = some w2) :
    ∀ p, p < NProcs →
      (w2.ci p).CITags.length = 0 ∧ (w2.ci p).CIFabs.length = 0 ∧
      (∀ x ∈ (w2.ci p).CIMsgs, x = 0) ∧ (∀ i, (w2.ci p).CIMsgs.getD i 0 = 0) := by
  have hzero : ∀ (l : List Nat), (∀ x ∈ l, x = 0) → ∀ i, l.getD i 0 = 0 := by
    intro l hl i
    rw [List.getD_eq_getElem?_getD]
    cases h : l[i]? with
    | none => rfl
    | some v => exact hl v (List.getElem?_mem h)
  by_cases hN : NProcs = 1
  · -- a single process: every register box is local, nothing is ever buffered
    subst hN
    have hinv : w0.reg.sameShape w1.reg ∧ (w1.ci 0).CITags = [] ∧ (w1.ci 0).CIFabs = [] ∧
        ∀ x ∈ (w1.ci 0).CIMsgs, x = 0 := by
      refine runCalls_induction 1
        (fun w => w0.reg.sameShape w.reg ∧ (w.ci 0).CITags = [] ∧ (w.ci 0).CIFabs = [] ∧
          ∀ x ∈ (w.ci 0).CIMsgs, x = 0) calls w0 w1 ?_ ?_ hrun
      · obtain ⟨i1, i2, i3⟩ := hidle 0 Nat.zero_lt_one
        refine ⟨sameShape_refl _, i1, i2, ?_⟩
        rcases i3 with i3 | i3 <;> rw [i3] <;> simp
      · intro c hc w w' ⟨s1, s2, s3, s4⟩ hcall
        have hc0 : c.MyProc = 0 := by have := hprocs c hc; omega
        rw [hc0] at hcall
        obtain ⟨b1, b2, b3, -, b5⟩ := World.CrseInit_spec 1 0 w w' c.flux c.subbox c.dir
          c.srccomp c.destcomp c.numcomp c.mult hcall
        have hnew : (List.range w.reg.grids.length).flatMap
            (crsePendingAt 0 w.reg c.flux c.subbox c.dir c.srccomp c.destcomp c.numcomp c.mult)
            = [] := by
          rw [List.flatMap_eq_nil_iff]
          intro k hk
          have hk' : k < w0.reg.grids.length := by
            rw [← s1.1]; exact List.mem_range.1 hk
          have hloc : ∀ s : Side, (w.reg.bndry ⟨c.dir, s⟩).distributionMap k = 0 := by
            intro s
            rw [(s1.2.2.2.2 _).2]
            have := howner ⟨c.dir, s⟩ k hk'
            omega
          simp [crsePendingAt, crsePendingFace, hloc]
        rw [hnew] at b1 b2 b3
        refine ⟨sameShape_trans s1 b5, by simpa [s2] using b2, by simpa [s3] using b3, ?_⟩
        rw [b1]
        simp only [bumpMsgs, List.foldl_nil, CIState.resized]
        by_cases hz : (w.ci 0).CIMsgs.length = 0
        · simp [hz]
        · simpa [hz] using s4
    have hw : w2 = w1 := by
      unfold CrseInitFinish at hfin
      simpa using hfin.symm
    intro p hp
    have hp0 : p = 0 := by omega
    subst hp0
    rw [hw]
    obtain ⟨-, t1, t2, t3⟩ := hinv
    exact ⟨by rw [t1]; rfl, by rw [t2]; rfl, t3, hzero _ t3⟩
  · have hinv : ∀ p, p < NProcs →
        (w1.ci p).CIMsgs.length = 0 ∨ (w1.ci p).CIMsgs.length = NProcs := by
      refine runCalls_induction NProcs
        (fun w => ∀ p, p < NProcs →
          (w.ci p).CIMsgs.length = 0 ∨ (w.ci p).CIMsgs.length = NProcs) calls w0 w1 ?_ ?_ hrun
      · intro p hp
        obtain ⟨-, -, i3⟩ := hidle p hp
        rcases i3 with i3 | i3 <;> rw [i3] <;> simp
      · intro c _ w w' hw hcall p hp
        obtain ⟨b1, -, -, b4, -⟩ := World.CrseInit_spec NProcs c.MyProc w w' c.flux c.subbox
          c.dir c.srccomp c.destcomp c.numcomp c.mult hcall
        by_cases hpc : p = c.MyProc
        · subst hpc
          right
          rw [b1, bumpMsgs_length, resized_length NProcs _ (hw _ hp)]
        · rw [b4 p hpc]; exact hw p hp
    obtain ⟨-, -, hci⟩ := CrseInitFinish_some NProcs w1 w2 hN hfin
    intro p hp
    rw [hci p hp]
    have hlen := resized_length NProcs (w1.ci p) (hinv p hp)
    have hz : ∀ x ∈ zeroFirst NProcs ((w1.ci p).resized NProcs).CIMsgs, x = 0 := by
      intro x hx
      rw [zeroFirst_eq _ _ (le_of_eq hlen)] at hx
      exact (List.mem_replicate.1 hx).2
    exact ⟨rfl, rfl, hz, hzero _ hz⟩

end FluxReg


namespace FluxReg

/-- C4, at a concrete input: process 0 of 2 calls `CrseInit(exFlux, exSub, 0, 0, 0, 1, 3)` on
the register `exReg2`; the low face of its own box 0 (face index 2) ends with `3 × 2`. -/
theorem CrseInit_local_effect_witness :
    ∃ st' : ProcState 1 Int,
      CrseInit 0 2 ⟨exReg2, CIState.init⟩ exFlux exSub 0 0 0 1 3 = Except.ok st' ∧
      ((st'.reg.bndry ⟨0, Side.low⟩).fabs 0).data ![2] (0 + 0) =
        3 * exFlux.data ![2] (0 + 0) := by
  obtain ⟨h1, h2⟩ := CrseInit_local_effect 0 2 (⟨exReg2, CIState.init⟩ : ProcState 1 Int)
    exFlux exSub 0 0 0 1 3
  obtain ⟨st', hst'⟩ := h1 ⟨by decide, by decide, by decide, Or.inl rfl⟩
  exact ⟨st', hst', (h2 st' hst').1 Side.low 0 (by decide) (by decide) ![2] 0
    (by decide) (by decide) (by decide) (by decide)⟩

/-- C5, at a concrete input: the same call buffers, for box 1 owned by process 1, one
contribution addressed to process 1 whose buffer holds `3 × 10` at face index 10. -/
theorem CrseInit_remote_effect_witness :
    ∃ (st' : ProcState 1 Int) (e : FabComTag 1 × FArrayBox 1 Int),
      CrseInit 0 2 ⟨exReg2, CIState.init⟩ exFlux exSub 0 0 0 1 3 = Except.ok st' ∧
      e.1.toProc = 1 ∧ e.1.fabIndex = 1 ∧
      e.2.data ![10] 0 = 3 * exFlux.data ![10] (0 + 0) := by
  have hok := CrseInit_ok 0 2 (⟨exReg2, CIState.init⟩ : ProcState 1 Int) exFlux exSub 0 0 0 1 3
    (by decide) (by decide) (by decide) (Or.inl rfl)
  obtain ⟨new, -, -, h3⟩ := CrseInit_remote_effect 0 2 _ _ exFlux exSub 0 0 0 1 3 hok
  obtain ⟨-, e, -, e1, e2, e3, -, -, -, -, -, e9⟩ :=
    h3 Side.low 1 (by decide) (by decide) (by decide)
  exact ⟨_, e, hok, e1, e2, e9 ![10] 0 (by rw [e3]; decide) (by decide) (by decide)⟩

/-- C6, at a concrete input: two processes, process 0 calls `CrseInit` with `mult = 3`, both
complete `CrseInitFinish`; the low face of box 1 on its owner, process 1, holds `10 × 3`. -/
theorem ownership_round_trip_witness :
    ∃ w1 w2 : World 1 Int,
      exWorld0.CrseInit 2 0 exFlux exSub 0 0 0 1 3 = some w1 ∧
      CrseInitFinish 2 w1 = some w2 ∧
      ((w2.reg.bndry ⟨0, Side.low⟩).fabs 1).data ![10] (0 + 0) =
        exFlux.data ![10] (0 + 0) * 3 := by
  have h : ((exWorld0.CrseInit 2 0 exFlux exSub 0 0 0 1 3).bind (CrseInitFinish 2)).isSome
      = true := by decide
  cases h1 : exWorld0.CrseInit 2 0 exFlux exSub 0 0 0 1 3 with
  | none => rw [h1] at h; cases h
  | some w1 =>
    rw [h1] at h
    cases h2 : CrseInitFinish 2 w1 with
    | none => simp [h2] at h
    | some w2 =>
      exact ⟨w1, w2, rfl, h2,
        ownership_round_trip 2 0 1 exWorld0 w1 w2 exFlux exSub 0 0 0 1 3 (by decide)
          (by decide) (by decide) (fun p _ => ⟨rfl, rfl, Or.inl rfl⟩) h1 h2 Side.low 1
          (by decide) (by decide) ![10] 0 (by decide) (by decide) (by decide) (by decide)⟩

/-- C7, at a concrete input: after the call `exCall` and the consolidation, process 0 has no
pending contribution left. -/
theorem CrseInitFinish_resets_witness :
    ∃ w1 w2 : World 1 Int,
      World.runCalls 2 exWorld0 [exCall] = some w1 ∧ CrseInitFinish 2 w1 = some w2 ∧
      (w2.ci 0).CITags.length = 0 ∧ (w2.ci 0).CIFabs.length = 0 ∧
      ∀ x ∈ (w2.ci 0).CIMsgs, x = 0 := by
  have h : ((World.runCalls 2 exWorld0 [exCall]).bind (CrseInitFinish 2)).isSome = true := by
    decide
  cases h1 : World.runCalls 2 exWorld0 [exCall] with
  | none => rw [h1] at h; cases h
  | some w1 =>
    rw [h1] at h
    cases h2 : CrseInitFinish 2 w1 with
    | none => simp [h2] at h
    | some w2 =>
      have := CrseInitFinish_resets 2 exWorld0 w1 w2 [exCall]
        (fun p _ => ⟨rfl, rfl, Or.inl rfl⟩)
        (by intro c hc; rw [List.mem_singleton.1 hc]; decide)
        (by
          intro f k hk
          have hk2 : k < 2 := hk
          obtain ⟨d, s⟩ := f
          cases s <;> exact hk2)
        h1 h2 0 (by decide)
      exact ⟨w1, w2, rfl, h2, this.1, this.2.1, this.2.2.1⟩

end FluxReg


namespace FluxReg

variable {D : Nat} {R : Type}

/-! ## `Reflux` -/

theorem Box.shift_neg_shift (b : Box D) (iv : IntVect D) :
    (b.shift iv).shift (fun d => - iv d) = b := by
  cases b
  simp only [Box.shift, Box.mk.injEq]
  refine ⟨?_, ?_, trivial⟩ <;> funext d <;> ring

/-- A shift by `iv` followed by a shift by `-iv` restores the data block. -/
theorem FArrayBox.shift_then_unshift (f : FArrayBox D R) (iv : IntVect D) :
    (f.shift iv).shift (fun d => - iv d) = f := by
  cases f with
  | mk dom nv dat =>
    have hd : (fun (p : IntVect D) (c : Int) => dat (fun d => (p d - -iv d) - iv d) c) = dat := by
      funext p c
      congr 1
      funext d
      ring
    simp only [FArrayBox.shift, Box.shift_neg_shift, hd]

theorem FabArray.setFab_setFab_self (fa : FabArray D R) (k : Nat) (f : FArrayBox D R) :
    (fa.setFab k f).setFab k (fa.fabs k) = fa := by
  cases fa
  simp only [FabArray.setFab, FabArray.mk.injEq, true_and]
  funext j
  by_cases h : j = k
  · subst h; simp
  · simp [h]

theorem FabArray.setFab_shift_cancel (fa : FabArray D R) (k : Nat) (iv : IntVect D) :
    (fa.setFab k ((fa.fabs k).shift iv)).setFab k
      (((fa.setFab k ((fa.fabs k).shift iv)).fabs k).shift (fun d => - iv d)) = fa := by
  have h : ((fa.setFab k ((fa.fabs k).shift iv)).fabs k).shift (fun d => - iv d) = fa.fabs k := by
    simp only [FabArray.setFab, if_true]
    exact FArrayBox.shift_then_unshift _ _
  rw [h]
  exact FabArray.setFab_setFab_self _ _ _

theorem shiftVolume_cancel (volume : Option (MultiFab D R)) (idx : Nat) (iv : IntVect D) :
    shiftVolume (shiftVolume volume idx iv) idx (fun d => - iv d) = volume := by
  cases volume with
  | none => rfl
  | some v =>
    simp only [shiftVolume, Option.map_some']
    rw [FabArray.setFab_shift_cancel]

/-- The values the kernel leaves. -/
theorem refluxKernel_data [Add R] [Mul R] [Div R] [Inhabited R] (s : FArrayBox D R)
    (dest_comp : Int) (divisor : IntVect D → R) (reg : FArrayBox D R) (rbox region : Box D)
    (num_comp : Int) (mult : R) (p : IntVect D) (c : Int) :
    (refluxKernel s dest_comp divisor reg rbox region num_comp mult).data p c =
      if region.containsPt p ∧ dest_comp ≤ c ∧ c < dest_comp + num_comp then
        s.data p c +
          mult * (FArrayBox.ofList rbox num_comp reg.toList).data p (c - dest_comp) / divisor p
      else s.data p c := rfl

/-- One record of the apply loop: the boxes and owners of `S` stay, `volume` is restored,
and the only values of `S` that change are those of the record's solution block at the
cells whose (translated) position lies in the overlap region, in the components
`[dest_comp, dest_comp + num_comp)`: each receives
`mult × (register value) ÷ divisor` with `mult = -scale` for a low face and `+scale` for a
high face. -/
theorem applyRF_spec [Add R] [Mul R] [Div R] [Neg R] [One R] [Inhabited R]
    (geom : Geometry D R) (r : FluxRegister D R) (scale : R) (dest_comp num_comp : Int)
    (MyProc : Nat) (S S' : MultiFab D R) (volume volume' : Option (MultiFab D R))
    (rec : FillBoxId D × RF D)
    (h : applyRF geom r scale dest_comp num_comp MyProc (S, volume) rec = some (S', volume')) :
    S'.boxarray = S.boxarray ∧ S'.distributionMap = S.distributionMap ∧ volume' = volume ∧
    (rec.2.ovlp r S).ok ∧ S.distributionMap rec.2.m_fabidx = MyProc ∧
    (∀ idx, (S'.fabs idx).domain = (S.fabs idx).domain ∧ (S'.fabs idx).nvar = (S.fabs idx).nvar) ∧
    ∀ (idx : Nat) (q : IntVect D) (c : Int),
      (S'.fabs idx).data q c =
        if rec.2.m_fabidx = idx ∧ (rec.2.ovlp r S).containsPt (fun d => q d + rec.2.shiftOf d) ∧
            dest_comp ≤ c ∧ c < dest_comp + num_comp then
          (S.fabs idx).data q c +
            rec.2.mult scale *
              regValue r num_comp rec (fun d => q d + rec.2.shiftOf d) (c - dest_comp) /
              refluxDivisor geom volume idx q
        else (S.fabs idx).data q c := by
  obtain ⟨fbid, rf⟩ := rec
  unfold applyRF at h
  simp only at h
  split at h
  · cases h
  · split at h
    · cases h
    · next hown =>
      split at h
      · cases h
      · cases hs : rf.m_shifted
        case true =>
          -- a shifted record
          simp only [hs, not_true_eq_false, if_false] at h
          split at h
          · cases h
          · next hok =>
            simp only [Option.some.injEq, Prod.mk.injEq] at h
            obtain ⟨h1, h2⟩ := h
            have hsh : rf.shiftOf = rf.m_iv := by simp [RF.shiftOf, hs]
            have hov : RF.ovlp r S rf = ((S.box rf.m_fabidx).shift rf.m_iv).inter
                ((BoxArray.getBox r.grids rf.m_fridx).adjCell rf.m_face 1) := by
              simp [RF.ovlp, hsh]
            refine ⟨by rw [← h1]; rfl, by rw [← h1]; rfl,
              by rw [← h2]; exact shiftVolume_cancel _ _ _,
              by rw [hov]; exact not_not.1 hok, not_not.1 hown, ?_, ?_⟩
            · intro idx
              rw [← h1]
              by_cases hi : idx = rf.m_fabidx
              · subst hi
                simp only [FabArray.setFab, if_true]
                cases volume with
                | none =>
                  simp only [shiftVolume, Option.map_none', FORT_FRCVREFLUX, refluxKernel,
                    FArrayBox.shift, Box.shift_neg_shift, and_self]
                | some v =>
                  simp only [shiftVolume, Option.map_some', FORT_FRREFLUX, refluxKernel,
                    FArrayBox.shift, Box.shift_neg_shift, and_self]
              · simp [FabArray.setFab, hi]
            · intro idx q c
              rw [← h1, hov, hsh]
              have hq : (fun d => q d - -rf.m_iv d) = (fun d => q d + rf.m_iv d) := by
                funext d; ring
              have hq2 : (fun d => q d - -rf.m_iv d - rf.m_iv d) = q := by
                funext d; ring
              by_cases hi : rf.m_fabidx = idx
              · subst hi
                simp only [FabArray.setFab, if_true, true_and]
                cases volume with
                | none =>
                  simp only [shiftVolume, Option.map_none', FORT_FRCVREFLUX, FArrayBox.shift,
                    refluxKernel, hq2, hq, regValue, refluxDivisor, RF.mult]
                | some v =>
                  simp only [shiftVolume, Option.map_some', FORT_FRREFLUX, FArrayBox.shift,
                    refluxKernel, hq2, hq, regValue, refluxDivisor, RF.mult, FabArray.setFab,
                    if_true]
              · have hi' : ¬ idx = rf.m_fabidx := fun e => hi e.symm
                simp [FabArray.setFab, hi, hi']
        case false =>
          -- a direct record
          simp only [hs, Bool.false_eq_true, not_false_eq_true, if_true] at h
          split at h
          · cases h
          · next hok =>
            simp only [Option.some.injEq, Prod.mk.injEq] at h
            obtain ⟨h1, h2⟩ := h
            subst h2
            have hsh : rf.shiftOf = fun _ => 0 := by simp [RF.shiftOf, hs]
            have hbox : (S.box rf.m_fabidx).shift (fun _ => 0) = S.box rf.m_fabidx := by
              cases hb : S.box rf.m_fabidx
              simp [Box.shift]
            have hov : RF.ovlp r S rf = (S.box rf.m_fabidx).inter
                ((BoxArray.getBox r.grids rf.m_fridx).adjCell rf.m_face 1) := by
              simp only [RF.ovlp, hsh, hbox]
            refine ⟨by rw [← h1]; rfl, by rw [← h1]; rfl, rfl,
              by rw [hov]; exact not_not.1 hok, not_not.1 hown, ?_, ?_⟩
            · intro idx
              rw [← h1]
              by_cases hi : idx = rf.m_fabidx
              · subst hi
                simp only [FabArray.setFab, if_true]
                cases volume with
                | none => exact ⟨rfl, rfl⟩
                | some v => exact ⟨rfl, rfl⟩
              · simp [FabArray.setFab, hi]
            · intro idx q c
              rw [← h1, hov, hsh]
              have hq : (fun d => q d + (0 : Int)) = q := by funext d; simp
              by_cases hi : rf.m_fabidx = idx
              · subst hi
                simp only [FabArray.setFab, if_true, true_and, hq]
                cases volume with
                | none =>
                  simp only [FORT_FRCVREFLUX, refluxKernel, regValue, refluxDivisor, RF.mult]
                | some v =>
                  simp only [FORT_FRREFLUX, refluxKernel, regValue, refluxDivisor, RF.mult]
              · have hi' : ¬ idx = rf.m_fabidx := fun e => hi e.symm
                simp [FabArray.setFab, hi, hi']

end FluxReg


namespace FluxReg

variable {D : Nat} {R : Type}

/-- One periodic shift of the registration: the data blocks are shifted and shifted back,
the records of the shifted image are appended. -/
theorem registerShift_spec (r : FluxRegister D R) (src_comp num_comp : Int) (idx k : Nat)
    (st st' : RefluxState D R) (iv : IntVect D)
    (h : registerShift r src_comp num_comp idx k st iv = some st') :
    st'.S = st.S ∧ st'.volume = st.volume ∧
    st'.recs = st.recs ++
      faceRecords r src_comp num_comp ((st.S.box idx).shift iv) (RF.shifted iv idx k) k := by
  unfold registerShift at h
  simp only at h
  split at h
  · cases h
  · simp only [Option.some.injEq] at h
    subst h
    exact ⟨FabArray.setFab_shift_cancel _ _ _, shiftVolume_cancel _ _ _, rfl⟩

theorem registerShifts_spec (r : FluxRegister D R) (src_comp num_comp : Int) (idx k : Nat) :
    ∀ (l : List (IntVect D)) (st st' : RefluxState D R),
    l.foldlM (registerShift r src_comp num_comp idx k) st = some st' →
    st'.S = st.S ∧ st'.volume = st.volume ∧
    st'.recs = st.recs ++ l.flatMap (fun iv =>
      faceRecords r src_comp num_comp ((st.S.box idx).shift iv) (RF.shifted iv idx k) k)
  | [], st, st', h => by
    simp only [List.foldlM_nil] at h
    cases h
    simp
  | iv :: l, st, st', h => by
    rw [List.foldlM_cons] at h
    cases h1 : registerShift r src_comp num_comp idx k st iv with
    | none => rw [h1] at h; cases h
    | some st1 =>
      rw [h1] at h
      change l.foldlM (registerShift r src_comp num_comp idx k) st1 = some st' at h
      obtain ⟨a1, a2, a3⟩ := registerShift_spec r src_comp num_comp idx k st st1 iv h1
      obtain ⟨b1, b2, b3⟩ := registerShifts_spec r src_comp num_comp idx k l st1 st' h
      refine ⟨b1.trans a1, b2.trans a2, ?_⟩
      rw [b3, a3, a1, List.flatMap_cons, List.append_assoc]

/-- One (solution box, register box) pair of the registration. -/
theorem registerPair_spec (geom : Geometry D R) (r : FluxRegister D R)
    (src_comp num_comp : Int) (idx : Nat) (st st' : RefluxState D R) (k : Nat)
    (h : registerPair geom r src_comp num_comp idx st k = some st') :
    st'.S = st.S ∧ st'.volume = st.volume ∧
    st'.recs = st.recs ++ pairRecords geom r src_comp num_comp (st.S.box idx) idx k := by
  unfold registerPair at h
  unfold pairRecords
  simp only at h
  by_cases hint : ((BoxArray.getBox r.grids k).grow 1).intersects (st.S.box idx)
  · simp only [hint, if_true] at h ⊢
    by_cases hper : geom.isAnyPeriodic ∧
        ¬ geom.domain.contains ((BoxArray.getBox r.grids k).grow 1)
    · rw [if_pos hper] at h
      obtain ⟨b1, b2, b3⟩ := registerShifts_spec r src_comp num_comp idx k _ _ st' h
      rw [if_pos hper]
      exact ⟨b1, b2, by rw [b3, List.append_assoc]⟩
    · rw [if_neg hper] at h
      simp only [Option.some.injEq] at h
      subst h
      rw [if_neg hper]
      exact ⟨rfl, rfl, by simp⟩
  · simp only [hint, if_false] at h ⊢
    by_cases hper : geom.isAnyPeriodic ∧
        ¬ geom.domain.contains ((BoxArray.getBox r.grids k).grow 1)
    · rw [if_pos hper] at h
      obtain ⟨b1, b2, b3⟩ := registerShifts_spec r src_comp num_comp idx k _ _ st' h
      rw [if_pos hper]
      exact ⟨b1, b2, by rw [b3]; simp⟩
    · rw [if_neg hper] at h
      simp only [Option.some.injEq] at h
      subst h
      rw [if_neg hper]
      exact ⟨rfl, rfl, by simp⟩

theorem registerPairs_spec (geom : Geometry D R) (r : FluxRegister D R)
    (src_comp num_comp : Int) (idx : Nat) :
    ∀ (l : List Nat) (st st' : RefluxState D R),
    l.foldlM (registerPair geom r src_comp num_comp idx) st = some st' →
    st'.S = st.S ∧ st'.volume = st.volume ∧
    st'.recs = st.recs ++
      l.flatMap (pairRecords geom r src_comp num_comp (st.S.box idx) idx)
  | [], st, st', h => by
    simp only [List.foldlM_nil] at h
    cases h
    simp
  | k :: l, st, st', h => by
    rw [List.foldlM_cons] at h
    cases h1 : registerPair geom r src_comp num_comp idx st k with
    | none => rw [h1] at h; cases h
    | some st1 =>
      rw [h1] at h
      change l.foldlM (registerPair geom r src_comp num_comp idx) st1 = some st' at h
      obtain ⟨a1, a2, a3⟩ := registerPair_spec geom r src_comp num_comp idx st st1 k h1
      obtain ⟨b1, b2, b3⟩ := registerPairs_spec geom r src_comp num_comp idx l st1 st' h
      refine ⟨b1.trans a1, b2.trans a2, ?_⟩
      rw [b3, a3, a1, List.flatMap_cons, List.append_assoc]

theorem registerBoxes_spec (geom : Geometry D R) (r : FluxRegister D R)
    (src_comp num_comp : Int) :
    ∀ (l : List Nat) (st st' : RefluxState D R),
    l.foldlM (fun st idx =>
      (List.range r.grids.length).foldlM (registerPair geom r src_comp num_comp idx) st) st
      = some st' →
    st'.S = st.S ∧ st'.volume = st.volume ∧
    st'.recs = st.recs ++ l.flatMap (fun idx =>
      (List.range r.grids.length).flatMap
        (pairRecords geom r src_comp num_comp (st.S.box idx) idx))
  | [], st, st', h => by
    simp only [List.foldlM_nil] at h
    cases h
    simp
  | idx :: l, st, st', h => by
    rw [List.foldlM_cons] at h
    cases h1 : (List.range r.grids.length).foldlM
        (registerPair geom r src_comp num_comp idx) st with
    | none => rw [h1] at h; cases h
    | some st1 =>
      rw [h1] at h
      obtain ⟨a1, a2, a3⟩ := registerPairs_spec geom r src_comp num_comp idx _ st st1 h1
      obtain ⟨b1, b2, b3⟩ := registerBoxes_spec geom r src_comp num_comp l st1 st' h
      refine ⟨b1.trans a1, b2.trans a2, ?_⟩
      rw [b3, a3, a1, List.flatMap_cons, List.append_assoc]

/-- The registration leaves `S` and `volume` as they were and returns the records
`allRecords`. -/
theorem registerAll_spec (geom : Geometry D R) (r : FluxRegister D R)
    (src_comp num_comp : Int) (MyProc : Nat) (S : MultiFab D R)
    (volume : Option (MultiFab D R)) (st' : RefluxState D R)
    (h : registerAll geom r src_comp num_comp MyProc ⟨[], S, volume⟩ = some st') :
    st' = ⟨allRecords geom r src_comp num_comp MyProc S, S, volume⟩ := by
  unfold registerAll at h
  obtain ⟨a1, a2, a3⟩ := registerBoxes_spec geom r src_comp num_comp _ _ st' h
  cases st'
  simp only at a1 a2 a3
  subst a1 a2
  rw [a3]
  simp [allRecords]

/-- A loop of fallible steps completes when every step completes from a state that satisfies
an invariant kept by the steps. -/
theorem foldlM_some_of_inv {σ α : Type} (f : σ → α → Option σ) (Inv : σ → Prop)
    (P : α → Prop)
    (hstep : ∀ s a, Inv s → P a → ∃ s', f s a = some s' ∧ Inv s') :
    ∀ (l : List α) (s : σ), Inv s → (∀ a ∈ l, P a) → ∃ s', l.foldlM f s = some s' ∧ Inv s'
  | [], s, hs, _ => ⟨s, rfl, hs⟩
  | a :: l, s, hs, hl => by
    obtain ⟨s1, h1, hs1⟩ := hstep s a hs (hl a (List.mem_cons_self _ _))
    obtain ⟨s2, h2, hs2⟩ := foldlM_some_of_inv f Inv P hstep l s1 hs1
      (fun b hb => hl b (List.mem_cons_of_mem _ hb))
    refine ⟨s2, ?_, hs2⟩
    rw [List.foldlM_cons, h1]
    exact h2

/-- The shifts enumerated by `periodicShift` satisfy the assertion `bx.intersects(sftbox)`. -/
theorem periodicShift_intersects (geom : Geometry D R) (target src : Box D) (iv : IntVect D)
    (h : iv ∈ geom.periodicShift target src) : target.intersects (src.shift iv) := by
  unfold Geometry.periodicShift at h
  have h2 := (List.mem_filter.1 h).2
  simpa using h2

/-- One (solution box, register box) pair of the registration always completes. -/
theorem registerPair_some (geom : Geometry D R) (r : FluxRegister D R)
    (src_comp num_comp : Int) (idx : Nat) (st : RefluxState D R) (k : Nat) :
    ∃ st', registerPair geom r src_comp num_comp idx st k = some st' := by
  have hloop : ∀ st1 : RefluxState D R,
      ∃ st', (geom.periodicShift ((BoxArray.getBox r.grids k).grow 1) (st1.S.box idx)).foldlM
        (registerShift r src_comp num_comp idx k) st1 = some st' := by
    intro st1
    obtain ⟨st', h, -⟩ := foldlM_some_of_inv (registerShift r src_comp num_comp idx k)
      (fun s => s.S = st1.S)
      (fun iv => ((BoxArray.getBox r.grids k).grow 1).intersects ((st1.S.box idx).shift iv))
      (by
        intro s iv hs hiv
        have hbox : s.S.box idx = st1.S.box idx := by rw [hs]
        have hsome : ∃ s', registerShift r src_comp num_comp idx k s iv = some s' := by
          unfold registerShift
          simp only
          rw [hbox, if_neg (not_not.2 hiv)]
          exact ⟨_, rfl⟩
        obtain ⟨s', hs'⟩ := hsome
        exact ⟨s', hs',
          (registerShift_spec r src_comp num_comp idx k s s' iv hs').1.trans hs⟩)
      _ st1 rfl (fun iv hiv => periodicShift_intersects geom _ _ iv hiv)
    exact ⟨st', h⟩
  unfold registerPair
  simp only
  split
  · exact hloop _
  · exact ⟨_, rfl⟩

/-- The registration loop always completes. -/
theorem registerAll_some (geom : Geometry D R) (r : FluxRegister D R)
    (src_comp num_comp : Int) (MyProc : Nat) (st : RefluxState D R) :
    ∃ st', registerAll geom r src_comp num_comp MyProc st = some st' := by
  unfold registerAll
  obtain ⟨st', h, -⟩ := foldlM_some_of_inv
    (fun (st : RefluxState D R) (idx : Nat) =>
      (List.range r.grids.length).foldlM (registerPair geom r src_comp num_comp idx) st)
    (fun _ => True) (fun _ => True)
    (by
      intro s idx _ _
      obtain ⟨s', hs', -⟩ := foldlM_some_of_inv (registerPair geom r src_comp num_comp idx)
        (fun _ => True) (fun _ => True)
        (by
          intro s1 k _ _
          obtain ⟨s2, hs2⟩ := registerPair_some geom r src_comp num_comp idx s1 k
          exact ⟨s2, hs2, trivial⟩)
        (List.range r.grids.length) s trivial (fun _ _ => trivial)
      exact ⟨s', hs', trivial⟩)
    (st.S.localIndices MyProc) st trivial (fun _ _ => trivial)
  exact ⟨st', h⟩

end FluxReg


namespace FluxReg

variable {D : Nat} {R : Type}

theorem ovlp_congr (r : FluxRegister D R) (S S' : MultiFab D R) (rf : RF D)
    (h : S'.boxarray = S.boxarray) : rf.ovlp r S' = rf.ovlp r S := by
  unfold RF.ovlp FabArray.box
  rw [h]

theorem covers_congr (r : FluxRegister D R) (S S' : MultiFab D R) (dest_comp num_comp : Int)
    (rf : RF D) (idx : Nat) (q : IntVect D) (c : Int) (h : S'.boxarray = S.boxarray) :
    rf.covers r S' dest_comp num_comp idx q c ↔ rf.covers r S dest_comp num_comp idx q c := by
  unfold RF.covers
  rw [ovlp_congr r S S' rf h]

/-- The apply loop changes no value that none of its records covers; boxes, owners, block
shapes and `volume` are as before. -/
theorem applyLoop_frame [Add R] [Mul R] [Div R] [Neg R] [One R] [Inhabited R]
    (geom : Geometry D R) (r : FluxRegister D R) (scale : R) (dest_comp num_comp : Int)
    (MyProc : Nat) :
    ∀ (recs : List (FillBoxId D × RF D)) (S S' : MultiFab D R)
      (volume volume' : Option (MultiFab D R)),
    recs.foldlM (applyRF geom r scale dest_comp num_comp MyProc) (S, volume)
      = some (S', volume') →
    S'.boxarray = S.boxarray ∧ S'.distributionMap = S.distributionMap ∧ volume' = volume ∧
    (∀ idx, (S'.fabs idx).domain = (S.fabs idx).domain ∧
      (S'.fabs idx).nvar = (S.fabs idx).nvar) ∧
    ∀ (idx : Nat) (q : IntVect D) (c : Int),
      (∀ rec ∈ recs, ¬ rec.2.covers r S dest_comp num_comp idx q c) →
      (S'.fabs idx).data q c = (S.fabs idx).data q c
  | [], S, S', volume, volume', h => by
    rw [List.foldlM_nil] at h
    cases h
    exact ⟨rfl, rfl, rfl, fun _ => ⟨rfl, rfl⟩, fun _ _ _ _ => rfl⟩
  | rec :: recs, S, S', volume, volume', h => by
    rw [List.foldlM_cons] at h
    cases h1 : applyRF geom r scale dest_comp num_comp MyProc (S, volume) rec with
    | none => rw [h1] at h; cases h
    | some st1 =>
      obtain ⟨S1, vol1⟩ := st1
      rw [h1] at h
      change recs.foldlM (applyRF geom r scale dest_comp num_comp MyProc) (S1, vol1)
        = some (S', volume') at h
      obtain ⟨a1, a2, a3, -, -, a6, a7⟩ :=
        applyRF_spec geom r scale dest_comp num_comp MyProc S S1 volume vol1 rec h1
      obtain ⟨b1, b2, b3, b4, b5⟩ :=
        applyLoop_frame geom r scale dest_comp num_comp MyProc recs S1 S' vol1 volume' h
      refine ⟨b1.trans a1, b2.trans a2, b3.trans a3,
        fun idx => ⟨(b4 idx).1.trans (a6 idx).1, (b4 idx).2.trans (a6 idx).2⟩, ?_⟩
      intro idx q c hnc
      have hneg : ¬ (rec.2.m_fabidx = idx ∧
          (rec.2.ovlp r S).containsPt (fun d => q d + rec.2.shiftOf d) ∧
          dest_comp ≤ c ∧ c < dest_comp + num_comp) := hnc rec (List.mem_cons_self _ _)
      rw [b5 idx q c (fun x hx hcov =>
        hnc x (List.mem_cons_of_mem _ hx)
          ((covers_congr r S S1 dest_comp num_comp x.2 idx q c a1).1 hcov)), a7 idx q c,
        if_neg hneg]

/-- A value covered by exactly one record of the apply loop receives exactly the contribution
of that record. -/
theorem applyLoop_single [Add R] [Mul R] [Div R] [Neg R] [One R] [Inhabited R]
    (geom : Geometry D R) (r : FluxRegister D R) (scale : R) (dest_comp num_comp : Int)
    (MyProc : Nat) (l1 l2 : List (FillBoxId D × RF D)) (rec : FillBoxId D × RF D)
    (S S' : MultiFab D R) (volume volume' : Option (MultiFab D R))
    (h : (l1 ++ rec :: l2).foldlM (applyRF geom r scale dest_comp num_comp MyProc) (S, volume)
      = some (S', volume'))
    (idx : Nat) (q : IntVect D) (c : Int)
    (h1 : ∀ x ∈ l1, ¬ x.2.covers r S dest_comp num_comp idx q c)
    (h2 : ∀ x ∈ l2, ¬ x.2.covers r S dest_comp num_comp idx q c)
    (hc : rec.2.covers r S dest_comp num_comp idx q c) :
    (S'.fabs idx).data q c =
      (S.fabs idx).data q c +
        rec.2.mult scale *
          regValue r num_comp rec (fun d => q d + rec.2.shiftOf d) (c - dest_comp) /
          refluxDivisor geom volume idx q := by
  rw [List.foldlM_append] at h
  cases e1 : l1.foldlM (applyRF geom r scale dest_comp num_comp MyProc) (S, volume) with
  | none => rw [e1] at h; cases h
  | some st1 =>
    obtain ⟨S1, vol1⟩ := st1
    rw [e1] at h
    change (rec :: l2).foldlM (applyRF geom r scale dest_comp num_comp MyProc) (S1, vol1)
      = some (S', volume') at h
    rw [List.foldlM_cons] at h
    cases e2 : applyRF geom r scale dest_comp num_comp MyProc (S1, vol1) rec with
    | none => rw [e2] at h; cases h
    | some st2 =>
      obtain ⟨S2, vol2⟩ := st2
      rw [e2] at h
      change l2.foldlM (applyRF geom r scale dest_comp num_comp MyProc) (S2, vol2)
        = some (S', volume') at h
      obtain ⟨a1, -, a3, -, a5⟩ :=
        applyLoop_frame geom r scale dest_comp num_comp MyProc l1 S S1 volume vol1 e1
      obtain ⟨b1, -, -, -, -, -, b7⟩ :=
        applyRF_spec geom r scale dest_comp num_comp MyProc S1 S2 vol1 vol2 rec e2
      obtain ⟨-, -, -, -, c5⟩ :=
        applyLoop_frame geom r scale dest_comp num_comp MyProc l2 S2 S' vol2 volume' h
      have hS2 : S2.boxarray = S.boxarray := b1.trans a1
      have hpos : (rec.2.m_fabidx = idx ∧
          (rec.2.ovlp r S).containsPt (fun d => q d + rec.2.shiftOf d) ∧
          dest_comp ≤ c ∧ c < dest_comp + num_comp) := hc
      rw [c5 idx q c (fun x hx hcov =>
        h2 x hx ((covers_congr r S S2 dest_comp num_comp x.2 idx q c hS2).1 hcov)), b7 idx q c,
        ovlp_congr r S S1 rec.2 a1, if_pos hpos, a5 idx q c h1, a3]

theorem refluxTerm_congr [Add R] [Mul R] [Div R] [Neg R] [One R] [Inhabited R]
    (geom : Geometry D R) (r : FluxRegister D R) (scale : R) (dest_comp num_comp : Int)
    (S S1 : MultiFab D R) (volume : Option (MultiFab D R)) (idx : Nat) (q : IntVect D)
    (c : Int) (h : S1.boxarray = S.boxarray) :
    refluxTerm geom r scale dest_comp num_comp S1 volume idx q c
      = refluxTerm geom r scale dest_comp num_comp S volume idx q c := by
  funext acc rec
  unfold refluxTerm
  rw [ovlp_congr r S S1 rec.2 h]

/-- The apply loop adds to every value the terms of the records that cover it, in order. -/
theorem applyLoop_total [Add R] [Mul R] [Div R] [Neg R] [One R] [Inhabited R]
    (geom : Geometry D R) (r : FluxRegister D R) (scale : R) (dest_comp num_comp : Int)
    (MyProc : Nat) :
    ∀ (recs : List (FillBoxId D × RF D)) (S S' : MultiFab D R)
      (volume volume' : Option (MultiFab D R)),
    recs.foldlM (applyRF geom r scale dest_comp num_comp MyProc) (S, volume)
      = some (S', volume') →
    ∀ (idx : Nat) (q : IntVect D) (c : Int),
      (S'.fabs idx).data q c =
        refluxTotal geom r scale dest_comp num_comp S volume recs idx q c
          ((S.fabs idx).data q c)
  | [], S, S', volume, volume', h => by
    rw [List.foldlM_nil] at h
    cases h
    intro idx q c
    rfl
  | rec :: recs, S, S', volume, volume', h => by
    rw [List.foldlM_cons] at h
    cases h1 : applyRF geom r scale dest_comp num_comp MyProc (S, volume) rec with
    | none => rw [h1] at h; cases h
    | some st1 =>
      obtain ⟨S1, vol1⟩ := st1
      rw [h1] at h
      change recs.foldlM (applyRF geom r scale dest_comp num_comp MyProc) (S1, vol1)
        = some (S', volume') at h
      obtain ⟨a1, -, a3, -, -, -, a7⟩ :=
        applyRF_spec geom r scale dest_comp num_comp MyProc S S1 volume vol1 rec h1
      have ih := applyLoop_total geom r scale dest_comp num_comp MyProc recs S1 S' vol1
        volume' h
      intro idx q c
      rw [ih idx q c, a3]
      unfold refluxTotal
      rw [List.foldl_cons, refluxTerm_congr geom r scale dest_comp num_comp S S1 volume idx q c
        a1, a7 idx q c]
      rfl

theorem mem_faceRecords (r : FluxRegister D R) (src_comp num_comp : Int) (vb : Box D)
    (mk : Orientation D → RF D) (k : Nat) (rec : FillBoxId D × RF D)
    (h : rec ∈ faceRecords r src_comp num_comp vb mk k) :
    ∃ fi, rec = (AddBox fi ((r.bndry fi).box k) k src_comp 0 num_comp, mk fi) ∧
      (vb.inter ((BoxArray.getBox r.grids k).adjCell fi 1)).ok := by
  unfold faceRecords at h
  obtain ⟨fi, -, hfi⟩ := List.mem_filterMap.1 h
  split at hfi
  · next hok =>
    simp only [Option.some.injEq] at hfi
    exact ⟨fi, hfi.symm, hok⟩
  · cases hfi

/-- Every record of the registration passes the checks of the apply loop: its fetch handle
is for the face box of its register face, its solution block is locally owned, and its
overlap region is non-empty. -/
theorem allRecords_good (geom : Geometry D R) (r : FluxRegister D R)
    (src_comp num_comp : Int) (MyProc : Nat) (S : MultiFab D R)
    (rec : FillBoxId D × RF D)
    (h : rec ∈ allRecords geom r src_comp num_comp MyProc S) :
    (r.bndry rec.2.m_face).box rec.2.m_fridx = rec.1.box ∧
    S.distributionMap rec.2.m_fabidx = MyProc ∧ (rec.2.ovlp r S).ok := by
  unfold allRecords at h
  obtain ⟨idx, hidx, h⟩ := List.mem_flatMap.1 h
  obtain ⟨k, -, h⟩ := List.mem_flatMap.1 h
  have hloc : S.distributionMap idx = MyProc := by
    unfold FabArray.localIndices at hidx
    simpa using (List.mem_filter.1 hidx).2
  unfold pairRecords at h
  rcases List.mem_append.1 h with h | h
  · split at h
    · obtain ⟨fi, rfl, hok⟩ := mem_faceRecords r src_comp num_comp _ _ k rec h
      refine ⟨rfl, hloc, ?_⟩
      have hz : (S.box idx).shift (fun _ => 0) = S.box idx := by
        unfold Box.shift
        simp
      unfold RF.ovlp RF.shiftOf RF.direct
      simp only [Bool.false_eq_true, if_false]
      rw [hz]
      exact hok
    · cases h
  · split at h
    · obtain ⟨iv, -, h⟩ := List.mem_flatMap.1 h
      obtain ⟨fi, rfl, hok⟩ := mem_faceRecords r src_comp num_comp _ _ k rec h
      exact ⟨rfl, hloc, hok⟩
    · cases h

/-- One step of the apply loop completes when the record passes its checks. -/
theorem applyRF_some [Add R] [Mul R] [Div R] [Neg R] [One R] [Inhabited R]
    (geom : Geometry D R) (r : FluxRegister D R) (scale : R) (dest_comp num_comp : Int)
    (MyProc : Nat) (S : MultiFab D R) (volume : Option (MultiFab D R))
    (rec : FillBoxId D × RF D)
    (h1 : (r.bndry rec.2.m_face).box rec.2.m_fridx = rec.1.box)
    (h2 : S.distributionMap rec.2.m_fabidx = MyProc)
    (h3 : ∀ v ∈ volume, v.distributionMap rec.2.m_fabidx = MyProc)
    (h4 : (rec.2.ovlp r S).ok) :
    ∃ res, applyRF geom r scale dest_comp num_comp MyProc (S, volume) rec = some res := by
  obtain ⟨fbid, rf⟩ := rec
  simp only at h1 h2 h3 h4
  unfold RF.ovlp RF.shiftOf at h4
  unfold applyRF
  simp only [ite_not]
  rw [if_pos h1, if_pos h2, if_pos h3]
  cases hs : rf.m_shifted
  case false =>
    rw [hs] at h4
    simp only [Bool.false_eq_true, if_false] at h4 ⊢
    have hz : (S.box rf.m_fabidx).shift (fun _ => 0) = S.box rf.m_fabidx := by
      unfold Box.shift
      simp
    rw [hz] at h4
    rw [if_pos h4]
    exact ⟨_, rfl⟩
  case true =>
    rw [hs] at h4
    simp only [if_true] at h4 ⊢
    rw [if_pos h4]
    exact ⟨_, rfl⟩

/-- The apply loop completes when every record passes its checks. -/
theorem applyLoop_some [Add R] [Mul R] [Div R] [Neg R] [One R] [Inhabited R]
    (geom : Geometry D R) (r : FluxRegister D R) (scale : R) (dest_comp num_comp : Int)
    (MyProc : Nat) (S : MultiFab D R) (volume : Option (MultiFab D R))
    (recs : List (FillBoxId D × RF D))
    (hgood : ∀ rec ∈ recs, (r.bndry rec.2.m_face).box rec.2.m_fridx = rec.1.box ∧
      S.distributionMap rec.2.m_fabidx = MyProc ∧
      (∀ v ∈ volume, v.distributionMap rec.2.m_fabidx = MyProc) ∧ (rec.2.ovlp r S).ok) :
    ∃ S', recs.foldlM (applyRF geom r scale dest_comp num_comp MyProc) (S, volume)
      = some (S', volume) := by
  obtain ⟨res, h, -, -, hv⟩ := foldlM_some_of_inv
    (applyRF geom r scale dest_comp num_comp MyProc)
    (fun s => s.1.boxarray = S.boxarray ∧ s.1.distributionMap = S.distributionMap ∧
      s.2 = volume)
    (fun rec => (r.bndry rec.2.m_face).box rec.2.m_fridx = rec.1.box ∧
      S.distributionMap rec.2.m_fabidx = MyProc ∧
      (∀ v ∈ volume, v.distributionMap rec.2.m_fabidx = MyProc) ∧ (rec.2.ovlp r S).ok)
    (by
      rintro ⟨S1, vol1⟩ rec ⟨i1, i2, i3⟩ ⟨g1, g2, g3, g4⟩
      simp only at i1 i2 i3
      subst i3
      obtain ⟨res, hres⟩ := applyRF_some geom r scale dest_comp num_comp MyProc S1 vol1 rec g1
        (by rw [i2]; exact g2) g3 (by rw [ovlp_congr r S S1 rec.2 i1]; exact g4)
      obtain ⟨S2, vol2⟩ := res
      obtain ⟨a1, a2, a3, -⟩ :=
        applyRF_spec geom r scale dest_comp num_comp MyProc S1 S2 vol1 vol2 rec hres
      exact ⟨(S2, vol2), hres, a1.trans i1, a2.trans i2, a3⟩)
    recs (S, volume) ⟨rfl, rfl, rfl⟩ hgood
  obtain ⟨S', vol'⟩ := res
  simp only at hv
  subst hv
  exact ⟨S', h⟩

end FluxReg


namespace FluxReg

variable {D : Nat} {R : Type}

/-- A completed `Reflux`: the apply loop has run over the records `allRecords`, starting from
the unchanged `S` and `volume`. -/
theorem RefluxCore_some [Add R] [Mul R] [Div R] [Neg R] [One R] [Inhabited R] (MyProc : Nat)
    (r : FluxRegister D R) (S : MultiFab D R) (volume : Option (MultiFab D R)) (scale : R)
    (src_comp dest_comp num_comp : Int) (geom : Geometry D R)
    (res : MultiFab D R × Option (MultiFab D R))
    (h : RefluxCore MyProc r S volume scale src_comp dest_comp num_comp geom = some res) :
    (allRecords geom r src_comp num_comp MyProc S).foldlM
      (applyRF geom r scale dest_comp num_comp MyProc) (S, volume) = some res := by
  unfold RefluxCore at h
  split at h
  · cases h
  · next st hst =>
    rw [registerAll_spec geom r src_comp num_comp MyProc S volume st hst] at h
    exact h

/-- Either `Reflux` completes when the volume array, if any, is distributed like `S` (what
`DependentMultiFabIterator` requires): none of its assertions fails, and `volume` is returned
as it was. -/
theorem RefluxCore_total [Add R] [Mul R] [Div R] [Neg R] [One R] [Inhabited R] (MyProc : Nat)
    (r : FluxRegister D R) (S : MultiFab D R) (volume : Option (MultiFab D R)) (scale : R)
    (src_comp dest_comp num_comp : Int) (geom : Geometry D R)
    (hvol : ∀ v ∈ volume, ∀ idx, S.distributionMap idx = MyProc →
      v.distributionMap idx = MyProc) :
    ∃ S', RefluxCore MyProc r S volume scale src_comp dest_comp num_comp geom
      = some (S', volume) := by
  obtain ⟨st, hst⟩ := registerAll_some geom r src_comp num_comp MyProc ⟨[], S, volume⟩
  have hrecs := registerAll_spec geom r src_comp num_comp MyProc S volume st hst
  subst hrecs
  unfold RefluxCore
  rw [hst]
  exact applyLoop_some geom r scale dest_comp num_comp MyProc S volume _ (fun rec hrec => by
    obtain ⟨g1, g2, g4⟩ := allRecords_good geom r src_comp num_comp MyProc S rec hrec
    exact ⟨g1, g2, fun v hv => hvol v hv _ g2, g4⟩)

theorem signLaw_of_RefluxCore [Field R] [Inhabited R] (MyProc : Nat)
    (r : FluxRegister D R) (S : MultiFab D R) (volume : Option (MultiFab D R)) (scale : R)
    (src_comp dest_comp num_comp : Int) (geom : Geometry D R)
    (S' : MultiFab D R) (volume' : Option (MultiFab D R))
    (h : RefluxCore MyProc r S volume scale src_comp dest_comp num_comp geom
      = some (S', volume')) :
    SignLaw geom r scale src_comp dest_comp num_comp MyProc S volume S' := by
  have hfold := RefluxCore_some MyProc r S volume scale src_comp dest_comp num_comp geom _ h
  refine ⟨applyLoop_total geom r scale dest_comp num_comp MyProc _ S S' volume volume' hfold,
    ?_⟩
  intro l1 l2 rec hrecs idx q n _ _ hcov hothers
  rw [hrecs] at hfold
  have hval := applyLoop_single geom r scale dest_comp num_comp MyProc l1 l2 rec S S' volume
    volume' hfold idx q (dest_comp + n)
    (fun x hx => hothers x (List.mem_append_left _ hx))
    (fun x hx => hothers x (List.mem_append_right _ hx)) hcov
  have hn : dest_comp + n - dest_comp = n := by ring
  rw [hn] at hval
  refine ⟨hval, ?_⟩
  intro h1 h2
  rw [hval, h1, h2]
  unfold RF.mult
  by_cases hl : rec.2.m_face.isLow = true
  · simp only [hl, if_true]; ring
  · simp only [hl]; simp

/-- C8: taking the reflux kernel to add `mult × (register value) ÷ (cell volume or cell
size)` to each cell of the overlap region, both `Reflux` entry points apply each fetched
register face, through a shifted or a non-shifted record alike, with multiplier
`mult = −scale` when the face orientation is low and `mult = +scale` when it is high:
every value has received `mult × (register value) ÷ divisor` from each record covering
it, so a unit flux stored only on a low face decreases the adjacent exterior coarse cell
by `scale` (unit volume) and a unit flux stored only on a high face increases it by
`scale`.  Either entry point completes (the volume array being distributed like `S`, as
its iterator requires). -/
theorem reflux_sign_convention [Field R] [Inhabited R] (MyProc : Nat)
    (r : FluxRegister D R) (S : MultiFab D R) (scale : R)
    (src_comp dest_comp num_comp : Int) (geom : Geometry D R) :
    (∀ volume : MultiFab D R,
      (∀ idx, S.distributionMap idx = MyProc → volume.distributionMap idx = MyProc) →
      ∃ S', Reflux MyProc r S volume scale src_comp dest_comp num_comp geom
          = some (S', some volume) ∧
        SignLaw geom r scale src_comp dest_comp num_comp MyProc S (some volume) S') ∧
    (∃ S', RefluxCV MyProc r S scale src_comp dest_comp num_comp geom = some (S', none) ∧
      SignLaw geom r scale src_comp dest_comp num_comp MyProc S none S') := by
  constructor
  · intro volume hvol
    obtain ⟨S', h⟩ := RefluxCore_total MyProc r S (some volume) scale src_comp dest_comp
      num_comp geom (fun v hv idx hidx => by
        cases hv
        exact hvol idx hidx)
    exact ⟨S', h, signLaw_of_RefluxCore MyProc r S (some volume) scale src_comp dest_comp
      num_comp geom S' (some volume) h⟩
  · obtain ⟨S', h⟩ := RefluxCore_total MyProc r S none scale src_comp dest_comp
      num_comp geom (fun v hv => by cases hv)
    exact ⟨S', h, signLaw_of_RefluxCore MyProc r S none scale src_comp dest_comp
      num_comp geom S' none h⟩

/-- Every record of the registration belongs to a locally owned solution box and a register
box, and is either a direct record or a record shifted by one of the enumerated periodic
shifts. -/
theorem mem_allRecords (geom : Geometry D R) (r : FluxRegister D R)
    (src_comp num_comp : Int) (MyProc : Nat) (S : MultiFab D R)
    (rec : FillBoxId D × RF D)
    (h : rec ∈ allRecords geom r src_comp num_comp MyProc S) :
    S.distributionMap rec.2.m_fabidx = MyProc ∧ rec.2.m_fabidx < S.length ∧
    rec.2.m_fridx < r.grids.length ∧
    ((rec.2.m_shifted = false ∧
      ((BoxArray.getBox r.grids rec.2.m_fridx).grow 1).intersects (S.box rec.2.m_fabidx)) ∨
     (rec.2.m_shifted = true ∧ geom.isAnyPeriodic ∧
      ¬ geom.domain.contains ((BoxArray.getBox r.grids rec.2.m_fridx).grow 1) ∧
      rec.2.m_iv ∈ geom.periodicShift ((BoxArray.getBox r.grids rec.2.m_fridx).grow 1)
        (S.box rec.2.m_fabidx))) := by
  unfold allRecords at h
  obtain ⟨idx, hidx, h⟩ := List.mem_flatMap.1 h
  obtain ⟨k, hk, h⟩ := List.mem_flatMap.1 h
  have hloc : S.distributionMap idx = MyProc ∧ idx < S.length := by
    unfold FabArray.localIndices at hidx
    obtain ⟨h1, h2⟩ := List.mem_filter.1 hidx
    exact ⟨by simpa using h2, List.mem_range.1 h1⟩
  have hface : ∀ (vb : Box D) (mk : Orientation D → RF D),
      rec ∈ faceRecords r src_comp num_comp vb mk k → ∃ fi, rec.2 = mk fi := by
    intro vb mk hm
    unfold faceRecords at hm
    obtain ⟨fi, -, hfi⟩ := List.mem_filterMap.1 hm
    split at hfi
    · simp only [Option.some.injEq] at hfi
      exact ⟨fi, by rw [← hfi]⟩
    · cases hfi
  unfold pairRecords at h
  rcases List.mem_append.1 h with h | h
  · split at h
    · next hint =>
      obtain ⟨fi, hfi⟩ := hface _ _ h
      rw [hfi]
      exact ⟨hloc.1, hloc.2, List.mem_range.1 hk, Or.inl ⟨rfl, hint⟩⟩
    · cases h
  · split at h
    · next hper =>
      obtain ⟨iv, hiv, h⟩ := List.mem_flatMap.1 h
      obtain ⟨fi, hfi⟩ := hface _ _ h
      rw [hfi]
      exact ⟨hloc.1, hloc.2, List.mem_range.1 hk, Or.inr ⟨rfl, hper.1, hper.2, hiv⟩⟩
    · cases h

theorem frameLaw_of_RefluxCore [Add R] [Mul R] [Div R] [Neg R] [One R] [Inhabited R]
    (MyProc : Nat) (r : FluxRegister D R) (S : MultiFab D R)
    (volume : Option (MultiFab D R)) (scale : R)
    (src_comp dest_comp num_comp : Int) (geom : Geometry D R)
    (S' : MultiFab D R) (volume' : Option (MultiFab D R))
    (h : RefluxCore MyProc r S volume scale src_comp dest_comp num_comp geom
      = some (S', volume')) :
    FrameLaw geom r dest_comp num_comp MyProc S S' := by
  unfold FrameLaw
  have hfold := RefluxCore_some MyProc r S volume scale src_comp dest_comp num_comp geom _ h
  obtain ⟨a1, a2, -, a4, a5⟩ := applyLoop_frame geom r scale dest_comp num_comp MyProc _ S S'
    volume volume' hfold
  refine ⟨a1, a2, a4, ?_⟩
  intro idx q c hn
  apply a5 idx q c
  intro rec hrec hcov
  obtain ⟨m1, -, m3, m4⟩ := mem_allRecords geom r src_comp num_comp MyProc S rec hrec
  obtain ⟨c1, c2, c3, c4⟩ := hcov
  apply hn
  refine ⟨c3, c4, by rw [← c1]; exact m1, rec.2.m_fridx, m3, rec.2.m_face, ?_⟩
  unfold RF.ovlp at c2
  rw [c1] at c2 m4
  rcases m4 with ⟨hs, -⟩ | ⟨hs, -, -, hiv⟩
  · left
    have hsh : rec.2.shiftOf = fun _ => 0 := by simp [RF.shiftOf, hs]
    rw [hsh] at c2
    have hq : (fun d => q d + (0 : Int)) = q := by funext d; simp
    have hbox : (S.box idx).shift (fun _ => 0) = S.box idx := by
      cases hb : S.box idx
      simp [Box.shift]
    rw [hq, hbox] at c2
    exact c2
  · right
    have hsh : rec.2.shiftOf = rec.2.m_iv := by simp [RF.shiftOf, hs]
    rw [hsh] at c2
    exact ⟨rec.2.m_iv, hiv, c2⟩

/-- C10: for every solution array `S`, register, scale and geometry, `Reflux` (either entry
point, for the process running it) changes no value of `S` except in components
`[dest_comp, dest_comp + num_comp)` at cells that lie, directly or after one of the
enumerated periodic shifts, in the valid box of a locally owned block intersected with
`adjCell(grids[k], face)` for some register box `k` and orientation `face`; every other
cell and component of `S` is left unchanged.  Either entry point completes (the volume
array being distributed like `S`, as its iterator requires). -/
theorem reflux_frame [Add R] [Mul R] [Div R] [Neg R] [One R] [Inhabited R] (MyProc : Nat)
    (r : FluxRegister D R) (S : MultiFab D R) (scale : R)
    (src_comp dest_comp num_comp : Int) (geom : Geometry D R) :
    (∀ volume : MultiFab D R,
      (∀ idx, S.distributionMap idx = MyProc → volume.distributionMap idx = MyProc) →
      ∃ S', Reflux MyProc r S volume scale src_comp dest_comp num_comp geom
          = some (S', some volume) ∧
        FrameLaw geom r dest_comp num_comp MyProc S S') ∧
    (∃ S', RefluxCV MyProc r S scale src_comp dest_comp num_comp geom = some (S', none) ∧
      FrameLaw geom r dest_comp num_comp MyProc S S') := by
  constructor
  · intro volume hvol
    obtain ⟨S', h⟩ := RefluxCore_total MyProc r S (some volume) scale src_comp dest_comp
      num_comp geom (fun v hv idx hidx => by
        cases hv
        exact hvol idx hidx)
    exact ⟨S', h, frameLaw_of_RefluxCore MyProc r S (some volume) scale src_comp dest_comp
      num_comp geom S' (some volume) h⟩
  · obtain ⟨S', h⟩ := RefluxCore_total MyProc r S none scale src_comp dest_comp
      num_comp geom (fun v hv => by cases hv)
    exact ⟨S', h, frameLaw_of_RefluxCore MyProc r S none scale src_comp dest_comp
      num_comp geom S' none h⟩

/-- C8, at a concrete input: a unit flux on the low face of the register box `[4,7]`,
refluxed with `scale = 2` and unit volumes, takes the exterior cell 3 from 10 to `10 - 2`. -/
theorem reflux_sign_convention_witness :
    ∃ (S' : MultiFab 1 ℚ) (volume' : Option (MultiFab 1 ℚ)),
      Reflux 0 exRegLow exS exVol 2 0 0 1 exGeom = some (S', volume') ∧
      (S'.fabs 0).data ![3] (0 + 0) = 10 - 2 := by
  obtain ⟨S', h, law⟩ :=
    (reflux_sign_convention 0 exRegLow exS (2 : ℚ) 0 0 1 exGeom).1 exVol (fun _ _ => rfl)
  refine ⟨S', some exVol, h, ?_⟩
  · have hrec := law.2 []
      [(AddBox ⟨0, Side.high⟩ ⟨![8], ![8], ![true]⟩ 0 0 0 1, RF.direct 0 0 ⟨0, Side.high⟩)]
      (AddBox ⟨0, Side.low⟩ ⟨![4], ![4], ![true]⟩ 0 0 0 1, RF.direct 0 0 ⟨0, Side.low⟩)
      (by rfl) 0 ![3] 0 (by decide) (by decide)
      ⟨rfl, by decide, by decide, by decide⟩
      (by
        intro x hx
        simp only [List.nil_append, List.mem_singleton] at hx
        subst hx
        exact fun hc => absurd hc.2.1 (by decide))
    have hval := hrec.2 (by rfl) (by rfl)
    rw [hval]
    rfl

/-- C10, at a concrete input: in the same run the cell 0, which touches no register face,
keeps its value. -/
theorem reflux_frame_witness :
    ∃ (S' : MultiFab 1 ℚ) (volume' : Option (MultiFab 1 ℚ)),
      Reflux 0 exRegLow exS exVol 2 0 0 1 exGeom = some (S', volume') ∧
      (S'.fabs 0).data ![0] 0 = (exS.fabs 0).data ![0] 0 := by
  obtain ⟨S', h, law⟩ :=
    (reflux_frame 0 exRegLow exS (2 : ℚ) 0 0 1 exGeom).1 exVol (fun _ _ => rfl)
  refine ⟨S', some exVol, h, ?_⟩
  · apply law.2.2.2 0 ![0] 0
    rintro ⟨-, -, -, k, hk, ⟨d, s⟩, hc⟩
    have hk0 : k = 0 := by
      have : k < 1 := hk
      omega
    subst hk0
    obtain rfl : d = 0 := Subsingleton.elim _ _
    have hps : exGeom.periodicShift ((BoxArray.getBox exRegLow.grids 0).grow 1) (exS.box 0)
        = [] := by decide
    rw [hps] at hc
    cases s
    · rcases hc with hc | ⟨iv, hiv, -⟩
      · exact absurd hc (by decide)
      · cases hiv
    · rcases hc with hc | ⟨iv, hiv, -⟩
      · exact absurd hc (by decide)
      · cases hiv

end FluxReg

namespace FluxReg

variable {D : Nat} {R : Type}

/-- Every shift enumerated by `periodicShift` is a whole number of domain lengths along each
axis, not zero along all of them. -/
theorem periodicShift_mem (geom : Geometry D R) (target src : Box D) (iv : IntVect D)
    (h : iv ∈ geom.periodicShift target src) :
    ∃ rv : IntVect D, (∃ d, rv d ≠ 0) ∧ ∀ d, iv d = rv d * geom.domain.length d := by
  unfold Geometry.periodicShift at h
  obtain ⟨h1, -⟩ := List.mem_filter.1 h
  obtain ⟨rv, hrv, rfl⟩ := List.mem_map.1 h1
  obtain ⟨-, hrv2⟩ := List.mem_filter.1 hrv
  have hrv3 : (∀ d, rv d ≠ 0 → geom.is_periodic d = true) ∧ ¬ ∀ d, rv d = 0 := by
    simpa using hrv2
  refine ⟨rv, ?_, fun d => rfl⟩
  by_contra hno
  exact hrv3.2 (fun d => by
    by_contra hd
    exact hno ⟨d, hd⟩)

/-- The exterior cell layer of a face of a non-empty box inside the domain contains no cell
together with its image under a non-zero number of domain lengths. -/
theorem adjCell_shift_disjoint (dom g : Box D) (face : Orientation D) (rv q : IntVect D)
    (hok : g.ok) (hdom : dom.contains g) (hrv : ∃ d, rv d ≠ 0)
    (h1 : (g.adjCell face 1).containsPt q)
    (h2 : (g.adjCell face 1).containsPt (fun d => q d + rv d * dom.length d)) : False := by
  obtain ⟨d, hd⟩ := hrv
  have a1 := h1 d
  have a2 := h2 d
  have b1 := hok d
  have b2 := hdom d
  have hL : 1 ≤ dom.length d := by
    unfold Box.length
    omega
  have hw : (g.adjCell face 1).bigend d - (g.adjCell face 1).smallend d < dom.length d := by
    unfold Box.length
    unfold Box.adjCell
    cases face.side
    · by_cases hc : d = face.coordDir
      · simp only [hc, if_true]; rw [← hc]; omega
      · simp only [hc, if_false]; omega
    · by_cases hc : d = face.coordDir
      · simp only [hc, if_true]; rw [← hc]; omega
      · simp only [hc, if_false]; omega
  have ht : dom.length d ≤ rv d * dom.length d ∨ rv d * dom.length d ≤ - dom.length d := by
    rcases lt_or_gt_of_ne hd with hneg | hpos
    · right
      have : rv d ≤ -1 := by omega
      nlinarith
    · left
      have : 1 ≤ rv d := by omega
      nlinarith
  simp only at a2
  generalize rv d * dom.length d = t at a2 ht
  omega

/-- Among the records of the registration, a direct record and a periodic-shifted record of
the same register box and face never cover the same value of the solution. -/
theorem allRecords_paths_disjoint (geom : Geometry D R) (r : FluxRegister D R)
    (src_comp dest_comp num_comp : Int) (MyProc : Nat) (S : MultiFab D R)
    (hdom : ∀ k, k < r.grids.length →
      (BoxArray.getBox r.grids k).ok ∧ geom.domain.contains (BoxArray.getBox r.grids k))
    (a b : FillBoxId D × RF D)
    (_ha : a ∈ allRecords geom r src_comp num_comp MyProc S)
    (hb : b ∈ allRecords geom r src_comp num_comp MyProc S)
    (hsa : a.2.m_shifted = false) (hsb : b.2.m_shifted = true)
    (hk : a.2.m_fridx = b.2.m_fridx) (hf : a.2.m_face = b.2.m_face)
    (idx : Nat) (q : IntVect D) (c : Int) :
    ¬ (a.2.covers r S dest_comp num_comp idx q c ∧
       b.2.covers r S dest_comp num_comp idx q c) := by
  rintro ⟨⟨-, ca, -, -⟩, ⟨-, cb, -, -⟩⟩
  obtain ⟨-, -, hkb, hkind⟩ := mem_allRecords geom r src_comp num_comp MyProc S b hb
  rcases hkind with ⟨hno, -⟩ | ⟨-, -, -, hiv⟩
  · rw [hsb] at hno; cases hno
  · obtain ⟨rv, hrv, hmul⟩ := periodicShift_mem geom _ _ _ hiv
    obtain ⟨gok, gdom⟩ := hdom _ hkb
    have sa : a.2.shiftOf = fun _ => 0 := by unfold RF.shiftOf; rw [hsa]; rfl
    have sb : b.2.shiftOf = b.2.m_iv := by unfold RF.shiftOf; rw [hsb]; rfl
    unfold RF.ovlp at ca cb
    rw [sa, hk, hf] at ca
    rw [sb] at cb
    have ca2 := (containsPt_inter _ _ _).1 ca
    have cb2 := (containsPt_inter _ _ _).1 cb
    have hq : (fun d => q d + (0 : Int)) = q := by funext d; simp
    have hq2 : (fun d => q d + b.2.m_iv d) = fun d => q d + rv d * geom.domain.length d := by
      funext d; rw [hmul d]
    rw [hq] at ca2
    rw [hq2] at cb2
    exact adjCell_shift_disjoint geom.domain _ b.2.m_face rv q gok gdom hrv ca2.2 cb2.2

/-- The exterior cell layer of a face of a non-empty box inside the domain cannot meet both
a box inside the domain and the image, under a non-zero number of domain lengths, of a box
inside the domain. -/
theorem adjCell_face_exclusive (dom g sa sb : Box D) (face : Orientation D) (rv : IntVect D)
    (hok : g.ok) (hdom : dom.contains g) (hsa : dom.contains sa) (hsb : dom.contains sb)
    (hrv : ∃ d, rv d ≠ 0)
    (h1 : (sa.inter (g.adjCell face 1)).ok)
    (h2 : ((sb.shift (fun d => rv d * dom.length d)).inter (g.adjCell face 1)).ok) :
    False := by
  obtain ⟨d, hd⟩ := hrv
  have a1 := h1 d
  have a2 := h2 d
  have b1 := hok d
  have b2 := hdom d
  have b3 := hsa d
  have b4 := hsb d
  have hL : 1 ≤ dom.length d := by
    unfold Box.length
    omega
  have ht : dom.length d ≤ rv d * dom.length d ∨ rv d * dom.length d ≤ - dom.length d := by
    rcases lt_or_gt_of_ne hd with hneg | hpos
    · right
      have : rv d ≤ -1 := by omega
      nlinarith
    · left
      have : 1 ≤ rv d := by omega
      nlinarith
  have hlen : dom.length d = dom.bigend d - dom.smallend d + 1 := rfl
  simp only [Box.inter, Box.shift, max_le_iff, le_min_iff] at a1 a2
  generalize rv d * dom.length d = t at a2 ht
  unfold Box.adjCell at a1 a2
  cases hside : face.side
  · rw [hside] at a1 a2
    by_cases hc : d = face.coordDir
    · simp only [hc, if_true] at a1 a2
      rw [← hc] at a1 a2
      omega
    · simp only [hc, if_false] at a1 a2
      omega
  · rw [hside] at a1 a2
    by_cases hc : d = face.coordDir
    · simp only [hc, if_true] at a1 a2
      rw [← hc] at a1 a2
      omega
    · simp only [hc, if_false] at a1 a2
      omega

/-- Among the records of the registration, a direct record and a periodic-shifted record of
the same register box and face cannot both belong to solution boxes inside the domain. -/
theorem allRecords_face_exclusive (geom : Geometry D R) (r : FluxRegister D R)
    (src_comp num_comp : Int) (MyProc : Nat) (S : MultiFab D R)
    (hdom : ∀ k, k < r.grids.length →
      (BoxArray.getBox r.grids k).ok ∧ geom.domain.contains (BoxArray.getBox r.grids k))
    (a b : FillBoxId D × RF D)
    (ha : a ∈ allRecords geom r src_comp num_comp MyProc S)
    (hb : b ∈ allRecords geom r src_comp num_comp MyProc S)
    (hsa : a.2.m_shifted = false) (hsb : b.2.m_shifted = true)
    (hk : a.2.m_fridx = b.2.m_fridx) (hf : a.2.m_face = b.2.m_face) :
    ¬ (geom.domain.contains (S.box a.2.m_fabidx) ∧
       geom.domain.contains (S.box b.2.m_fabidx)) := by
  rintro ⟨da, db⟩
  obtain ⟨-, -, oa⟩ := allRecords_good geom r src_comp num_comp MyProc S a ha
  obtain ⟨-, -, ob⟩ := allRecords_good geom r src_comp num_comp MyProc S b hb
  obtain ⟨-, -, hkb, hkind⟩ := mem_allRecords geom r src_comp num_comp MyProc S b hb
  rcases hkind with ⟨hno, -⟩ | ⟨-, -, -, hiv⟩
  · rw [hsb] at hno; cases hno
  · obtain ⟨rv, hrv, hmul⟩ := periodicShift_mem geom _ _ _ hiv
    obtain ⟨gok, gdom⟩ := hdom _ hkb
    have sa : a.2.shiftOf = fun _ => 0 := by unfold RF.shiftOf; rw [hsa]; rfl
    have sb : b.2.shiftOf = fun d => rv d * geom.domain.length d := by
      unfold RF.shiftOf
      rw [hsb]
      funext d
      exact hmul d
    have hz : (S.box a.2.m_fabidx).shift (fun _ => 0) = S.box a.2.m_fabidx := by
      unfold Box.shift
      simp
    unfold RF.ovlp at oa ob
    rw [sa, hz, hk, hf] at oa
    rw [sb] at ob
    exact adjCell_face_exclusive geom.domain _ _ _ b.2.m_face rv gok gdom da db hrv oa ob

/-- C9 fails as stated: on the periodic domain `[0,15]`, for the solution box `[0,15]` and
the register box `[0,3]` (pair `(0, 0)`), the registration of `Reflux` produces both a
direct record (high face) and a record shifted by `-16` (low face), and both are applied:
with unit fluxes, unit volumes and `scale = 2`, cell 4 is raised to `10 + 2` through the
direct path and cell 15 is lowered to `10 - 2` through the periodic shift. -/
theorem reflux_one_path_counterexample :
    ∃ (st : RefluxState 1 ℚ) (S' : MultiFab 1 ℚ) (volume' : Option (MultiFab 1 ℚ)),
      registerAll exGeomPer exRegEdge 0 1 0 ⟨[], exS, some exVol⟩ = some st ∧
      st.recs.map (fun rec => (rec.2.m_shifted, rec.2.m_fabidx, rec.2.m_fridx,
          rec.2.m_face.side, rec.2.m_iv 0))
        = [(false, 0, 0, Side.high, 0), (true, 0, 0, Side.low, -16)] ∧
      Reflux 0 exRegEdge exS exVol 2 0 0 1 exGeomPer = some (S', volume') ∧
      (S'.fabs 0).data ![4] 0 = 10 + 2 ∧ (S'.fabs 0).data ![15] 0 = 10 - 2 := by
  have hreg : (registerAll exGeomPer exRegEdge 0 1 0 ⟨[], exS, some exVol⟩).isSome = true := by
    decide
  have hsome : (Reflux 0 exRegEdge exS exVol 2 0 0 1 exGeomPer).isSome = true := by decide
  cases hst : registerAll exGeomPer exRegEdge 0 1 0 ⟨[], exS, some exVol⟩ with
  | none => rw [hst] at hreg; cases hreg
  | some st =>
  cases h : Reflux 0 exRegEdge exS exVol 2 0 0 1 exGeomPer with
  | none => rw [h] at hsome; cases hsome
  | some res =>
    obtain ⟨S', volume'⟩ := res
    have hrecs := registerAll_spec exGeomPer exRegEdge 0 1 0 exS (some exVol) st hst
    have law := signLaw_of_RefluxCore 0 exRegEdge exS (some exVol) (2 : ℚ) 0 0 1 exGeomPer S'
      volume' h
    have hsplit : allRecords exGeomPer exRegEdge 0 1 0 exS =
        [(AddBox ⟨0, Side.high⟩ ⟨![4], ![4], ![true]⟩ 0 0 0 1,
          RF.direct 0 0 ⟨0, Side.high⟩)] ++
        (AddBox ⟨0, Side.low⟩ ⟨![0], ![0], ![true]⟩ 0 0 0 1,
          RF.shifted (fun d => (Fin.cons (-1) (fun i => i.elim0) : IntVect 1) d *
            exGeomPer.domain.length d) 0 0 ⟨0, Side.low⟩) :: [] := by rfl
    have hq : (fun d => (![15] : IntVect 1) d +
        (RF.shifted (fun d => (Fin.cons (-1) (fun i => i.elim0) : IntVect 1) d *
          exGeomPer.domain.length d) 0 0 ⟨0, Side.low⟩).shiftOf d) = ![-1] := by
      funext d
      obtain rfl : d = 0 := Subsingleton.elim _ _
      rfl
    refine ⟨st, S', volume', rfl, ?_, rfl, ?_, ?_⟩
    · rw [hrecs]
      decide
    · have hrec := law.2 []
        [(AddBox ⟨0, Side.low⟩ ⟨![0], ![0], ![true]⟩ 0 0 0 1,
          RF.shifted (fun d => (Fin.cons (-1) (fun i => i.elim0) : IntVect 1) d *
            exGeomPer.domain.length d) 0 0 ⟨0, Side.low⟩)]
        (AddBox ⟨0, Side.high⟩ ⟨![4], ![4], ![true]⟩ 0 0 0 1, RF.direct 0 0 ⟨0, Side.high⟩)
        (by rfl) 0 ![4] 0 (by decide) (by decide)
        ⟨rfl, by decide, by decide, by decide⟩
        (by
          intro x hx
          simp only [List.nil_append, List.mem_singleton] at hx
          subst hx
          exact fun hc => absurd hc.2.1 (by decide))
      have hval := hrec.2 (by rfl) (by rfl)
      exact hval
    · have hrec := law.2
        [(AddBox ⟨0, Side.high⟩ ⟨![4], ![4], ![true]⟩ 0 0 0 1, RF.direct 0 0 ⟨0, Side.high⟩)]
        []
        (AddBox ⟨0, Side.low⟩ ⟨![0], ![0], ![true]⟩ 0 0 0 1,
          RF.shifted (fun d => (Fin.cons (-1) (fun i => i.elim0) : IntVect 1) d *
            exGeomPer.domain.length d) 0 0 ⟨0, Side.low⟩)
        hsplit 0 ![15] 0 (by decide) (by decide)
        ⟨rfl, by decide, by decide, by decide⟩
        (by
          intro x hx
          simp only [List.append_nil, List.mem_singleton] at hx
          subst hx
          exact fun hc => absurd hc.2.1 (by decide))
      rw [hq] at hrec
      have hval := hrec.2 (by rfl) (by rfl)
      exact hval

/-- C9 (amended): the direct test and the periodic test of the registration are
independent, so one pair (locally owned solution box, register box `k`) may get records
through both paths, for different faces.  When every register box is non-empty and lies
inside the domain box, a direct record and a periodic-shifted record of the same register
box `k` and the same face never cover the same value of the solution (the correction of
one register face is never applied to one solution cell via both the direct path and a
periodic shift), and they cannot both belong to solution boxes inside the domain: for
solution boxes inside the domain, each face of `k` is applied through only one path.  The
records `st.recs` are those the apply loop of either entry point then runs over. -/
theorem reflux_paths_disjoint (geom : Geometry D R) (r : FluxRegister D R)
    (src_comp dest_comp num_comp : Int) (MyProc : Nat) (S : MultiFab D R)
    (volume : Option (MultiFab D R))
    (hdom : ∀ k, k < r.grids.length →
      (BoxArray.getBox r.grids k).ok ∧ geom.domain.contains (BoxArray.getBox r.grids k)) :
    ∃ st, registerAll geom r src_comp num_comp MyProc ⟨[], S, volume⟩ = some st ∧
      ∀ a ∈ st.recs, ∀ b ∈ st.recs,
        a.2.m_shifted = false → b.2.m_shifted = true →
        a.2.m_fridx = b.2.m_fridx → a.2.m_face = b.2.m_face →
        (∀ (idx : Nat) (q : IntVect D) (c : Int),
          ¬ (a.2.covers r S dest_comp num_comp idx q c ∧
             b.2.covers r S dest_comp num_comp idx q c)) ∧
        ¬ (geom.domain.contains (S.box a.2.m_fabidx) ∧
           geom.domain.contains (S.box b.2.m_fabidx)) := by
  obtain ⟨st, hreg⟩ := registerAll_some geom r src_comp num_comp MyProc ⟨[], S, volume⟩
  refine ⟨st, hreg, ?_⟩
  rw [registerAll_spec geom r src_comp num_comp MyProc S volume st hreg]
  intro a ha b hb hsa hsb hk hf
  exact ⟨fun idx q c =>
    allRecords_paths_disjoint geom r src_comp dest_comp num_comp MyProc S hdom a b ha hb
      hsa hsb hk hf idx q c,
    allRecords_face_exclusive geom r src_comp num_comp MyProc S hdom a b ha hb hsa hsb hk hf⟩

/-- C9 (amended), at a concrete input: the periodic domain `[0,15]` with the register box
`[0,3]` and the solution box `[0,15]`. -/
theorem reflux_paths_disjoint_witness :
    ∃ st : RefluxState 1 ℚ,
      registerAll exGeomPer exRegEdge 0 1 0 ⟨[], exS, some exVol⟩ = some st ∧
      ∀ a ∈ st.recs, ∀ b ∈ st.recs,
        a.2.m_shifted = false → b.2.m_shifted = true →
        a.2.m_fridx = b.2.m_fridx → a.2.m_face = b.2.m_face →
        (∀ (idx : Nat) (q : IntVect 1) (c : Int),
          ¬ (a.2.covers exRegEdge exS 0 1 idx q c ∧
             b.2.covers exRegEdge exS 0 1 idx q c)) ∧
        ¬ (exGeomPer.domain.contains (exS.box a.2.m_fabidx) ∧
           exGeomPer.domain.contains (exS.box b.2.m_fabidx)) := by
  exact reflux_paths_disjoint exGeomPer exRegEdge 0 0 1 0 exS (some exVol)
    (by
      intro k hk
      have hk1 : k < 1 := hk
      have hk0 : k = 0 := by omega
      subst hk0
      exact ⟨by decide, by decide⟩)

end FluxReg

namespace FluxReg

variable {D : Nat} {R : Type}

theorem setFab_other_side (r : FluxRegister D R) (dir : Fin D) (boxno : Nat)
    (fab : FArrayBox D R) :
    ((r.setFab ⟨dir, Side.low⟩ boxno fab).bndry ⟨dir, Side.high⟩).fabs boxno
      = (r.bndry ⟨dir, Side.high⟩).fabs boxno := by
  rw [setFab_fabs, if_neg]
  rintro ⟨h, -⟩
  cases h

/-- The single-patch `FineAdd` without an area array is described by `fineAddSpec`. -/
theorem FineAdd_eq_spec [Add R] [Mul R] [Zero R] (r : FluxRegister D R)
    (flux : FArrayBox D R) (dir : Fin D) (boxno : Nat) (srccomp destcomp numcomp : Int)
    (mult : R) :
    FineAdd r flux dir boxno srccomp destcomp numcomp mult =
      fineAddSpec r flux none dir boxno srccomp destcomp numcomp mult := by
  unfold FineAdd fineAddSpec fineAddEntry
  simp only [setFab_other_side]
  rfl

/-- The single-patch `FineAdd` with an area array is described by `fineAddSpec`. -/
theorem FineAddArea_eq_spec [Add R] [Mul R] [Zero R] (r : FluxRegister D R)
    (flux area : FArrayBox D R) (dir : Fin D) (boxno : Nat) (srccomp destcomp numcomp : Int)
    (mult : R) :
    FineAddArea r flux area dir boxno srccomp destcomp numcomp mult =
      fineAddSpec r flux (some area) dir boxno srccomp destcomp numcomp mult := by
  unfold FineAddArea fineAddSpec fineAddEntry
  simp only [setFab_other_side]
  rfl

/-- What the kernels leave in an entry: the sum is added on the box of the entry in the
components `[destcomp, destcomp + numcomp)`, every other value is kept. -/
theorem fineAddEntry_data [Add R] [Mul R] [Zero R] (r : FluxRegister D R)
    (flux : FArrayBox D R) (area : Option (FArrayBox D R)) (dir : Fin D) (boxno : Nat)
    (srccomp destcomp numcomp : Int) (mult : R) (s : Side) (p : IntVect D) (c : Int) :
    (fineAddEntry r flux area dir boxno srccomp destcomp numcomp mult s).data p c =
      if ((r.bndry ⟨dir, s⟩).fabs boxno).box.containsPt p ∧ destcomp ≤ c ∧
          c < destcomp + numcomp then
        ((r.bndry ⟨dir, s⟩).fabs boxno).data p c +
          mult * ((fineFaces r.ratio dir p).map (fun q =>
            match area with
            | none => flux.data q (c - destcomp + srccomp)
            | some a => a.data q 0 * flux.data q (c - destcomp + srccomp))).sum
      else ((r.bndry ⟨dir, s⟩).fabs boxno).data p c := by
  cases area <;> rfl

theorem fineAddEntry_shape [Add R] [Mul R] [Zero R] (r : FluxRegister D R)
    (flux : FArrayBox D R) (area : Option (FArrayBox D R)) (dir : Fin D) (boxno : Nat)
    (srccomp destcomp numcomp : Int) (mult : R) (s : Side) :
    (fineAddEntry r flux area dir boxno srccomp destcomp numcomp mult s).box
      = ((r.bndry ⟨dir, s⟩).fabs boxno).box ∧
    (fineAddEntry r flux area dir boxno srccomp destcomp numcomp mult s).nComp
      = ((r.bndry ⟨dir, s⟩).fabs boxno).nComp := by
  cases area <;> exact ⟨rfl, rfl⟩

/-- The entries of the register a single-patch `FineAdd` returns. -/
theorem fineAdd_result_fabs [Add R] [Mul R] [Zero R] (r : FluxRegister D R)
    (flux : FArrayBox D R) (area : Option (FArrayBox D R)) (dir : Fin D) (boxno : Nat)
    (srccomp destcomp numcomp : Int) (mult : R) (f : Orientation D) (j : Nat) :
    (((r.setFab ⟨dir, Side.low⟩ boxno
        (fineAddEntry r flux area dir boxno srccomp destcomp numcomp mult Side.low)).setFab
      ⟨dir, Side.high⟩ boxno
        (fineAddEntry r flux area dir boxno srccomp destcomp numcomp mult Side.high)).bndry
          f).fabs j =
      if f.coordDir = dir ∧ j = boxno then
        fineAddEntry r flux area dir boxno srccomp destcomp numcomp mult f.side
      else (r.bndry f).fabs j := by
  rw [setFab_fabs, setFab_fabs]
  obtain ⟨d, s⟩ := f
  by_cases hj : j = boxno
  · by_cases hd : d = dir
    · subst hd hj
      cases s <;> simp
    · have h1 : ¬ ((⟨d, s⟩ : Orientation D) = ⟨dir, Side.high⟩) := by
        intro h; cases h; exact hd rfl
      have h2 : ¬ ((⟨d, s⟩ : Orientation D) = ⟨dir, Side.low⟩) := by
        intro h; cases h; exact hd rfl
      simp [h1, h2, hd]
  · simp [hj]

/-- A single-patch `FineAdd` fails at its first two assertions, with the register untouched,
when a component range is out of bounds. -/
theorem fineAddSpec_bad_comps [Add R] [Mul R] [Zero R] (r : FluxRegister D R)
    (flux : FArrayBox D R) (area : Option (FArrayBox D R)) (dir : Fin D) (boxno : Nat)
    (srccomp destcomp numcomp : Int) (mult : R)
    (h : srccomp < 0 ∨ flux.nComp < srccomp + numcomp ∨ destcomp < 0 ∨
      r.ncomp < destcomp + numcomp) :
    fineAddSpec r flux area dir boxno srccomp destcomp numcomp mult = Except.error r := by
  unfold fineAddSpec
  by_cases h1 : 0 ≤ srccomp ∧ srccomp + numcomp ≤ flux.nComp
  · have h2 : ¬ (0 ≤ destcomp ∧ destcomp + numcomp ≤ r.ncomp) := by
      rintro ⟨a, b⟩
      omega
    rw [if_neg (not_not.2 h1), if_pos h2]
  · rw [if_pos h1]

/-- A single-patch `FineAdd` whose four assertions hold returns normally. -/
theorem fineAddSpec_ok [Add R] [Mul R] [Zero R] (r : FluxRegister D R)
    (flux : FArrayBox D R) (area : Option (FArrayBox D R)) (dir : Fin D) (boxno : Nat)
    (srccomp destcomp numcomp : Int) (mult : R)
    (h1 : 0 ≤ srccomp ∧ srccomp + numcomp ≤ flux.nComp)
    (h2 : 0 ≤ destcomp ∧ destcomp + numcomp ≤ r.ncomp)
    (h3 : (flux.box.coarsen r.ratio).contains ((r.bndry ⟨dir, Side.low⟩).fabs boxno).box)
    (h4 : (flux.box.coarsen r.ratio).contains ((r.bndry ⟨dir, Side.high⟩).fabs boxno).box) :
    fineAddSpec r flux area dir boxno srccomp destcomp numcomp mult =
      Except.ok ((r.setFab ⟨dir, Side.low⟩ boxno
          (fineAddEntry r flux area dir boxno srccomp destcomp numcomp mult Side.low)).setFab
        ⟨dir, Side.high⟩ boxno
          (fineAddEntry r flux area dir boxno srccomp destcomp numcomp mult Side.high)) := by
  unfold fineAddSpec
  rw [if_neg (not_not.2 h1), if_neg (not_not.2 h2), if_neg (not_not.2 h3),
    if_neg (not_not.2 h4)]

/-- A single-patch `FineAdd` that returned normally passed its four assertions. -/
theorem fineAddSpec_of_ok [Add R] [Mul R] [Zero R] (r r' : FluxRegister D R)
    (flux : FArrayBox D R) (area : Option (FArrayBox D R)) (dir : Fin D) (boxno : Nat)
    (srccomp destcomp numcomp : Int) (mult : R)
    (h : fineAddSpec r flux area dir boxno srccomp destcomp numcomp mult = Except.ok r') :
    r' = (r.setFab ⟨dir, Side.low⟩ boxno
          (fineAddEntry r flux area dir boxno srccomp destcomp numcomp mult Side.low)).setFab
        ⟨dir, Side.high⟩ boxno
          (fineAddEntry r flux area dir boxno srccomp destcomp numcomp mult Side.high) := by
  unfold fineAddSpec at h
  split at h
  · cases h
  · split at h
    · cases h
    · split at h
      · cases h
      · split at h
        · cases h
        · simp only [Except.ok.injEq] at h
          exact h.symm

end FluxReg

namespace FluxReg

variable {D : Nat} {R : Type}

theorem CrseInitMF_bad_comps [Mul R] [Inhabited R] (MyProc : Nat) (r : FluxRegister D R)
    (mflx area : MultiFab D R) (dir : Fin D) (srccomp destcomp numcomp : Int) (mult : R)
    (h : badComps srccomp destcomp numcomp mflx.nComp r.ncomp) :
    CrseInitMF MyProc r mflx area dir srccomp destcomp numcomp mult = Except.error r := by
  unfold badComps at h
  unfold CrseInitMF
  by_cases h1 : 0 ≤ srccomp ∧ srccomp + numcomp ≤ mflx.nComp
  · have h2 : ¬ (0 ≤ destcomp ∧ destcomp + numcomp ≤ r.ncomp) := by
      rintro ⟨a, b⟩
      omega
    rw [if_neg (not_not.2 h1), if_pos h2]
  · rw [if_pos h1]

theorem CrseInit_bad_comps [Mul R] [Inhabited R] (MyProc NProcs : Nat) (st : ProcState D R)
    (flux : FArrayBox D R) (subbox : Box D) (dir : Fin D)
    (srccomp destcomp numcomp : Int) (mult : R)
    (h : badComps srccomp destcomp numcomp flux.nComp st.reg.ncomp) :
    CrseInit MyProc NProcs st flux subbox dir srccomp destcomp numcomp mult
      = Except.error st := by
  unfold badComps at h
  unfold CrseInit
  by_cases h0 : flux.box.contains subbox
  · rw [if_neg (not_not.2 h0)]
    by_cases h1 : 0 ≤ srccomp ∧ srccomp + numcomp ≤ flux.nComp
    · have h2 : ¬ (0 ≤ destcomp ∧ destcomp + numcomp ≤ st.reg.ncomp) := by
        rintro ⟨a, b⟩
        omega
      rw [if_neg (not_not.2 h1), if_pos h2]
    · rw [if_pos h1]
  · rw [if_pos h0]

/-- C14: for both `CrseInit` overloads and both single-patch `FineAdd` overloads, whenever
`srccomp < 0`, or `srccomp + numcomp` exceeds the component count of the source flux, or
`destcomp < 0`, or `destcomp + numcomp > ncomp`, the operation fails, and the state at the
failure is the state it was called on: no Face Storage value has been modified, and (for
the overload that has access to them) the pending-contribution statics are as they were. -/
theorem comps_checked_before_mutation [Add R] [Mul R] [Zero R] [Inhabited R]
    (MyProc NProcs : Nat) (st : ProcState D R) (mflx area : MultiFab D R)
    (flux areafab : FArrayBox D R) (subbox : Box D) (dir : Fin D) (boxno : Nat)
    (srccomp destcomp numcomp : Int) (mult : R) :
    (badComps srccomp destcomp numcomp mflx.nComp st.reg.ncomp →
      CrseInitMF MyProc st.reg mflx area dir srccomp destcomp numcomp mult
        = Except.error st.reg) ∧
    (badComps srccomp destcomp numcomp flux.nComp st.reg.ncomp →
      CrseInit MyProc NProcs st flux subbox dir srccomp destcomp numcomp mult
        = Except.error st ∧
      FineAdd st.reg flux dir boxno srccomp destcomp numcomp mult = Except.error st.reg ∧
      FineAddArea st.reg flux areafab dir boxno srccomp destcomp numcomp mult
        = Except.error st.reg) := by
  refine ⟨fun h => CrseInitMF_bad_comps MyProc st.reg mflx area dir srccomp destcomp numcomp
    mult h, fun h => ⟨CrseInit_bad_comps MyProc NProcs st flux subbox dir srccomp destcomp
    numcomp mult h, ?_, ?_⟩⟩
  · rw [FineAdd_eq_spec]
    exact fineAddSpec_bad_comps st.reg flux none dir boxno srccomp destcomp numcomp mult h
  · rw [FineAddArea_eq_spec]
    exact fineAddSpec_bad_comps st.reg flux (some areafab) dir boxno srccomp destcomp numcomp
      mult h

/-- C14, at a concrete input: the source component `-1` on the register `exReg1`. -/
theorem comps_checked_before_mutation_witness :
    badComps (-1) 0 1 exFineFull.nComp exReg1.ncomp ∧
    CrseInit 0 1 ⟨exReg1, CIState.init⟩ exFineFull exFineFull.box 0 (-1) 0 1 1
      = Except.error ⟨exReg1, CIState.init⟩ ∧
    FineAdd exReg1 exFineFull 0 0 (-1) 0 1 1 = Except.error exReg1 ∧
    FineAddArea exReg1 exFineFull exFineFull 0 0 (-1) 0 1 1 = Except.error exReg1 :=
  ⟨Or.inl (by decide),
    (comps_checked_before_mutation 0 1 ⟨exReg1, CIState.init⟩
      (⟨[], fun _ => 0, fun _ => exFineFull⟩ : MultiFab 1 Int)
      (⟨[], fun _ => 0, fun _ => exFineFull⟩ : MultiFab 1 Int) exFineFull exFineFull
      exFineFull.box 0 0 (-1) 0 1 1).2 (Or.inl (by decide))⟩

theorem foldlM_eq_callForEach
    (call : FluxRegister D R → Nat → Except (FluxRegister D R) (FluxRegister D R)) :
    ∀ (l : List Nat) (r : FluxRegister D R), l.foldlM call r = callForEach call l r
  | [], _ => rfl
  | k :: ks, r => by
    rw [List.foldlM_cons]
    unfold callForEach
    cases call r k with
    | error e => rfl
    | ok r1 => exact foldlM_eq_callForEach call ks r1

theorem fineAddEntry_congr [Add R] [Mul R] [Zero R] (r r1 : FluxRegister D R)
    (flux : FArrayBox D R) (area : Option (FArrayBox D R)) (dir : Fin D) (boxno : Nat)
    (srccomp destcomp numcomp : Int) (mult : R) (s : Side)
    (h1 : (r1.bndry ⟨dir, s⟩).fabs boxno = (r.bndry ⟨dir, s⟩).fabs boxno)
    (h2 : r1.ratio = r.ratio) :
    fineAddEntry r1 flux area dir boxno srccomp destcomp numcomp mult s =
      fineAddEntry r flux area dir boxno srccomp destcomp numcomp mult s := by
  unfold fineAddEntry
  rw [h1, h2]

/-- The frame of the register a single-patch `FineAdd` returns. -/
theorem fineAdd_result_frame [Add R] [Mul R] [Zero R] (r : FluxRegister D R)
    (flux : FArrayBox D R) (area : Option (FArrayBox D R)) (dir : Fin D) (boxno : Nat)
    (srccomp destcomp numcomp : Int) (mult : R) :
    FineAddFrame r ((r.setFab ⟨dir, Side.low⟩ boxno
        (fineAddEntry r flux area dir boxno srccomp destcomp numcomp mult Side.low)).setFab
      ⟨dir, Side.high⟩ boxno
        (fineAddEntry r flux area dir boxno srccomp destcomp numcomp mult Side.high))
      dir boxno destcomp numcomp := by
  refine ⟨sameShape_trans (sameShape_setFab _ _ _ _) (sameShape_setFab _ _ _ _), ?_, ?_⟩
  · intro f j hfj
    rw [fineAdd_result_fabs, if_neg hfj]
  · intro s
    have hfab := fineAdd_result_fabs r flux area dir boxno srccomp destcomp numcomp mult
      ⟨dir, s⟩ boxno
    rw [if_pos ⟨rfl, rfl⟩] at hfab
    rw [hfab]
    refine ⟨(fineAddEntry_shape r flux area dir boxno srccomp destcomp numcomp mult s).1,
      (fineAddEntry_shape r flux area dir boxno srccomp destcomp numcomp mult s).2, ?_⟩
    intro p c hc
    rw [fineAddEntry_data, if_neg]
    rintro ⟨-, h1, h2⟩
    exact hc ⟨h1, h2⟩

/-- The entries after the single-patch `FineAdd` has been called for each index of a list
without repetition: the entries of the listed boxes on axis `dir` hold the kernel's result
for their own flux block, computed from the register before the calls. -/
theorem callForEach_fineAdd [Add R] [Mul R] [Zero R] (flux : Nat → FArrayBox D R)
    (area : Nat → Option (FArrayBox D R)) (dir : Fin D)
    (srccomp destcomp numcomp : Int) (mult : R) :
    ∀ (l : List Nat), l.Nodup → ∀ (r r' : FluxRegister D R),
    callForEach (fun r k =>
      fineAddSpec r (flux k) (area k) dir k srccomp destcomp numcomp mult) l r
      = Except.ok r' →
    r.sameShape r' ∧
    ∀ (f : Orientation D) (j : Nat), (r'.bndry f).fabs j =
      if f.coordDir = dir ∧ j ∈ l then
        fineAddEntry r (flux j) (area j) dir j srccomp destcomp numcomp mult f.side
      else (r.bndry f).fabs j
  | [], _, r, r', h => by
    simp only [callForEach, Except.ok.injEq] at h
    subst h
    exact ⟨sameShape_refl _, fun f j => by simp⟩
  | k :: ks, hl, r, r', h => by
    obtain ⟨hk, hks⟩ := List.nodup_cons.1 hl
    unfold callForEach at h
    cases h1 : fineAddSpec r (flux k) (area k) dir k srccomp destcomp numcomp mult with
    | error e => rw [h1] at h; cases h
    | ok r1 =>
      rw [h1] at h
      simp only at h
      have hr1 := fineAddSpec_of_ok r r1 (flux k) (area k) dir k srccomp destcomp numcomp
        mult h1
      obtain ⟨g1, g2⟩ := callForEach_fineAdd flux area dir srccomp destcomp numcomp mult ks
        hks r1 r' h
      have hsh : r.sameShape r1 := by
        rw [hr1]
        exact sameShape_trans (sameShape_setFab _ _ _ _) (sameShape_setFab _ _ _ _)
      have hfab : ∀ (f : Orientation D) (j : Nat), (r1.bndry f).fabs j =
          if f.coordDir = dir ∧ j = k then
            fineAddEntry r (flux k) (area k) dir k srccomp destcomp numcomp mult f.side
          else (r.bndry f).fabs j := by
        intro f j
        rw [hr1]
        exact fineAdd_result_fabs r (flux k) (area k) dir k srccomp destcomp numcomp mult f j
      refine ⟨sameShape_trans hsh g1, ?_⟩
      intro f j
      rw [g2 f j]
      by_cases hd : f.coordDir = dir
      · by_cases hj : j ∈ ks
        · have hjk : j ≠ k := fun e => hk (e ▸ hj)
          rw [if_pos ⟨hd, hj⟩, if_pos ⟨hd, List.mem_cons_of_mem _ hj⟩]
          apply fineAddEntry_congr
          · rw [hfab, if_neg]
            rintro ⟨-, e⟩
            exact hjk e
          · exact hsh.2.2.1
        · rw [if_neg (fun h => hj h.2), hfab]
          by_cases hjk : j = k
          · subst hjk
            rw [if_pos ⟨hd, rfl⟩, if_pos ⟨hd, List.mem_cons_self _ _⟩]
          · rw [if_neg (fun h => hjk h.2), if_neg]
            rintro ⟨-, hm⟩
            rcases List.mem_cons.1 hm with e | e
            · exact hjk e
            · exact hj e
      · rw [if_neg (fun h => hd h.1), hfab, if_neg (fun h => hd h.1),
          if_neg (fun h => hd h.1)]

theorem localIndices_nodup (fa : FabArray D R) (MyProc : Nat) :
    (fa.localIndices MyProc).Nodup := by
  unfold FabArray.localIndices
  exact List.Nodup.filter _ (List.nodup_range _)

/-- C15: a single-patch `FineAdd` call (with or without an area array) that satisfies its
preconditions returns normally and modifies only the two Face Storage entries
`bndry[(dir, low)][boxno]` and `bndry[(dir, high)][boxno]`, and in them only components
`[destcomp, destcomp + numcomp)`; every entry for another box index or another axis is
unchanged.  Each batch overload is the single-patch overload called once for every locally
owned box of `mflx`, with `boxno` the index of that box; on normal return the entries of
those boxes on axis `dir` hold the kernel's result for their own block of `mflx` (and of
`area`), every other entry is as before. -/
theorem fineAdd_frame [Add R] [Mul R] [Zero R] (MyProc : Nat) (r : FluxRegister D R)
    (flux areafab : FArrayBox D R) (mflx area : MultiFab D R) (dir : Fin D) (boxno : Nat)
    (srccomp destcomp numcomp : Int) (mult : R) :
    (((0 ≤ srccomp ∧ srccomp + numcomp ≤ flux.nComp) ∧
        (0 ≤ destcomp ∧ destcomp + numcomp ≤ r.ncomp) ∧
        (flux.box.coarsen r.ratio).contains ((r.bndry ⟨dir, Side.low⟩).fabs boxno).box ∧
        (flux.box.coarsen r.ratio).contains ((r.bndry ⟨dir, Side.high⟩).fabs boxno).box) →
      (∃ r', FineAdd r flux dir boxno srccomp destcomp numcomp mult = Except.ok r' ∧
        FineAddFrame r r' dir boxno destcomp numcomp) ∧
      (∃ r', FineAddArea r flux areafab dir boxno srccomp destcomp numcomp mult
          = Except.ok r' ∧
        FineAddFrame r r' dir boxno destcomp numcomp)) ∧
    FineAddMF MyProc r mflx dir srccomp destcomp numcomp mult =
      callForEach (fun r k => FineAdd r (mflx.fabs k) dir k srccomp destcomp numcomp mult)
        (mflx.localIndices MyProc) r ∧
    FineAddAreaMF MyProc r mflx area dir srccomp destcomp numcomp mult =
      callForEach (fun r k =>
        FineAddArea r (mflx.fabs k) (area.fabs k) dir k srccomp destcomp numcomp mult)
        (mflx.localIndices MyProc) r ∧
    (∀ r', FineAddMF MyProc r mflx dir srccomp destcomp numcomp mult = Except.ok r' →
      ∀ (f : Orientation D) (j : Nat), (r'.bndry f).fabs j =
        if f.coordDir = dir ∧ j ∈ mflx.localIndices MyProc then
          fineAddEntry r (mflx.fabs j) none dir j srccomp destcomp numcomp mult f.side
        else (r.bndry f).fabs j) ∧
    (∀ r', FineAddAreaMF MyProc r mflx area dir srccomp destcomp numcomp mult = Except.ok r' →
      ∀ (f : Orientation D) (j : Nat), (r'.bndry f).fabs j =
        if f.coordDir = dir ∧ j ∈ mflx.localIndices MyProc then
          fineAddEntry r (mflx.fabs j) (some (area.fabs j)) dir j srccomp destcomp numcomp mult
            f.side
        else (r.bndry f).fabs j) := by
  refine ⟨?_, ?_, ?_, ?_, ?_⟩
  · rintro ⟨h1, h2, h3, h4⟩
    constructor
    · refine ⟨_, ?_, fineAdd_result_frame r flux none dir boxno srccomp destcomp numcomp mult⟩
      rw [FineAdd_eq_spec]
      exact fineAddSpec_ok r flux none dir boxno srccomp destcomp numcomp mult h1 h2 h3 h4
    · refine ⟨_, ?_,
        fineAdd_result_frame r flux (some areafab) dir boxno srccomp destcomp numcomp mult⟩
      rw [FineAddArea_eq_spec]
      exact fineAddSpec_ok r flux (some areafab) dir boxno srccomp destcomp numcomp mult
        h1 h2 h3 h4
  · exact foldlM_eq_callForEach _ _ _
  · exact foldlM_eq_callForEach _ _ _
  · intro r' h
    unfold FineAddMF at h
    rw [foldlM_eq_callForEach] at h
    have h2 : callForEach (fun r k =>
        fineAddSpec r (mflx.fabs k) ((fun _ => none) k) dir k srccomp destcomp numcomp mult)
        (mflx.localIndices MyProc) r = Except.ok r' := by
      rw [← h]
      congr 1
      funext r k
      exact (FineAdd_eq_spec r (mflx.fabs k) dir k srccomp destcomp numcomp mult).symm
    exact (callForEach_fineAdd mflx.fabs (fun _ => none) dir srccomp destcomp numcomp mult _
      (localIndices_nodup mflx MyProc) r r' h2).2
  · intro r' h
    unfold FineAddAreaMF at h
    rw [foldlM_eq_callForEach] at h
    have h2 : callForEach (fun r k =>
        fineAddSpec r (mflx.fabs k) ((fun j => some (area.fabs j)) k) dir k srccomp destcomp
          numcomp mult)
        (mflx.localIndices MyProc) r = Except.ok r' := by
      rw [← h]
      congr 1
      funext r k
      exact (FineAddArea_eq_spec r (mflx.fabs k) (area.fabs k) dir k srccomp destcomp numcomp
        mult).symm
    exact (callForEach_fineAdd mflx.fabs (fun j => some (area.fabs j)) dir srccomp destcomp
      numcomp mult _ (localIndices_nodup mflx MyProc) r r' h2).2

/-- C15, at a concrete input: the fine flux over the faces `4..12` added to `exReg1`. -/
theorem fineAdd_frame_witness :
    (∃ r', FineAdd exReg1 exFineFull 0 0 0 0 1 1 = Except.ok r' ∧
      FineAddFrame exReg1 r' 0 0 0 1) ∧
    (∃ r', FineAddArea exReg1 exFineFull exFineFull 0 0 0 0 1 1 = Except.ok r' ∧
      FineAddFrame exReg1 r' 0 0 0 1) :=
  (fineAdd_frame 0 exReg1 exFineFull exFineFull exFineMF exFineMF 0 0 0 0 1 1).1
    ⟨by decide, by decide, by decide, by decide⟩

/-- C18 fails as stated: the fine flux over the faces `4..6` coarsens to `2..3`, which
contains the low-face box `[2,2]` of `exReg1` but not its high-face box `[6,6]`; the call
fails at the second containment check, and at that moment the low-face value has already
gone from 7 to 8. -/
theorem fineAdd_high_check_counterexample :
    ∃ r1, FineAdd exReg1 exFineLow 0 0 0 0 1 1 = Except.error r1 ∧
      (exFineLow.box.coarsen exReg1.ratio).contains
        ((exReg1.bndry ⟨0, Side.low⟩).fabs 0).box ∧
      ¬ (exFineLow.box.coarsen exReg1.ratio).contains
        ((exReg1.bndry ⟨0, Side.high⟩).fabs 0).box ∧
      ((exReg1.bndry ⟨0, Side.low⟩).fabs 0).data ![2] 0 = 7 ∧
      ((r1.bndry ⟨0, Side.low⟩).fabs 0).data ![2] 0 = 8 :=
  ⟨_, rfl, by decide, by decide, by decide, by decide⟩

/-- C18 (amended): a single-patch `FineAdd` call in which the coarsened flux box fails to
contain the low-face register box of index `boxno` fails and leaves every Face Storage
value unchanged.  When the coarsened flux box contains the low-face box but not the
high-face box (the component ranges being valid), the call fails at the second containment
check, which comes after the kernel call for the low face: at the failure the low-face
entry of `boxno` holds the kernel's result and every other entry is unchanged. -/
theorem fineAdd_containment_checks [Add R] [Mul R] [Zero R] (r : FluxRegister D R)
    (flux areafab : FArrayBox D R) (dir : Fin D) (boxno : Nat)
    (srccomp destcomp numcomp : Int) (mult : R) :
    (¬ (flux.box.coarsen r.ratio).contains ((r.bndry ⟨dir, Side.low⟩).fabs boxno).box →
      FineAdd r flux dir boxno srccomp destcomp numcomp mult = Except.error r ∧
      FineAddArea r flux areafab dir boxno srccomp destcomp numcomp mult = Except.error r) ∧
    ((0 ≤ srccomp ∧ srccomp + numcomp ≤ flux.nComp) →
      (0 ≤ destcomp ∧ destcomp + numcomp ≤ r.ncomp) →
      (flux.box.coarsen r.ratio).contains ((r.bndry ⟨dir, Side.low⟩).fabs boxno).box →
      ¬ (flux.box.coarsen r.ratio).contains ((r.bndry ⟨dir, Side.high⟩).fabs boxno).box →
      FineAdd r flux dir boxno srccomp destcomp numcomp mult =
        Except.error (r.setFab ⟨dir, Side.low⟩ boxno
          (fineAddEntry r flux none dir boxno srccomp destcomp numcomp mult Side.low)) ∧
      FineAddArea r flux areafab dir boxno srccomp destcomp numcomp mult =
        Except.error (r.setFab ⟨dir, Side.low⟩ boxno
          (fineAddEntry r flux (some areafab) dir boxno srccomp destcomp numcomp mult
            Side.low))) := by
  have hlo : ∀ area : Option (FArrayBox D R),
      ¬ (flux.box.coarsen r.ratio).contains ((r.bndry ⟨dir, Side.low⟩).fabs boxno).box →
      fineAddSpec r flux area dir boxno srccomp destcomp numcomp mult = Except.error r := by
    intro area h
    unfold fineAddSpec
    by_cases h1 : 0 ≤ srccomp ∧ srccomp + numcomp ≤ flux.nComp
    · by_cases h2 : 0 ≤ destcomp ∧ destcomp + numcomp ≤ r.ncomp
      · rw [if_neg (not_not.2 h1), if_neg (not_not.2 h2), if_pos h]
      · rw [if_neg (not_not.2 h1), if_pos h2]
    · rw [if_pos h1]
  have hhi : ∀ area : Option (FArrayBox D R),
      (0 ≤ srccomp ∧ srccomp + numcomp ≤ flux.nComp) →
      (0 ≤ destcomp ∧ destcomp + numcomp ≤ r.ncomp) →
      (flux.box.coarsen r.ratio).contains ((r.bndry ⟨dir, Side.low⟩).fabs boxno).box →
      ¬ (flux.box.coarsen r.ratio).contains ((r.bndry ⟨dir, Side.high⟩).fabs boxno).box →
      fineAddSpec r flux area dir boxno srccomp destcomp numcomp mult =
        Except.error (r.setFab ⟨dir, Side.low⟩ boxno
          (fineAddEntry r flux area dir boxno srccomp destcomp numcomp mult Side.low)) := by
    intro area h1 h2 h3 h4
    unfold fineAddSpec
    rw [if_neg (not_not.2 h1), if_neg (not_not.2 h2), if_neg (not_not.2 h3), if_pos h4]
  constructor
  · intro h
    rw [FineAdd_eq_spec, FineAddArea_eq_spec]
    exact ⟨hlo none h, hlo (some areafab) h⟩
  · intro h1 h2 h3 h4
    rw [FineAdd_eq_spec, FineAddArea_eq_spec]
    exact ⟨hhi none h1 h2 h3 h4, hhi (some areafab) h1 h2 h3 h4⟩

/-- C18 (amended), at concrete inputs: the flux over the faces `8..12` misses the low face
of `exReg1`, the flux over the faces `4..6` misses only its high face. -/
theorem fineAdd_containment_checks_witness :
    FineAdd exReg1 exFineHigh 0 0 0 0 1 1 = Except.error exReg1 ∧
    FineAdd exReg1 exFineLow 0 0 0 0 1 1 =
      Except.error (exReg1.setFab ⟨0, Side.low⟩ 0
        (fineAddEntry exReg1 exFineLow none 0 0 0 0 1 1 Side.low)) :=
  ⟨((fineAdd_containment_checks exReg1 exFineHigh exFineHigh 0 0 0 0 1 1).1 (by decide)).1,
   ((fineAdd_containment_checks exReg1 exFineLow exFineLow 0 0 0 0 1 1).2 (by decide)
      (by decide) (by decide) (by decide)).1⟩

end FluxReg

namespace FluxReg

variable {D : Nat} {R : Type}

/-- A call of `CrseInit` overload B with valid arguments returns; Face Storage keeps its
shape and every entry is either the old one or, for a locally owned face box of axis `dir`
that meets `subbox`, the old one overwritten by `crseFab`. -/
theorem CrseInit_reg_fabs [Mul R] [Inhabited R] (MyProc NProcs : Nat) (st : ProcState D R)
    (flux : FArrayBox D R) (subbox : Box D) (dir : Fin D)
    (srccomp destcomp numcomp : Int) (mult : R)
    (h1 : flux.box.contains subbox) (h2 : 0 ≤ srccomp ∧ srccomp + numcomp ≤ flux.nComp)
    (h3 : 0 ≤ destcomp ∧ destcomp + numcomp ≤ st.reg.ncomp)
    (h4 : st.ci.CIMsgs.length = 0 ∨ st.ci.CIMsgs.length = NProcs) :
    ∃ st1, CrseInit MyProc NProcs st flux subbox dir srccomp destcomp numcomp mult
        = Except.ok st1 ∧
      st.reg.sameShape st1.reg ∧ st1.ci.CIMsgs.length = NProcs ∧
      ∀ f j, (st1.reg.bndry f).fabs j =
        if f.coordDir = dir ∧ j ∈ List.range st.reg.grids.length ∧
            subbox.intersects ((st.reg.bndry f).box j) ∧
            MyProc = (st.reg.bndry f).distributionMap j then
          crseFab ((st.reg.bndry f).fabs j) flux (((st.reg.bndry f).box j).inter subbox)
            srccomp destcomp numcomp mult
        else (st.reg.bndry f).fabs j := by
  refine ⟨_, CrseInit_ok MyProc NProcs st flux subbox dir srccomp destcomp numcomp mult
    h1 h2 h3 h4, ?_⟩
  obtain ⟨a1, a2, -, -, a5⟩ := crseLoop_spec MyProc flux subbox dir srccomp destcomp numcomp
    mult (List.range st.reg.grids.length) (List.nodup_range _)
    { st with ci := (st.ci.resized NProcs) }
  refine ⟨a1, ?_, a2⟩
  rw [a5, bumpMsgs_length]
  exact resized_length NProcs st.ci h4

theorem FArrayBox.eq_of_fields (a b : FArrayBox D R) (h1 : a.domain = b.domain)
    (h2 : a.nvar = b.nvar) (h3 : ∀ p c, a.data p c = b.data p c) : a = b := by
  cases a
  cases b
  simp only at h1 h2 h3
  subst h1 h2
  have : ∀ p, _ = _ := fun p => funext (h3 p)
  rw [funext this]

/-- Overwriting twice with the same flux is overwriting once. -/
theorem crseFab_idem [Mul R] (fab flux : FArrayBox D R) (bx : Box D)
    (srccomp destcomp numcomp : Int) (mult : R) :
    crseFab (crseFab fab flux bx srccomp destcomp numcomp mult) flux bx srccomp destcomp
      numcomp mult = crseFab fab flux bx srccomp destcomp numcomp mult := by
  apply FArrayBox.eq_of_fields
  · rfl
  · rfl
  · intro p c
    rw [crseFab_data, crseFab_data]
    split <;> rfl

theorem FluxRegister.eq_of_fabs (r r' : FluxRegister D R) (h : r.sameShape r')
    (hf : ∀ f j, (r'.bndry f).fabs j = (r.bndry f).fabs j) : r' = r := by
  obtain ⟨a1, a2, a3, a4, a5⟩ := h
  have hb : r'.bndry = r.bndry := by
    funext f
    exact FabArray.eq_of_parts _ _ (a5 f).1 (a5 f).2 (hf f)
  cases r
  cases r'
  simp only at a1 a2 a3 a4 hb
  subst a1 a2 a3 a4 hb
  rfl

/-- The values a call of `CrseInit` overload B leaves on the region it touches do not
depend on the register it was called on. -/
theorem CrseInit_touched_agree [Mul R] [Inhabited R] (MyProc NProcs : Nat)
    (st st' : ProcState D R) (flux : FArrayBox D R) (subbox : Box D) (dir : Fin D)
    (srccomp destcomp numcomp : Int) (mult : R)
    (h1 : flux.box.contains subbox) (h2 : 0 ≤ srccomp ∧ srccomp + numcomp ≤ flux.nComp)
    (h3 : 0 ≤ destcomp ∧ destcomp + numcomp ≤ st.reg.ncomp)
    (h4 : st.ci.CIMsgs.length = 0 ∨ st.ci.CIMsgs.length = NProcs)
    (hsh : st.reg.sameShape st'.reg)
    (h4' : st'.ci.CIMsgs.length = 0 ∨ st'.ci.CIMsgs.length = NProcs) :
    ∃ st1 st1', CrseInit MyProc NProcs st flux subbox dir srccomp destcomp numcomp mult
        = Except.ok st1 ∧
      CrseInit MyProc NProcs st' flux subbox dir srccomp destcomp numcomp mult
        = Except.ok st1' ∧
      crseTouchedAgree MyProc st.reg subbox dir destcomp numcomp st1'.reg st1.reg := by
  obtain ⟨st1, e1, -, -, f1⟩ := CrseInit_reg_fabs MyProc NProcs st flux subbox dir srccomp
    destcomp numcomp mult h1 h2 h3 h4
  obtain ⟨st1', e1', -, -, f1'⟩ := CrseInit_reg_fabs MyProc NProcs st' flux subbox dir srccomp
    destcomp numcomp mult h1 h2 (by rw [hsh.2.1]; exact h3) h4'
  refine ⟨st1, st1', e1, e1', ?_⟩
  intro s k hk hown p c hp1 hp2 hc0 hc1
  have hbox : (st'.reg.bndry ⟨dir, s⟩).box k = (st.reg.bndry ⟨dir, s⟩).box k :=
    sameShape_box hsh _ _
  have hint : subbox.intersects ((st.reg.bndry ⟨dir, s⟩).box k) :=
    fun d => ((containsPt_inter _ _ p).2 ⟨hp1, hp2⟩ d).1.trans
      ((containsPt_inter _ _ p).2 ⟨hp1, hp2⟩ d).2
  have hin : (((st.reg.bndry ⟨dir, s⟩).box k).inter subbox).containsPt p :=
    (containsPt_inter _ _ p).2 ⟨hp2, hp1⟩
  rw [f1, if_pos ⟨rfl, List.mem_range.2 hk, hint, hown.symm⟩, crseFab_data,
    if_pos ⟨hin, hc0, hc1⟩, f1', hbox, hsh.1, (hsh.2.2.2.2 ⟨dir, s⟩).2,
    if_pos ⟨rfl, List.mem_range.2 hk, hint, hown.symm⟩, crseFab_data, if_pos ⟨hin, hc0, hc1⟩]

/-- C20: `CrseInit` overload B on locally owned register boxes overwrites rather than
accumulates.  For every register state and every valid argument list the call returns, and
the values it leaves on the touched region are the same from whatever register of the same
shape it is called on; in particular from the register a preceding single-patch `FineAdd`
(with or without an area array) has left, whose contribution there is thus discarded; and
calling `CrseInit` a second time with the same arguments returns and leaves Face Storage
exactly as the first call left it. -/
theorem CrseInit_overwrites [Add R] [Mul R] [Zero R] [Inhabited R] (MyProc NProcs : Nat)
    (st : ProcState D R) (flux : FArrayBox D R) (subbox : Box D) (dir : Fin D)
    (srccomp destcomp numcomp : Int) (mult : R)
    (h1 : flux.box.contains subbox) (h2 : 0 ≤ srccomp ∧ srccomp + numcomp ≤ flux.nComp)
    (h3 : 0 ≤ destcomp ∧ destcomp + numcomp ≤ st.reg.ncomp)
    (h4 : st.ci.CIMsgs.length = 0 ∨ st.ci.CIMsgs.length = NProcs) :
    ∃ st1, CrseInit MyProc NProcs st flux subbox dir srccomp destcomp numcomp mult
        = Except.ok st1 ∧
      (∀ st' : ProcState D R, st.reg.sameShape st'.reg →
        (st'.ci.CIMsgs.length = 0 ∨ st'.ci.CIMsgs.length = NProcs) →
        ∃ st1', CrseInit MyProc NProcs st' flux subbox dir srccomp destcomp numcomp mult
            = Except.ok st1' ∧
          crseTouchedAgree MyProc st.reg subbox dir destcomp numcomp st1'.reg st1.reg) ∧
      (∀ (fflux areafab : FArrayBox D R) (fdir : Fin D) (boxno : Nat) (sc dc nc : Int) (m : R)
          (rf : FluxRegister D R),
        (FineAdd st.reg fflux fdir boxno sc dc nc m = Except.ok rf ∨
          FineAddArea st.reg fflux areafab fdir boxno sc dc nc m = Except.ok rf) →
        ∃ st1', CrseInit MyProc NProcs ⟨rf, st.ci⟩ flux subbox dir srccomp destcomp numcomp mult
            = Except.ok st1' ∧
          crseTouchedAgree MyProc st.reg subbox dir destcomp numcomp st1'.reg st1.reg) ∧
      ∃ st2, CrseInit MyProc NProcs st1 flux subbox dir srccomp destcomp numcomp mult
          = Except.ok st2 ∧ st2.reg = st1.reg := by
  obtain ⟨st1, e1, s1, l1, f1⟩ := CrseInit_reg_fabs MyProc NProcs st flux subbox dir srccomp
    destcomp numcomp mult h1 h2 h3 h4
  have hany : ∀ st' : ProcState D R, st.reg.sameShape st'.reg →
      (st'.ci.CIMsgs.length = 0 ∨ st'.ci.CIMsgs.length = NProcs) →
      ∃ st1', CrseInit MyProc NProcs st' flux subbox dir srccomp destcomp numcomp mult
          = Except.ok st1' ∧
        crseTouchedAgree MyProc st.reg subbox dir destcomp numcomp st1'.reg st1.reg := by
    intro st' hsh h4'
    obtain ⟨t1, t1', g1, g1', g2⟩ := CrseInit_touched_agree MyProc NProcs st st' flux subbox
      dir srccomp destcomp numcomp mult h1 h2 h3 h4 hsh h4'
    rw [e1] at g1
    cases g1
    exact ⟨t1', g1', g2⟩
  refine ⟨st1, e1, hany, ?_, ?_⟩
  · intro fflux areafab fdir boxno sc dc nc m rf hrf
    apply hany ⟨rf, st.ci⟩ _ h4
    rcases hrf with hrf | hrf
    · rw [FineAdd_eq_spec] at hrf
      rw [fineAddSpec_of_ok _ _ _ _ _ _ _ _ _ _ hrf]
      exact sameShape_trans (sameShape_setFab _ _ _ _) (sameShape_setFab _ _ _ _)
    · rw [FineAddArea_eq_spec] at hrf
      rw [fineAddSpec_of_ok _ _ _ _ _ _ _ _ _ _ hrf]
      exact sameShape_trans (sameShape_setFab _ _ _ _) (sameShape_setFab _ _ _ _)
  · obtain ⟨st2, e2, s2, -, f2⟩ := CrseInit_reg_fabs MyProc NProcs st1 flux subbox dir srccomp
      destcomp numcomp mult h1 h2 (by rw [s1.2.1]; exact h3) (Or.inr l1)
    refine ⟨st2, e2, FluxRegister.eq_of_fabs _ _ s2 ?_⟩
    intro f j
    rw [f2, sameShape_box s1, s1.1, (s1.2.2.2.2 f).2]
    by_cases hc : f.coordDir = dir ∧ j ∈ List.range st.reg.grids.length ∧
        subbox.intersects ((st.reg.bndry f).box j) ∧
        MyProc = (st.reg.bndry f).distributionMap j
    · rw [if_pos hc, f1, if_pos hc, crseFab_idem]
    · rw [if_neg hc]

/-- C20, at a concrete input: the flux over the faces `4..12` written into `exReg1`. -/
theorem CrseInit_overwrites_witness :
    ∃ st1, CrseInit 0 1 ⟨exReg1, CIState.init⟩ exFineFull exFineFull.box 0 0 0 1 3
        = Except.ok st1 ∧
      ∃ st2, CrseInit 0 1 st1 exFineFull exFineFull.box 0 0 0 1 3 = Except.ok st2 ∧
        st2.reg = st1.reg := by
  obtain ⟨st1, e1, -, -, h⟩ := CrseInit_overwrites 0 1 ⟨exReg1, CIState.init⟩ exFineFull
    exFineFull.box 0 0 0 1 3 (by decide) (by decide) (by decide) (Or.inl rfl)
  exact ⟨st1, e1, h⟩

end FluxReg

namespace FluxReg

variable {D : Nat} {R : Type}

/-- The packing loop completes on tags and buffers that agree index by index, and its
pointer ends at the announced size. -/
theorem packFabs_complete (i : Nat) : ∀ (tags : List (FabComTag D)) (fabs : List (FArrayBox D R)),
    tags.length = fabs.length →
    (∀ x ∈ tags.zip fabs, x.2.box = x.1.box ∧ x.2.nComp = x.1.nComp) →
    ∃ data, packFabs i tags fabs = some (data, sendCount tags i)
  | [], _, _, _ => ⟨[], by simp [packFabs, sendCount]⟩
  | _ :: _, [], h, _ => by simp at h
  | t :: ts, f :: fs, h, hz => by
    have hlen : ts.length = fs.length := by simpa using h
    have hz' : ∀ x ∈ ts.zip fs, x.2.box = x.1.box ∧ x.2.nComp = x.1.nComp :=
      fun x hx => hz x (by simp [List.zip_cons_cons, hx])
    obtain ⟨data, hd⟩ := packFabs_complete i ts fs hlen hz'
    have htf := hz (t, f) (by simp [List.zip_cons_cons])
    by_cases hi : t.toProc = i
    · refine ⟨f.toList.take (t.box.numPts * t.nComp).toNat ++ data, ?_⟩
      simp only [packFabs, hi, if_true, hd]
      rw [if_pos ⟨htf.1.symm, htf.2.symm⟩]
      simp [sendCount, List.filter_cons, hi]
    · refine ⟨data, ?_⟩
      simp only [packFabs, hi, if_false, hd]
      simp [sendCount, List.filter_cons, hi]

theorem getD_replicate_zero (n i : Nat) : (List.replicate n 0).getD i 0 = 0 := by
  rw [List.getD_eq_getElem?_getD, List.getElem?_replicate]
  split <;> rfl

theorem CIInv_resized (MyProc NProcs : Nat) (ci : CIState D R)
    (h : CIInv MyProc NProcs ci) : CIInv MyProc NProcs (ci.resized NProcs) := by
  unfold CIState.resized
  by_cases hz : ci.CIMsgs.length = 0
  · rw [if_pos hz]
    have hnil : ci.CIMsgs = [] := List.length_eq_zero.1 hz
    obtain ⟨a1, a2, a3, a4⟩ := h
    refine ⟨a1, a2, ?_, ?_⟩
    · intro i hi
      have := a3 i hi
      rw [hnil] at this
      simp only [List.getD_nil] at this
      rw [← this]
      exact getD_replicate_zero NProcs i
    · exact getD_replicate_zero NProcs MyProc
  · rw [if_neg hz]
    exact h

/-- Under the list invariant the assertions of `CrseInitFinish` hold. -/
theorem finishAsserts_of_inv (MyProc NProcs : Nat) (ci : CIState D R)
    (h : CIInv MyProc NProcs ci) : FinishAssertsHold MyProc NProcs ci := by
  obtain ⟨a1, a2, a3, a4⟩ := CIInv_resized MyProc NProcs ci h
  refine ⟨⟨a1, a4⟩, ?_⟩
  intro i hi hN
  unfold sendTo
  by_cases hpos : 0 < (ci.resized NProcs).CIMsgs.getD i 0
  · rw [if_pos hpos]
    have hlen : (sendCommData MyProc (ci.resized NProcs).CITags i).length
        = (ci.resized NProcs).CIMsgs.getD i 0 := by
      rw [a3 i hi]
      simp [sendCommData]
    obtain ⟨data, hd⟩ := packFabs_complete i _ _ a1 a2
    simp only [hlen, ne_eq, not_true_eq_false, if_false, hN, hd]
    exact ⟨_, rfl⟩
  · rw [if_neg hpos]
    exact ⟨_, rfl⟩

theorem resized_getD (NProcs : Nat) (ci : CIState D R) (i : Nat) :
    (ci.resized NProcs).CIMsgs.getD i 0 = ci.CIMsgs.getD i 0 := by
  unfold CIState.resized
  by_cases hz : ci.CIMsgs.length = 0
  · rw [if_pos hz, List.length_eq_zero.1 hz]
    exact getD_replicate_zero NProcs i
  · rw [if_neg hz]

/-- One call of `CrseInit` overload B keeps the list invariant of every process, the counter
array at length `0` or `NProcs`, and every tag addressed to another, existing process. -/
theorem CIInv_call [Mul R] [Inhabited R] (NProcs A : Nat) (w w' : World D R)
    (flux : FArrayBox D R) (subbox : Box D) (dir : Fin D)
    (srccomp destcomp numcomp : Int) (mult : R) (hA : A < NProcs)
    (howner : ∀ (f : Orientation D) (k : Nat), k < w.reg.grids.length →
      (w.reg.bndry f).distributionMap k < NProcs)
    (hcall : w.CrseInit NProcs A flux subbox dir srccomp destcomp numcomp mult = some w')
    (p : Nat)
    (hinv : CIInv p NProcs (w.ci p) ∧
      ((w.ci p).CIMsgs.length = 0 ∨ (w.ci p).CIMsgs.length = NProcs) ∧
      ∀ t ∈ (w.ci p).CITags, t.toProc < NProcs ∧ t.toProc ≠ p) :
    CIInv p NProcs (w'.ci p) ∧
      ((w'.ci p).CIMsgs.length = 0 ∨ (w'.ci p).CIMsgs.length = NProcs) ∧
      ∀ t ∈ (w'.ci p).CITags, t.toProc < NProcs ∧ t.toProc ≠ p := by
  obtain ⟨b1, b2, b3, b4, -⟩ := World.CrseInit_spec NProcs A w w' flux subbox dir srccomp
    destcomp numcomp mult hcall
  by_cases hp : p = A
  · subst hp
    obtain ⟨⟨a1, a2, a3, a4⟩, alen, atags⟩ := hinv
    have hnew : ∀ x ∈ (List.range w.reg.grids.length).flatMap
        (crsePendingAt p w.reg flux subbox dir srccomp destcomp numcomp mult),
        x.1.toProc ≠ p ∧ x.1.toProc < NProcs ∧ x.1.box = x.2.domain ∧ x.1.nComp = x.2.nvar := by
      intro x hx
      obtain ⟨k, hk, hxk⟩ := List.mem_flatMap.1 hx
      obtain ⟨c1, -, c3, c4, c5, c6, -⟩ := crsePendingAt_mem p w.reg flux subbox dir srccomp
        destcomp numcomp mult k x hxk
      refine ⟨c4, ?_, c5, c6⟩
      rw [c3, c1]
      exact howner _ k (List.mem_range.1 hk)
    have hres := resized_length NProcs (w.ci p) alen
    have hcount : ∀ i, i < NProcs → (w'.ci p).CIMsgs.getD i 0 =
        ((w'.ci p).CITags.filter (fun t => t.toProc = i)).length := by
      intro i hi
      rw [b1, bumpMsgs_getD i _ _ (by rw [hres]; exact hi), resized_getD, a3 i hi, b2,
        List.filter_append, List.length_append, List.filter_map, List.length_map]
      rfl
    refine ⟨⟨?_, ?_, hcount, ?_⟩, ?_, ?_⟩
    · rw [b2, b3, List.length_append, List.length_append, List.length_map, List.length_map, a1]
    · intro x hx
      rw [b2, b3, List.zip_append a1] at hx
      rcases List.mem_append.1 hx with hx | hx
      · exact a2 x hx
      · rw [List.zip_map'] at hx
        obtain ⟨y, hy, rfl⟩ := List.mem_map.1 hx
        obtain ⟨-, -, c5, c6⟩ := hnew y hy
        exact ⟨c5.symm, c6.symm⟩
    · rw [hcount p hA, b2, List.filter_append, List.length_append]
      have h1 : (w.ci p).CITags.filter (fun t => t.toProc = p) = [] := by
        rw [List.filter_eq_nil_iff]
        intro t ht
        simpa using (atags t ht).2
      have h2 : List.filter (fun t : FabComTag D => decide (t.toProc = p))
          (List.map Prod.fst ((List.range w.reg.grids.length).flatMap
            (crsePendingAt p w.reg flux subbox dir srccomp destcomp numcomp mult))) = [] := by
        rw [List.filter_eq_nil_iff]
        intro t ht
        obtain ⟨y, hy, rfl⟩ := List.mem_map.1 ht
        simpa using (hnew y hy).1
      rw [h1, h2]
      rfl
    · right
      rw [b1, bumpMsgs_length, hres]
    · intro t ht
      rw [b2] at ht
      rcases List.mem_append.1 ht with ht | ht
      · exact atags t ht
      · obtain ⟨y, hy, rfl⟩ := List.mem_map.1 ht
        exact ⟨(hnew y hy).2.1, (hnew y hy).1⟩
  · rw [b4 p hp]
    exact hinv

/-- C19: starting from the empty pending state, every sequence of `CrseInit` overload-B
calls preserves the list invariant on every process: `CITags` and `CIFabs` have the same
length; the buffer of every index has the box and the component count of its tag; for
every process `i`, `CIMsgs[i]` is the number of tags with `toProc = i`; `CIMsgs[MyProc] = 0`
(and every tag is addressed to another, existing process).  Under this invariant, for any
statics whatever, the assertions of `CrseInitFinish` at lines 797, 802, 892, 977, 978 and
992 cannot fail. -/
theorem pending_invariant [Mul R] [Inhabited R] (NProcs : Nat) (w0 w1 : World D R)
    (calls : List (CrseInitCall D R))
    (hidle : ∀ p, p < NProcs → (w0.ci p).idle NProcs)
    (hprocs : ∀ c ∈ calls, c.MyProc < NProcs)
    (howner : ∀ (f : Orientation D) (k : Nat), k < w0.reg.grids.length →
      (w0.reg.bndry f).distributionMap k < NProcs)
    (hrun : World.runCalls NProcs w0 calls = some w1) :
    (∀ p, p < NProcs →
      CIInv p NProcs (w1.ci p) ∧
      (∀ t ∈ (w1.ci p).CITags, t.toProc < NProcs ∧ t.toProc ≠ p) ∧
      FinishAssertsHold p NProcs (w1.ci p)) ∧
    ∀ (MyProc : Nat) (ci : CIState D R),
      CIInv MyProc NProcs ci → FinishAssertsHold MyProc NProcs ci := by
  refine ⟨?_, fun MyProc ci h => finishAsserts_of_inv MyProc NProcs ci h⟩
  have hinv : w0.reg.sameShape w1.reg ∧ ∀ p, p < NProcs →
      CIInv p NProcs (w1.ci p) ∧
      ((w1.ci p).CIMsgs.length = 0 ∨ (w1.ci p).CIMsgs.length = NProcs) ∧
      ∀ t ∈ (w1.ci p).CITags, t.toProc < NProcs ∧ t.toProc ≠ p := by
    refine runCalls_induction NProcs
      (fun w => w0.reg.sameShape w.reg ∧ ∀ p, p < NProcs →
        CIInv p NProcs (w.ci p) ∧
        ((w.ci p).CIMsgs.length = 0 ∨ (w.ci p).CIMsgs.length = NProcs) ∧
        ∀ t ∈ (w.ci p).CITags, t.toProc < NProcs ∧ t.toProc ≠ p) calls w0 w1 ?_ ?_ hrun
    · refine ⟨sameShape_refl _, ?_⟩
      intro p hp
      obtain ⟨i1, i2, i3⟩ := hidle p hp
      refine ⟨⟨by rw [i1, i2]; rfl, by rw [i1]; simp, ?_, ?_⟩, ?_, by rw [i1]; simp⟩
      · intro i _
        rw [i1]
        rcases i3 with i3 | i3 <;> rw [i3]
        · rfl
        · exact getD_replicate_zero NProcs i
      · rcases i3 with i3 | i3 <;> rw [i3]
        · rfl
        · exact getD_replicate_zero NProcs p
      · rcases i3 with i3 | i3 <;> rw [i3] <;> simp
    · intro c hc w w' ⟨s1, hw⟩ hcall
      obtain ⟨-, -, -, -, b5⟩ := World.CrseInit_spec NProcs c.MyProc w w' c.flux c.subbox
        c.dir c.srccomp c.destcomp c.numcomp c.mult hcall
      refine ⟨sameShape_trans s1 b5, ?_⟩
      intro p hp
      exact CIInv_call NProcs c.MyProc w w' c.flux c.subbox c.dir c.srccomp c.destcomp
        c.numcomp c.mult (hprocs c hc)
        (by
          intro f k hk
          rw [(s1.2.2.2.2 f).2]
          exact howner f k (by rw [← s1.1]; exact hk))
        hcall p (hw p hp)
  intro p hp
  obtain ⟨h1, -, h3⟩ := hinv.2 p hp
  exact ⟨h1, h3, finishAsserts_of_inv p NProcs _ h1⟩

/-- C19, at a concrete input: two processes, process 0 makes the call `exCall`, which
buffers two contributions (the low and the high face of box 1) for process 1. -/
theorem pending_invariant_witness :
    ∃ w1 : World 1 Int, World.runCalls 2 exWorld0 [exCall] = some w1 ∧
      CIInv 0 2 (w1.ci 0) ∧ FinishAssertsHold 0 2 (w1.ci 0) ∧
      (w1.ci 0).CITags.length = 2 := by
  have h : (World.runCalls 2 exWorld0 [exCall]).isSome = true := by decide
  cases h1 : World.runCalls 2 exWorld0 [exCall] with
  | none => rw [h1] at h; cases h
  | some w1 =>
    have hlen : ((World.runCalls 2 exWorld0 [exCall]).map
        (fun w => (w.ci 0).CITags.length)) = some 2 := by decide
    rw [h1] at hlen
    have := (pending_invariant 2 exWorld0 w1 [exCall]
      (fun p _ => ⟨rfl, rfl, Or.inl rfl⟩)
      (by intro c hc; rw [List.mem_singleton.1 hc]; decide)
      (by
        intro f k hk
        have hk2 : k < 2 := hk
        obtain ⟨d, s⟩ := f
        cases s <;> exact hk2)
      h1).1 0 (by decide)
    exact ⟨w1, rfl, this.1, this.2.2, by simpa using hlen⟩

end FluxReg

namespace FluxReg

variable {D : Nat} {R : Type}

/-- The unpack loop is the splitting of the run followed by the storing of each array. -/
theorem unpack_eq_store [Inhabited R] (MyProc : Nat) : ∀ (cds : List (CommData D))
    (r : FluxRegister D R) (dptr : List R),
    unpack MyProc r cds dptr = (unpackFabs cds dptr).foldlM (unpackStore MyProc) r
  | [], r, dptr => rfl
  | cd :: cds, r, dptr => by
    simp only [unpack, unpackFabs, List.foldlM_cons, unpackStore]
    split
    · rfl
    · split
      · rfl
      · exact unpack_eq_store MyProc cds _ _

/-- Splitting the concatenated memory images of a run of contributions by the sizes of their
descriptors returns the image of each contribution, paired with its own descriptor. -/
theorem unpackFabs_concat [Inhabited R] (A : Nat) :
    ∀ (l : List (FabComTag D × FArrayBox D R)) (tail : List R),
    (∀ x ∈ l, x.2.toList.length = (x.1.box.numPts * x.1.nComp).toNat) →
    unpackFabs (l.map (fun x => cdOf A x.1)) (l.flatMap (fun x => x.2.toList) ++ tail) =
      l.map (fun x => (cdOf A x.1, FArrayBox.ofList x.1.box x.1.nComp x.2.toList))
  | [], _, _ => rfl
  | x :: l, tail, h => by
    have hx := h x (List.mem_cons_self _ _)
    have ih := unpackFabs_concat A l tail (fun y hy => h y (List.mem_cons_of_mem _ hy))
    simp only [List.map_cons, List.flatMap_cons, unpackFabs, List.append_assoc]
    have h1 : (cdOf A x.1).box = x.1.box := rfl
    have h2 : (cdOf A x.1).nComp = x.1.nComp := rfl
    have h3 : ∀ m : List R, (FArrayBox.ofList x.1.box x.1.nComp m).box = x.1.box :=
      fun _ => rfl
    have h4 : ∀ m : List R, (FArrayBox.ofList x.1.box x.1.nComp m).nComp = x.1.nComp :=
      fun _ => rfl
    rw [h1, h2, h3, h4, ← hx, List.take_left, List.drop_left, ih]

/-- C16: for every pending-contribution list satisfying the list invariant (the boxes of
the tags being non-empty) and every destination process `i`, the two send loops of
`CrseInitFinish` complete (unless the payload size check `N < INT_MAX` is what fails), and
the descriptors sent to `i` and the payload segments packed for `i` are both the sublist of
pending contributions with `toProc = i` in original insertion order, the segment of a
contribution having exactly `box.numPts × nComp` values; consequently splitting the
received payload by the received descriptors' sizes, as the unpack loop does, returns each
contribution's buffered data unchanged and pairs it with its own orientation, box index and
component offset. -/
theorem payload_order [Inhabited R] (MyProc NProcs : Nat) (ci : CIState D R) (i : Nat)
    (hinv : CIInv MyProc NProcs ci) (hok : ∀ t ∈ ci.CITags, t.box.ok) (hi : i < NProcs)
    (hN : sizeT (sendCount ci.CITags i) < INT_MAX) :
    ∃ (cds : List (CommData D)) (data : List R),
      sendTo MyProc ci i = some (cds, data) ∧
      cds = ((ci.CITags.zip ci.CIFabs).filter (fun x => x.1.toProc = i)).map
        (fun x => cdOf MyProc x.1) ∧
      data = ((ci.CITags.zip ci.CIFabs).filter (fun x => x.1.toProc = i)).flatMap
        (fun x => x.2.toList) ∧
      (∀ x ∈ (ci.CITags.zip ci.CIFabs).filter (fun x => x.1.toProc = i),
        x.2.toList.length = (x.1.box.numPts * x.1.nComp).toNat ∧
        (cdOf MyProc x.1).face = x.1.face ∧ (cdOf MyProc x.1).fabindex = x.1.fabIndex ∧
        (cdOf MyProc x.1).srcComp = x.1.destComp ∧ (cdOf MyProc x.1).box = x.1.box ∧
        (cdOf MyProc x.1).nComp = x.1.nComp ∧
        ∀ (p : IntVect D) (c : Int), x.1.box.containsPt p → 0 ≤ c → c < x.1.nComp →
          (FArrayBox.ofList x.1.box x.1.nComp x.2.toList).data p c = x.2.data p c) ∧
      unpackFabs cds data =
        ((ci.CITags.zip ci.CIFabs).filter (fun x => x.1.toProc = i)).map
          (fun x => (cdOf MyProc x.1, FArrayBox.ofList x.1.box x.1.nComp x.2.toList)) ∧
      ∀ r : FluxRegister D R,
        unpack i r cds data = (unpackFabs cds data).foldlM (unpackStore i) r := by
  obtain ⟨a1, a2, a3, -⟩ := hinv
  have htags : (ci.CITags.zip ci.CIFabs).map Prod.fst = ci.CITags :=
    List.map_fst_zip _ _ (le_of_eq a1)
  have hfabs : (ci.CITags.zip ci.CIFabs).map Prod.snd = ci.CIFabs :=
    List.map_snd_zip _ _ (le_of_eq a1.symm)
  obtain ⟨l, hl⟩ : ∃ l, l = ci.CITags.zip ci.CIFabs := ⟨_, rfl⟩
  rw [← hl] at htags hfabs a2 ⊢
  have hshape : ∀ x ∈ l, x.1.box = x.2.domain ∧ x.1.nComp = x.2.nvar ∧ x.1.box.ok := by
    intro x hx
    refine ⟨(a2 x hx).1.symm, (a2 x hx).2.symm, hok x.1 ?_⟩
    rw [← htags]
    exact List.mem_map_of_mem _ hx
  have hseg : ∀ x ∈ l.filter (fun x => x.1.toProc = i),
      x.2.toList.length = (x.1.box.numPts * x.1.nComp).toNat := by
    intro x hx
    obtain ⟨s1, s2, s3⟩ := hshape x (List.mem_filter.1 hx).1
    rw [s1, s2]
    exact (count_eq_length x.2 (s1 ▸ s3)).symm
  have hcds : sendCommData MyProc ci.CITags i =
      (l.filter (fun x => x.1.toProc = i)).map (fun x => cdOf MyProc x.1) := by
    unfold sendCommData
    rw [← htags, List.filter_map, List.map_map]
    rfl
  obtain ⟨data, hd⟩ := packFabs_complete (R := R) i ci.CITags ci.CIFabs a1
    (by rw [hl] at a2; exact a2)
  have hd2 := hd
  rw [← htags, ← hfabs] at hd2
  obtain ⟨p1, -, -⟩ := packFabs_pairs i l data _ hd2
  have hdata : data = (l.filter (fun x => x.1.toProc = i)).flatMap (fun x => x.2.toList) := by
    rw [p1]
    apply flatMap_congr_mem
    intro x hx
    rw [← hseg x hx, List.take_length]
  have hsend : sendTo MyProc ci i =
      some ((l.filter (fun x => x.1.toProc = i)).map (fun x => cdOf MyProc x.1),
        (l.filter (fun x => x.1.toProc = i)).flatMap (fun x => x.2.toList)) := by
    unfold sendTo
    by_cases hpos : 0 < ci.CIMsgs.getD i 0
    · rw [if_pos hpos]
      have hlen : (sendCommData MyProc ci.CITags i).length = ci.CIMsgs.getD i 0 := by
        rw [a3 i hi]
        simp [sendCommData]
      simp only [hlen, ne_eq, not_true_eq_false, if_false, hN, hd]
      rw [hcds, hdata]
    · rw [if_neg hpos]
      have hz : ci.CIMsgs.getD i 0 = 0 := by omega
      have hnil : l.filter (fun x => x.1.toProc = i) = [] := by
        have h0 := a3 i hi
        rw [hz, ← htags, List.filter_map, List.length_map] at h0
        exact List.length_eq_zero.1 h0.symm
      rw [hnil]
      rfl
  refine ⟨_, _, hsend, rfl, rfl, ?_, ?_, fun r => unpack_eq_store i _ r _⟩
  · intro x hx
    obtain ⟨s1, s2, s3⟩ := hshape x (List.mem_filter.1 hx).1
    refine ⟨?_, rfl, rfl, rfl, rfl, rfl, ?_⟩
    · exact hseg x hx
    · intro p c hp hc0 hc1
      rw [s1, s2]
      exact ofList_toList x.2 p c (s1 ▸ hp) hc0 (s2 ▸ hc1)
  · have := unpackFabs_concat MyProc (l.filter (fun x => x.1.toProc = i)) [] hseg
    rw [List.append_nil] at this
    exact this

/-- C16, at a concrete input: process 0 sends to process 1 the two contributions of
`exPending`, low face first, and the payload is their two values in that order. -/
theorem payload_order_witness :
    ∃ (cds : List (CommData 1)) (data : List Int),
      sendTo 0 exPending 1 = some (cds, data) ∧
      cds.map (fun cd => (cd.face.side, cd.fabindex)) = [(Side.low, 1), (Side.high, 1)] ∧
      data = [30, 42] := by
  obtain ⟨cds, data, h1, h2, h3, -⟩ := payload_order 0 2 exPending 1
    (by unfold CIInv; decide) (by decide) (by decide) (by decide)
  refine ⟨cds, data, h1, ?_, ?_⟩
  · rw [h2]
    decide
  · rw [h3]
    decide

end FluxReg

namespace FluxReg

variable {D : Nat} {R : Type}

theorem idxRange_translate (lo hi v : Int) :
    Box.idxRange (lo + v) (hi + v) = (Box.idxRange lo hi).map (fun x => x + v) := by
  unfold Box.idxRange
  have h : hi + v - (lo + v) + 1 = hi - lo + 1 := by ring
  rw [h, List.map_map]
  apply List.map_congr_left
  intro i _
  simp only [Function.comp_apply]
  ring

/-- The enumeration of a translated region is the translated enumeration. -/
theorem ptsAux_translate : ∀ (D : Nat) (lo hi v : IntVect D),
    Box.ptsAux D (fun d => lo d + v d) (fun d => hi d + v d) =
      (Box.ptsAux D lo hi).map (fun p => fun d => p d + v d)
  | 0, lo, hi, v => by
    simp only [Box.ptsAux, List.map_cons, List.map_nil]
    congr 1
    funext d
    exact d.elim0
  | D + 1, lo, hi, v => by
    have h1 : Fin.init (fun d => lo d + v d) = fun d => Fin.init lo d + Fin.init v d := by
      funext d; rfl
    have h2 : Fin.init (fun d => hi d + v d) = fun d => Fin.init hi d + Fin.init v d := by
      funext d; rfl
    simp only [Box.ptsAux]
    rw [h1, h2, ptsAux_translate D (Fin.init lo) (Fin.init hi) (Fin.init v),
      idxRange_translate, List.flatMap_map, List.map_flatMap]
    apply flatMap_congr_mem
    intro x _
    rw [List.map_map, List.map_map]
    apply List.map_congr_left
    intro q _
    simp only [Function.comp_apply]
    funext d
    refine Fin.lastCases ?_ (fun j => ?_) d
    · simp
    · simp [Fin.init]

theorem pts_translate (b c : Box D) (v : IntVect D)
    (hlo : c.smallend = fun d => b.smallend d + v d)
    (hhi : c.bigend = fun d => b.bigend d + v d) :
    c.pts = b.pts.map (fun p => fun d => p d + v d) := by
  unfold Box.pts
  rw [hlo, hhi, ptsAux_translate]

/-- The layer of faces on a face of a box is the exterior cell layer moved by `faceOffset`. -/
theorem bdryNode_ends (g : Box D) (fi : Orientation D) :
    (g.bdryNode fi 1).smallend = (fun d => (g.adjCell fi 1).smallend d + faceOffset fi d) ∧
    (g.bdryNode fi 1).bigend = (fun d => (g.adjCell fi 1).bigend d + faceOffset fi d) := by
  obtain ⟨dir, s⟩ := fi
  cases s
  · constructor <;>
    · funext d
      by_cases hd : d = dir
      · subst hd
        simp [Box.bdryNode, Box.adjCell, faceOffset]
      · simp [Box.bdryNode, Box.adjCell, faceOffset, hd]
  · constructor <;>
    · funext d
      by_cases hd : d = dir
      · subst hd
        simp [Box.bdryNode, Box.adjCell, faceOffset]
      · simp [Box.bdryNode, Box.adjCell, faceOffset, hd]

/-- The register value the kernel of `Reflux` reads for the exterior cell `p`: when the face
box is the exterior cell layer moved by `v`, it is the Face Storage value of the face
`p + v`, in the fetched component. -/
theorem regValue_eq [Inhabited R] (r : FluxRegister D R) (num_comp src_comp : Int)
    (fi : Orientation D) (k : Nat) (rf : RF D) (hk : rf.m_fridx = k) (hf : rf.m_face = fi)
    (v : IntVect D)
    (hlo : ((r.bndry fi).box k).smallend =
      fun d => ((BoxArray.getBox r.grids k).adjCell fi 1).smallend d + v d)
    (hhi : ((r.bndry fi).box k).bigend =
      fun d => ((BoxArray.getBox r.grids k).adjCell fi 1).bigend d + v d)
    (p : IntVect D) (n : Int)
    (hp : ((BoxArray.getBox r.grids k).adjCell fi 1).containsPt p)
    (hn0 : 0 ≤ n) (hn1 : n < num_comp) :
    regValue r num_comp (AddBox fi ((r.bndry fi).box k) k src_comp 0 num_comp, rf) p n =
      ((r.bndry fi).fabs k).data (fun d => p d + v d) (n + src_comp) := by
  obtain ⟨rbox, hrbox⟩ : ∃ rbox, rbox = (BoxArray.getBox r.grids k).adjCell fi 1 := ⟨_, rfl⟩
  obtain ⟨fb, hfb⟩ : ∃ fb, fb = (r.bndry fi).box k := ⟨_, rfl⟩
  rw [← hrbox] at hlo hhi hp
  rw [← hfb] at hlo hhi
  have hpts : fb.pts = rbox.pts.map (fun p => fun d => p d + v d) :=
    pts_translate rbox fb v hlo hhi
  have hmem : p ∈ rbox.pts := (mem_pts _ _).2 hp
  have hidx : rbox.pts.indexOf p < rbox.pts.length := List.indexOf_lt_length.2 hmem
  have hlen : fb.pts.length = rbox.pts.length := by rw [hpts, List.length_map]
  have hidx' : rbox.pts.indexOf p < fb.pts.length := by rw [hlen]; exact hidx
  have hget : fb.pts.get ⟨rbox.pts.indexOf p, hidx'⟩ = fun d => p d + v d := by
    have h1 : fb.pts.get ⟨rbox.pts.indexOf p, hidx'⟩ =
        (fun p => fun d => p d + v d) (rbox.pts.get ⟨rbox.pts.indexOf p, hidx⟩) := by
      simp only [List.get_eq_getElem, hpts, List.getElem_map]
    rw [h1, List.indexOf_get hidx]
  have hin : fb.containsPt (fun d => p d + v d) := by
    rw [← mem_pts, ← hget]
    exact List.get_mem _ _ _
  unfold regValue
  simp only [hk, hf, ← hrbox, AddBox, ← hfb]
  unfold FArrayBox.ofList FArrayBox.toList FillFab FArrayBox.copy FArrayBox.alloc
  simp only
  rw [← hlen, getD_blocks fb.pts
    (fun (c : Nat) p =>
      if fb.containsPt p ∧ 0 ≤ (c : Int) ∧ (c : Int) < 0 + num_comp then
        ((r.bndry fi).fabs k).data (fun d => p d - fb.smallend d + fb.smallend d)
          ((c : Int) - 0 + src_comp)
      else default) default num_comp.toNat n.toNat _ (by omega) hidx', hget,
    if_pos ⟨hin, by omega, by omega⟩]
  congr 1
  · funext d
    ring
  · omega

/-- The fetch handle of a record of the registration is the one for the face box of the
record's register box and face, and the register box exists. -/
theorem allRecords_fbid (geom : Geometry D R) (r : FluxRegister D R)
    (src_comp num_comp : Int) (MyProc : Nat) (S : MultiFab D R)
    (rec : FillBoxId D × RF D)
    (h : rec ∈ allRecords geom r src_comp num_comp MyProc S) :
    rec.1 = AddBox rec.2.m_face ((r.bndry rec.2.m_face).box rec.2.m_fridx) rec.2.m_fridx
      src_comp 0 num_comp ∧ rec.2.m_fridx < r.grids.length := by
  unfold allRecords at h
  obtain ⟨idx, -, h⟩ := List.mem_flatMap.1 h
  obtain ⟨k, hk, h⟩ := List.mem_flatMap.1 h
  unfold pairRecords at h
  rcases List.mem_append.1 h with h | h
  · split at h
    · obtain ⟨fi, rfl, -⟩ := mem_faceRecords r src_comp num_comp _ _ k rec h
      exact ⟨rfl, List.mem_range.1 hk⟩
    · cases h
  · split at h
    · obtain ⟨iv, -, h⟩ := List.mem_flatMap.1 h
      obtain ⟨fi, rfl, -⟩ := mem_faceRecords r src_comp num_comp _ _ k rec h
      exact ⟨rfl, List.mem_range.1 hk⟩
    · cases h

/-- For a register with the face boxes of `define`, the register value a record of the
registration reads for an exterior cell `p` of its face is the Face Storage value of the
face `p + faceOffset`. -/
theorem regValue_of_record [Inhabited R] (geom : Geometry D R) (r : FluxRegister D R)
    (src_comp num_comp : Int) (MyProc : Nat) (S : MultiFab D R)
    (hdef : r.defined) (rec : FillBoxId D × RF D)
    (h : rec ∈ allRecords geom r src_comp num_comp MyProc S)
    (p : IntVect D) (n : Int)
    (hp : ((BoxArray.getBox r.grids rec.2.m_fridx).adjCell rec.2.m_face 1).containsPt p)
    (hn0 : 0 ≤ n) (hn1 : n < num_comp) :
    regValue r num_comp rec p n =
      ((r.bndry rec.2.m_face).fabs rec.2.m_fridx).data
        (fun d => p d + faceOffset rec.2.m_face d) (n + src_comp) := by
  obtain ⟨h1, h2⟩ := allRecords_fbid geom r src_comp num_comp MyProc S rec h
  obtain ⟨fbid, rf⟩ := rec
  simp only at h1 h2 hp ⊢
  subst h1
  have hb := hdef rf.m_face rf.m_fridx h2
  have he := bdryNode_ends (BoxArray.getBox r.grids rf.m_fridx) rf.m_face
  exact regValue_eq r num_comp src_comp rf.m_face rf.m_fridx rf rfl rfl (faceOffset rf.m_face)
    (by rw [hb]; exact he.1) (by rw [hb]; exact he.2) p n hp hn0 hn1

theorem foldl_fixed {α β : Type} (f : α → β → α) (a : α) :
    ∀ (l : List β), (∀ x ∈ l, f a x = a) → l.foldl f a = a
  | [], _ => rfl
  | x :: l, h => by
    rw [List.foldl_cons, h x (List.mem_cons_self _ _)]
    exact foldl_fixed f a l (fun y hy => h y (List.mem_cons_of_mem _ hy))

/-- With every Face Storage value zero, a completed `Reflux` returns the solution array it
was given. -/
theorem RefluxCore_zero [Field R] [Inhabited R] (MyProc : Nat)
    (r : FluxRegister D R) (S : MultiFab D R) (volume : Option (MultiFab D R)) (scale : R)
    (src_comp dest_comp num_comp : Int) (geom : Geometry D R)
    (hdef : r.defined)
    (hzero : ∀ (f : Orientation D) (k : Nat) (p : IntVect D) (c : Int),
      ((r.bndry f).fabs k).data p c = 0)
    (S' : MultiFab D R) (volume' : Option (MultiFab D R))
    (h : RefluxCore MyProc r S volume scale src_comp dest_comp num_comp geom
      = some (S', volume')) :
    S' = S ∧ volume' = volume := by
  have hfold := RefluxCore_some MyProc r S volume scale src_comp dest_comp num_comp geom _ h
  obtain ⟨a1, a2, a3, a4, -⟩ := applyLoop_frame geom r scale dest_comp num_comp MyProc _ S S'
    volume volume' hfold
  have htot := applyLoop_total geom r scale dest_comp num_comp MyProc _ S S' volume volume'
    hfold
  refine ⟨FabArray.eq_of_parts _ _ a1 a2 (fun idx => ?_), a3⟩
  apply FArrayBox.eq_of_fields _ _ (a4 idx).1 (a4 idx).2
  intro q c
  rw [htot idx q c]
  unfold refluxTotal
  apply foldl_fixed
  intro rec hrec
  unfold refluxTerm
  split
  · next hc =>
    obtain ⟨-, hov, hc0, hc1⟩ := hc
    have hadj := ((containsPt_inter _ _ _).1 hov).2
    rw [regValue_of_record geom r src_comp num_comp MyProc S hdef rec hrec _ _ hadj
      (by omega) (by omega), hzero]
    simp
  · rfl

end FluxReg

namespace FluxReg

variable {D : Nat} {R : Type}

/-- A successful `define`: the register it returns has the coarsened boxes, the face boxes
`bdryNode(grids[k], face, 1)`, the owners `dmapOf` assigns, and every value zero. -/
theorem define_ok_shape [Zero R] (dmapOf : BoxArray D → Nat → Nat)
    (r : FluxRegister D R) (fine_boxes : BoxArray D) (ref_ratio : IntVect D)
    (fine_lev nvar : Int)
    (hd : BoxArray.isDisjoint fine_boxes) (hr : ¬ BoxArray.ready r.grids) :
    ∃ r', FluxRegister.define dmapOf r fine_boxes ref_ratio fine_lev nvar = Except.ok r' ∧
      r'.grids = fine_boxes.map (fun b => b.coarsen ref_ratio) ∧
      r'.ratio = ref_ratio ∧ r'.ncomp = nvar ∧ r'.defined ∧
      (∀ (f : Orientation D) (k : Nat) (p : IntVect D) (c : Int),
        ((r'.bndry f).fabs k).data p c = 0) ∧
      (∀ (f : Orientation D) (k : Nat),
        ((r'.bndry f).fabs k).box = (r'.bndry f).box k ∧
        ((r'.bndry f).fabs k).nComp = nvar) ∧
      ∀ f : Orientation D, (r'.bndry f).distributionMap =
        dmapOf (r'.grids.map (fun g => g.bdryNode f 1)) := by
  obtain ⟨r2, hr2⟩ : ∃ r2 : FluxRegister D R, r2 =
      { grids := BoxArray.coarsen fine_boxes ref_ratio, bndry := r.bndry,
        fine_level := fine_lev, ncomp := nvar, ratio := ref_ratio } := ⟨_, rfl⟩
  have hgr : r2.grids = fine_boxes.map (fun b => b.coarsen ref_ratio) := by rw [hr2]; rfl
  obtain ⟨rr, hrr⟩ : ∃ rr, rr = (List.finRange D).foldl (FluxRegister.defineDir dmapOf nvar) r2 :=
    ⟨_, rfl⟩
  obtain ⟨g1, g2, -, g4, -, g6⟩ := defineLoop_spec dmapOf nvar (List.finRange D) r2
  simp only [← hrr] at g1 g2 g4 g6
  have hdef : FluxRegister.define dmapOf r fine_boxes ref_ratio fine_lev nvar = Except.ok rr := by
    unfold FluxRegister.define
    rw [if_neg (not_not.2 hd), if_neg hr, hrr, hr2]
  refine ⟨rr, hdef, g1.trans hgr, g2.trans (by rw [hr2]), g4.trans (by rw [hr2]), ?_, ?_, ?_,
    ?_⟩
  · intro f k hk
    obtain ⟨dir, s⟩ := f
    obtain ⟨h1, -, -⟩ := g6 dir (List.mem_finRange dir) s
    unfold FabArray.box
    rw [h1, g1, getBox_map _ _ _ (by rw [← g1]; exact hk)]
  · intro f k p c
    obtain ⟨dir, s⟩ := f
    obtain ⟨-, -, h3⟩ := g6 dir (List.mem_finRange dir) s
    rw [h3 k]
  · intro f k
    obtain ⟨dir, s⟩ := f
    obtain ⟨h1, -, h3⟩ := g6 dir (List.mem_finRange dir) s
    unfold FabArray.box
    rw [h3 k, h1]
    exact ⟨rfl, rfl⟩
  · intro f
    obtain ⟨dir, s⟩ := f
    obtain ⟨-, h2, -⟩ := g6 dir (List.mem_finRange dir) s
    rw [h2, g1]

/-- C13: for every register state (with the face boxes of `define`) in which every Face
Storage value is zero, and every solution array `S`, scale, component range and geometry,
periodic or not, both `Reflux` entry points return (the volume array being distributed
like `S`) and leave every value of `S` identical: the array returned is `S`. -/
theorem reflux_zero_register [Field R] [Inhabited R] (MyProc : Nat)
    (r : FluxRegister D R) (S : MultiFab D R) (scale : R)
    (src_comp dest_comp num_comp : Int) (geom : Geometry D R)
    (hdef : r.defined)
    (hzero : ∀ (f : Orientation D) (k : Nat) (p : IntVect D) (c : Int),
      ((r.bndry f).fabs k).data p c = 0) :
    (∀ volume : MultiFab D R,
      (∀ idx, S.distributionMap idx = MyProc → volume.distributionMap idx = MyProc) →
      Reflux MyProc r S volume scale src_comp dest_comp num_comp geom
        = some (S, some volume)) ∧
    RefluxCV MyProc r S scale src_comp dest_comp num_comp geom = some (S, none) := by
  constructor
  · intro volume hvol
    obtain ⟨S', h⟩ := RefluxCore_total MyProc r S (some volume) scale src_comp dest_comp
      num_comp geom (fun v hv idx hidx => by
        cases hv
        exact hvol idx hidx)
    have := (RefluxCore_zero MyProc r S (some volume) scale src_comp dest_comp num_comp geom
      hdef hzero S' _ h).1
    subst this
    exact h
  · obtain ⟨S', h⟩ := RefluxCore_total MyProc r S none scale src_comp dest_comp
      num_comp geom (fun v hv => by cases hv)
    have := (RefluxCore_zero MyProc r S none scale src_comp dest_comp num_comp geom
      hdef hzero S' _ h).1
    subst this
    exact h

/-- C13, at a concrete input: the register freshly defined from the fine box
`[(4,4)-(11,11)]` with ratio `(2,2)` holds only zeros, and the cell-size `Reflux` returns
the solution array it was given. -/
theorem reflux_zero_register_witness :
    ∃ r0 : FluxRegister 2 ℚ,
      FluxRegister.define (fun _ _ => 0) FluxRegister.empty exFineBoxes2 ![2, 2] 1 1
        = Except.ok r0 ∧
      RefluxCV 0 r0 exS2 1 0 0 1 exGeom2 = some (exS2, none) := by
  obtain ⟨r0, h0, -, -, -, hdef, hzero, -⟩ := define_ok_shape (R := ℚ) (fun _ _ => 0)
    FluxRegister.empty exFineBoxes2 ![2, 2] 1 1 (by decide) (by decide)
  exact ⟨r0, h0, (reflux_zero_register 0 r0 exS2 1 0 0 1 exGeom2 hdef hzero).2⟩

/-- C17: when either `Reflux` entry point returns, the index box of every data block of `S`
equals its index box before the call, and the volume array is returned as it was; both
entry points do return (the volume array being distributed like `S`).  Every shift by a
periodic vector `iv` is followed by a shift by `-iv` on the same block, which restores the
block: one step of the registration loop over the shifts returns `S` and `volume` as they
were, and one step of the apply loop returns `volume` as it was and `S` with every index
box as it was. -/
theorem reflux_restores_boxes [Add R] [Mul R] [Div R] [Neg R] [One R] [Inhabited R]
    (MyProc : Nat) (r : FluxRegister D R) (S : MultiFab D R) (scale : R)
    (src_comp dest_comp num_comp : Int) (geom : Geometry D R) :
    (∀ (volume S' : MultiFab D R) (volume' : Option (MultiFab D R)),
      Reflux MyProc r S volume scale src_comp dest_comp num_comp geom = some (S', volume') →
      volume' = some volume ∧ ∀ idx, (S'.fabs idx).box = (S.fabs idx).box) ∧
    (∀ (S' : MultiFab D R) (volume' : Option (MultiFab D R)),
      RefluxCV MyProc r S scale src_comp dest_comp num_comp geom = some (S', volume') →
      volume' = none ∧ ∀ idx, (S'.fabs idx).box = (S.fabs idx).box) ∧
    (∀ volume : MultiFab D R,
      (∀ idx, S.distributionMap idx = MyProc → volume.distributionMap idx = MyProc) →
      ∃ S', Reflux MyProc r S volume scale src_comp dest_comp num_comp geom
        = some (S', some volume)) ∧
    (∃ S', RefluxCV MyProc r S scale src_comp dest_comp num_comp geom = some (S', none)) ∧
    (∀ (f : FArrayBox D R) (iv : IntVect D), (f.shift iv).shift (fun d => - iv d) = f) ∧
    (∀ (idx k : Nat) (st st' : RefluxState D R) (iv : IntVect D),
      registerShift r src_comp num_comp idx k st iv = some st' →
      st'.S = st.S ∧ st'.volume = st.volume) ∧
    (∀ (S1 S2 : MultiFab D R) (v1 v2 : Option (MultiFab D R)) (rec : FillBoxId D × RF D),
      applyRF geom r scale dest_comp num_comp MyProc (S1, v1) rec = some (S2, v2) →
      v2 = v1 ∧ ∀ idx, (S2.fabs idx).box = (S1.fabs idx).box) := by
  have hcore : ∀ (volume : Option (MultiFab D R)) (S' : MultiFab D R)
      (volume' : Option (MultiFab D R)),
      RefluxCore MyProc r S volume scale src_comp dest_comp num_comp geom
        = some (S', volume') →
      volume' = volume ∧ ∀ idx, (S'.fabs idx).box = (S.fabs idx).box := by
    intro volume S' volume' h
    have hfold := RefluxCore_some MyProc r S volume scale src_comp dest_comp num_comp geom _ h
    obtain ⟨-, -, a3, a4, -⟩ := applyLoop_frame geom r scale dest_comp num_comp MyProc _ S S'
      volume volume' hfold
    exact ⟨a3, fun idx => (a4 idx).1⟩
  refine ⟨fun volume S' volume' h => hcore (some volume) S' volume' h,
    fun S' volume' h => hcore none S' volume' h, ?_, ?_,
    fun f iv => FArrayBox.shift_then_unshift f iv, ?_, ?_⟩
  · intro volume hvol
    exact RefluxCore_total MyProc r S (some volume) scale src_comp dest_comp
      num_comp geom (fun v hv idx hidx => by
        cases hv
        exact hvol idx hidx)
  · exact RefluxCore_total MyProc r S none scale src_comp dest_comp
      num_comp geom (fun v hv => by cases hv)
  · intro idx k st st' iv h
    obtain ⟨h1, h2, -⟩ := registerShift_spec r src_comp num_comp idx k st st' iv h
    exact ⟨h1, h2⟩
  · intro S1 S2 v1 v2 rec h
    obtain ⟨-, -, a3, -, -, a6, -⟩ :=
      applyRF_spec geom r scale dest_comp num_comp MyProc S1 S2 v1 v2 rec h
    exact ⟨a3, fun idx => (a6 idx).1⟩

/-- C17, at a concrete input: the periodic domain `[0,15]`, where the record of the low face
of the register box `[0,3]` is registered and applied under the shift `-16`. -/
theorem reflux_restores_boxes_witness :
    ∃ S' : MultiFab 1 ℚ,
      Reflux 0 exRegEdge exS exVol 2 0 0 1 exGeomPer = some (S', some exVol) ∧
      ∀ idx, (S'.fabs idx).box = (exS.fabs idx).box := by
  have h := reflux_restores_boxes 0 exRegEdge exS (2 : ℚ) 0 0 1 exGeomPer
  obtain ⟨S', hS'⟩ := h.2.2.1 exVol (fun _ _ => rfl)
  exact ⟨S', hS', (h.1 exVol S' _ hS').2⟩

end FluxReg

namespace FluxReg

variable {D : Nat} {R : Type}

theorem foldlM_keeps {β γ α : Type} (T : β → α → Option β) (proj : β → γ)
    (h : ∀ i r r', T r i = some r' → proj r' = proj r) :
    ∀ (l : List α) (r r' : β), l.foldlM T r = some r' → proj r' = proj r
  | [], r, r', hf => by
    simp only [List.foldlM_nil] at hf
    cases hf
    rfl
  | a :: l, r, r', hf => by
    rw [List.foldlM_cons] at hf
    cases hT : T r a with
    | none => rw [hT] at hf; cases hf
    | some r1 =>
      rw [hT] at hf
      change l.foldlM T r1 = some r' at hf
      rw [foldlM_keeps T proj h l r1 r' hf, h a r r1 hT]

theorem resized_tags (NProcs : Nat) (ci : CIState D R) :
    (ci.resized NProcs).CITags = ci.CITags := by
  unfold CIState.resized
  split <;> rfl

/-- The traffic from one sender to one receiver changes no Face Storage entry that none of
the sender's tags names. -/
theorem deliver_frame [Inhabited R] (ci : Nat → CIState D R) (p i : Nat)
    (reg r' : FluxRegister D R) (h : deliver ci p reg i = some r')
    (f : Orientation D) (j : Nat)
    (hno : ∀ t ∈ (ci i).CITags, ¬ (t.face = f ∧ t.fabIndex = j)) :
    (r'.bndry f).fabs j = (reg.bndry f).fabs j := by
  by_cases hpos : 0 < (ci i).CIMsgs.getD p 0
  · obtain ⟨data, off, -, hun⟩ := deliver_unpack ci p i reg r' hpos h
    refine (unpack_frame p _ reg r' data hun).2 f j ?_
    intro cd hcd
    unfold sendCommData at hcd
    obtain ⟨t, ht, rfl⟩ := List.mem_map.1 hcd
    exact hno t (List.mem_filter.1 ht).1
  · rw [deliver_zero ci p i reg (by omega)] at h
    cases h
    rfl

/-- `CrseInitFinish` changes no Face Storage entry that no pending tag of any process
names. -/
theorem CrseInitFinish_frame [Inhabited R] (NProcs : Nat) (w w3 : World D R)
    (h : CrseInitFinish NProcs w = some w3) (f : Orientation D) (j : Nat)
    (hno : ∀ (p : Nat), ∀ t ∈ (w.ci p).CITags, ¬ (t.face = f ∧ t.fabIndex = j)) :
    (w3.reg.bndry f).fabs j = (w.reg.bndry f).fabs j := by
  by_cases hN : NProcs = 1
  · unfold CrseInitFinish at h
    rw [if_pos hN] at h
    cases h
    rfl
  · obtain ⟨-, hfold, -⟩ := CrseInitFinish_some NProcs w w3 hN h
    refine foldlM_keeps (receiveAll NProcs (fun p => (w.ci p).resized NProcs))
      (fun r => (r.bndry f).fabs j) ?_ _ _ _ hfold
    intro p r r' hp
    unfold receiveAll at hp
    refine foldlM_keeps (deliver (fun p => (w.ci p).resized NProcs) p)
      (fun r => (r.bndry f).fabs j) ?_ _ _ _ hp
    intro i r1 r2 hd
    exact deliver_frame _ p i r1 r2 hd f j (by
      intro t ht
      rw [resized_tags] at ht
      exact hno i t ht)

end FluxReg

namespace FluxReg

variable {D : Nat} {R : Type}

theorem foldlM_id {β α : Type} (T : β → α → Option β) :
    ∀ (l : List α) (r : β), (∀ i ∈ l, ∀ r, T r i = some r) → l.foldlM T r = some r
  | [], _, _ => rfl
  | a :: l, r, h => by
    rw [List.foldlM_cons, h a (List.mem_cons_self _ _) r]
    exact foldlM_id T l r (fun i hi => h i (List.mem_cons_of_mem _ hi))

theorem resized_of_idle (NProcs : Nat) (ci : CIState D R) (h : ci.idle NProcs) :
    ci.resized NProcs = ⟨List.replicate NProcs 0, [], []⟩ := by
  obtain ⟨i1, i2, i3⟩ := h
  unfold CIState.resized
  rcases i3 with i3 | i3
  · simp [i3, i1, i2]
  · by_cases hz : ci.CIMsgs.length = 0
    · simp [hz, i1, i2]
    · rw [if_neg hz]
      cases ci
      simp only at i1 i2 i3
      rw [i1, i2, i3]

/-- With no pending contribution on any process, `CrseInitFinish` returns and leaves the
register as it is. -/
theorem CrseInitFinish_idle [Inhabited R] (NProcs : Nat) (w : World D R)
    (h : ∀ p, (w.ci p).idle NProcs) :
    ∃ w3, CrseInitFinish NProcs w = some w3 ∧ w3.reg = w.reg := by
  unfold CrseInitFinish
  by_cases hN : NProcs = 1
  · rw [if_pos hN]
    exact ⟨w, rfl, rfl⟩
  · rw [if_neg hN]
    simp only
    have hres : ∀ p, (w.ci p).resized NProcs = ⟨List.replicate NProcs 0, [], []⟩ :=
      fun p => resized_of_idle NProcs _ (h p)
    have hass : ∀ p, p < NProcs →
        ((w.ci p).resized NProcs).CITags.length = ((w.ci p).resized NProcs).CIFabs.length ∧
        ((w.ci p).resized NProcs).CIMsgs.getD p 0 = 0 := by
      intro p _
      rw [hres p]
      exact ⟨rfl, getD_replicate_zero _ _⟩
    rw [if_neg (not_not.2 hass)]
    have hfold : (List.range NProcs).foldlM
        (receiveAll NProcs (fun p => (w.ci p).resized NProcs)) w.reg = some w.reg := by
      apply foldlM_id
      intro p _ r
      unfold receiveAll
      apply foldlM_id
      intro i _ r1
      apply deliver_zero
      simp only [hres i]
      exact getD_replicate_zero _ _
    rw [hfold]
    exact ⟨_, rfl, rfl⟩

theorem flatMap_nil_of_forall {α β : Type} (g : α → List β) :
    ∀ (l : List α), (∀ a ∈ l, g a = []) → l.flatMap g = []
  | [], _ => rfl
  | a :: l, h => by
    rw [List.flatMap_cons, h a (List.mem_cons_self _ _),
      flatMap_nil_of_forall g l (fun b hb => h b (List.mem_cons_of_mem _ hb))]
    rfl

/-- One call of `CrseInit` overload B whose patch meets only face boxes the caller owns, made
outside an accumulation cycle with valid arguments: the call returns, no contribution is
left pending on any process, and every entry is either the old one or the old one
overwritten with `flux × mult`. -/
theorem call_local [Mul R] [Inhabited R] (NProcs MyProc : Nat) (w : World D R)
    (flux : FArrayBox D R) (subbox : Box D) (dir : Fin D)
    (srccomp destcomp numcomp : Int) (mult : R)
    (hidle : ∀ p, (w.ci p).idle NProcs)
    (h1 : flux.box.contains subbox) (h2 : 0 ≤ srccomp ∧ srccomp + numcomp ≤ flux.nComp)
    (h3 : 0 ≤ destcomp ∧ destcomp + numcomp ≤ w.reg.ncomp)
    (hlocal : ∀ (s : Side) (j : Nat), j < w.reg.grids.length →
      subbox.intersects ((w.reg.bndry ⟨dir, s⟩).box j) →
      (w.reg.bndry ⟨dir, s⟩).distributionMap j = MyProc) :
    ∃ w1, w.CrseInit NProcs MyProc flux subbox dir srccomp destcomp numcomp mult = some w1 ∧
      (∀ p, (w1.ci p).idle NProcs) ∧ w.reg.sameShape w1.reg ∧
      ∀ f j, (w1.reg.bndry f).fabs j =
        if f.coordDir = dir ∧ j ∈ List.range w.reg.grids.length ∧
            subbox.intersects ((w.reg.bndry f).box j) ∧
            MyProc = (w.reg.bndry f).distributionMap j then
          crseFab ((w.reg.bndry f).fabs j) flux (((w.reg.bndry f).box j).inter subbox)
            srccomp destcomp numcomp mult
        else (w.reg.bndry f).fabs j := by
  have h4 : (w.ci MyProc).CIMsgs.length = 0 ∨ (w.ci MyProc).CIMsgs.length = NProcs := by
    obtain ⟨-, -, i3⟩ := hidle MyProc
    rcases i3 with i3 | i3
    · left; rw [i3]; rfl
    · right; rw [i3]; exact List.length_replicate _ _
  obtain ⟨st1, hst1, -⟩ := CrseInit_reg_fabs MyProc NProcs ⟨w.reg, w.ci MyProc⟩ flux subbox dir
    srccomp destcomp numcomp mult h1 h2 h3 h4
  have hcall : w.CrseInit NProcs MyProc flux subbox dir srccomp destcomp numcomp mult
      = some ⟨st1.reg, fun p => if p = MyProc then st1.ci else w.ci p⟩ := by
    unfold World.CrseInit
    rw [hst1]
  obtain ⟨c1, c2, c3, c4⟩ := call_from_idle NProcs MyProc w _ flux subbox dir srccomp destcomp
    numcomp mult (hidle MyProc) hcall
  have hnil : (List.range w.reg.grids.length).flatMap
      (crsePendingAt MyProc w.reg flux subbox dir srccomp destcomp numcomp mult) = [] := by
    apply flatMap_nil_of_forall
    intro j hj
    have hj1 := List.mem_range.1 hj
    unfold crsePendingAt crsePendingFace
    rw [if_neg (fun hc => hc.2 (hlocal Side.low j hj1 hc.1).symm),
      if_neg (fun hc => hc.2 (hlocal Side.high j hj1 hc.1).symm)]
    rfl
  rw [hnil] at c1
  refine ⟨_, hcall, ?_, c3, c4⟩
  intro p
  by_cases hp : p = MyProc
  · subst hp
    rw [c1]
    exact ⟨rfl, rfl, Or.inr rfl⟩
  · rw [c2 p hp]
    exact hidle p

end FluxReg

namespace FluxReg

variable {D : Nat} {R : Type}

/-- When every Face Storage value of component `comp` is zero, `SumReg(comp)` is zero. -/
theorem SumReg_zero [Ring R] (NProcs : Nat) (r : FluxRegister D R) (comp : Int)
    (hz : ∀ (dir : Fin D) (s : Side) (k : Nat), k < (r.bndry ⟨dir, Side.low⟩).length →
      ∀ p, ((r.bndry ⟨dir, s⟩).fabs k).box.containsPt p →
        ((r.bndry ⟨dir, s⟩).fabs k).data p comp = 0) :
    r.SumReg NProcs comp = 0 := by
  have hsum : ∀ (dir : Fin D) (s : Side) (k : Nat), k < (r.bndry ⟨dir, Side.low⟩).length →
      ((r.bndry ⟨dir, s⟩).fabs k).sum comp = 0 := by
    intro dir s k hk
    unfold FArrayBox.sum
    apply foldl_fixed
    intro p hp
    rw [hz dir s k hk p ((mem_pts _ p).1 hp), add_zero]
  have hloc : ∀ MyProc, r.SumRegLocal MyProc comp = 0 := by
    intro MyProc
    unfold FluxRegister.SumRegLocal
    apply foldl_fixed
    intro dir _
    apply foldl_fixed
    intro k hk
    have hk1 : k < (r.bndry ⟨dir, Side.low⟩).length := by
      unfold FabArray.localIndices at hk
      exact List.mem_range.1 (List.mem_filter.1 hk).1
    rw [hsum dir Side.low k hk1, hsum dir Side.high k hk1]
    simp
  unfold FluxRegister.SumReg ReduceRealSum
  apply foldl_fixed
  intro i _
  simp only [hloc, add_zero]

theorem sameShape_defined {r r' : FluxRegister D R} (h : r.sameShape r') (hd : r.defined) :
    r'.defined := by
  intro f k hk
  rw [sameShape_box h, h.1]
  rw [h.1] at hk
  exact hd f k hk

/-- The accumulation cycle for one coarse patch and one fine patch on one process: `CrseInit`
overload B with the coarse flux, the single-patch `FineAdd` for register box `k` with the
fine flux, both with `mult = 1`, then `CrseInitFinish`.  With valid arguments, the statics of
every process idle before, and the coarse patch meeting only face boxes the caller owns, the
three calls return; the register keeps its shape, and at every face position of box `k` the
coarse patch covers the entry is the coarse flux plus the sum of the fine flux over the
covering fine faces. -/
theorem crse_fine_chain [Ring R] [Inhabited R] (NProcs MyProc : Nat) (w : World D R)
    (crse fine : FArrayBox D R) (subbox : Box D) (dir : Fin D) (k : Nat)
    (srccomp srcfine destcomp numcomp : Int)
    (hidle : ∀ p, (w.ci p).idle NProcs)
    (h1 : crse.box.contains subbox) (h2 : 0 ≤ srccomp ∧ srccomp + numcomp ≤ crse.nComp)
    (h3 : 0 ≤ destcomp ∧ destcomp + numcomp ≤ w.reg.ncomp)
    (h5 : 0 ≤ srcfine ∧ srcfine + numcomp ≤ fine.nComp)
    (h6 : ∀ s, (fine.box.coarsen w.reg.ratio).contains ((w.reg.bndry ⟨dir, s⟩).fabs k).box)
    (h7 : ∀ s, ((w.reg.bndry ⟨dir, s⟩).fabs k).box = (w.reg.bndry ⟨dir, s⟩).box k)
    (hk : k < w.reg.grids.length)
    (hlocal : ∀ (s : Side) (j : Nat), j < w.reg.grids.length →
      subbox.intersects ((w.reg.bndry ⟨dir, s⟩).box j) →
      (w.reg.bndry ⟨dir, s⟩).distributionMap j = MyProc) :
    ∃ w1 r2 w3,
      w.CrseInit NProcs MyProc crse subbox dir srccomp destcomp numcomp 1 = some w1 ∧
      FineAdd w1.reg fine dir k srcfine destcomp numcomp 1 = Except.ok r2 ∧
      CrseInitFinish NProcs ⟨r2, w1.ci⟩ = some w3 ∧
      w.reg.sameShape w3.reg ∧
      ∀ (s : Side) (p : IntVect D) (c : Int), subbox.containsPt p →
        ((w.reg.bndry ⟨dir, s⟩).box k).containsPt p → destcomp ≤ c → c < destcomp + numcomp →
        ((w3.reg.bndry ⟨dir, s⟩).fabs k).data p c =
          crse.data p (c - destcomp + srccomp) +
            ((fineFaces w.reg.ratio dir p).map
              (fun q => fine.data q (c - destcomp + srcfine))).sum := by
  obtain ⟨w1, hcall, hidle1, hshape1, hfabs1⟩ := call_local NProcs MyProc w crse subbox dir
    srccomp destcomp numcomp 1 hidle h1 h2 h3 hlocal
  have hbox1 : ∀ f j, ((w1.reg.bndry f).fabs j).box = ((w.reg.bndry f).fabs j).box := by
    intro f j
    rw [hfabs1]
    split
    · exact (crseFab_shape _ _ _ _ _ _ _).1
    · rfl
  have g2 := hshape1.2.1
  have g3 := hshape1.2.2.1
  have hfine := fineAddSpec_ok w1.reg fine none dir k srcfine destcomp numcomp 1 h5
    (by rw [g2]; exact h3) (by rw [g3, hbox1]; exact h6 Side.low)
    (by rw [g3, hbox1]; exact h6 Side.high)
  rw [← FineAdd_eq_spec] at hfine
  obtain ⟨w3, hfin, hreg3⟩ := CrseInitFinish_idle NProcs
    ⟨(w1.reg.setFab ⟨dir, Side.low⟩ k
        (fineAddEntry w1.reg fine none dir k srcfine destcomp numcomp 1 Side.low)).setFab
      ⟨dir, Side.high⟩ k
        (fineAddEntry w1.reg fine none dir k srcfine destcomp numcomp 1 Side.high), w1.ci⟩
    hidle1
  simp only at hreg3
  refine ⟨w1, _, w3, hcall, hfine, hfin, ?_, ?_⟩
  · rw [hreg3]
    exact sameShape_trans hshape1
      (sameShape_trans (sameShape_setFab _ _ _ _) (sameShape_setFab _ _ _ _))
  · intro s p c hp1 hp2 hc0 hc1
    have hint : subbox.intersects ((w.reg.bndry ⟨dir, s⟩).box k) := by
      have hcp := (containsPt_inter subbox ((w.reg.bndry ⟨dir, s⟩).box k) p).2 ⟨hp1, hp2⟩
      exact fun d => le_trans (hcp d).1 (hcp d).2
    rw [hreg3, fineAdd_result_fabs, if_pos ⟨rfl, rfl⟩, fineAddEntry_data,
      if_pos ⟨by rw [hbox1, h7]; exact hp2, hc0, hc1⟩, hfabs1,
      if_pos ⟨rfl, List.mem_range.2 hk, hint, (hlocal s k hk hint).symm⟩, crseFab_data,
      if_pos ⟨(containsPt_inter _ _ p).2 ⟨hp2, hp1⟩, hc0, hc1⟩, g3, mul_one, one_mul]

end FluxReg

namespace FluxReg

variable {D : Nat} {R : Type}

theorem exRegDef2_defined :
    FluxRegister.define (fun _ _ => 0) FluxRegister.empty exFineBoxes2 ![2, 2] 1 1
      = Except.ok exRegDef2 := rfl

/-- The accumulation cycle of the scenario returns, keeps the shape of the register, and
leaves `7 + (4 + 4)` at the face `(2,3)` of the x-low entry. -/
theorem scenario_chain :
    ∃ (w1 : World 2 ℚ) (r2 : FluxRegister 2 ℚ) (w3 : World 2 ℚ),
      exWorld2.CrseInit 1 0 exCrse2 exSub2 0 0 0 1 1 = some w1 ∧
      FineAdd w1.reg exFine2 0 0 0 0 1 1 = Except.ok r2 ∧
      CrseInitFinish 1 ⟨r2, w1.ci⟩ = some w3 ∧
      exRegDef2.sameShape w3.reg ∧
      ((w3.reg.bndry ⟨0, Side.low⟩).fabs 0).data ![2, 3] 0 = 7 + (4 + 4) := by
  obtain ⟨w1, r2, w3, e1, e2, e3, hs, hv⟩ := crse_fine_chain 1 0 exWorld2 exCrse2 exFine2
    exSub2 0 0 0 0 0 1 (fun _ => ⟨rfl, rfl, Or.inl rfl⟩) (by decide) (by decide) (by decide)
    (by decide) (fun s => by cases s <;> decide) (fun s => by cases s <;> rfl) (by decide)
    (fun s j _ _ => by cases s <;> rfl)
  refine ⟨w1, r2, w3, e1, e2, e3, hs, ?_⟩
  rw [hv Side.low ![2, 3] 0 (by decide) (by decide) (by decide) (by decide)]
  have h1 : exCrse2.data ![2, 3] (0 - 0 + 0) = 7 := rfl
  have h2 : (fineFaces exWorld2.reg.ratio 0 ![2, 3]).map (fun q => exFine2.data q (0 - 0 + 0))
      = [4, 4] := by rfl
  rw [h1, h2]
  simp

/-- C12, counterexample: in the scenario (register defined from the fine box
`[(4,4)-(11,11)]` with ratio `(2,2)` and one component; coarse flux 7 injected by `CrseInit`
on the x-low face, fine flux 4 injected by `FineAdd`, both with `mult = 1`; 2 fine faces
cover the coarse face `(2,3)`), every call returns and after consolidation the entry at the
face position `(2,3)` of the x-low face is `7 + (4 + 4)`, which is not `7 - (4 + 4)`. -/
theorem crse_minus_fine_counterexample :
    ∃ (w1 : World 2 ℚ) (r2 : FluxRegister 2 ℚ) (w3 : World 2 ℚ),
      FluxRegister.define (fun _ _ => 0) FluxRegister.empty exFineBoxes2 ![2, 2] 1 1
        = Except.ok exWorld2.reg ∧
      exWorld2.CrseInit 1 0 exCrse2 exSub2 0 0 0 1 1 = some w1 ∧
      FineAdd w1.reg exFine2 0 0 0 0 1 1 = Except.ok r2 ∧
      CrseInitFinish 1 ⟨r2, w1.ci⟩ = some w3 ∧
      exCrse2.data ![2, 3] 0 = 7 ∧
      (fineFaces exWorld2.reg.ratio 0 ![2, 3]).map (fun q => exFine2.data q 0) = [4, 4] ∧
      ((w3.reg.bndry ⟨0, Side.low⟩).fabs 0).data ![2, 3] 0 = 7 + (4 + 4) ∧
      ((w3.reg.bndry ⟨0, Side.low⟩).fabs 0).data ![2, 3] 0 ≠ 7 - (4 + 4) := by
  obtain ⟨w1, r2, w3, e1, e2, e3, -, hv⟩ := scenario_chain
  refine ⟨w1, r2, w3, exRegDef2_defined, e1, e2, e3, rfl, by rfl, hv, ?_⟩
  rw [hv]
  norm_num

/-- C12 (amended): for every coarse flux injected by `CrseInit` (overload B) and every fine
flux injected by the single-patch `FineAdd` for register box `k`, both with `mult = 1` (the
fine-add kernel being the one that adds `mult ×` the sum of the fine flux over the fine faces
covering a coarse face), made with valid arguments outside a pending cycle on the process
that owns the face boxes the coarse patch meets: the three calls `CrseInit`, `FineAdd`,
`CrseInitFinish` return, and after consolidation the register entry at every face position
of box `k` the coarse patch covers equals `c + (sum of the fine flux over the covering fine
faces)`, `c` being the coarse flux at that face: `CrseInit` overwrites with `c × mult` and
`FineAdd` adds.  `SumReg` of a component returns exactly zero when every entry of that
component is zero, which at such a face position means that the coarse flux is the negative
of the summed fine flux. -/
theorem crse_plus_fine_entry [Ring R] [Inhabited R] (NProcs MyProc : Nat) (w : World D R)
    (crse fine : FArrayBox D R) (subbox : Box D) (dir : Fin D) (k : Nat)
    (srccomp srcfine destcomp numcomp : Int)
    (hidle : ∀ p, (w.ci p).idle NProcs)
    (h1 : crse.box.contains subbox) (h2 : 0 ≤ srccomp ∧ srccomp + numcomp ≤ crse.nComp)
    (h3 : 0 ≤ destcomp ∧ destcomp + numcomp ≤ w.reg.ncomp)
    (h5 : 0 ≤ srcfine ∧ srcfine + numcomp ≤ fine.nComp)
    (h6 : ∀ s, (fine.box.coarsen w.reg.ratio).contains ((w.reg.bndry ⟨dir, s⟩).fabs k).box)
    (h7 : ∀ s, ((w.reg.bndry ⟨dir, s⟩).fabs k).box = (w.reg.bndry ⟨dir, s⟩).box k)
    (hk : k < w.reg.grids.length)
    (hlocal : ∀ (s : Side) (j : Nat), j < w.reg.grids.length →
      subbox.intersects ((w.reg.bndry ⟨dir, s⟩).box j) →
      (w.reg.bndry ⟨dir, s⟩).distributionMap j = MyProc) :
    ∃ w1 r2 w3,
      w.CrseInit NProcs MyProc crse subbox dir srccomp destcomp numcomp 1 = some w1 ∧
      FineAdd w1.reg fine dir k srcfine destcomp numcomp 1 = Except.ok r2 ∧
      CrseInitFinish NProcs ⟨r2, w1.ci⟩ = some w3 ∧
      (∀ (s : Side) (p : IntVect D) (c : Int), subbox.containsPt p →
        ((w.reg.bndry ⟨dir, s⟩).box k).containsPt p → destcomp ≤ c → c < destcomp + numcomp →
        ((w3.reg.bndry ⟨dir, s⟩).fabs k).data p c =
          crse.data p (c - destcomp + srccomp) +
            ((fineFaces w.reg.ratio dir p).map
              (fun q => fine.data q (c - destcomp + srcfine))).sum) ∧
      ∀ comp : Int,
        (∀ (d : Fin D) (s : Side) (j : Nat), j < (w3.reg.bndry ⟨d, Side.low⟩).length →
          ∀ p, ((w3.reg.bndry ⟨d, s⟩).fabs j).box.containsPt p →
            ((w3.reg.bndry ⟨d, s⟩).fabs j).data p comp = 0) →
        w3.reg.SumReg NProcs comp = 0 := by
  obtain ⟨w1, r2, w3, e1, e2, e3, -, hv⟩ := crse_fine_chain NProcs MyProc w crse fine subbox
    dir k srccomp srcfine destcomp numcomp hidle h1 h2 h3 h5 h6 h7 hk hlocal
  exact ⟨w1, r2, w3, e1, e2, e3, hv, fun comp hz => SumReg_zero NProcs w3.reg comp hz⟩

/-- C12 (amended), at a concrete input: the scenario with coarse flux 7 and fine flux 4; the
entry at the face position `(2,3)` of the x-low face is the coarse flux there plus the sum of
the fine flux over the covering fine faces. -/
theorem crse_plus_fine_entry_witness :
    ∃ (w1 : World 2 ℚ) (r2 : FluxRegister 2 ℚ) (w3 : World 2 ℚ),
      exWorld2.CrseInit 1 0 exCrse2 exSub2 0 0 0 1 1 = some w1 ∧
      FineAdd w1.reg exFine2 0 0 0 0 1 1 = Except.ok r2 ∧
      CrseInitFinish 1 ⟨r2, w1.ci⟩ = some w3 ∧
      ((w3.reg.bndry ⟨0, Side.low⟩).fabs 0).data ![2, 3] 0 =
        exCrse2.data ![2, 3] (0 - 0 + 0) +
          ((fineFaces exWorld2.reg.ratio 0 ![2, 3]).map
            (fun q => exFine2.data q (0 - 0 + 0))).sum := by
  obtain ⟨w1, r2, w3, e1, e2, e3, hv, -⟩ := crse_plus_fine_entry 1 0 exWorld2 exCrse2 exFine2
    exSub2 0 0 0 0 0 1 (fun _ => ⟨rfl, rfl, Or.inl rfl⟩) (by decide) (by decide) (by decide)
    (by decide) (fun s => by cases s <;> decide) (fun s => by cases s <;> rfl) (by decide)
    (fun s j _ _ => by cases s <;> rfl)
  exact ⟨w1, r2, w3, e1, e2, e3,
    hv Side.low ![2, 3] 0 (by decide) (by decide) (by decide) (by decide)⟩

end FluxReg

namespace FluxReg

variable {D : Nat} {R : Type}

/-- The records of the registration depend on the register only through its boxes. -/
theorem allRecords_sameShape {r r' : FluxRegister D R} (h : r.sameShape r')
    (geom : Geometry D R) (src_comp num_comp : Int) (MyProc : Nat) (S : MultiFab D R) :
    allRecords geom r' src_comp num_comp MyProc S = allRecords geom r src_comp num_comp MyProc S := by
  unfold allRecords pairRecords faceRecords
  simp only [h.1, sameShape_box h]

theorem exRegDef2_shape : exRegDef2.defined := by
  obtain ⟨r0, h0, -, -, -, hdef, -⟩ := define_ok_shape (R := ℚ) (fun _ _ => 0)
    FluxRegister.empty exFineBoxes2 ![2, 2] 1 1 (by decide) (by decide)
  rw [exRegDef2_defined] at h0
  cases h0
  exact hdef

/-- The scenario from `CrseInit` to `Reflux`: every call returns; the exterior cell `(1,3)` of
the x-low face receives `-(7 + (4 + 4))`, and the cell `(3,7)` keeps its value. -/
theorem scenario_reflux :
    ∃ (w1 : World 2 ℚ) (r2 : FluxRegister 2 ℚ) (w3 : World 2 ℚ) (S' : MultiFab 2 ℚ),
      exWorld2.CrseInit 1 0 exCrse2 exSub2 0 0 0 1 1 = some w1 ∧
      FineAdd w1.reg exFine2 0 0 0 0 1 1 = Except.ok r2 ∧
      CrseInitFinish 1 ⟨r2, w1.ci⟩ = some w3 ∧
      RefluxCV 0 w3.reg exS2 1 0 0 1 exGeom2 = some (S', none) ∧
      ((w3.reg.bndry ⟨0, Side.low⟩).fabs 0).data ![2, 3] 0 = 7 + (4 + 4) ∧
      (S'.fabs 0).data ![1, 3] 0 = (exS2.fabs 0).data ![1, 3] 0 - (7 + (4 + 4)) ∧
      (S'.fabs 0).data ![3, 7] 0 = (exS2.fabs 0).data ![3, 7] 0 := by
  obtain ⟨w1, r2, w3, e1, e2, e3, hs, hv⟩ := scenario_chain
  obtain ⟨S', hS⟩ := RefluxCore_total 0 w3.reg exS2 none (1 : ℚ) 0 0 1 exGeom2
    (fun v hv => by cases hv)
  have law := signLaw_of_RefluxCore 0 w3.reg exS2 none (1 : ℚ) 0 0 1 exGeom2 S' none hS
  have frame := frameLaw_of_RefluxCore 0 w3.reg exS2 none (1 : ℚ) 0 0 1 exGeom2 S' none hS
  have hgrids : w3.reg.grids = exRegDef2.grids := hs.1
  have hrecs := allRecords_sameShape hs exGeom2 0 1 0 exS2
  have hsplit : allRecords exGeom2 exRegDef2 0 1 0 exS2 =
      [] ++ (AddBox ⟨0, Side.low⟩ ((exRegDef2.bndry ⟨0, Side.low⟩).box 0) 0 0 0 1,
          RF.direct 0 0 ⟨0, Side.low⟩) ::
        [(AddBox ⟨1, Side.low⟩ ((exRegDef2.bndry ⟨1, Side.low⟩).box 0) 0 0 0 1,
          RF.direct 0 0 ⟨1, Side.low⟩),
         (AddBox ⟨0, Side.high⟩ ((exRegDef2.bndry ⟨0, Side.high⟩).box 0) 0 0 0 1,
          RF.direct 0 0 ⟨0, Side.high⟩),
         (AddBox ⟨1, Side.high⟩ ((exRegDef2.bndry ⟨1, Side.high⟩).box 0) 0 0 0 1,
          RF.direct 0 0 ⟨1, Side.high⟩)] := by rfl
  refine ⟨w1, r2, w3, S', e1, e2, e3, hS, hv, ?_, ?_⟩
  · have hdef3 : w3.reg.defined := sameShape_defined hs exRegDef2_shape
    have hmem : ((AddBox ⟨0, Side.low⟩ ((exRegDef2.bndry ⟨0, Side.low⟩).box 0) 0 0 0 1,
        RF.direct 0 0 ⟨0, Side.low⟩) : FillBoxId 2 × RF 2)
          ∈ allRecords exGeom2 w3.reg 0 1 0 exS2 := by
      rw [hrecs, hsplit]
      exact List.mem_cons_self _ _
    have hrec := law.2 [] _ _ (hrecs.trans hsplit) 0 ![1, 3] 0 (by decide) (by decide)
      (by
        unfold RF.covers RF.ovlp
        rw [hgrids]
        decide)
      (by
        intro x hx
        simp only [List.nil_append, List.mem_cons, List.mem_singleton, List.not_mem_nil,
          or_false] at hx
        unfold RF.covers RF.ovlp
        rw [hgrids]
        rcases hx with rfl | rfl | rfl <;> decide)
    have hq : (fun d => (fun d => (![1, 3] : IntVect 2) d +
        (RF.direct 0 0 (⟨0, Side.low⟩ : Orientation 2)).shiftOf d) d +
          faceOffset (⟨0, Side.low⟩ : Orientation 2) d) = ![2, 3] := by
      funext d
      fin_cases d <;> rfl
    have hval : regValue w3.reg 1
        ((AddBox ⟨0, Side.low⟩ ((exRegDef2.bndry ⟨0, Side.low⟩).box 0) 0 0 0 1,
          RF.direct 0 0 ⟨0, Side.low⟩) : FillBoxId 2 × RF 2)
        (fun d => (![1, 3] : IntVect 2) d +
          (RF.direct 0 0 (⟨0, Side.low⟩ : Orientation 2)).shiftOf d) 0 = 7 + (4 + 4) :=
      (regValue_of_record exGeom2 w3.reg 0 1 0 exS2 hdef3 _ hmem _ 0
        (by
          rw [hgrids]
          decide) (by decide) (by decide)).trans
        ((congrArg (fun x => ((w3.reg.bndry ⟨0, Side.low⟩).fabs 0).data x 0) hq).trans hv)
    have hdiv : refluxDivisor exGeom2 none 0 ![1, 3] = 1 * (1 * 1) := rfl
    have h := hrec.1
    rw [hval, hdiv] at h
    calc (S'.fabs 0).data ![1, 3] 0
        = (exS2.fabs 0).data ![1, 3] 0 + (-1) * (7 + (4 + 4)) / (1 * (1 * 1)) := h
      _ = (exS2.fabs 0).data ![1, 3] 0 - (7 + (4 + 4)) := by ring
  · apply frame.2.2.2 0 ![3, 7] 0
    rintro ⟨-, -, -, k, hk, ⟨d, s⟩, hc⟩
    rw [hgrids] at hk hc
    have hk0 : k = 0 := by
      have : k < 1 := hk
      omega
    subst hk0
    have hps : exGeom2.periodicShift ((BoxArray.getBox exRegDef2.grids 0).grow 1) (exS2.box 0)
        = [] := by decide
    rw [hps] at hc
    rcases hc with hc | ⟨iv, hiv, -⟩
    · revert hc
      fin_cases d <;> cases s <;> decide
    · cases hiv

/-- C11, counterexample: in the scenario (domain `[(0,0)-(15,15)]`, register defined from the
fine box `[(4,4)-(11,11)]` with ratio `(2,2)` and one component, coarse flux 7 and fine flux 4
injected at the x-low face with `mult = 1`), every call returns and the cell-size `Reflux`
with `scale = 1` leaves the coarse cell `(3,7)` as it was: it does not change it by
`-(7 - (4 + 4))`.  `define` coarsens the fine box to `[(2,2)-(5,5)]`, so the cells the x-low
face corrects are `(1,2) .. (1,5)`. -/
theorem reflux_scenario_counterexample :
    ∃ (w1 : World 2 ℚ) (r2 : FluxRegister 2 ℚ) (w3 : World 2 ℚ) (S' : MultiFab 2 ℚ),
      FluxRegister.define (fun _ _ => 0) FluxRegister.empty exFineBoxes2 ![2, 2] 1 1
        = Except.ok exWorld2.reg ∧
      exWorld2.reg.grids = [⟨![2, 2], ![5, 5], ![false, false]⟩] ∧
      exWorld2.CrseInit 1 0 exCrse2 exSub2 0 0 0 1 1 = some w1 ∧
      FineAdd w1.reg exFine2 0 0 0 0 1 1 = Except.ok r2 ∧
      CrseInitFinish 1 ⟨r2, w1.ci⟩ = some w3 ∧
      RefluxCV 0 w3.reg exS2 1 0 0 1 exGeom2 = some (S', none) ∧
      (S'.fabs 0).data ![3, 7] 0 = (exS2.fabs 0).data ![3, 7] 0 ∧
      (S'.fabs 0).data ![3, 7] 0 ≠ (exS2.fabs 0).data ![3, 7] 0 - (7 - (4 + 4)) := by
  obtain ⟨w1, r2, w3, S', e1, e2, e3, e4, -, -, h37⟩ := scenario_reflux
  refine ⟨w1, r2, w3, S', exRegDef2_defined, by decide, e1, e2, e3, e4, h37, ?_⟩
  rw [h37]
  norm_num

/-- C11 (amended): in the concrete scenario (2D domain `[(0,0)-(15,15)]`, register defined
from the fine box `[(4,4)-(11,11)]` with ratio `(2,2)`, one component, coarse flux 7 injected
by `CrseInit` and fine flux 4 injected by `FineAdd` at the x-low face with `mult = 1`), every
call returns, the register entry at the face `(2,3)` is `7 + (4 + 4)`, and `Reflux` with
`scale = 1` and unit cell volume changes the coarse cell `(1,3)`, the exterior cell of the
x-low face of the coarsened fine box `[(2,2)-(5,5)]`, by exactly `-(coarse + fineSum)`,
`fineSum = 4 + 4` being the sum of the fine flux over the 2 covering fine faces; the coarse
cell `(3,7)` is not changed. -/
theorem reflux_scenario :
    ∃ (w1 : World 2 ℚ) (r2 : FluxRegister 2 ℚ) (w3 : World 2 ℚ) (S' : MultiFab 2 ℚ),
      FluxRegister.define (fun _ _ => 0) FluxRegister.empty exFineBoxes2 ![2, 2] 1 1
        = Except.ok exWorld2.reg ∧
      exWorld2.CrseInit 1 0 exCrse2 exSub2 0 0 0 1 1 = some w1 ∧
      FineAdd w1.reg exFine2 0 0 0 0 1 1 = Except.ok r2 ∧
      CrseInitFinish 1 ⟨r2, w1.ci⟩ = some w3 ∧
      RefluxCV 0 w3.reg exS2 1 0 0 1 exGeom2 = some (S', none) ∧
      ((w3.reg.bndry ⟨0, Side.low⟩).fabs 0).data ![2, 3] 0 = 7 + (4 + 4) ∧
      (S'.fabs 0).data ![1, 3] 0 = (exS2.fabs 0).data ![1, 3] 0 - (7 + (4 + 4)) ∧
      (S'.fabs 0).data ![3, 7] 0 = (exS2.fabs 0).data ![3, 7] 0 := by
  obtain ⟨w1, r2, w3, S', e1, e2, e3, e4, hv, h13, h37⟩ := scenario_reflux
  exact ⟨w1, r2, w3, S', exRegDef2_defined, e1, e2, e3, e4, hv, h13, h37⟩

end FluxReg

